import Mathlib

/-!
# Update service: path validation, updater validation, the software-update pipeline,
the installation of the service and the trigger

A shallow embedding of `updatecommon.cpp` (`IsValidFullPath`,
`PathContainsInvalidLinks`), of `workmonitor.cpp` / `workmonitor.h`
(`UpdaterIsValid`, `ProcessSoftwareUpdateCommand`, `ExecuteServiceCommand`,
`MakeCommandLine`, ...), of `serviceinstall.cpp` (`SvcInstall`, `StopService`,
`SvcUninstall`, `SetUserAccessServiceDACL`) and of `StartUpdate.cpp` (`wmain`),
followed by the kinds of events, example machines, lemmas on the shape of the runs, and
the theorems that settle the claims C1 to C30.

Conventions.

* A wide or narrow C string is the list of its characters, terminator excluded.
* Every operating-system call is a field of `World`.  A call whose answer depends on
  the state of the machine takes the history of the run so far (the list of events
  already performed) as its first argument, so the answer may change from one call
  to the next: the file system may be modified between two calls, by the service
  itself or by anybody else.  Pure string helpers take no history.
* Every function that calls the operating system receives the history `h` of the
  events so far and returns its result together with the events it adds, in order;
  a call made after events `e` is answered at history `h ++ e`.  `LOG` / `LOG_WARN`
  calls are not recorded.
* A read past the end of a heap buffer has no defined result; the functions that
  can perform one return `Option`, with `none` for that fault.
* For `serviceinstall.cpp` the files of the machine are a map from paths to contents;
  `SvcInstall` receives the files at the moment of the call, and the files afterwards
  are obtained by applying the successful `CopyFileW`, `MoveFileExW` and `DeleteFileW`
  events of the run (`filesAfter`).
* `SvcUninstall` and `wmain` have their own events and machines (`UninstallWorld`,
  `TriggerWorld`).  The polling loop of `SvcUninstall` takes a number of iterations;
  the embedding answers `none` when the loop is still running after them or has
  called `Sleep(INFINITE)`, which does not return.  DWORD arithmetic is taken modulo
  `2^32`.
* The buffer of `MakeCommandLine` is the list of its characters; a store is a pair of
  an index and a character (`writeAll`).
-/

namespace UpdateService

/-- Characters of a C string, terminator excluded. -/
abbrev WStr := List Char

/-! ## Constants of the Windows headers -/

def NUL : Char := Char.ofNat 0
def BACKSLASH : Char := Char.ofNat 92
def DQUOTE : Char := Char.ofNat 34
def SPACE : Char := Char.ofNat 32
def TAB : Char := Char.ofNat 9

def MAX_PATH : Nat := 260
/-- updatecommon.h: `#define MAXPATHLEN MAX_PATH`. -/
def MAXPATHLEN : Nat := MAX_PATH
def FILE_ATTRIBUTE_REPARSE_POINT : Nat := 0x400
def INVALID_FILE_ATTRIBUTES : Nat := 0xFFFFFFFF
def ERROR_SUCCESS : Nat := 0
def ERROR_FILE_NOT_FOUND : Nat := 2
def ERROR_PATH_NOT_FOUND : Nat := 3
def IO_REPARSE_TAG_MOUNT_POINT : Nat := 0xA0000003
def IO_REPARSE_TAG_SYMLINK : Nat := 0xA000000C
def GENERIC_READ : Nat := 0x80000000
def FILE_SHARE_READ : Nat := 1
def FILE_SHARE_WRITE : Nat := 2
def FILE_SHARE_DELETE : Nat := 4
def OPEN_EXISTING : Nat := 3
def FILE_FLAG_BACKUP_SEMANTICS : Nat := 0x02000000
def FILE_FLAG_OPEN_REPARSE_POINT : Nat := 0x00200000
def LOAD_LIBRARY_AS_DATAFILE : Nat := 2
def WAIT_TIMEOUT : Nat := 258

/-- servicebase.h: `#define IDS_UPDATER_IDENTITY 2836`. -/
def IDS_UPDATER_IDENTITY : Nat := 2836

/-- servicebase.h: `#define UPDATER_IDENTITY_STRING`. -/
def UPDATER_IDENTITY_STRING : List Char :=
  "aveo-installer-c206aa25-b890-4b6a-85c9-a915a6e1a561".toList

/-- servicebase.h: `#define COMPARE_BLOCKSIZE 32768`. -/
def COMPARE_BLOCKSIZE : Nat := 32768

/-- workmonitor.cpp: `static const int TIME_TO_WAIT_ON_UPDATER = 15 * 60 * 1000;`. -/
def TIME_TO_WAIT_ON_UPDATER : Nat := 15 * 60 * 1000

/-- The literal `L"\\??\\"` of `PathContainsInvalidLinks`. -/
def NT_PREFIX : List Char := [BACKSLASH, Char.ofNat 63, Char.ofNat 63, BACKSLASH]

/-- Value of `ARRAYSIZE(L"\\??\\")`: the four characters and the terminator. -/
def ARRAYSIZE_NT_PREFIX : Nat := NT_PREFIX.length + 1

/-- The command token `L"software-update"`. -/
def SOFTWARE_UPDATE : WStr := "software-update".toList

/-! ## Results of operating-system calls -/

/-- Result of `CreateFileW`: a valid handle, or `INVALID_HANDLE_VALUE` together with
the value `GetLastError()` reports afterwards. -/
inductive HandleResult
  | valid
  | invalid (lastError : Nat)
  deriving DecidableEq

/-- One arm of the union in `REPARSE_DATA_BUFFER`: the fields the code reads. -/
structure ReparseNames where
  SubstituteNameOffset : Nat
  SubstituteNameLength : Nat
  PathBuffer : List Char

/-- The `REPARSE_DATA_BUFFER` filled by `FSCTL_GET_REPARSE_POINT`, seen through the
two union arms the code reads.  `PathBuffer` holds the wide characters from the start
of the arm's `PathBuffer` field; the rest of the zero-filled 16 KiB buffer reads as
terminators. -/
structure REPARSE_DATA_BUFFER where
  ReparseTag : Nat
  MountPointReparseBuffer : ReparseNames
  SymbolicLinkReparseBuffer : ReparseNames

/-- Events of a run: one per operating-system call, with the arguments that matter and
the answer received, plus markers for the return of the repository's own functions. -/
inductive Event
  | getUUIDString
  | getFullPathNameW (path : WStr) (ret : Nat)
  | getFileAttributesW (path : WStr) (attrs : Nat)
  | createFileW (path : WStr) (access share flags : Nat) (res : HandleResult)
  | deviceIoControl (path : WStr) (ok : Bool)
  | retIsValidFullPath (path : WStr) (res : Bool)
  | isLocalFile (path : WStr) (ok isLocal : Bool)
  | loadLibraryEx (path : WStr) (flags : Nat) (ok : Bool)
  | findResourceA (name type : Nat) (ok : Bool)
  | loadResource (ok : Bool)
  | sizeofResource (size : Nat)
  | lockResource (ok : Bool)
  | doesBinaryMatchAllowedCertificates (installDir updater : WStr) (res : Bool)
  | retUpdaterIsValid (updater installDir : WStr) (res : Bool)
  | doesFallbackKeyExist (res : Bool)
  | regOpenKeyExW (key : WStr) (status : Nat)
  | regCloseKey
  | getModuleFileNameW (ok : Bool)
  | createDirectoryW (path : WStr)
  | deleteFileW (path : WStr) (ok : Bool)
  | copyFileW (src dst : WStr) (ok : Bool)
  | verifySameFiles (file1 file2 : WStr) (ok sameContent : Bool)
  | callProcessSoftwareUpdateCommand (argv : List WStr)
  | retProcessSoftwareUpdateCommand (res : Bool)
  | createProcessW (application cmdLine : WStr) (started : Bool)
  | waitForSingleObject (timeoutMs : Nat) (res : Nat)
  | terminateProcess (exitCode : Nat)
  | getExitCodeProcess (code : Option Nat)
  | startServiceUpdate
  deriving DecidableEq

abbrev Trace := List Event

/-- The operating system and the helpers of the repository whose bodies are not among
the sources.  Fields taking a `Trace` answer from the state of the machine after the
events of that history. -/
structure World where
  /-- Call `PathCanonicalizeW(dst, src)`: `none` when it returns FALSE. -/
  PathCanonicalizeW : WStr → Option WStr
  /-- Call `PathStripToRootW(buf)`: the return value and the buffer afterwards. -/
  PathStripToRootW : WStr → Bool × WStr
  PathIsUNCServerShareW : WStr → Bool
  /-- Call `PathAppendW(buf, more)`: the buffer afterwards. -/
  PathAppendW : WStr → WStr → WStr
  /-- Call `lstrcmpi(a, b)`. -/
  lstrcmpi : WStr → WStr → Int
  /-- Call `PathRemoveFileSpecW(buf)`: the return value and the buffer afterwards. -/
  PathRemoveFileSpecW : WStr → Bool × WStr
  /-- Call `PathAppendSafe(base, extra)` of updatehelper: `none` when it returns FALSE. -/
  PathAppendSafe : WStr → WStr → Option WStr
  /-- Call `PathGetSiblingFilePath(dst, sibling, newName)`: `none` when it returns FALSE. -/
  PathGetSiblingFilePath : WStr → WStr → Option WStr
  /-- Call `CalculateRegistryPathFromFilePath(dir, key)` of pathhash: `none` when it
  returns FALSE. -/
  CalculateRegistryPathFromFilePath : WStr → Option WStr
  /-- Call `GetFullPathNameW(path, n, buf, nullptr)`: the return value and the buffer
  afterwards. -/
  GetFullPathNameW : Trace → WStr → Nat → Nat × WStr
  GetFileAttributesW : Trace → WStr → Nat
  /-- Call `CreateFileW(path, access, share, nullptr, OPEN_EXISTING, flags, nullptr)`. -/
  CreateFileW : Trace → WStr → Nat → Nat → Nat → HandleResult
  /-- Call `DeviceIoControl(h, FSCTL_GET_REPARSE_POINT, ...)` on the handle opened for
  `path`: `none` when it returns FALSE. -/
  DeviceIoControl : Trace → WStr → Option REPARSE_DATA_BUFFER
  /-- Call `IsLocalFile(file, isLocal)`: the return value and `isLocal`. -/
  IsLocalFile : Trace → WStr → Bool × Bool
  LoadLibraryEx : Trace → WStr → Nat → Bool
  FindResourceA : Trace → WStr → Nat → Nat → Bool
  LoadResource : Trace → WStr → Bool
  SizeofResource : Trace → WStr → Nat
  /-- Call `LockResource`: `none` for a null pointer, otherwise the bytes at the returned
  address, by offset. -/
  LockResource : Trace → WStr → Option (Nat → Char)
  DoesBinaryMatchAllowedCertificates : Trace → WStr → WStr → Bool
  DoesFallbackKeyExist : Trace → Bool
  /-- Call `RegOpenKeyExW(HKEY_LOCAL_MACHINE, key, ...)`: the status returned. -/
  RegOpenKeyExW : Trace → WStr → Nat
  /-- Call `GetModuleFileNameW(nullptr, buf, MAX_PATH)`: `none` when it returns 0. -/
  GetModuleFileNameW : Trace → Option WStr
  DeleteFileW : Trace → WStr → Bool
  CopyFileW : Trace → WStr → WStr → Bool
  /-- Content of the file at a path, `none` when it cannot be opened and read. -/
  FileContent : Trace → WStr → Option (List Nat)
  CreateProcessW : Trace → WStr → WStr → Bool
  WaitForSingleObject : Trace → Nat → Nat
  /-- Call `GetExitCodeProcess`: `none` when it returns FALSE. -/
  GetExitCodeProcess : Trace → Option Nat

/-! ## updatecommon.cpp -/

/-- Function `_wcsicmp` of the C runtime in the default "C" locale: the strings are compared
character by character after mapping `A`..`Z` to lower case. -/
def _wcsicmp : WStr → WStr → Int
  | [], [] => 0
  | [], b :: _ => 0 - (b.toLower.toNat : Int)
  | a :: _, [] => (a.toLower.toNat : Int)
  | a :: as, b :: bs =>
    if a.toLower = b.toLower then _wcsicmp as bs
    else (a.toLower.toNat : Int) - (b.toLower.toNat : Int)

/-- Function `wcsncmp(a, b, n)`; reading at the end of a list reads the terminator. -/
def wcsncmp : List Char → List Char → Nat → Int
  | _, _, 0 => 0
  | a, b, n + 1 =>
    let x := a.headD NUL
    let y := b.headD NUL
    if x ≠ y then (x.toNat : Int) - (y.toNat : Int)
    else if x = NUL then 0
    else wcsncmp a.tail b.tail n

/-- Tokens that successive `wcstok_s(..., L"\\", ...)` calls cut out of a string:
the maximal runs of characters other than the backslash.  `cur` is the token being
read, in reverse. -/
def wcstok_s_all : List Char → List Char → List WStr
  | [], cur => if cur = [] then [] else [cur.reverse]
  | c :: cs, cur =>
    if c = BACKSLASH then
      (if cur = [] then wcstok_s_all cs [] else cur.reverse :: wcstok_s_all cs [])
    else wcstok_s_all cs (c :: cur)

/-- What one pass through the body of the `while (nextToken)` loop of
`PathContainsInvalidLinks` does before it reaches `nextToken = wcstok_s(...)`: it
leaves the function with a value, or goes on to the next token. -/
inductive LinkStep
  | returns (b : Bool)
  | next
  deriving DecidableEq

/-- Body of the `while (nextToken)` loop of `PathContainsInvalidLinks` for one
`partialPath`, at history `h`: the outcome and the events added. -/
def checkPartialPath (w : World) (path : WStr) (h : Trace) : LinkStep × Trace :=
  let attrs := w.GetFileAttributesW h path
  let e1 := [Event.getFileAttributesW path attrs]
  if attrs &&& FILE_ATTRIBUTE_REPARSE_POINT ≠ 0 then
    let share := FILE_SHARE_READ ||| FILE_SHARE_WRITE ||| FILE_SHARE_DELETE
    let flags := FILE_FLAG_BACKUP_SEMANTICS ||| FILE_FLAG_OPEN_REPARSE_POINT
    let handle := w.CreateFileW (h ++ e1) path 0 share flags
    let e2 := e1 ++ [Event.createFileW path 0 share flags handle]
    match handle with
    | HandleResult.invalid lastError =>
      if lastError = ERROR_FILE_NOT_FOUND then
        -- The path can't be an invalid link if it doesn't exist.
        (LinkStep.returns false, e2)
      else (LinkStep.returns true, e2)
    | HandleResult.valid =>
      match w.DeviceIoControl (h ++ e2) path with
      | none => (LinkStep.returns true, e2 ++ [Event.deviceIoControl path false])
      | some buffer =>
        let e3 := e2 ++ [Event.deviceIoControl path true]
        if buffer.ReparseTag = IO_REPARSE_TAG_MOUNT_POINT then
          let reparseTarget := buffer.MountPointReparseBuffer.PathBuffer.drop
            (buffer.MountPointReparseBuffer.SubstituteNameOffset / 2)
          if buffer.MountPointReparseBuffer.SubstituteNameLength < ARRAYSIZE_NT_PREFIX then
            (LinkStep.returns false, e3)
          else if wcsncmp reparseTarget NT_PREFIX (ARRAYSIZE_NT_PREFIX - 1) ≠ 0 then
            (LinkStep.returns true, e3)
          else (LinkStep.next, e3)
        else if buffer.ReparseTag = IO_REPARSE_TAG_SYMLINK then
          let reparseTarget := buffer.SymbolicLinkReparseBuffer.PathBuffer.drop
            (buffer.SymbolicLinkReparseBuffer.SubstituteNameOffset / 2)
          if buffer.SymbolicLinkReparseBuffer.SubstituteNameLength < ARRAYSIZE_NT_PREFIX then
            (LinkStep.returns false, e3)
          else if wcsncmp reparseTarget NT_PREFIX (ARRAYSIZE_NT_PREFIX - 1) ≠ 0 then
            (LinkStep.returns true, e3)
          else (LinkStep.next, e3)
        else (LinkStep.returns true, e3)
  else (LinkStep.next, e1)

/-- The `while (nextToken)` loop of `PathContainsInvalidLinks`, entered with a
non-null token: `path` is `partialPath`, `rest` the tokens `wcstok_s` has still to
return.  After the last token `wcstok_s` returns null and the function returns
false.  In the source `partialPath` and the tokens live in the same buffer
`pathCopy`: `PathAppendW` writes the longer partial path over the part of the buffer
the tokenizer has already read. -/
def linkLoop (w : World) : List WStr → WStr → Trace → Bool × Trace
  | [], path, h =>
    match checkPartialPath w path h with
    | (LinkStep.returns b, e) => (b, e)
    | (LinkStep.next, e) => (false, e)
  | nextToken :: rest, path, h =>
    match checkPartialPath w path h with
    | (LinkStep.returns b, e) => (b, e)
    | (LinkStep.next, e) =>
      let loop := linkLoop w rest (w.PathAppendW path nextToken) (h ++ e)
      (loop.1, e ++ loop.2)

/-- Embedding of `PathContainsInvalidLinks(fullPath)`: true if the path contains invalid links or
on errors, false if the check passes. -/
def PathContainsInvalidLinks (w : World) (fullPath : WStr) (h : Trace) : Bool × Trace :=
  let pathCopy := fullPath.take (MAXPATHLEN - 1)
  match wcstok_s_all pathCopy [] with
  | [] => (false, [])
  | nextToken :: rest => linkLoop w rest nextToken h

/-- Embedding of `IsValidFullPath(origFullPath)`, the Windows branch. -/
def IsValidFullPath (w : World) (origFullPath : WStr) (h : Trace) : Bool × Trace :=
  if origFullPath.length > MAXPATHLEN - 1 then (false, [])
  else
    let full := w.GetFullPathNameW h origFullPath MAXPATHLEN
    let e1 := [Event.getFullPathNameW origFullPath full.1]
    if full.1 = 0 then (false, e1)
    else
      match w.PathCanonicalizeW full.2 with
      | none => (false, e1)
      | some canonicalPath =>
        if _wcsicmp origFullPath canonicalPath ≠ 0 then (false, e1)
        else
          let root := w.PathStripToRootW (origFullPath.take (MAXPATHLEN - 1))
          if root.1 = false then (false, e1)
          else if origFullPath.headD NUL = BACKSLASH ∧
              w.PathIsUNCServerShareW root.2 = false then
            (false, e1)
          else
            let links := PathContainsInvalidLinks w canonicalPath (h ++ e1)
            if links.1 = true then (false, e1 ++ links.2) else (true, e1 ++ links.2)

/-! ## workmonitor.h -/

/-- Test `wcspbrk(s, kCommandLineDelimiter) != nullptr` with
`kCommandLineDelimiter = L" \t"`. -/
def hasCommandLineDelimiter (s : WStr) : Bool := s.any (fun c => c = SPACE ∨ c = TAB)

/-- The `while (*s)` loop of `ArgStrLen`: the number of characters added for the
escapes; `backslashes` counts the backslashes read since the last other character. -/
def ArgStrLen.loop : List Char → Nat → Nat
  | [], _ => 0
  | c :: cs, backslashes =>
    if c = BACKSLASH then ArgStrLen.loop cs (backslashes + 1)
    else if c = DQUOTE then (backslashes + 1) + ArgStrLen.loop cs 0
    else ArgStrLen.loop cs 0

/-- Embedding of `ArgStrLen(s)`. -/
def ArgStrLen (s : WStr) : Nat :=
  let i := s.length
  let i := if hasCommandLineDelimiter s then i + 2 else i
  if s.contains DQUOTE then i + ArgStrLen.loop s 0 else i

/-- The `while (*s)` loop of `ArgToString`: the characters written. -/
def ArgToString.loop : List Char → Nat → List Char
  | [], _ => []
  | c :: cs, backslashes =>
    if c = BACKSLASH then c :: ArgToString.loop cs (backslashes + 1)
    else if c = DQUOTE then
      List.replicate (backslashes + 1) BACKSLASH ++ c :: ArgToString.loop cs 0
    else c :: ArgToString.loop cs 0

/-- Embedding of `ArgToString(d, s)`: the characters written from `d` on. -/
def ArgToString (s : WStr) : List Char :=
  let body := if s.contains DQUOTE then ArgToString.loop s 0 else s
  if hasCommandLineDelimiter s then DQUOTE :: body ++ [DQUOTE] else body

/-- The first fill loop of `MakeCommandLine` with `aArgcExtra = 0`: every argument is
followed by a space except the last one. -/
def MakeCommandLine.fill : List WStr → List Char
  | [] => []
  | [a] => ArgToString a
  | a :: b :: rest => ArgToString a ++ SPACE :: MakeCommandLine.fill (b :: rest)

/-- The length `MakeCommandLine(argc, argv)` allocates. -/
def MakeCommandLine.len (argv : List WStr) : Nat :=
  let len := (argv.map (fun a => ArgStrLen a + 1)).sum
  if len = 0 then 1 else len

/-- Embedding of `MakeCommandLine(argc, argv)`: the string written into the buffer. -/
def MakeCommandLine (argv : List WStr) : WStr := MakeCommandLine.fill argv

/-! ## workmonitor.cpp -/

/-- Embedding of `GetInstallationDir(argcTmp, argvTmp, aResultDir)`: `none` when it returns FALSE.
`wcsrchr` finds the last backslash, and the character after it is the terminator
exactly when the copied string ends with a backslash. -/
def GetInstallationDir (argvTmp : List WStr) : Option WStr :=
  if argvTmp.length < 2 then none
  else
    let aResultDir := (argvTmp.getD 1 []).take MAX_PATH
    if aResultDir.getLast? = some BACKSLASH then some aResultDir.dropLast
    else some aResultDir

/-- Embedding of `StartUpdateProcess(argc, argv, installDir, processStarted)`: the value
returned and the events added. -/
def StartUpdateProcess (w : World) (argv : List WStr) (h : Trace) : Bool × Trace :=
  let switches : WStr := "/S /D=".toList
  let args := MakeCommandLine (argv.drop 1)
  let cmdLine := argv.headD [] ++ SPACE :: (switches ++ args)
  let processStarted := w.CreateProcessW h (argv.headD []) cmdLine
  let e1 := [Event.createProcessW (argv.headD []) cmdLine processStarted]
  if processStarted = true then
    let waitRes := w.WaitForSingleObject (h ++ e1) TIME_TO_WAIT_ON_UPDATER
    let e2 := e1 ++ [Event.waitForSingleObject TIME_TO_WAIT_ON_UPDATER waitRes]
    if waitRes = WAIT_TIMEOUT then
      (false, e2 ++ [Event.terminateProcess 1])
    else
      match w.GetExitCodeProcess (h ++ e2) with
      | some returnCode =>
        (decide (returnCode = 0), e2 ++ [Event.getExitCodeProcess (some returnCode)])
      | none => (false, e2 ++ [Event.getExitCodeProcess none])
  else (false, e1)

/-- Function `strcmp(buf, lit)` for a heap buffer of exactly `buf.length` bytes and a string
literal `lit`, whose terminator follows its characters.  `none` when the comparison
reads `buf` past its last byte. -/
def strcmp : List Char → List Char → Option Int
  | [], _ => none
  | b :: _, [] => some (b.toNat : Int)
  | b :: bs, l :: ls =>
    if b ≠ l then some ((b.toNat : Int) - (l.toNat : Int))
    else if b = NUL then some 0
    else strcmp bs ls

/-- The buffer `charData` of `UpdaterIsValid` when `strcmp` is reached:
`make_unique<char[]>(size)` gives `size` zero bytes, `charData[size - 1] = 0` is
written, then the loop `while (i < size)` copies byte `i` of the resource for every
`i` below `size`. -/
def identityCopy (size : Nat) (hResData : Nat → Char) : List Char :=
  let charData := (List.replicate size NUL).set (size - 1) NUL
  (List.range size).foldl (fun buf i => buf.set i (hResData i)) charData

/-- Embedding of `UpdaterIsValid(updater, installDir)` at history `h`: the value returned and the
events added.  The value is `none` when `strcmp` reads past the end of `charData`. -/
def UpdaterIsValid (w : World) (updater installDir : WStr) (h : Trace) :
    Option Bool × Trace :=
  let loc := w.IsLocalFile h updater
  let e1 := [Event.isLocalFile updater loc.1 loc.2]
  if loc.1 = false ∨ loc.2 = false then (some false, e1)
  else
    let noWriteLock := w.CreateFileW (h ++ e1) updater GENERIC_READ FILE_SHARE_READ 0
    let e2 := e1 ++ [Event.createFileW updater GENERIC_READ FILE_SHARE_READ 0 noWriteLock]
    if noWriteLock ≠ HandleResult.valid then (some false, e2)
    else
      let updaterModule := w.LoadLibraryEx (h ++ e2) updater LOAD_LIBRARY_AS_DATAFILE
      let e3 := e2 ++ [Event.loadLibraryEx updater LOAD_LIBRARY_AS_DATAFILE updaterModule]
      if updaterModule = false then (some false, e3)
      else
        let hRes := w.FindResourceA (h ++ e3) updater IDS_UPDATER_IDENTITY IDS_UPDATER_IDENTITY
        let e4 := e3 ++ [Event.findResourceA IDS_UPDATER_IDENTITY IDS_UPDATER_IDENTITY hRes]
        if hRes = false then (some false, e4)
        else
          let hResInfo := w.LoadResource (h ++ e4) updater
          let e5 := e4 ++ [Event.loadResource hResInfo]
          if hResInfo = false then (some false, e5)
          else
            let size := w.SizeofResource (h ++ e5) updater
            let e6 := e5 ++ [Event.sizeofResource size]
            if size = 0 then (some false, e6)
            else
              match w.LockResource (h ++ e6) updater with
              | none => (some false, e6 ++ [Event.lockResource false])
              | some hResData =>
                let e7 := e6 ++ [Event.lockResource true]
                match strcmp (identityCopy size hResData) UPDATER_IDENTITY_STRING with
                | none => (none, e7)
                | some c =>
                  if c ≠ 0 then (some false, e7)
                  else
                    let res := w.DoesBinaryMatchAllowedCertificates (h ++ e7) installDir updater
                    (some res,
                      e7 ++ [Event.doesBinaryMatchAllowedCertificates installDir updater res])

/-- Embedding of `ProcessSoftwareUpdateCommand(argc, argv)` with `argc = argv.length`. -/
def ProcessSoftwareUpdateCommand (w : World) (argv : List WStr) (h : Trace) :
    Option Bool × Trace :=
  if argv.length < 2 then (some false, [])
  else
    match GetInstallationDir argv with
    | none => (some false, [])
    | some installDir =>
      let valid := UpdaterIsValid w (argv.headD []) installDir h
      match valid.1 with
      | none => (none, valid.2)
      | some true =>
        let e1 := valid.2 ++ [Event.retUpdaterIsValid (argv.headD []) installDir true]
        let run := StartUpdateProcess w argv (h ++ e1)
        if run.1 = true then (some true, e1 ++ run.2 ++ [Event.startServiceUpdate])
        else (some false, e1 ++ run.2)
      | some false =>
        (some false, valid.2 ++ [Event.retUpdaterIsValid (argv.headD []) installDir false])

/-- Embedding of `GetSecureUpdaterPath(serviceUpdaterPath)`: `none` when it returns FALSE. -/
def GetSecureUpdaterPath (w : World) (h : Trace) : Option WStr × Trace :=
  match w.GetModuleFileNameW h with
  | none => (none, [Event.getModuleFileNameW false])
  | some modulePath =>
    let e1 := [Event.getModuleFileNameW true]
    let dir := w.PathRemoveFileSpecW modulePath
    if dir.1 = false then (none, e1)
    else
      match w.PathAppendSafe dir.2 "update".toList with
      | none => (none, e1)
      | some updateDir =>
        let e2 := e1 ++ [Event.createDirectoryW updateDir]
        match w.PathAppendSafe updateDir "updater.exe".toList with
        | none => (none, e2)
        | some serviceUpdaterPath => (some serviceUpdaterPath, e2)

/-- Embedding of `DeleteSecureUpdater(serviceUpdaterPath)`. -/
def DeleteSecureUpdater (w : World) (serviceUpdaterPath : WStr) (h : Trace) :
    Bool × Trace :=
  if serviceUpdaterPath.headD NUL ≠ NUL then
    let result := w.DeleteFileW h serviceUpdaterPath
    let e1 := [Event.deleteFileW serviceUpdaterPath result]
    match w.PathGetSiblingFilePath serviceUpdaterPath "updater.ini".toList with
    | some updaterINIPath =>
      let result := w.DeleteFileW (h ++ e1) updaterINIPath
      (result, e1 ++ [Event.deleteFileW updaterINIPath result])
    | none => (result, e1)
  else (false, [])

/-- The blocks of `COMPARE_BLOCKSIZE` bytes of two files are compared one after the
other, `blocks` of them. -/
def VerifySameFiles.sameBlocks : Nat → List Nat → List Nat → Bool
  | 0, _, _ => true
  | blocks + 1, c1, c2 =>
    if c1.take COMPARE_BLOCKSIZE = c2.take COMPARE_BLOCKSIZE then
      VerifySameFiles.sameBlocks blocks (c1.drop COMPARE_BLOCKSIZE) (c2.drop COMPARE_BLOCKSIZE)
    else false

/-- Modelled from the spec: `VerifySameFiles(file1Path, file2Path, sameContent)` is
declared in servicebase.h and its body is not among the sources.  Spec, SecureStaging:
"Re-read both files and compare size then content in bounded chunks; any mismatch is a
hard failure".  The arguments are the contents of the two files, `none` for a file that
cannot be read; the result is the value returned and `sameContent`. -/
def VerifySameFiles (file1 file2 : Option (List Nat)) : Bool × Bool :=
  match file1, file2 with
  | some c1, some c2 =>
    if c1.length ≠ c2.length then (true, false)
    else (true, VerifySameFiles.sameBlocks (c1.length / COMPARE_BLOCKSIZE + 1) c1 c2)
  | _, _ => (false, false)

/-- Part of `ExecuteServiceCommand` from `result = UpdaterIsValid(argv[2], installDir);` to the
end of the `software-update` branch, at history `h`. -/
def ExecuteServiceCommand.stageAndRun (w : World) (argv : List WStr) (installDir : WStr)
    (h : Trace) : Option Bool × Trace :=
  let valid := UpdaterIsValid w (argv.getD 2 []) installDir h
  match valid.1 with
  | none => (none, valid.2)
  | some false =>
    (some false, valid.2 ++ [Event.retUpdaterIsValid (argv.getD 2 []) installDir false])
  | some true =>
    let e1 := valid.2 ++ [Event.retUpdaterIsValid (argv.getD 2 []) installDir true]
    let secure := GetSecureUpdaterPath w (h ++ e1)
    let e2 := e1 ++ secure.2
    match secure.1 with
    | none => (some false, e2)
    | some secureUpdaterPath =>
      let del := DeleteSecureUpdater w secureUpdaterPath (h ++ e2)
      let e3 := e2 ++ del.2
      let copied := w.CopyFileW (h ++ e3) (argv.getD 2 []) secureUpdaterPath
      let e4 := e3 ++ [Event.copyFileW (argv.getD 2 []) secureUpdaterPath copied]
      if copied = false then (some false, e4)
      else
        let same := VerifySameFiles (w.FileContent (h ++ e4) (argv.getD 2 []))
          (w.FileContent (h ++ e4) secureUpdaterPath)
        let e5 := e4 ++
          [Event.verifySameFiles (argv.getD 2 []) secureUpdaterPath same.1 same.2]
        if same.1 = false then (some false, e5)
        else if same.2 = false then (some false, e5)
        else
          let argv2 := secureUpdaterPath :: argv.drop 3
          let e6 := e5 ++ [Event.callProcessSoftwareUpdateCommand argv2]
          let run := ProcessSoftwareUpdateCommand w argv2 (h ++ e6)
          match run.1 with
          | none => (none, e6 ++ run.2)
          | some result =>
            let e7 := e6 ++ run.2 ++ [Event.retProcessSoftwareUpdateCommand result]
            (some result, e7 ++ (DeleteSecureUpdater w secureUpdaterPath (h ++ e7)).2)

/-- Embedding of `ExecuteServiceCommand(argc, argv)` with `argc = argv.length`, at history `h`: the
value returned and the events added.  The value is `none` when a call of
`UpdaterIsValid` reads past the end of its buffer. -/
def ExecuteServiceCommand (w : World) (argv : List WStr) (h : Trace) :
    Option Bool × Trace :=
  if argv.length < 2 then (some false, [])
  else
    let e0 := [Event.getUUIDString]
    if w.lstrcmpi (argv.getD 1 []) SOFTWARE_UPDATE = 0 then
      if argv.length ≤ 3 then (some false, e0)
      else
        let valid := IsValidFullPath w (argv.getD 3 []) (h ++ e0)
        let e1 := e0 ++ valid.2 ++ [Event.retIsValidFullPath (argv.getD 3 []) valid.1]
        if valid.1 = false then (some false, e1)
        else
          match GetInstallationDir (argv.drop 2) with
          | none => (some false, e1)
          | some installDir =>
            let fallback := w.DoesFallbackKeyExist (h ++ e1)
            let e2 := e1 ++ [Event.doesFallbackKeyExist fallback]
            if fallback = false then
              match w.CalculateRegistryPathFromFilePath installDir with
              | some updateServiceKey =>
                let status := w.RegOpenKeyExW (h ++ e2) updateServiceKey
                let e3 := e2 ++ [Event.regOpenKeyExW updateServiceKey status]
                if status ≠ ERROR_SUCCESS then (some false, e3)
                else
                  let run := ExecuteServiceCommand.stageAndRun w argv installDir
                    (h ++ (e3 ++ [Event.regCloseKey]))
                  (run.1, e3 ++ [Event.regCloseKey] ++ run.2)
              | none => (some false, e2)
            else
              let run := ExecuteServiceCommand.stageAndRun w argv installDir (h ++ e2)
              (run.1, e2 ++ run.2)
    else (some false, e0)

/-! ## Path validation: what the walk observes -/

def SLASH : Char := Char.ofNat 47
def DOT : Char := Char.ofNat 46

/-- The path has a component `.` or `..`, the components being the tokens between
backslashes. -/
def hasDotComponent (p : WStr) : Prop :=
  [DOT] ∈ wcstok_s_all p [] ∨ [DOT, DOT] ∈ wcstok_s_all p []

/-- The partial paths `PathContainsInvalidLinks` looks at in its loop, entered with
`path` and the remaining tokens `rest`, when no pass leaves the function early. -/
def partialPaths (w : World) : List WStr → WStr → List WStr
  | [], path => [path]
  | nextToken :: rest, path => path :: partialPaths w rest (w.PathAppendW path nextToken)

/-- The ancestors of `fullPath`, root first: the partial paths of the walk.  For
`C:\a\b` they are `C:`, `C:\a`, `C:\a\b` when `PathAppendW` joins with a backslash.  The
tokenizer skips leading backslashes, so for `\\server\share\a` the walk looks at
`server`, `server\share`, `server\share\a`. -/
def ancestors (w : World) (fullPath : WStr) : List WStr :=
  match wcstok_s_all (fullPath.take (MAXPATHLEN - 1)) [] with
  | [] => []
  | nextToken :: rest => partialPaths w rest nextToken

/-- The substitute name an arm of the reparse buffer declares: `SubstituteNameLength`
bytes from `SubstituteNameOffset`. -/
def ReparseNames.substituteName (n : ReparseNames) : List Char :=
  (n.PathBuffer.drop (n.SubstituteNameOffset / 2)).take (n.SubstituteNameLength / 2)

/-- The share mode and flags with which the walk opens a component. -/
def REPARSE_SHARE : Nat := FILE_SHARE_READ ||| FILE_SHARE_WRITE ||| FILE_SHARE_DELETE
def REPARSE_FLAGS : Nat := FILE_FLAG_BACKUP_SEMANTICS ||| FILE_FLAG_OPEN_REPARSE_POINT

/-- The answer of `CreateFileW` when the walk opens `path` at history `h`. -/
def openedLink (w : World) (path : WStr) (h : Trace) : HandleResult :=
  w.CreateFileW (h ++ [Event.getFileAttributesW path (w.GetFileAttributesW h path)])
    path 0 REPARSE_SHARE REPARSE_FLAGS

/-- The answer of `DeviceIoControl` when the walk reads the reparse data of `path` at
history `h`. -/
def readLink (w : World) (path : WStr) (h : Trace) : Option REPARSE_DATA_BUFFER :=
  w.DeviceIoControl (h ++ [Event.getFileAttributesW path (w.GetFileAttributesW h path),
    Event.createFileW path 0 REPARSE_SHARE REPARSE_FLAGS (openedLink w path h)]) path

/-- The outcome of one pass through the loop body of `PathContainsInvalidLinks` as a
function of the three answers it receives. -/
def linkOutcome (attrs : Nat) (handle : HandleResult) (data : Option REPARSE_DATA_BUFFER) :
    LinkStep :=
  if attrs &&& FILE_ATTRIBUTE_REPARSE_POINT ≠ 0 then
    match handle with
    | HandleResult.invalid lastError =>
      if lastError = ERROR_FILE_NOT_FOUND then LinkStep.returns false else LinkStep.returns true
    | HandleResult.valid =>
      match data with
      | none => LinkStep.returns true
      | some buffer =>
        if buffer.ReparseTag = IO_REPARSE_TAG_MOUNT_POINT then
          if buffer.MountPointReparseBuffer.SubstituteNameLength < ARRAYSIZE_NT_PREFIX then
            LinkStep.returns false
          else if wcsncmp (buffer.MountPointReparseBuffer.PathBuffer.drop
              (buffer.MountPointReparseBuffer.SubstituteNameOffset / 2)) NT_PREFIX
              (ARRAYSIZE_NT_PREFIX - 1) ≠ 0 then LinkStep.returns true
          else LinkStep.next
        else if buffer.ReparseTag = IO_REPARSE_TAG_SYMLINK then
          if buffer.SymbolicLinkReparseBuffer.SubstituteNameLength < ARRAYSIZE_NT_PREFIX then
            LinkStep.returns false
          else if wcsncmp (buffer.SymbolicLinkReparseBuffer.PathBuffer.drop
              (buffer.SymbolicLinkReparseBuffer.SubstituteNameOffset / 2)) NT_PREFIX
              (ARRAYSIZE_NT_PREFIX - 1) ≠ 0 then LinkStep.returns true
          else LinkStep.next
        else LinkStep.returns true
  else LinkStep.next

/-! ## Kinds of events -/

/-- What an event of a run does. -/
inductive Kind
  /-- Call `GetUUIDString`. -/
  | uuid
  /-- A query about a path made by `IsValidFullPath`; nothing is modified. -/
  | pathProbe
  /-- Return of `IsValidFullPath`. -/
  | validated
  /-- Registry lookups: the fallback key and the registration key. -/
  | registry
  /-- A check of `UpdaterIsValid` on the candidate updater. -/
  | trustCheck
  /-- Return of `UpdaterIsValid`. -/
  | trusted
  /-- Call `GetSecureUpdaterPath` and `DeleteSecureUpdater`: module path, directory creation,
  file deletion. -/
  | stagingPrep
  /-- Call `CopyFileW` to the secure path. -/
  | copy
  /-- Call `VerifySameFiles`. -/
  | verify
  /-- Call of `ProcessSoftwareUpdateCommand`. -/
  | call
  /-- Return of `ProcessSoftwareUpdateCommand`. -/
  | ret
  /-- Call `CreateProcessW`. -/
  | spawn
  /-- Waiting for the child, terminating it, reading its exit code. -/
  | childWait
  /-- Call `StartServiceUpdate`. -/
  | selfUpdate
  deriving DecidableEq

/-- The kind of an event.  `CreateFileW` is a path probe when it asks for no access
(the open of `PathContainsInvalidLinks`) and a trust check otherwise (the open of
`UpdaterIsValid`). -/
def Event.kind : Event → Kind
  | Event.getUUIDString => Kind.uuid
  | Event.getFullPathNameW _ _ => Kind.pathProbe
  | Event.getFileAttributesW _ _ => Kind.pathProbe
  | Event.createFileW _ access _ _ _ => if access = 0 then Kind.pathProbe else Kind.trustCheck
  | Event.deviceIoControl _ _ => Kind.pathProbe
  | Event.retIsValidFullPath _ _ => Kind.validated
  | Event.isLocalFile _ _ _ => Kind.trustCheck
  | Event.loadLibraryEx _ _ _ => Kind.trustCheck
  | Event.findResourceA _ _ _ => Kind.trustCheck
  | Event.loadResource _ => Kind.trustCheck
  | Event.sizeofResource _ => Kind.trustCheck
  | Event.lockResource _ => Kind.trustCheck
  | Event.doesBinaryMatchAllowedCertificates _ _ _ => Kind.trustCheck
  | Event.retUpdaterIsValid _ _ _ => Kind.trusted
  | Event.doesFallbackKeyExist _ => Kind.registry
  | Event.regOpenKeyExW _ _ => Kind.registry
  | Event.regCloseKey => Kind.registry
  | Event.getModuleFileNameW _ => Kind.stagingPrep
  | Event.createDirectoryW _ => Kind.stagingPrep
  | Event.deleteFileW _ _ => Kind.stagingPrep
  | Event.copyFileW _ _ _ => Kind.copy
  | Event.verifySameFiles _ _ _ _ => Kind.verify
  | Event.callProcessSoftwareUpdateCommand _ => Kind.call
  | Event.retProcessSoftwareUpdateCommand _ => Kind.ret
  | Event.createProcessW _ _ _ => Kind.spawn
  | Event.waitForSingleObject _ _ => Kind.childWait
  | Event.terminateProcess _ => Kind.childWait
  | Event.getExitCodeProcess _ => Kind.childWait
  | Event.startServiceUpdate => Kind.selfUpdate

/-- Every event of `evs` has one of the kinds `ks`. -/
def Kinds (ks : List Kind) (evs : Trace) : Prop := ∀ e ∈ evs, e.kind ∈ ks

/-- The events of `UpdaterIsValid` up to `LockResource` when every check before the
comparison of the identity passes, for a resource of `size` bytes. -/
def UpdaterIsValid.checksPassed (updater : WStr) (size : Nat) : Trace :=
  [Event.isLocalFile updater true true,
    Event.createFileW updater GENERIC_READ FILE_SHARE_READ 0 HandleResult.valid,
    Event.loadLibraryEx updater LOAD_LIBRARY_AS_DATAFILE true,
    Event.findResourceA IDS_UPDATER_IDENTITY IDS_UPDATER_IDENTITY true,
    Event.loadResource true,
    Event.sizeofResource size,
    Event.lockResource true]

/-! ## Example machines -/

/-- What `PathAppendW` gives on a path without trailing backslash and a plain name. -/
def joinPath (a b : WStr) : WStr := a ++ BACKSLASH :: b

/-- The bytes of a resource that holds the characters `s`; the bytes behind the
resource read as `X`. -/
def resourceBytes (s : List Char) : Nat → Char := fun i => s.getD i (Char.ofNat 88)

/-- A machine on which every check passes: local paths that are their own canonical
form, no reparse point, an updater whose identity resource is the identity string
with its terminator, on the allow-list, the fallback key present, all file operations
succeeding, a child that exits with code 0. -/
def nominalWorld : World where
  PathCanonicalizeW := fun p => some p
  PathStripToRootW := fun p => (true, p.take 3)
  PathIsUNCServerShareW := fun _ => false
  PathAppendW := joinPath
  lstrcmpi := _wcsicmp
  PathRemoveFileSpecW := fun _ => (true, "C:\\svc".toList)
  PathAppendSafe := fun a b => some (joinPath a b)
  PathGetSiblingFilePath := fun _ n => some (joinPath "C:\\svc\\update".toList n)
  CalculateRegistryPathFromFilePath := fun _ => some "SOFTWARE\\Aveo\\key".toList
  GetFullPathNameW := fun _ p _ => (p.length, p)
  GetFileAttributesW := fun _ _ => 0x10
  CreateFileW := fun _ _ _ _ _ => HandleResult.valid
  DeviceIoControl := fun _ _ => none
  IsLocalFile := fun _ _ => (true, true)
  LoadLibraryEx := fun _ _ _ => true
  FindResourceA := fun _ _ _ _ => true
  LoadResource := fun _ _ => true
  SizeofResource := fun _ _ => 52
  LockResource := fun _ _ => some (resourceBytes (UPDATER_IDENTITY_STRING ++ [NUL]))
  DoesBinaryMatchAllowedCertificates := fun _ _ _ => true
  DoesFallbackKeyExist := fun _ => true
  RegOpenKeyExW := fun _ _ => 0
  GetModuleFileNameW := fun _ => some "C:\\svc\\service.exe".toList
  DeleteFileW := fun _ _ => true
  CopyFileW := fun _ _ _ => true
  FileContent := fun _ _ => some [77, 90]
  CreateProcessW := fun _ _ _ => true
  WaitForSingleObject := fun _ _ => 0
  GetExitCodeProcess := fun _ => some 0

/-- The path of the candidate updater in the examples. -/
def exampleUpdater : WStr := "C:\\tmp\\u.exe".toList

/-- The install directory in the examples. -/
def exampleInstallDir : WStr := "C:\\app".toList

/-- A software-update request. -/
def exampleArgv : List WStr :=
  ["svc".toList, "software-update".toList, exampleUpdater, exampleInstallDir]

/-- The same request with the command token in upper case. -/
def upperCaseArgv : List WStr :=
  ["svc".toList, "SOFTWARE-UPDATE".toList, exampleUpdater, exampleInstallDir]

/-- A request with a command token that is not the update command. -/
def otherCommandArgv : List WStr :=
  ["svc".toList, "uninstall".toList, exampleUpdater, exampleInstallDir]

/-- A software-update request without install directory. -/
def shortArgv : List WStr :=
  ["svc".toList, "software-update".toList, exampleUpdater]

/-- A machine on which `C:\app\up` is a symbolic link whose substitute name is the
relative target `..` (two characters, four bytes; the path buffer holds the substitute
name and the print name). -/
def shortTargetWorld : World :=
  { nominalWorld with
    GetFileAttributesW := fun _ p => if p = "C:\\app\\up".toList then 0x410 else 0x10
    DeviceIoControl := fun _ _ => some
      { ReparseTag := IO_REPARSE_TAG_SYMLINK
        MountPointReparseBuffer :=
          { SubstituteNameOffset := 0, SubstituteNameLength := 0, PathBuffer := [] }
        SymbolicLinkReparseBuffer :=
          { SubstituteNameOffset := 0, SubstituteNameLength := 4,
            PathBuffer := "....".toList } } }

/-- A machine on which `link` is a junction to `C:\data`: a mount point whose
substitute name is `\??\C:\data` (eleven characters, 22 bytes). -/
def junctionWorld : World :=
  { nominalWorld with
    GetFileAttributesW := fun _ p => if p = "link".toList then 0x410 else 0x10
    DeviceIoControl := fun _ _ => some
      { ReparseTag := IO_REPARSE_TAG_MOUNT_POINT
        MountPointReparseBuffer :=
          { SubstituteNameOffset := 0, SubstituteNameLength := 22,
            PathBuffer := NT_PREFIX ++ "C:".toList ++ BACKSLASH :: "data".toList }
        SymbolicLinkReparseBuffer :=
          { SubstituteNameOffset := 0, SubstituteNameLength := 0, PathBuffer := [] } } }

/-- A machine on which `GetFullPathNameW` turns every forward slash into a backslash. -/
def slashWorld : World :=
  { nominalWorld with
    GetFullPathNameW := fun _ p _ =>
      (p.length, p.map (fun c => if c = SLASH then BACKSLASH else c)) }

/-- A machine on which no path exists: `GetFileAttributesW` answers
`INVALID_FILE_ATTRIBUTES` and `CreateFileW` fails with `ERROR_FILE_NOT_FOUND`. -/
def notFoundWorld : World :=
  { nominalWorld with
    GetFileAttributesW := fun _ _ => INVALID_FILE_ATTRIBUTES
    CreateFileW := fun _ _ _ _ _ => HandleResult.invalid ERROR_FILE_NOT_FOUND }

/-- A machine on which the identity resource of the updater is the four bytes `aveo`,
without terminator. -/
def prefixIdentityWorld : World :=
  { nominalWorld with
    SizeofResource := fun _ _ => 4
    LockResource := fun _ _ => some (resourceBytes "aveo".toList) }

/-- A machine on which the identity resource of the updater is the 51 characters of the
identity string, without terminator. -/
def unterminatedIdentityWorld : World :=
  { nominalWorld with
    SizeofResource := fun _ _ => 51
    LockResource := fun _ _ => some (resourceBytes UPDATER_IDENTITY_STRING) }

/-- A machine on which the source is modified between the copy and the comparison:
the two files differ when they are compared. -/
def modifiedSourceWorld : World :=
  { nominalWorld with
    FileContent := fun _ p => if p = exampleUpdater then some [77, 90, 1] else some [77, 90] }

/-- The events of a run before its first `CreateProcessW`. -/
def beforeSpawn (evs : Trace) : Trace := evs.takeWhile (fun e => e.kind ≠ Kind.spawn)

/-- The events of a run after its first `CreateProcessW`. -/
def afterSpawn (evs : Trace) : Trace := (evs.dropWhile (fun e => e.kind ≠ Kind.spawn)).tail

/-- The events of a run before its first `VerifySameFiles`. -/
def beforeVerify (evs : Trace) : Trace := evs.takeWhile (fun e => e.kind ≠ Kind.verify)

/-- The events of a run after its first `VerifySameFiles`. -/
def afterVerify (evs : Trace) : Trace := (evs.dropWhile (fun e => e.kind ≠ Kind.verify)).tail

/-- The path the examples stage the updater to. -/
def exampleSecurePath : WStr := "C:\\svc\\update\\updater.exe".toList


/-! ## Registration check, child run and cleanup: what the statements name -/

/-- The events of `ExecuteServiceCommand` up to the accepting return of
`IsValidFullPath(argv[3])`: `GetUUIDString`, the path queries, the return. -/
def ExecuteServiceCommand.validated (w : World) (argv : List WStr) (h : Trace) : Trace :=
  [Event.getUUIDString] ++ (IsValidFullPath w (argv.getD 3 []) (h ++ [Event.getUUIDString])).2 ++
    [Event.retIsValidFullPath (argv.getD 3 []) true]

/-- The string `s` with one trailing backslash removed. -/
def stripTrailingBackslash (s : WStr) : WStr :=
  if s.getLast? = some BACKSLASH then s.dropLast else s

/-- A machine without fallback key on which the registry key of the install directory
does not open (status ERROR_FILE_NOT_FOUND). -/
def unregisteredWorld : World :=
  { nominalWorld with
    DoesFallbackKeyExist := fun _ => false
    RegOpenKeyExW := fun _ _ => ERROR_FILE_NOT_FOUND }

/-- The events of a run before the first return of `ProcessSoftwareUpdateCommand`. -/
def beforeReturn (evs : Trace) : Trace := evs.takeWhile (fun e => e.kind ≠ Kind.ret)

/-- The events of a run after the first return of `ProcessSoftwareUpdateCommand`. -/
def afterReturn (evs : Trace) : Trace := (evs.dropWhile (fun e => e.kind ≠ Kind.ret)).tail

/-- A machine on which the updater exits with code 3 and no file can be deleted. -/
def failingChildWorld : World :=
  { nominalWorld with
    GetExitCodeProcess := fun _ => some 3
    DeleteFileW := fun _ _ => false }

/-! ## The argv parsing rules of the MSVC CRT -/

/-- The argv parsing rules of the MSVC CRT for the arguments of a command line, as the
specification names them: arguments are separated by spaces and tabs outside double
quotes; a double quote preceded by `2n` backslashes gives `n` backslashes and opens or
closes a quoted part; a double quote preceded by `2n+1` backslashes gives `n` backslashes
and a literal double quote; backslashes not followed by a double quote stand for
themselves.  `inArg` tells whether an argument has begun, `cur` holds its characters so
far, `numslash` counts the backslashes read since the last other character.  An
argument begins at the first character that is not a separator, a double quote
included. -/
def crtSplit.go : List Char → Bool → Bool → Nat → List Char → List WStr
  | [], inArg, _, numslash, cur =>
    if inArg then [cur ++ List.replicate numslash BACKSLASH] else []
  | c :: cs, inArg, inQuotes, numslash, cur =>
    if c = BACKSLASH then crtSplit.go cs true inQuotes (numslash + 1) cur
    else if c = DQUOTE then
      if numslash % 2 = 0 then
        crtSplit.go cs true (!inQuotes) 0 (cur ++ List.replicate (numslash / 2) BACKSLASH)
      else
        crtSplit.go cs true inQuotes 0
          (cur ++ List.replicate (numslash / 2) BACKSLASH ++ [DQUOTE])
    else if (c = SPACE ∨ c = TAB) ∧ inQuotes = false then
      if inArg then
        (cur ++ List.replicate numslash BACKSLASH) :: crtSplit.go cs false false 0 []
      else crtSplit.go cs false false 0 []
    else crtSplit.go cs true inQuotes 0 (cur ++ List.replicate numslash BACKSLASH ++ [c])

/-- The arguments the MSVC CRT parsing rules read from a command line. -/
def crtSplit (cmdLine : List Char) : List WStr := crtSplit.go cmdLine false false 0 []

/-- The number of backslashes at the end of `s`, `j` backslashes having just been
read. -/
def trailingBackslashes : Nat → List Char → Nat
  | j, [] => j
  | j, c :: cs => if c = BACKSLASH then trailingBackslashes (j + 1) cs else trailingBackslashes 0 cs

/-- The characters of `s` before its trailing backslashes, appended to `cur` and the `j`
backslashes just read. -/
def beforeTrailingBackslashes : List Char → Nat → List Char → List Char
  | cur, _, [] => cur
  | cur, j, c :: cs =>
    if c = BACKSLASH then beforeTrailingBackslashes cur (j + 1) cs
    else beforeTrailingBackslashes (cur ++ List.replicate j BACKSLASH ++ [c]) 0 cs

/-- An argument that `MakeCommandLine` writes so that it reads back: not empty, and not
ending in a backslash when it contains a space or a tab. -/
def readsBack (a : WStr) : Prop :=
  a ≠ [] ∧ (hasCommandLineDelimiter a = true → a.getLast? ≠ some BACKSLASH)

/-! ## serviceinstall.cpp: constants, events, machine -/

def ERROR_INSUFFICIENT_BUFFER : Nat := 122
def ERROR_SERVICE_DOES_NOT_EXIST : Nat := 1060
def ERROR_SERVICE_NOT_ACTIVE : Nat := 1062
def SERVICE_STOPPED : Nat := 1
def SERVICE_CONTROL_STOP : Nat := 1
def SERVICE_START : Nat := 0x0010
def SERVICE_STOP : Nat := 0x0020
def MOVEFILE_REPLACE_EXISTING : Nat := 1
def MOVEFILE_DELAY_UNTIL_REBOOT : Nat := 4
def MOVEFILE_WRITE_THROUGH : Nat := 8
def SECURITY_MAX_SID_SIZE : Nat := 68
/-- Values of the enumeration WELL_KNOWN_SID_TYPE. -/
def WinInteractiveSid : Nat := 4
def WinLocalServiceSid : Nat := 23
def WinBuiltinUsersSid : Nat := 27
/-- Values of the enumeration ACCESS_MODE. -/
def SET_ACCESS : Nat := 2
def REVOKE_ACCESS : Nat := 4
def NO_INHERITANCE : Nat := 0
def TRUSTEE_IS_SID : Nat := 0
def TRUSTEE_IS_GROUP : Nat := 2

/-- Enumeration `SvcInstallAction` of serviceinstall.h. -/
inductive SvcInstallAction
  | UpgradeSvc
  | InstallSvc
  | ForceInstallSvc
  deriving DecidableEq

/-- Outcome of a Win32 call that reports failure through `GetLastError()`. -/
inductive Outcome (α : Type)
  | ok (value : α)
  | failed (lastError : Nat)
  deriving DecidableEq

/-- One entry of an access control list: allow or deny, the SID, the access mask. -/
structure ACE where
  allowed : Bool
  sid : Nat
  mask : Nat
  deriving DecidableEq

abbrev ACL := List ACE

/-- Fields of `EXPLICIT_ACCESS` that `SetUserAccessServiceDACL` sets; `ptstrName` is the
SID the trustee points to. -/
structure EXPLICIT_ACCESS where
  grfAccessPermissions : Nat
  grfAccessMode : Nat
  grfInheritance : Nat
  TrusteeForm : Nat
  TrusteeType : Nat
  ptstrName : Nat
  deriving DecidableEq

/-- The four parts `A.B.C.D` of a file version. -/
structure FileVersion where
  A : Nat
  B : Nat
  C : Nat
  D : Nat
  deriving DecidableEq

/-- The calls of serviceinstall.cpp to the operating system, with their answers, and
the returns of `SetUserAccessServiceDACL` and `StopService`.  Handles are closed by the
destructors and by `reset()`; closing is not recorded. -/
inductive SvcEvent
  | openSCManager (ok : Bool)
  | getModuleFileNameW (path : Option WStr)
  | openServiceW (name : WStr) (res : HandleResult)
  | queryServiceObjectSecurity (bufSize : Nat) (ok : Bool)
  | localAlloc (size : Nat) (ok : Bool)
  | getSecurityDescriptorDacl (ok : Bool)
  | createWellKnownSid (sidType : Nat) (sid : Option Nat)
  | setEntriesInAclW (ea : List EXPLICIT_ACCESS) (oldAcl : Option ACL) (status : Nat)
  | initializeSecurityDescriptor (ok : Bool)
  | setSecurityDescriptorDacl (ok : Bool)
  | setServiceObjectSecurity (dacl : Option ACL) (ok : Bool)
  | retSetUserAccessServiceDACL (res : Bool)
  | queryServiceConfigW (bufSize : Nat) (ok : Bool)
  | getFileVersionInfoW (path : WStr) (ok : Bool)
  | verQueryValueW (ok : Bool)
  | controlService (control : Nat) (ok : Bool) (lastError : Nat)
  | waitForServiceStop (name : WStr) (seconds : Nat) (lastState : Nat)
  | waitForProcessExit (name : WStr) (seconds : Nat)
  | retStopService (res : Bool)
  | copyFileW (src dst : WStr) (ok : Bool)
  | moveFileExW (src : WStr) (dst : Option WStr) (flags : Nat) (ok : Bool)
  | deleteFileW (path : WStr) (ok : Bool)
  | createServiceW (name binaryPath : WStr) (ok : Bool)
  | changeServiceConfig2W (ok : Bool)
  deriving DecidableEq

abbrev SvcTrace := List SvcEvent

/-- The files of the machine: the content at each path, `none` where there is no file. -/
abbrev Files := WStr → Option (List Nat)

/-- The operating system as serviceinstall.cpp sees it.  A call whose answer may change
from one call to the next takes the events so far as its first argument.  `SVC_NAME`,
`WaitForServiceStop` and `WaitForProcessExit` come from updatehelper, which is not among
the sources.  The version information of a file is a function of its content, and
there is none where there is no file. -/
structure SvcWorld where
  SVC_NAME : WStr
  PathUnquoteSpacesW : WStr → WStr
  PathQuoteSpacesW : WStr → WStr
  /-- Calls `GetFileVersionInfoSizeW` and `GetFileVersionInfoW` on a file with this
  content: the version information block, `none` on failure. -/
  GetFileVersionInfoW : List Nat → Option (List Nat)
  /-- Call `VerQueryValueW(block, L"\\", ...)`: the fields `dwFileVersionMS` and
  `dwFileVersionLS` of the fixed file information, `none` on failure. -/
  VerQueryValueW : List Nat → Option (Nat × Nat)
  OpenSCManager : SvcTrace → Bool
  /-- Call `GetModuleFileNameW(nullptr, buf, MAX_PATH + 1)`: `none` when it returns 0. -/
  GetModuleFileNameW : SvcTrace → Option WStr
  OpenServiceW : SvcTrace → WStr → HandleResult
  /-- Call `QueryServiceObjectSecurity(service, DACL_SECURITY_INFORMATION, &psd, 0, &needed)`:
  the value returned, `GetLastError()` and `needed`. -/
  QueryServiceObjectSecuritySize : SvcTrace → Bool × Nat × Nat
  /-- Call `QueryServiceObjectSecurity` with a buffer of the given size: the DACL of the
  descriptor written (`none`: a descriptor without DACL). -/
  QueryServiceObjectSecurity : SvcTrace → Nat → Outcome (Option ACL)
  LocalAlloc : SvcTrace → Nat → Outcome Unit
  /-- Call `GetSecurityDescriptorDacl(psd, ...)`, `psd` being null (`none`) or a descriptor
  with the given DACL: the value of `pacl`. -/
  GetSecurityDescriptorDacl : SvcTrace → Option (Option ACL) → Outcome (Option ACL)
  /-- Call `CreateWellKnownSid(type, nullptr, sid, &size)`: the SID written. -/
  CreateWellKnownSid : SvcTrace → Nat → Outcome Nat
  /-- Call `SetEntriesInAclW(count, ea, pacl, &pNewAcl)`: the status and `pNewAcl`. -/
  SetEntriesInAclW : SvcTrace → List EXPLICIT_ACCESS → Option ACL → Nat × Option ACL
  InitializeSecurityDescriptor : SvcTrace → Outcome Unit
  SetSecurityDescriptorDacl : SvcTrace → Option ACL → Outcome Unit
  SetServiceObjectSecurity : SvcTrace → Option ACL → Outcome Unit
  /-- Call `QueryServiceConfigW(service, nullptr, 0, &bytesNeeded)`: the value returned,
  `GetLastError()` and `bytesNeeded`. -/
  QueryServiceConfigSize : SvcTrace → Bool × Nat × Nat
  /-- Call `QueryServiceConfigW(service, buf, bytesNeeded, &bytesNeeded)`: the field
  `lpBinaryPathName`, `none` when the call returns FALSE. -/
  QueryServiceConfigW : SvcTrace → Nat → Option WStr
  /-- Call `ControlService(service, control, &status)`: the value returned and
  `GetLastError()`. -/
  ControlService : SvcTrace → Nat → Bool × Nat
  /-- Call `WaitForServiceStop(name, seconds)`: the last service state seen. -/
  WaitForServiceStop : SvcTrace → WStr → Nat → Nat
  CopyFileW : SvcTrace → WStr → WStr → Bool
  MoveFileExW : SvcTrace → WStr → Option WStr → Nat → Bool
  DeleteFileW : SvcTrace → WStr → Bool
  CreateServiceW : SvcTrace → WStr → WStr → Bool
  ChangeServiceConfig2W : SvcTrace → Bool

/-- What a call does to the files: a successful `CopyFileW` puts the content of the
source at the destination, a successful `MoveFileExW` with a destination moves the
content there, a successful `DeleteFileW` removes the file; a failed call, a call of
another kind and `MoveFileExW` with MOVEFILE_DELAY_UNTIL_REBOOT and no destination
change nothing now.  Two paths name the same file exactly when they are equal. -/
def SvcEvent.effect (fs : Files) : SvcEvent → Files
  | SvcEvent.copyFileW src dst true => fun p => if p = dst then fs src else fs p
  | SvcEvent.moveFileExW src (some dst) _ true =>
    fun p => if p = dst then fs src else if p = src then none else fs p
  | SvcEvent.deleteFileW path true => fun p => if p = path then none else fs p
  | _ => fs

/-- The files after the events of a run. -/
def filesAfter (fs : Files) (evs : SvcTrace) : Files := evs.foldl SvcEvent.effect fs

/-- Macro `HIWORD`. -/
def HIWORD (l : Nat) : Nat := (l / 65536) % 65536

/-- Macro `LOWORD`. -/
def LOWORD (l : Nat) : Nat := l % 65536

/-! ## serviceinstall.cpp: the functions -/

/-- Embedding of `GetVersionNumberFromPath(path, A, B, C, D)` on the files `fs`: the four parts,
`none` when it returns FALSE, and the events added. -/
def GetVersionNumberFromPath (w : SvcWorld) (fs : Files) (path : WStr) :
    Option FileVersion × SvcTrace :=
  match (fs path).bind w.GetFileVersionInfoW with
  | none => (none, [SvcEvent.getFileVersionInfoW path false])
  | some fileVersionInfo =>
    let e1 := [SvcEvent.getFileVersionInfoW path true]
    match w.VerQueryValueW fileVersionInfo with
    | none => (none, e1 ++ [SvcEvent.verQueryValueW false])
    | some fixedFileInfo =>
      (some ⟨HIWORD fixedFileInfo.1, LOWORD fixedFileInfo.1, HIWORD fixedFileInfo.2,
          LOWORD fixedFileInfo.2⟩,
        e1 ++ [SvcEvent.verQueryValueW true])

/-- The array `ea` that `SetUserAccessServiceDACL` fills after `ZeroMemory`. -/
def SetUserAccessServiceDACL.ea (sidBuiltinUsers sidInteractive sidLocalService : Nat) :
    List EXPLICIT_ACCESS :=
  [ { grfAccessPermissions := 0, grfAccessMode := REVOKE_ACCESS, grfInheritance := 0,
      TrusteeForm := TRUSTEE_IS_SID, TrusteeType := TRUSTEE_IS_GROUP,
      ptstrName := sidBuiltinUsers },
    { grfAccessPermissions := SERVICE_START ||| SERVICE_STOP ||| GENERIC_READ,
      grfAccessMode := SET_ACCESS, grfInheritance := NO_INHERITANCE,
      TrusteeForm := TRUSTEE_IS_SID, TrusteeType := TRUSTEE_IS_GROUP,
      ptstrName := sidInteractive },
    { grfAccessPermissions := SERVICE_START ||| SERVICE_STOP ||| GENERIC_READ,
      grfAccessMode := SET_ACCESS, grfInheritance := NO_INHERITANCE,
      TrusteeForm := TRUSTEE_IS_SID, TrusteeType := TRUSTEE_IS_GROUP,
      ptstrName := sidLocalService } ]

/-- Part of `SetUserAccessServiceDACL(hService, pNewAcl, psd)` from `SetEntriesInAclW` on: the
status returned and the events added. -/
def SetUserAccessServiceDACL.setAcl (w : SvcWorld) (pacl : Option ACL)
    (ea : List EXPLICIT_ACCESS) (h : SvcTrace) : Nat × SvcTrace :=
  let set := w.SetEntriesInAclW h ea pacl
  let e1 := [SvcEvent.setEntriesInAclW ea pacl set.1]
  if set.1 ≠ ERROR_SUCCESS then (set.1, e1)
  else
    match w.InitializeSecurityDescriptor (h ++ e1) with
    | Outcome.failed lastError => (lastError, e1 ++ [SvcEvent.initializeSecurityDescriptor false])
    | Outcome.ok _ =>
      let e2 := e1 ++ [SvcEvent.initializeSecurityDescriptor true]
      match w.SetSecurityDescriptorDacl (h ++ e2) set.2 with
      | Outcome.failed lastError => (lastError, e2 ++ [SvcEvent.setSecurityDescriptorDacl false])
      | Outcome.ok _ =>
        let e3 := e2 ++ [SvcEvent.setSecurityDescriptorDacl true]
        match w.SetServiceObjectSecurity (h ++ e3) set.2 with
        | Outcome.failed lastError =>
          (lastError, e3 ++ [SvcEvent.setServiceObjectSecurity set.2 false])
        | Outcome.ok _ => (ERROR_SUCCESS, e3 ++ [SvcEvent.setServiceObjectSecurity set.2 true])

/-- Part of `SetUserAccessServiceDACL(hService, pNewAcl, psd)` from `GetSecurityDescriptorDacl`
on, `psd` being null (`none`) or a descriptor with the given DACL. -/
def SetUserAccessServiceDACL.fromDescriptor (w : SvcWorld) (psd : Option (Option ACL))
    (h : SvcTrace) : Nat × SvcTrace :=
  match w.GetSecurityDescriptorDacl h psd with
  | Outcome.failed lastError => (lastError, [SvcEvent.getSecurityDescriptorDacl false])
  | Outcome.ok pacl =>
    let e1 := [SvcEvent.getSecurityDescriptorDacl true]
    match w.LocalAlloc (h ++ e1) SECURITY_MAX_SID_SIZE with
    | Outcome.failed lastError =>
      (lastError, e1 ++ [SvcEvent.localAlloc SECURITY_MAX_SID_SIZE false])
    | Outcome.ok _ =>
      let e2 := e1 ++ [SvcEvent.localAlloc SECURITY_MAX_SID_SIZE true]
      match w.CreateWellKnownSid (h ++ e2) WinBuiltinUsersSid with
      | Outcome.failed lastError =>
        (lastError, e2 ++ [SvcEvent.createWellKnownSid WinBuiltinUsersSid none])
      | Outcome.ok sidBuiltinUsers =>
        let e3 := e2 ++ [SvcEvent.createWellKnownSid WinBuiltinUsersSid (some sidBuiltinUsers)]
        match w.LocalAlloc (h ++ e3) SECURITY_MAX_SID_SIZE with
        | Outcome.failed lastError =>
          (lastError, e3 ++ [SvcEvent.localAlloc SECURITY_MAX_SID_SIZE false])
        | Outcome.ok _ =>
          let e4 := e3 ++ [SvcEvent.localAlloc SECURITY_MAX_SID_SIZE true]
          match w.CreateWellKnownSid (h ++ e4) WinInteractiveSid with
          | Outcome.failed lastError =>
            (lastError, e4 ++ [SvcEvent.createWellKnownSid WinInteractiveSid none])
          | Outcome.ok sidInteractive =>
            let e5 := e4 ++
              [SvcEvent.createWellKnownSid WinInteractiveSid (some sidInteractive)]
            match w.LocalAlloc (h ++ e5) SECURITY_MAX_SID_SIZE with
            | Outcome.failed lastError =>
              (lastError, e5 ++ [SvcEvent.localAlloc SECURITY_MAX_SID_SIZE false])
            | Outcome.ok _ =>
              let e6 := e5 ++ [SvcEvent.localAlloc SECURITY_MAX_SID_SIZE true]
              match w.CreateWellKnownSid (h ++ e6) WinLocalServiceSid with
              | Outcome.failed lastError =>
                (lastError, e6 ++ [SvcEvent.createWellKnownSid WinLocalServiceSid none])
              | Outcome.ok sidLocalService =>
                let e7 := e6 ++
                  [SvcEvent.createWellKnownSid WinLocalServiceSid (some sidLocalService)]
                let set := SetUserAccessServiceDACL.setAcl w pacl
                  (SetUserAccessServiceDACL.ea sidBuiltinUsers sidInteractive sidLocalService)
                  (h ++ e7)
                (set.1, e7 ++ set.2)

/-- Embedding of the overload `SetUserAccessServiceDACL(hService, pNewAcl, psd)` as the one-argument
overload calls it, with `psd` null: the status returned and the events added. -/
def SetUserAccessServiceDACL.status (w : SvcWorld) (h : SvcTrace) : Nat × SvcTrace :=
  let first := w.QueryServiceObjectSecuritySize h
  let e1 := [SvcEvent.queryServiceObjectSecurity 0 first.1]
  if first.1 = true then
    let rest := SetUserAccessServiceDACL.fromDescriptor w none (h ++ e1)
    (rest.1, e1 ++ rest.2)
  else if first.2.1 ≠ ERROR_INSUFFICIENT_BUFFER then (first.2.1, e1)
  else
    let size := first.2.2
    match w.LocalAlloc (h ++ e1) size with
    | Outcome.failed _ => (ERROR_INSUFFICIENT_BUFFER, e1 ++ [SvcEvent.localAlloc size false])
    | Outcome.ok _ =>
      let e2 := e1 ++ [SvcEvent.localAlloc size true]
      match w.QueryServiceObjectSecurity (h ++ e2) size with
      | Outcome.failed lastError =>
        (lastError, e2 ++ [SvcEvent.queryServiceObjectSecurity size false])
      | Outcome.ok dacl =>
        let e3 := e2 ++ [SvcEvent.queryServiceObjectSecurity size true]
        let rest := SetUserAccessServiceDACL.fromDescriptor w (some dacl) (h ++ e3)
        (rest.1, e3 ++ rest.2)

/-- Embedding of `SetUserAccessServiceDACL(hService)`: TRUE when the status is ERROR_SUCCESS. -/
def SetUserAccessServiceDACL (w : SvcWorld) (h : SvcTrace) : Bool × SvcTrace :=
  let lastError := SetUserAccessServiceDACL.status w h
  (decide (ERROR_SUCCESS = lastError.1), lastError.2)

/-- Embedding of `StopService()`: the value returned and the events added. -/
def StopService (w : SvcWorld) (h : SvcTrace) : Bool × SvcTrace :=
  let schSCManager := w.OpenSCManager h
  let e1 := [SvcEvent.openSCManager schSCManager]
  if schSCManager = false then (false, e1)
  else
    let schService := w.OpenServiceW (h ++ e1) w.SVC_NAME
    let e2 := e1 ++ [SvcEvent.openServiceW w.SVC_NAME schService]
    if schService ≠ HandleResult.valid then (false, e2)
    else
      let stop := w.ControlService (h ++ e2) SERVICE_CONTROL_STOP
      let e3 := e2 ++ [SvcEvent.controlService SERVICE_CONTROL_STOP stop.1 stop.2]
      let lastState := w.WaitForServiceStop (h ++ e3) w.SVC_NAME 30
      let e4 := e3 ++ [SvcEvent.waitForServiceStop w.SVC_NAME 30 lastState]
      (decide (lastState = SERVICE_STOPPED),
        e4 ++ [SvcEvent.waitForProcessExit "updateservice.exe".toList 30])

/-- The condition of `SvcInstall` under which the installed binary is replaced. -/
def SvcInstall.mustReplace (action : SvcInstallAction) (existing : Option FileVersion)
    (new : FileVersion) : Bool :=
  match existing with
  | none => true
  | some e =>
    decide (SvcInstallAction.ForceInstallSvc = action ∨
      e.A < new.A ∨ (e.A = new.A ∧ e.B < new.B) ∨
      (e.A = new.A ∧ e.B = new.B ∧ e.C < new.C) ∨
      (e.A = new.A ∧ e.B = new.B ∧ e.C = new.C ∧ e.D < new.D))

/-- The path `oldServiceBinaryTempPath` of `SvcInstall`: the installed path with its
last three characters overwritten by `old`. -/
def SvcInstall.oldServiceBinaryTempPath (lpBinaryPathName : WStr) : WStr :=
  lpBinaryPathName.take (lpBinaryPathName.length - 3) ++ "old".toList

/-- Part of `SvcInstall` after the failed first `CopyFileW`: the value of `result` and
the events added. -/
def SvcInstall.moveAside (w : SvcWorld) (newServiceBinaryPath lpBinaryPathName : WStr)
    (h : SvcTrace) : Bool × SvcTrace :=
  let len := lpBinaryPathName.length
  if len > 3 then
    let oldServiceBinaryTempPath := SvcInstall.oldServiceBinaryTempPath lpBinaryPathName
    let moved := w.MoveFileExW h lpBinaryPathName (some oldServiceBinaryTempPath)
      (MOVEFILE_REPLACE_EXISTING ||| MOVEFILE_WRITE_THROUGH)
    let e1 := [SvcEvent.moveFileExW lpBinaryPathName (some oldServiceBinaryTempPath)
      (MOVEFILE_REPLACE_EXISTING ||| MOVEFILE_WRITE_THROUGH) moved]
    if moved = true then
      let copied := w.CopyFileW (h ++ e1) newServiceBinaryPath lpBinaryPathName
      let e2 := e1 ++ [SvcEvent.copyFileW newServiceBinaryPath lpBinaryPathName copied]
      let deleted := w.DeleteFileW (h ++ e2) oldServiceBinaryTempPath
      (copied, e2 ++ [SvcEvent.deleteFileW oldServiceBinaryTempPath deleted])
    else (false, e1)
  else (false, [])

/-- Part of `SvcInstall` inside `if (ForceInstallSvc == action || ...)`, from the call
of `StopService` on. -/
def SvcInstall.replace (w : SvcWorld) (newServiceBinaryPath lpBinaryPathName : WStr)
    (h : SvcTrace) : Bool × SvcTrace :=
  let stopped := StopService w h
  let e1 := stopped.2 ++ [SvcEvent.retStopService stopped.1]
  if stopped.1 = false then (false, e1)
  else if newServiceBinaryPath = lpBinaryPathName then (true, e1)
  else
    let copied := w.CopyFileW (h ++ e1) newServiceBinaryPath lpBinaryPathName
    let e2 := e1 ++ [SvcEvent.copyFileW newServiceBinaryPath lpBinaryPathName copied]
    let aside :=
      if copied = false then SvcInstall.moveAside w newServiceBinaryPath lpBinaryPathName (h ++ e2)
      else (true, [])
    let e3 := e2 ++ aside.2
    let scheduled := w.MoveFileExW (h ++ e3) newServiceBinaryPath none MOVEFILE_DELAY_UNTIL_REBOOT
    (aside.1, e3 ++
      [SvcEvent.moveFileExW newServiceBinaryPath none MOVEFILE_DELAY_UNTIL_REBOOT scheduled])

/-- Part of `SvcInstall` inside `if (schService.get())` up to the two calls of
`GetVersionNumberFromPath`: `none` when `SvcInstall` returns FALSE there, otherwise the
installed path `serviceConfig.lpBinaryPathName`, the installed version when it was
obtained, and the version of the calling binary.  `fs` holds the files when `SvcInstall`
is called. -/
def SvcInstall.readVersions (w : SvcWorld) (fs : Files) (newServiceBinaryPath : WStr)
    (h : SvcTrace) : Option (WStr × Option FileVersion × FileVersion) × SvcTrace :=
  let dacl := SetUserAccessServiceDACL w h
  let e1 := dacl.2 ++ [SvcEvent.retSetUserAccessServiceDACL dacl.1]
  let size := w.QueryServiceConfigSize (h ++ e1)
  let e2 := e1 ++ [SvcEvent.queryServiceConfigW 0 size.1]
  if size.1 = false ∧ size.2.1 ≠ ERROR_INSUFFICIENT_BUFFER then (none, e2)
  else
    match w.QueryServiceConfigW (h ++ e2) size.2.2 with
    | none => (none, e2 ++ [SvcEvent.queryServiceConfigW size.2.2 false])
    | some quotedPath =>
      let e3 := e2 ++ [SvcEvent.queryServiceConfigW size.2.2 true]
      let lpBinaryPathName := w.PathUnquoteSpacesW quotedPath
      let existing := GetVersionNumberFromPath w fs lpBinaryPathName
      let new := GetVersionNumberFromPath w fs newServiceBinaryPath
      let e4 := e3 ++ existing.2 ++ new.2
      match new.1 with
      | none => (none, e4)
      | some newVersion => (some (lpBinaryPathName, existing.1, newVersion), e4)

/-- Part of `SvcInstall` inside `if (schService.get())`: the service exists and was
opened. -/
def SvcInstall.existing (w : SvcWorld) (fs : Files) (action : SvcInstallAction)
    (newServiceBinaryPath : WStr) (h : SvcTrace) : Bool × SvcTrace :=
  let read := SvcInstall.readVersions w fs newServiceBinaryPath h
  match read.1 with
  | none => (false, read.2)
  | some (lpBinaryPathName, existing, newVersion) =>
    if SvcInstall.mustReplace action existing newVersion = true then
      let replaced := SvcInstall.replace w newServiceBinaryPath lpBinaryPathName (h ++ read.2)
      (replaced.1, read.2 ++ replaced.2)
    else
      let scheduled := w.MoveFileExW (h ++ read.2) newServiceBinaryPath none
        MOVEFILE_DELAY_UNTIL_REBOOT
      (true, read.2 ++
        [SvcEvent.moveFileExW newServiceBinaryPath none MOVEFILE_DELAY_UNTIL_REBOOT scheduled])

/-- Part of `SvcInstall` after `if (schService.get())`: the service does not exist. -/
def SvcInstall.absent (w : SvcWorld) (action : SvcInstallAction) (newServiceBinaryPath : WStr)
    (h : SvcTrace) : Bool × SvcTrace :=
  if SvcInstallAction.UpgradeSvc = action then (true, [])
  else
    let quoted := w.PathQuoteSpacesW newServiceBinaryPath
    let created := w.CreateServiceW h w.SVC_NAME quoted
    let e1 := [SvcEvent.createServiceW w.SVC_NAME quoted created]
    if created = false then (false, e1)
    else
      let described := w.ChangeServiceConfig2W (h ++ e1)
      let e2 := e1 ++ [SvcEvent.changeServiceConfig2W described]
      let dacl := SetUserAccessServiceDACL w (h ++ e2)
      (true, e2 ++ dacl.2 ++ [SvcEvent.retSetUserAccessServiceDACL dacl.1])

/-- Embedding of `SvcInstall(action)` on the files `fs` at history `h`: the value returned
and the events added. -/
def SvcInstall (w : SvcWorld) (fs : Files) (action : SvcInstallAction) (h : SvcTrace) :
    Bool × SvcTrace :=
  let schSCManager := w.OpenSCManager h
  let e1 := [SvcEvent.openSCManager schSCManager]
  if schSCManager = false then (false, e1)
  else
    match w.GetModuleFileNameW (h ++ e1) with
    | none => (false, e1 ++ [SvcEvent.getModuleFileNameW none])
    | some newServiceBinaryPath =>
      let e2 := e1 ++ [SvcEvent.getModuleFileNameW (some newServiceBinaryPath)]
      let schService := w.OpenServiceW (h ++ e2) w.SVC_NAME
      let e3 := e2 ++ [SvcEvent.openServiceW w.SVC_NAME schService]
      match schService with
      | HandleResult.invalid lastError =>
        if ERROR_SERVICE_DOES_NOT_EXIST ≠ lastError then (false, e3)
        else
          let created := SvcInstall.absent w action newServiceBinaryPath (h ++ e3)
          (created.1, e3 ++ created.2)
      | HandleResult.valid =>
        let installed := SvcInstall.existing w fs action newServiceBinaryPath (h ++ e3)
        (installed.1, e3 ++ installed.2)

/-! ## serviceinstall.cpp: what the statements name, example machines -/

/-- Test for a call that changes a file now: `CopyFileW`, `MoveFileExW` with a
destination, `DeleteFileW`. -/
def SvcEvent.changesFile : SvcEvent → Bool
  | SvcEvent.copyFileW _ _ _ => true
  | SvcEvent.moveFileExW _ (some _) _ _ => true
  | SvcEvent.deleteFileW _ _ => true
  | _ => false

/-- The events of `SvcInstall` up to the opening of an existing service, for the calling
binary `newServiceBinaryPath`. -/
def SvcInstall.opened (w : SvcWorld) (newServiceBinaryPath : WStr) : SvcTrace :=
  [SvcEvent.openSCManager true, SvcEvent.getModuleFileNameW (some newServiceBinaryPath),
    SvcEvent.openServiceW w.SVC_NAME HandleResult.valid]

/-- The four parts of a version in the lexicographic order major, minor, build,
revision. -/
def FileVersion.lex (v : FileVersion) : Lex (Nat × Lex (Nat × Lex (Nat × Nat))) :=
  toLex (v.A, toLex (v.B, toLex (v.C, v.D)))

/-- The installed path in the examples. -/
def exampleInstalledPath : WStr := "C:\\svc\\updateservice.exe".toList

/-- The path of the calling binary in the examples. -/
def exampleCallingPath : WStr := "C:\\tmp\\updateservice_tmp.exe".toList

/-- The files of the examples: at the installed path a binary whose content is the four
parts of `installed`, at the calling path one whose content is the parts of `calling`. -/
def exampleFiles (installed calling : List Nat) : Files :=
  fun p =>
    if p = exampleInstalledPath then some installed
    else if p = exampleCallingPath then some calling
    else none

/-- A machine on which the service exists with the binary `exampleInstalledPath`, the
calling binary is `exampleCallingPath`, the version of a file is its content, the
service stops and every call succeeds. -/
def nominalSvcWorld : SvcWorld where
  SVC_NAME := "UpdateService".toList
  PathUnquoteSpacesW := fun p => p
  PathQuoteSpacesW := fun p => p
  GetFileVersionInfoW := fun c => some c
  VerQueryValueW := fun b =>
    match b with
    | [a, b, c, d] => some (a * 65536 + b, c * 65536 + d)
    | _ => none
  OpenSCManager := fun _ => true
  GetModuleFileNameW := fun _ => some exampleCallingPath
  OpenServiceW := fun _ _ => HandleResult.valid
  QueryServiceObjectSecuritySize := fun _ => (false, ERROR_INSUFFICIENT_BUFFER, 64)
  QueryServiceObjectSecurity := fun _ _ => Outcome.ok (some [])
  LocalAlloc := fun _ _ => Outcome.ok ()
  GetSecurityDescriptorDacl := fun _ psd => Outcome.ok (psd.getD none)
  CreateWellKnownSid := fun _ t => Outcome.ok t
  SetEntriesInAclW := fun _ _ acl => (ERROR_SUCCESS, acl)
  InitializeSecurityDescriptor := fun _ => Outcome.ok ()
  SetSecurityDescriptorDacl := fun _ _ => Outcome.ok ()
  SetServiceObjectSecurity := fun _ _ => Outcome.ok ()
  QueryServiceConfigSize := fun _ => (false, ERROR_INSUFFICIENT_BUFFER, 512)
  QueryServiceConfigW := fun _ _ => some exampleInstalledPath
  ControlService := fun _ _ => (true, 0)
  WaitForServiceStop := fun _ _ _ => SERVICE_STOPPED
  CopyFileW := fun _ _ _ => true
  MoveFileExW := fun _ _ _ _ => true
  DeleteFileW := fun _ _ => true
  CreateServiceW := fun _ _ _ => true
  ChangeServiceConfig2W := fun _ => true

/-- A machine on which `CopyFileW` always fails: the direct overwrite fails, the rename
aside succeeds, the second copy fails, the aside file is deleted. -/
def copyFailsWorld : SvcWorld :=
  { nominalSvcWorld with CopyFileW := fun _ _ _ => false }

/-- A machine on which the service does not reach the state SERVICE_STOPPED. -/
def stuckServiceWorld : SvcWorld :=
  { nominalSvcWorld with WaitForServiceStop := fun _ _ _ => 3 }

/-- The kinds of events of serviceinstall.cpp. -/
inductive SvcKind
  | manager
  | acl
  | config
  | version
  | stop
  | stopReturn
  | file
  | schedule
  | create
  deriving DecidableEq

/-- The kind of an event: `file` for the calls that change a file now, `schedule` for
`MoveFileExW` without destination, `stop` for the calls of `StopService` after it opened
the service, `stopReturn` for its return. -/
def SvcEvent.kind : SvcEvent → SvcKind
  | SvcEvent.openSCManager _ => SvcKind.manager
  | SvcEvent.getModuleFileNameW _ => SvcKind.manager
  | SvcEvent.openServiceW _ _ => SvcKind.manager
  | SvcEvent.queryServiceObjectSecurity _ _ => SvcKind.acl
  | SvcEvent.localAlloc _ _ => SvcKind.acl
  | SvcEvent.getSecurityDescriptorDacl _ => SvcKind.acl
  | SvcEvent.createWellKnownSid _ _ => SvcKind.acl
  | SvcEvent.setEntriesInAclW _ _ _ => SvcKind.acl
  | SvcEvent.initializeSecurityDescriptor _ => SvcKind.acl
  | SvcEvent.setSecurityDescriptorDacl _ => SvcKind.acl
  | SvcEvent.setServiceObjectSecurity _ _ => SvcKind.acl
  | SvcEvent.retSetUserAccessServiceDACL _ => SvcKind.acl
  | SvcEvent.queryServiceConfigW _ _ => SvcKind.config
  | SvcEvent.getFileVersionInfoW _ _ => SvcKind.version
  | SvcEvent.verQueryValueW _ => SvcKind.version
  | SvcEvent.controlService _ _ _ => SvcKind.stop
  | SvcEvent.waitForServiceStop _ _ _ => SvcKind.stop
  | SvcEvent.waitForProcessExit _ _ => SvcKind.stop
  | SvcEvent.retStopService _ => SvcKind.stopReturn
  | SvcEvent.copyFileW _ _ _ => SvcKind.file
  | SvcEvent.moveFileExW _ (some _) _ _ => SvcKind.file
  | SvcEvent.moveFileExW _ none _ _ => SvcKind.schedule
  | SvcEvent.deleteFileW _ _ => SvcKind.file
  | SvcEvent.createServiceW _ _ _ => SvcKind.create
  | SvcEvent.changeServiceConfig2W _ => SvcKind.create

/-- Every event of `evs` has one of the kinds `ks`. -/
def SvcKinds (ks : List SvcKind) (evs : SvcTrace) : Prop := ∀ e ∈ evs, e.kind ∈ ks

/-- The ways the replacing part of `SvcInstall` can end: `tail` holds the events after
those of `StopService`, `stopped` is the value `StopService` returned and `result` the
value `SvcInstall` returns. -/
def SvcInstall.replaceOutcome (new lp : WStr) (stopped result : Bool) (tail : SvcTrace) : Prop :=
  (tail = [SvcEvent.retStopService false] ∧ stopped = false ∧ result = false) ∨
  (tail = [SvcEvent.retStopService true] ∧ stopped = true ∧ new = lp ∧ result = true) ∨
  (stopped = true ∧ new ≠ lp ∧
    ((∃ s, tail = [SvcEvent.retStopService true, SvcEvent.copyFileW new lp true,
        SvcEvent.moveFileExW new none MOVEFILE_DELAY_UNTIL_REBOOT s] ∧ result = true) ∨
      (∃ s, tail = [SvcEvent.retStopService true, SvcEvent.copyFileW new lp false,
        SvcEvent.moveFileExW new none MOVEFILE_DELAY_UNTIL_REBOOT s] ∧
        lp.length ≤ 3 ∧ result = false) ∨
      (∃ s, tail = [SvcEvent.retStopService true, SvcEvent.copyFileW new lp false,
        SvcEvent.moveFileExW lp (some (SvcInstall.oldServiceBinaryTempPath lp))
          (MOVEFILE_REPLACE_EXISTING ||| MOVEFILE_WRITE_THROUGH) false,
        SvcEvent.moveFileExW new none MOVEFILE_DELAY_UNTIL_REBOOT s] ∧
        3 < lp.length ∧ result = false) ∨
      (∃ c d s, tail = [SvcEvent.retStopService true, SvcEvent.copyFileW new lp false,
        SvcEvent.moveFileExW lp (some (SvcInstall.oldServiceBinaryTempPath lp))
          (MOVEFILE_REPLACE_EXISTING ||| MOVEFILE_WRITE_THROUGH) true,
        SvcEvent.copyFileW new lp c,
        SvcEvent.deleteFileW (SvcInstall.oldServiceBinaryTempPath lp) d,
        SvcEvent.moveFileExW new none MOVEFILE_DELAY_UNTIL_REBOOT s] ∧
        3 < lp.length ∧ result = c)))


/-! ## serviceinstall.cpp: the access control list of the service -/

/-- The well-known SID type of the built-in Administrators group. -/
def WinBuiltinAdministratorsSid : Nat := 26

/-- The access mask SERVICE_ALL_ACCESS. -/
def SERVICE_ALL_ACCESS : Nat := 0xF01FF

/-- The rights `SetUserAccessServiceDACL` sets for a principal. -/
def USER_ACCESS : Nat := SERVICE_START ||| SERVICE_STOP ||| GENERIC_READ

/-- Effect of one EXPLICIT_ACCESS entry on a DACL as `SetEntriesInAclW` is documented:
REVOKE_ACCESS removes the access-allowed entries of the trustee, SET_ACCESS discards
every entry of the trustee and adds an access-allowed entry with the given rights,
entries of other trustees are kept. -/
def applyEntry (acl : ACL) (e : EXPLICIT_ACCESS) : ACL :=
  if e.grfAccessMode = REVOKE_ACCESS then
    acl.filter (fun a => ! (a.allowed && decide (a.sid = e.ptstrName)))
  else if e.grfAccessMode = SET_ACCESS then
    ⟨true, e.ptstrName, e.grfAccessPermissions⟩ ::
      acl.filter (fun a => ! decide (a.sid = e.ptstrName))
  else acl

/-- The ACL `SetEntriesInAclW` is documented to create: the entries merged, in order,
into the existing ACL. -/
def mergeEntries (ea : List EXPLICIT_ACCESS) (oldAcl : ACL) : ACL :=
  ea.foldl applyEntry oldAcl

/-- On this machine `SetEntriesInAclW`, when it succeeds, creates the ACL it is
documented to create; a null old ACL counts as an empty one. -/
def SvcWorld.mergesEntries (w : SvcWorld) : Prop :=
  ∀ h ea oldAcl, (w.SetEntriesInAclW h ea oldAcl).1 = ERROR_SUCCESS →
    (w.SetEntriesInAclW h ea oldAcl).2 = some (mergeEntries ea (oldAcl.getD []))

/-- On this machine a failed call of those `SetUserAccessServiceDACL` makes leaves a last
error other than ERROR_SUCCESS. -/
def SvcWorld.failuresReported (w : SvcWorld) : Prop :=
  (∀ h, (w.QueryServiceObjectSecuritySize h).1 = false →
    (w.QueryServiceObjectSecuritySize h).2.1 ≠ ERROR_SUCCESS) ∧
  (∀ h n e, w.QueryServiceObjectSecurity h n = Outcome.failed e → e ≠ ERROR_SUCCESS) ∧
  (∀ h p e, w.GetSecurityDescriptorDacl h p = Outcome.failed e → e ≠ ERROR_SUCCESS) ∧
  (∀ h n e, w.LocalAlloc h n = Outcome.failed e → e ≠ ERROR_SUCCESS) ∧
  (∀ h t e, w.CreateWellKnownSid h t = Outcome.failed e → e ≠ ERROR_SUCCESS) ∧
  (∀ h e, w.InitializeSecurityDescriptor h = Outcome.failed e → e ≠ ERROR_SUCCESS) ∧
  (∀ h a e, w.SetSecurityDescriptorDacl h a = Outcome.failed e → e ≠ ERROR_SUCCESS) ∧
  (∀ h a e, w.SetServiceObjectSecurity h a = Outcome.failed e → e ≠ ERROR_SUCCESS)

/-- The last four events of a successful `SetUserAccessServiceDACL`: the entries `ea`
merged into `pacl`, and the new ACL `newAcl` set on the service. -/
def SetUserAccessServiceDACL.applied (ea : List EXPLICIT_ACCESS) (pacl newAcl : Option ACL) :
    SvcTrace :=
  [SvcEvent.setEntriesInAclW ea pacl ERROR_SUCCESS, SvcEvent.initializeSecurityDescriptor true,
    SvcEvent.setSecurityDescriptorDacl true, SvcEvent.setServiceObjectSecurity newAcl true]

/-- A DACL with a full-access entry for the built-in Administrators and a read entry for
the built-in Users. -/
def exampleDacl : ACL :=
  [⟨true, WinBuiltinAdministratorsSid, SERVICE_ALL_ACCESS⟩, ⟨true, WinBuiltinUsersSid, GENERIC_READ⟩]

/-- The nominal machine with a service whose DACL is `exampleDacl` and with
`SetEntriesInAclW` behaving as documented. -/
def mergingSvcWorld : SvcWorld :=
  { nominalSvcWorld with
    QueryServiceObjectSecurity := fun _ _ => Outcome.ok (some exampleDacl)
    SetEntriesInAclW := fun _ ea oldAcl => (ERROR_SUCCESS, some (mergeEntries ea (oldAcl.getD []))) }

/-- The machine `mergingSvcWorld` on which `InitializeSecurityDescriptor` fails and the
last error read afterwards is ERROR_SUCCESS. -/
def silentFailureSvcWorld : SvcWorld :=
  { mergingSvcWorld with InitializeSecurityDescriptor := fun _ => Outcome.failed ERROR_SUCCESS }

/-! ## serviceinstall.cpp: `SvcUninstall` -/

/-- The error code ERROR_SERVICE_MARKED_FOR_DELETE. -/
def ERROR_SERVICE_MARKED_FOR_DELETE : Nat := 1072

/-- The service state SERVICE_STOP_PENDING. -/
def SERVICE_STOP_PENDING : Nat := 3

/-- The number of values of a DWORD. -/
def DWORD_SIZE : Nat := 2 ^ 32

/-- The two fields of SERVICE_STATUS that `SvcUninstall` reads, both DWORD. -/
structure SERVICE_STATUS where
  dwCurrentState : Nat
  dwWaitHint : Nat
  deriving DecidableEq

/-- A call of `SvcUninstall` to the operating system with its outcome; the status is
absent when the call failed. -/
inductive UninstallEvent
  | openSCManager (ok : Bool)
  | openServiceW (name : WStr) (res : HandleResult)
  | controlService (control : Nat) (status : Option SERVICE_STATUS)
  | sleep (dwMilliseconds : Nat)
  | queryServiceStatus (status : Option SERVICE_STATUS)
  | deleteService (ok : Bool) (lastError : Nat)
  deriving DecidableEq

/-- The calls of a run of `SvcUninstall`, oldest first. -/
abbrev UninstallTrace := List UninstallEvent

/-- The machine `SvcUninstall` runs on: each call is answered from the calls made so
far.  `DeleteService` gives its result and the value of `GetLastError()` after it. -/
structure UninstallWorld where
  SVC_NAME : WStr
  OpenSCManager : UninstallTrace → Bool
  OpenServiceW : UninstallTrace → WStr → HandleResult
  ControlService : UninstallTrace → Nat → Option SERVICE_STATUS
  QueryServiceStatus : UninstallTrace → Option SERVICE_STATUS
  DeleteService : UninstallTrace → Bool × Nat

/-- The constant `maxWaitTime` of `SvcUninstall`. -/
def SvcUninstall.maxWaitTime : Nat := 1000 * 60

/-- The argument INFINITE of `Sleep`, with which `Sleep` does not return. -/
def INFINITE : Nat := 0xFFFFFFFF

/-- The `do ... while (QueryServiceStatus(...))` loop of `SvcUninstall`, entered at
history `h` with the status `status` and the DWORD `totalWaitTime`: the events added, or
`none` when the loop does not come to its end: it is still running after `fuel`
iterations, or it has called `Sleep(INFINITE)`, which does not return.  The sum
`totalWaitTime += (status.dwWaitHint + 10)` is taken in DWORD arithmetic and compared
as unsigned with `maxWaitTime`. -/
def SvcUninstall.poll (w : UninstallWorld) :
    Nat → UninstallTrace → SERVICE_STATUS → Nat → Option UninstallTrace
  | 0, _, _, _ => none
  | fuel + 1, h, status, totalWaitTime =>
    if status.dwWaitHint = INFINITE then none
    else
      let e1 := [UninstallEvent.sleep status.dwWaitHint]
      let totalWaitTime :=
        (totalWaitTime + (status.dwWaitHint + 10) % DWORD_SIZE) % DWORD_SIZE
      if status.dwCurrentState = SERVICE_STOPPED then some e1
      else if totalWaitTime > SvcUninstall.maxWaitTime then some e1
      else
        match w.QueryServiceStatus (h ++ e1) with
        | none => some (e1 ++ [UninstallEvent.queryServiceStatus none])
        | some next =>
          let e2 := e1 ++ [UninstallEvent.queryServiceStatus (some next)]
          (SvcUninstall.poll w fuel (h ++ e2) next totalWaitTime).map (fun evs => e2 ++ evs)

/-- The stop phase of `SvcUninstall`: the stop control and, when it succeeded, the
polling loop; `none` when the loop does not come to its end. -/
def SvcUninstall.stopPhase (w : UninstallWorld) (fuel : Nat) (h : UninstallTrace) :
    Option UninstallTrace :=
  let stop := w.ControlService h SERVICE_CONTROL_STOP
  let e1 := [UninstallEvent.controlService SERVICE_CONTROL_STOP stop]
  match stop with
  | none => some e1
  | some status => (SvcUninstall.poll w fuel (h ++ e1) status 0).map (fun evs => e1 ++ evs)

/-- Embedding of `SvcUninstall()` at history `h`: the value returned and the events
added, or `none` when the polling loop does not come to its end (see
`SvcUninstall.poll`), in which case `SvcUninstall` does not return. -/
def SvcUninstall (w : UninstallWorld) (fuel : Nat) (h : UninstallTrace) :
    Option (Bool × UninstallTrace) :=
  let schSCManager := w.OpenSCManager h
  let e1 := [UninstallEvent.openSCManager schSCManager]
  if schSCManager = false then some (false, e1)
  else
    let schService := w.OpenServiceW (h ++ e1) w.SVC_NAME
    let e2 := e1 ++ [UninstallEvent.openServiceW w.SVC_NAME schService]
    if schService ≠ HandleResult.valid then some (false, e2)
    else
      match SvcUninstall.stopPhase w fuel (h ++ e2) with
      | none => none
      | some stopped =>
        let e3 := e2 ++ stopped
        let deleted := w.DeleteService (h ++ e3)
        let e4 := e3 ++ [UninstallEvent.deleteService deleted.1 deleted.2]
        if deleted.1 = false then
          (some (decide (deleted.2 = ERROR_SERVICE_MARKED_FOR_DELETE), e4))
        else some (true, e4)

/-- The events of `SvcUninstall` up to the opening of the service. -/
def SvcUninstall.opened (w : UninstallWorld) : UninstallTrace :=
  [UninstallEvent.openSCManager true, UninstallEvent.openServiceW w.SVC_NAME HandleResult.valid]

/-- The time slept in a run: the sum of the arguments of `Sleep`. -/
def sleepTotal : UninstallTrace → Nat
  | [] => 0
  | UninstallEvent.sleep ms :: rest => ms + sleepTotal rest
  | _ :: rest => sleepTotal rest

/-- Test for a call of `DeleteService`. -/
def UninstallEvent.isDelete : UninstallEvent → Bool
  | UninstallEvent.deleteService _ _ => true
  | _ => false

/-- Every status the machine reports, to the stop control or to a query, has a wait hint
below `bound`. -/
def UninstallWorld.hintsBelow (w : UninstallWorld) (bound : Nat) : Prop :=
  (∀ h c status, w.ControlService h c = some status → status.dwWaitHint < bound) ∧
  (∀ h status, w.QueryServiceStatus h = some status → status.dwWaitHint < bound)

/-- A machine on which the service accepts the stop control and then stays in
SERVICE_STOP_PENDING, reporting the wait hint `hint` each time; `DeleteService`
succeeds. -/
def pendingServiceWorld (hint : Nat) : UninstallWorld where
  SVC_NAME := "UpdateService".toList
  OpenSCManager := fun _ => true
  OpenServiceW := fun _ _ => HandleResult.valid
  ControlService := fun _ _ => some ⟨SERVICE_STOP_PENDING, hint⟩
  QueryServiceStatus := fun _ => some ⟨SERVICE_STOP_PENDING, hint⟩
  DeleteService := fun _ => (true, 0)

/-- A machine on which the service is not running, so the stop control fails, and is
already marked for deletion. -/
def markedServiceWorld : UninstallWorld where
  SVC_NAME := "UpdateService".toList
  OpenSCManager := fun _ => true
  OpenServiceW := fun _ _ => HandleResult.valid
  ControlService := fun _ _ => none
  QueryServiceStatus := fun _ => none
  DeleteService := fun _ => (false, ERROR_SERVICE_MARKED_FOR_DELETE)

/-! ## StartUpdate.cpp: the trigger -/

def ERROR_NOT_ENOUGH_ARGS : Int := -1
def ERROR_UPDATER_PATH_INVALID : Int := -2
def ERROR_REGISTRY_KEY_INVALID : Int := -3
def ERROR_REGISTRY_PATH_INVALID : Int := -4
def ERROR_SERVICE_ALREADY_STARTED : Int := -5

def SC_MANAGER_CONNECT : Nat := 0x1
def SC_MANAGER_ENUMERATE_SERVICE : Nat := 0x4

/-- The service name the trigger opens. -/
def TRIGGER_SERVICE_NAME : WStr := "AveoSystemsUpdate".toList

/-- A call of `wmain` to the operating system with its outcome; `path` wraps a call made
inside `IsValidFullPath`. -/
inductive TriggerEvent
  | path (e : Event)
  | regOpenKeyExW (lpSubKey : WStr) (retCode : Nat)
  | regGetValueW (retCode : Nat) (installPath : WStr)
  | regCloseKey
  | openSCManager (access : Nat) (ok : Bool)
  | openService (name : WStr) (access : Nat) (ok : Bool)
  | queryServiceStatusEx (dwCurrentState : Option Nat)
  | startServiceW (args : List WStr) (ok : Bool)
  | sleep (dwMilliseconds : Nat)
  | getLastError (code : Nat)
  deriving DecidableEq

/-- The calls of a run of `wmain`, oldest first. -/
abbrev TriggerTrace := List TriggerEvent

/-- The calls of `IsValidFullPath` among the events of the trigger. -/
def pathEvents (h : TriggerTrace) : Trace :=
  h.filterMap (fun e => match e with
    | TriggerEvent.path p => some p
    | _ => none)

/-- The machine the trigger runs on: `paths` answers the calls of `IsValidFullPath`, the
other fields answer the calls of `wmain` from the calls made so far.  `RegGetValueW`
gives its return code and the string it stored in `installPath`; `StartServiceW` gives
its result and the value of `GetLastError()` after it. -/
structure TriggerWorld where
  paths : World
  RegOpenKeyExW : TriggerTrace → WStr → Nat
  RegGetValueW : TriggerTrace → Nat × WStr
  OpenSCManager : TriggerTrace → Bool
  OpenService : TriggerTrace → WStr → Nat → Bool
  QueryServiceStatusEx : TriggerTrace → Option Nat
  StartServiceW : TriggerTrace → List WStr → Bool × Nat
  GetLastError : TriggerTrace → Nat

/-- The conversion of a DWORD to the `int` that `wmain` returns. -/
def DWORD_to_int (d : Nat) : Int :=
  if d % DWORD_SIZE < 2 ^ 31 then (d % DWORD_SIZE : Nat) else ((d % DWORD_SIZE : Nat) : Int) - 2 ^ 32

/-- Embedding of `return logLastError(msg)` at history `h`. -/
def logLastError (w : TriggerWorld) (h : TriggerTrace) : Int × TriggerTrace :=
  let code := w.GetLastError h
  (DWORD_to_int code, [TriggerEvent.getLastError code])

/-- The loop `while (currentWaitMS < maxWaitMS)` of `wmain`: the value of `lastError`
after it and the events added.  The first argument is the number of passes left,
`(maxWaitMS - currentWaitMS) / 100`, which is 50 on entry. -/
def wmain.startLoop (w : TriggerWorld) (args : List WStr) :
    Nat → TriggerTrace → Nat → Nat × TriggerTrace
  | 0, _, lastError => (lastError, [])
  | n + 1, h, _ =>
    let result := w.StartServiceW h args
    if result.1 = true then (ERROR_SUCCESS, [TriggerEvent.startServiceW args true])
    else
      let e1 := [TriggerEvent.startServiceW args false, TriggerEvent.sleep 100]
      let rest := wmain.startLoop w args n (h ++ e1) result.2
      (rest.1, e1 ++ rest.2)

/-- Part of `wmain` from `OpenSCManager` on, for the updater path `updater` and the
install path `installPath`. -/
def wmain.startService (w : TriggerWorld) (updater installPath : WStr) (h : TriggerTrace) :
    Int × TriggerTrace :=
  let access := SC_MANAGER_CONNECT ||| SC_MANAGER_ENUMERATE_SERVICE
  let schSCManager := w.OpenSCManager h
  let e1 := [TriggerEvent.openSCManager access schSCManager]
  if schSCManager = false then
    let r := logLastError w (h ++ e1)
    (r.1, e1 ++ r.2)
  else
    let rights := SERVICE_START ||| SERVICE_STOP ||| GENERIC_READ
    let schService := w.OpenService (h ++ e1) TRIGGER_SERVICE_NAME rights
    let e2 := e1 ++ [TriggerEvent.openService TRIGGER_SERVICE_NAME rights schService]
    if schService = false then
      let r := logLastError w (h ++ e2)
      (r.1, e2 ++ r.2)
    else
      let ssStatus := w.QueryServiceStatusEx (h ++ e2)
      let e3 := e2 ++ [TriggerEvent.queryServiceStatusEx ssStatus]
      match ssStatus with
      | none =>
        let r := logLastError w (h ++ e3)
        (r.1, e3 ++ r.2)
      | some dwCurrentState =>
        if dwCurrentState ≠ SERVICE_STOPPED ∧ dwCurrentState ≠ SERVICE_STOP_PENDING then
          (ERROR_SERVICE_ALREADY_STARTED, e3)
        else
          let args := ["software-update".toList, updater, installPath]
          let started := wmain.startLoop w args 50 (h ++ e3) ERROR_SUCCESS
          let e4 := e3 ++ started.2
          if started.1 ≠ ERROR_SUCCESS then
            let r := logLastError w (h ++ e4)
            (r.1, e4 ++ r.2)
          else (DWORD_to_int started.1, e4)

/-- Embedding of `wmain(argc, argv)` at history `h`, `argc` being the length of `argv`:
the value returned and the events added. -/
def wmain (w : TriggerWorld) (argv : List WStr) (h : TriggerTrace) : Int × TriggerTrace :=
  if argv.length < 3 then (ERROR_NOT_ENOUGH_ARGS, [])
  else
    let updater := argv.getD 1 []
    let valid := IsValidFullPath w.paths updater (pathEvents h)
    let e1 := valid.2.map TriggerEvent.path
    if valid.1 = false then (ERROR_UPDATER_PATH_INVALID, e1)
    else
      let retCode := w.RegOpenKeyExW (h ++ e1) (argv.getD 2 [])
      let e2 := e1 ++ [TriggerEvent.regOpenKeyExW (argv.getD 2 []) retCode]
      if retCode ≠ ERROR_SUCCESS then (ERROR_REGISTRY_KEY_INVALID, e2)
      else
        let value := w.RegGetValueW (h ++ e2)
        let e3 := e2 ++ [TriggerEvent.regGetValueW value.1 value.2]
        if value.1 ≠ ERROR_SUCCESS then
          (ERROR_REGISTRY_KEY_INVALID, e3 ++ [TriggerEvent.regCloseKey])
        else
          let installPath := value.2
          let valid := IsValidFullPath w.paths installPath (pathEvents (h ++ e3))
          let e4 := e3 ++ valid.2.map TriggerEvent.path
          if valid.1 = false then
            (ERROR_REGISTRY_PATH_INVALID, e4 ++ [TriggerEvent.regCloseKey])
          else
            let e5 := e4 ++ [TriggerEvent.regCloseKey]
            let r := wmain.startService w updater installPath (h ++ e5)
            (r.1, e5 ++ r.2)

/-- Test for a call to the service-control subsystem. -/
def TriggerEvent.isServiceControl : TriggerEvent → Bool
  | TriggerEvent.openSCManager _ _ => true
  | TriggerEvent.openService _ _ _ => true
  | TriggerEvent.queryServiceStatusEx _ => true
  | TriggerEvent.startServiceW _ _ => true
  | _ => false

/-- The events of the first check of `wmain` that passed: the calls of
`IsValidFullPath(argv[1])`. -/
def wmain.updaterChecked (w : TriggerWorld) (argv : List WStr) (h : TriggerTrace) :
    TriggerTrace :=
  (IsValidFullPath w.paths (argv.getD 1 []) (pathEvents h)).2.map TriggerEvent.path

/-- The events of `wmain` up to the opening of the configuration key, which succeeded. -/
def wmain.keyOpened (w : TriggerWorld) (argv : List WStr) (h : TriggerTrace) : TriggerTrace :=
  wmain.updaterChecked w argv h ++ [TriggerEvent.regOpenKeyExW (argv.getD 2 []) ERROR_SUCCESS]

/-- The install path `RegGetValueW` stores when the key was opened. -/
def wmain.installPath (w : TriggerWorld) (argv : List WStr) (h : TriggerTrace) : WStr :=
  (w.RegGetValueW (h ++ wmain.keyOpened w argv h)).2

/-- The events of `wmain` up to the reading of the value, which succeeded. -/
def wmain.valueRead (w : TriggerWorld) (argv : List WStr) (h : TriggerTrace) : TriggerTrace :=
  wmain.keyOpened w argv h ++
    [TriggerEvent.regGetValueW ERROR_SUCCESS (wmain.installPath w argv h)]

/-- The events of `wmain` up to `RegCloseKey` when the four checks on the arguments and
the configuration passed. -/
def wmain.configured (w : TriggerWorld) (argv : List WStr) (h : TriggerTrace) : TriggerTrace :=
  wmain.valueRead w argv h ++
    (IsValidFullPath w.paths (wmain.installPath w argv h)
      (pathEvents (h ++ wmain.valueRead w argv h))).2.map TriggerEvent.path ++
    [TriggerEvent.regCloseKey]

/-- The events of `wmain` from `OpenSCManager` to the query of the status when the three
calls succeed and the state is `state`. -/
def wmain.queried (state : Nat) : TriggerTrace :=
  [TriggerEvent.openSCManager (SC_MANAGER_CONNECT ||| SC_MANAGER_ENUMERATE_SERVICE) true,
    TriggerEvent.openService TRIGGER_SERVICE_NAME
      (SERVICE_START ||| SERVICE_STOP ||| GENERIC_READ) true,
    TriggerEvent.queryServiceStatusEx (some state)]

/-- The state SERVICE_RUNNING. -/
def SERVICE_RUNNING : Nat := 4

/-- A machine for the trigger on which the paths are valid, the configuration key holds
`exampleInstallDir` and the service is running. -/
def runningTriggerWorld : TriggerWorld where
  paths := nominalWorld
  RegOpenKeyExW := fun _ _ => ERROR_SUCCESS
  RegGetValueW := fun _ => (ERROR_SUCCESS, exampleInstallDir)
  OpenSCManager := fun _ => true
  OpenService := fun _ _ _ => true
  QueryServiceStatusEx := fun _ => some SERVICE_RUNNING
  StartServiceW := fun _ _ => (true, 0)
  GetLastError := fun _ => 0

/-- A machine for the trigger on which the configuration key does not exist. -/
def missingKeyTriggerWorld : TriggerWorld :=
  { runningTriggerWorld with RegOpenKeyExW := fun _ _ => ERROR_FILE_NOT_FOUND }

/-- The arguments of the trigger in the examples. -/
def exampleTriggerArgv : List WStr :=
  ["StartUpdate.exe".toList, exampleUpdater, "SOFTWARE\\Aveo\\key".toList]

/-! ## workmonitor.h: the stores into the buffer of the command line -/

/-- The writes `*d = c; ++d` for the characters of a list in turn, starting at index `d`
of the buffer: pairs of index and character, in program order. -/
def writeAt : Nat → List Char → List (Nat × Char)
  | _, [] => []
  | d, c :: cs => (d, c) :: writeAt (d + 1) cs

/-- The buffer after a list of writes. -/
def writeAll (buf : List Char) (ws : List (Nat × Char)) : List Char :=
  ws.foldl (fun b p => b.set p.1 p.2) buf

/-- The memory writes of `ArgToString(d, s)`, `d` given as an index into the buffer, and
the pointer returned.  Without a double quote in `s` the body is written by
`wcscpy_s(d, len + 1, s)`, which stores the `len` characters of `s` and a terminator at
`d + len`; `d` is then advanced by `len` only. -/
def ArgToString.writes (d : Nat) (s : WStr) : List (Nat × Char) × Nat :=
  let hasDoubleQuote := s.contains DQUOTE
  let addDoubleQuotes := hasCommandLineDelimiter s
  let w1 := if addDoubleQuotes then [(d, DQUOTE)] else []
  let d1 := if addDoubleQuotes then d + 1 else d
  let w2 :=
    if hasDoubleQuote then writeAt d1 (ArgToString.loop s 0) else writeAt d1 (s ++ [NUL])
  let d2 := if hasDoubleQuote then d1 + (ArgToString.loop s 0).length else d1 + s.length
  let w3 := if addDoubleQuotes then [(d2, DQUOTE)] else []
  let d3 := if addDoubleQuotes then d2 + 1 else d2
  (w1 ++ w2 ++ w3, d3)

/-- The memory writes of the first fill loop of `MakeCommandLine` with `aArgcExtra = 0`,
from the pointer `c` on, and the pointer after the loop. -/
def MakeCommandLine.fillWrites : List WStr → Nat → List (Nat × Char) × Nat
  | [], c => ([], c)
  | [a], c => ArgToString.writes c a
  | a :: b :: rest, c =>
    let r := ArgToString.writes c a
    let rs := MakeCommandLine.fillWrites (b :: rest) (r.2 + 1)
    (r.1 ++ (r.2, SPACE) :: rs.1, rs.2)

/-- The memory writes of `MakeCommandLine(argc, argv)` into the buffer `s`: the fill loop
from index 0, then the terminator `*c = 0`. -/
def MakeCommandLine.writes (argv : List WStr) : List (Nat × Char) :=
  let r := MakeCommandLine.fillWrites argv 0
  r.1 ++ [(r.2, NUL)]

/-- The buffer `MakeCommandLine(argc, argv)` returns: `make_unique<wchar_t[]>(len)` gives
`len` zero characters, then the writes are stored. -/
def MakeCommandLine.buffer (argv : List WStr) : List Char :=
  writeAll (List.replicate (MakeCommandLine.len argv) NUL) (MakeCommandLine.writes argv)

/-! ## Further example machines and what the statements name -/

/-- A machine on which the identity resource of the updater is the single byte `a`. -/
def oneByteIdentityWorld : World :=
  { nominalWorld with
    SizeofResource := fun _ _ => 1
    LockResource := fun _ _ => some (resourceBytes "a".toList) }

/-- The error code ERROR_ACCESS_DENIED. -/
def ERROR_ACCESS_DENIED : Nat := 5

/-- A machine on which the service is not installed: `OpenServiceW` fails with
ERROR_SERVICE_DOES_NOT_EXIST. -/
def absentServiceWorld : SvcWorld :=
  { nominalSvcWorld with
    OpenServiceW := fun _ _ => HandleResult.invalid ERROR_SERVICE_DOES_NOT_EXIST }

/-- A machine on which the service cannot be opened: `OpenServiceW` fails with
ERROR_ACCESS_DENIED. -/
def deniedServiceWorld : SvcWorld :=
  { nominalSvcWorld with OpenServiceW := fun _ _ => HandleResult.invalid ERROR_ACCESS_DENIED }

/-- A machine on which the service is already stopped: the stop control fails with
ERROR_SERVICE_NOT_ACTIVE and the poll observes SERVICE_STOPPED. -/
def notActiveServiceWorld : SvcWorld :=
  { nominalSvcWorld with ControlService := fun _ _ => (false, ERROR_SERVICE_NOT_ACTIVE) }

/-- Test for the call `MoveFileExW(path, nullptr, MOVEFILE_DELAY_UNTIL_REBOOT)`. -/
def SvcEvent.schedulesDeletion (path : WStr) : SvcEvent → Bool
  | SvcEvent.moveFileExW src none flags _ =>
    decide (src = path ∧ flags = MOVEFILE_DELAY_UNTIL_REBOOT)
  | _ => false

/-- The events of `StopService` up to the opening of the service. -/
def StopService.opened (w : SvcWorld) : SvcTrace :=
  [SvcEvent.openSCManager true, SvcEvent.openServiceW w.SVC_NAME HandleResult.valid]

/-- The declared substitute name lies inside the part of the reparse buffer that
`PathBuffer` holds: its `SubstituteNameLength` bytes from `SubstituteNameOffset` are
characters of the buffer. -/
def ReparseNames.inBuffer (n : ReparseNames) : Prop :=
  n.SubstituteNameOffset / 2 + n.SubstituteNameLength / 2 ≤ n.PathBuffer.length

/-- The declared substitute name is long enough to hold the prefix: at least the four
wide characters of `L"\\??\\"`, eight bytes. -/
def ReparseNames.holdsPrefix (n : ReparseNames) : Prop :=
  2 * NT_PREFIX.length ≤ n.SubstituteNameLength

/-- The history at which `SvcInstall` calls `StopService` when the service was opened and
the versions were read: the given history, the opening calls and the calls of
`SvcInstall.readVersions`. -/
def SvcInstall.atStop (w : SvcWorld) (fs : Files) (newServiceBinaryPath : WStr)
    (h : SvcTrace) : SvcTrace :=
  h ++ SvcInstall.opened w newServiceBinaryPath ++
    (SvcInstall.readVersions w fs newServiceBinaryPath
      (h ++ SvcInstall.opened w newServiceBinaryPath)).2

/-- The history at which `SvcInstall` calls `CopyFileW` for the direct overwrite when
`StopService` returned TRUE. -/
def SvcInstall.atCopy (w : SvcWorld) (fs : Files) (newServiceBinaryPath : WStr)
    (h : SvcTrace) : SvcTrace :=
  SvcInstall.atStop w fs newServiceBinaryPath h ++
    ((StopService w (SvcInstall.atStop w fs newServiceBinaryPath h)).2 ++
      [SvcEvent.retStopService true])

theorem charDiff_eq_zero (x y : Char) : ((x.toNat : Int) - (y.toNat : Int) = 0) ↔ x = y := by
  constructor
  · intro h0
    have h1 : x.toNat = y.toNat := by omega
    apply Char.ext
    apply UInt32.ext
    exact h1
  · intro h0
    simp [h0]


theorem wcsncmp_eq_zero_iff_prefix (p : List Char) (hp : NUL ∉ p) (target : List Char) :
    wcsncmp target p p.length = 0 ↔ p <+: target := by
  induction p generalizing target with
  | nil => simp [wcsncmp]
  | cons y p ih =>
    have hy : y ≠ NUL := fun h => hp (by simp [h])
    have hp' : NUL ∉ p := fun h => hp (by simp [h])
    cases target with
    | nil =>
      have : NUL ≠ y := fun h => hy h.symm
      simp [wcsncmp, this, charDiff_eq_zero]
    | cons x r =>
      by_cases hxy : x = y
      · subst hxy
        simp [wcsncmp, hy, ih hp' r, List.cons_prefix_cons]
      · have hyx : ¬ y = x := fun h => hxy h.symm
        simp [wcsncmp, hxy, hyx, charDiff_eq_zero, List.cons_prefix_cons]

theorem wcsncmp_NT_PREFIX (target : List Char) :
    wcsncmp target NT_PREFIX (ARRAYSIZE_NT_PREFIX - 1) = 0 ↔ NT_PREFIX <+: target :=
  wcsncmp_eq_zero_iff_prefix NT_PREFIX (by decide) target




theorem checkPartialPath_fst (w : World) (path : WStr) (h : Trace) :
    (checkPartialPath w path h).1 =
      linkOutcome (w.GetFileAttributesW h path) (openedLink w path h) (readLink w path h) := by
  unfold checkPartialPath linkOutcome readLink openedLink REPARSE_SHARE REPARSE_FLAGS
  simp only [List.singleton_append]
  split
  · split
    · split <;> rfl
    · split
      · rfl
      · split
        · split
          · rfl
          · split <;> rfl
        · split
          · split
            · rfl
            · split <;> rfl
          · rfl
  · rfl


theorem Kinds_nil (ks : List Kind) : Kinds ks [] := by
  intro e he
  simp at he

theorem Kinds_cons (ks : List Kind) (e : Event) (evs : Trace) :
    Kinds ks (e :: evs) ↔ e.kind ∈ ks ∧ Kinds ks evs := by
  simp [Kinds]

theorem Kinds_append (ks : List Kind) (a b : Trace) :
    Kinds ks (a ++ b) ↔ Kinds ks a ∧ Kinds ks b := by
  simp only [Kinds, List.mem_append]
  constructor
  · intro h
    exact ⟨fun e he => h e (Or.inl he), fun e he => h e (Or.inr he)⟩
  · rintro ⟨h1, h2⟩ e (he | he)
    · exact h1 e he
    · exact h2 e he

theorem Kinds_mono {ks ks1 : List Kind} {evs : Trace} (h : Kinds ks evs)
    (hsub : ∀ k ∈ ks, k ∈ ks1) : Kinds ks1 evs :=
  fun e he => hsub _ (h e he)

theorem Kinds_ne {ks : List Kind} {evs : Trace} {k : Kind} (hk : Kinds ks evs)
    (hnot : k ∉ ks) : ∀ e ∈ evs, e.kind ≠ k :=
  fun e he hs => hnot (hs ▸ hk e he)

theorem checkPartialPath_events (w : World) (path : WStr) (h : Trace) :
    Kinds [Kind.pathProbe] (checkPartialPath w path h).2 := by
  unfold checkPartialPath
  simp only [List.singleton_append]
  split
  · split
    · split <;> simp [Kinds, Event.kind]
    · split
      · simp [Kinds, Event.kind]
      · split
        · split
          · simp [Kinds, Event.kind]
          · split <;> simp [Kinds, Event.kind]
        · split
          · split
            · simp [Kinds, Event.kind]
            · split <;> simp [Kinds, Event.kind]
          · simp [Kinds, Event.kind]
  · simp [Kinds, Event.kind]

theorem linkLoop_events (w : World) (rest : List WStr) (path : WStr) (h : Trace) :
    Kinds [Kind.pathProbe] (linkLoop w rest path h).2 := by
  induction rest generalizing path h with
  | nil =>
    have hev := checkPartialPath_events w path h
    rcases hc : checkPartialPath w path h with ⟨step, ev⟩
    rw [hc] at hev
    cases step <;> simpa [linkLoop, hc] using hev
  | cons nextToken rest ih =>
    have hev := checkPartialPath_events w path h
    rcases hc : checkPartialPath w path h with ⟨step, ev⟩
    rw [hc] at hev
    cases step with
    | returns b => simpa [linkLoop, hc] using hev
    | next =>
      simp only [linkLoop, hc]
      exact (Kinds_append _ _ _).mpr ⟨hev, ih _ _⟩

theorem PathContainsInvalidLinks_events (w : World) (fullPath : WStr) (h : Trace) :
    Kinds [Kind.pathProbe] (PathContainsInvalidLinks w fullPath h).2 := by
  unfold PathContainsInvalidLinks
  cases htok : wcstok_s_all (fullPath.take (MAXPATHLEN - 1)) [] with
  | nil => simp [htok, Kinds_nil]
  | cons nextToken rest =>
    simp only [htok]
    exact linkLoop_events w rest nextToken h

theorem IsValidFullPath_events (w : World) (origFullPath : WStr) (h : Trace) :
    Kinds [Kind.pathProbe] (IsValidFullPath w origFullPath h).2 := by
  have hl := PathContainsInvalidLinks_events w
  have h1 : ∀ a b, Kinds [Kind.pathProbe] [Event.getFullPathNameW a b] := by
    intro a b
    simp [Kinds, Event.kind]
  unfold IsValidFullPath
  dsimp only []
  split
  · exact Kinds_nil _
  · split
    · exact h1 _ _
    · split
      · exact h1 _ _
      · split
        · exact h1 _ _
        · split
          · exact h1 _ _
          · split
            · exact h1 _ _
            · split
              · exact (Kinds_append _ _ _).mpr ⟨h1 _ _, hl _ _⟩
              · exact (Kinds_append _ _ _).mpr ⟨h1 _ _, hl _ _⟩

theorem UpdaterIsValid_events (w : World) (updater installDir : WStr) (h : Trace) :
    Kinds [Kind.trustCheck] (UpdaterIsValid w updater installDir h).2 := by
  unfold UpdaterIsValid
  simp only [List.singleton_append, List.cons_append, List.nil_append]
  split
  · simp [Kinds, Event.kind]
  · split
    · simp [Kinds, Event.kind, GENERIC_READ]
    · split
      · simp [Kinds, Event.kind, GENERIC_READ]
      · split
        · simp [Kinds, Event.kind, GENERIC_READ]
        · split
          · simp [Kinds, Event.kind, GENERIC_READ]
          · split
            · simp [Kinds, Event.kind, GENERIC_READ]
            · split
              · simp [Kinds, Event.kind, GENERIC_READ]
              · split
                · simp [Kinds, Event.kind, GENERIC_READ]
                · split <;> simp [Kinds, Event.kind, GENERIC_READ]

theorem GetSecureUpdaterPath_events (w : World) (h : Trace) :
    Kinds [Kind.stagingPrep] (GetSecureUpdaterPath w h).2 := by
  unfold GetSecureUpdaterPath
  dsimp only []
  split
  · simp [Kinds, Event.kind]
  · split
    · simp [Kinds, Event.kind]
    · split
      · simp [Kinds, Event.kind]
      · split <;> simp [Kinds, Event.kind]

theorem DeleteSecureUpdater_events (w : World) (path : WStr) (h : Trace) :
    Kinds [Kind.stagingPrep] (DeleteSecureUpdater w path h).2 := by
  unfold DeleteSecureUpdater
  dsimp only []
  split
  · split <;> simp [Kinds, Event.kind]
  · simp [Kinds]

theorem StartUpdateProcess_events (w : World) (argv : List WStr) (h : Trace) :
    ∃ cmdLine started rest,
      (StartUpdateProcess w argv h).2 =
        Event.createProcessW (argv.headD []) cmdLine started :: rest ∧
      Kinds [Kind.childWait] rest := by
  unfold StartUpdateProcess
  simp only [List.singleton_append, List.cons_append, List.nil_append]
  split
  · split
    · exact ⟨_, _, _, rfl, by simp [Kinds, Event.kind]⟩
    · split
      · exact ⟨_, _, _, rfl, by simp [Kinds, Event.kind]⟩
      · exact ⟨_, _, _, rfl, by simp [Kinds, Event.kind]⟩
  · exact ⟨_, _, _, rfl, by simp [Kinds, Event.kind]⟩

/-- If a list is cut at an event of kind `k` in two ways, and one of the cuts has no
event of kind `k` on either side, the two cuts are the same. -/
theorem unique_cut (k : Kind) (x y : Event) (A B pre post : Trace)
    (hA : ∀ e ∈ A, e.kind ≠ k) (hB : ∀ e ∈ B, e.kind ≠ k) (hy : y.kind = k)
    (heq : A ++ x :: B = pre ++ y :: post) : pre = A ∧ y = x ∧ post = B := by
  induction A generalizing pre with
  | nil =>
    cases pre with
    | nil =>
      simp only [List.nil_append, List.cons.injEq] at heq
      exact ⟨rfl, heq.1.symm, heq.2.symm⟩
    | cons p pre1 =>
      simp only [List.nil_append, List.cons_append, List.cons.injEq] at heq
      have : y ∈ B := by rw [heq.2]; simp
      exact absurd hy (hB y this)
  | cons a A ih =>
    cases pre with
    | nil =>
      simp only [List.nil_append, List.cons_append, List.cons.injEq] at heq
      have := hA a (by simp)
      rw [heq.1] at this
      exact absurd hy this
    | cons p pre1 =>
      simp only [List.cons_append, List.cons.injEq] at heq
      have := ih pre1 (fun e he => hA e (by simp [he])) heq.2
      exact ⟨by rw [heq.1, this.1], this.2⟩

theorem VerifySameFiles.sameBlocks_self (blocks : Nat) (c : List Nat) :
    VerifySameFiles.sameBlocks blocks c c = true := by
  induction blocks generalizing c with
  | zero => simp [VerifySameFiles.sameBlocks]
  | succ n ih => simp [VerifySameFiles.sameBlocks, ih]

theorem VerifySameFiles_self (c : List Nat) :
    VerifySameFiles (some c) (some c) = (true, true) := by
  simp [VerifySameFiles, VerifySameFiles.sameBlocks_self]

theorem VerifySameFiles.sameBlocks_eq (blocks : Nat) (c1 c2 : List Nat)
    (hlen : c1.length = c2.length) (hfit : c1.length < blocks * COMPARE_BLOCKSIZE)
    (hsame : VerifySameFiles.sameBlocks blocks c1 c2 = true) : c1 = c2 := by
  induction blocks generalizing c1 c2 with
  | zero => simp at hfit
  | succ n ih =>
    unfold VerifySameFiles.sameBlocks at hsame
    by_cases htake : c1.take COMPARE_BLOCKSIZE = c2.take COMPARE_BLOCKSIZE
    · rw [if_pos htake] at hsame
      by_cases hshort : c1.length ≤ COMPARE_BLOCKSIZE
      · rw [List.take_of_length_le hshort, List.take_of_length_le (by omega)] at htake
        exact htake
      · have hdrop := ih (c1.drop COMPARE_BLOCKSIZE) (c2.drop COMPARE_BLOCKSIZE)
          (by simp [hlen]) (by simp only [List.length_drop]; unfold COMPARE_BLOCKSIZE at *; omega)
          hsame
        rw [← List.take_append_drop COMPARE_BLOCKSIZE c1,
          ← List.take_append_drop COMPARE_BLOCKSIZE c2, htake, hdrop]
    · rw [if_neg htake] at hsame
      simp at hsame

theorem VerifySameFiles_detects (c1 c2 : List Nat) (hne : c1 ≠ c2) :
    VerifySameFiles (some c1) (some c2) = (true, false) := by
  unfold VerifySameFiles
  dsimp only []
  by_cases hlen : c1.length = c2.length
  · rw [if_neg (by simpa using hlen)]
    cases hs : VerifySameFiles.sameBlocks (c1.length / COMPARE_BLOCKSIZE + 1) c1 c2
    · rfl
    · exfalso
      apply hne
      apply VerifySameFiles.sameBlocks_eq _ c1 c2 hlen _ hs
      unfold COMPARE_BLOCKSIZE
      omega
  · rw [if_pos hlen]


theorem PathContainsInvalidLinks_single (w : World) (fullPath component : WStr) (h : Trace)
    (htok : wcstok_s_all (fullPath.take (MAXPATHLEN - 1)) [] = [component]) :
    (PathContainsInvalidLinks w fullPath h).1 =
      match linkOutcome (w.GetFileAttributesW h component) (openedLink w component h)
        (readLink w component h) with
      | LinkStep.returns b => b
      | LinkStep.next => false := by
  unfold PathContainsInvalidLinks
  simp only [htok]
  rw [← checkPartialPath_fst]
  unfold linkLoop
  rcases checkPartialPath w component h with ⟨step, e⟩
  cases step <;> rfl

/-- A buffer that holds a terminator is never read past its end by `strcmp`. -/
theorem strcmp_defined_of_terminated (buf lit : List Char) (hnul : NUL ∈ buf) :
    strcmp buf lit ≠ none := by
  induction buf generalizing lit with
  | nil => simp at hnul
  | cons b bs ih =>
    cases lit with
    | nil => simp [strcmp]
    | cons l ls =>
      unfold strcmp
      by_cases hbl : b ≠ l
      · rw [if_pos hbl]
        simp
      · rw [if_neg hbl]
        by_cases hb : b = NUL
        · rw [if_pos hb]
          simp
        · rw [if_neg hb]
          apply ih
          rcases List.mem_cons.mp hnul with h1 | h1
          · exact absurd h1.symm hb
          · exact h1

/-- What `UpdaterIsValid` returns: FALSE; or no defined value, when every check before
the comparison passed and `strcmp` ran past the copy of the resource; or the verdict
of the allow-list check, when every check passed and `strcmp` found the copy equal to
the identity string.  In the last two cases the events are the checks in source
order. -/
theorem UpdaterIsValid_result_cases (w : World) (updater installDir : WStr) (h : Trace) :
    (UpdaterIsValid w updater installDir h).1 = some false ∨
    (∃ size data,
      strcmp (identityCopy size data) UPDATER_IDENTITY_STRING = none ∧
      UpdaterIsValid w updater installDir h =
        (none, UpdaterIsValid.checksPassed updater size)) ∨
    (∃ size data res,
      strcmp (identityCopy size data) UPDATER_IDENTITY_STRING = some 0 ∧
      UpdaterIsValid w updater installDir h =
        (some res, UpdaterIsValid.checksPassed updater size ++
          [Event.doesBinaryMatchAllowedCertificates installDir updater res])) := by
  unfold UpdaterIsValid
  simp only [List.singleton_append, List.cons_append, List.nil_append]
  cases hloc : w.IsLocalFile h updater with
  | mk ok isLocal =>
  cases ok
  · simp
  cases isLocal
  · simp
  simp only [Bool.true_eq_false, or_self, if_false]
  cases hlock : w.CreateFileW (h ++ [Event.isLocalFile updater true true]) updater GENERIC_READ
    FILE_SHARE_READ 0 with
  | invalid e => simp
  | valid =>
  simp only [ne_eq, not_true_eq_false, if_false]
  cases hmod : w.LoadLibraryEx (h ++ [Event.isLocalFile updater true true,
    Event.createFileW updater GENERIC_READ FILE_SHARE_READ 0 HandleResult.valid]) updater
    LOAD_LIBRARY_AS_DATAFILE
  · simp
  simp only [Bool.true_eq_false, if_false]
  cases hres : w.FindResourceA (h ++ [Event.isLocalFile updater true true,
    Event.createFileW updater GENERIC_READ FILE_SHARE_READ 0 HandleResult.valid,
    Event.loadLibraryEx updater LOAD_LIBRARY_AS_DATAFILE true]) updater
    IDS_UPDATER_IDENTITY IDS_UPDATER_IDENTITY
  · simp
  simp only [Bool.true_eq_false, if_false]
  cases hload : w.LoadResource (h ++ [Event.isLocalFile updater true true,
    Event.createFileW updater GENERIC_READ FILE_SHARE_READ 0 HandleResult.valid,
    Event.loadLibraryEx updater LOAD_LIBRARY_AS_DATAFILE true,
    Event.findResourceA IDS_UPDATER_IDENTITY IDS_UPDATER_IDENTITY true]) updater
  · simp
  simp only [Bool.true_eq_false, if_false]
  generalize w.SizeofResource (h ++ [Event.isLocalFile updater true true,
    Event.createFileW updater GENERIC_READ FILE_SHARE_READ 0 HandleResult.valid,
    Event.loadLibraryEx updater LOAD_LIBRARY_AS_DATAFILE true,
    Event.findResourceA IDS_UPDATER_IDENTITY IDS_UPDATER_IDENTITY true,
    Event.loadResource true]) updater = size
  by_cases hsize : size = 0
  · simp [hsize]
  rw [if_neg hsize]
  cases hdata : w.LockResource (h ++ [Event.isLocalFile updater true true,
    Event.createFileW updater GENERIC_READ FILE_SHARE_READ 0 HandleResult.valid,
    Event.loadLibraryEx updater LOAD_LIBRARY_AS_DATAFILE true,
    Event.findResourceA IDS_UPDATER_IDENTITY IDS_UPDATER_IDENTITY true,
    Event.loadResource true, Event.sizeofResource size]) updater with
  | none => simp
  | some data =>
  simp only []
  cases hcmp : strcmp (identityCopy size data) UPDATER_IDENTITY_STRING with
  | none =>
    right; left
    exact ⟨size, data, hcmp, rfl⟩
  | some c =>
    simp only []
    by_cases hc : c = 0
    · right; right
      subst hc
      simp only [ne_eq, not_true_eq_false, if_false]
      exact ⟨size, data, _, hcmp, rfl⟩
    · left
      simp [hc]
theorem toLower_eq_imp (y d : Char) (hd : ¬ (97 ≤ d.toNat ∧ d.toNat ≤ 122))
    (h : y.toLower = d) : y = d := by
  by_cases hu : 65 ≤ y.toNat ∧ y.toNat ≤ 90
  · exfalso
    obtain ⟨h1, h2⟩ := hu
    have hy : Char.ofNat y.toNat = y := Char.ofNat_toNat y
    generalize y.toNat = n at h1 h2 hy
    subst hy
    subst h
    interval_cases n <;> exact hd (by decide)
  · unfold Char.toLower at h
    simp only [ge_iff_le] at h
    rw [if_neg hu] at h
    exact h

theorem toLower_eq_iff_of_not_letter (y d : Char) (hd : ¬ (97 ≤ d.toNat ∧ d.toNat ≤ 122))
    (hd2 : d.toLower = d) : y.toLower = d ↔ y = d :=
  ⟨toLower_eq_imp y d hd, fun h => by rw [h, hd2]⟩

theorem _wcsicmp_eq_zero (a b : WStr) (ha : NUL ∉ a) (hb : NUL ∉ b)
    (h : _wcsicmp a b = 0) : a.map Char.toLower = b.map Char.toLower := by
  have hnul : ∀ x : Char, x ≠ NUL → ((x.toLower.toNat : Int) ≠ 0) := by
    intro x hx h0
    have h1 : ((x.toLower.toNat : Int) - (NUL.toNat : Int) = 0) := by
      rw [h0]; decide
    have h2 := (charDiff_eq_zero _ _).mp h1
    exact hx (toLower_eq_imp x NUL (by decide) h2)
  induction a generalizing b with
  | nil =>
    cases b with
    | nil => rfl
    | cons y bs =>
      exfalso
      simp only [_wcsicmp] at h
      have := hnul y (fun hy => hb (by simp [hy]))
      omega
  | cons x as ih =>
    cases b with
    | nil =>
      exfalso
      simp only [_wcsicmp] at h
      exact hnul x (fun hx => ha (by simp [hx])) h
    | cons y bs =>
      simp only [_wcsicmp] at h
      by_cases hxy : x.toLower = y.toLower
      · rw [if_pos hxy] at h
        simp only [List.map_cons, hxy]
        rw [ih bs (fun hm => ha (by simp [hm])) (fun hm => hb (by simp [hm])) h]
      · rw [if_neg hxy] at h
        exact absurd ((charDiff_eq_zero _ _).mp h) hxy

theorem wcstok_s_all_map (f : Char → Char) (hf : ∀ c, f c = BACKSLASH ↔ c = BACKSLASH)
    (s cur : List Char) :
    wcstok_s_all (s.map f) (cur.map f) = (wcstok_s_all s cur).map (List.map f) := by
  induction s generalizing cur with
  | nil =>
    by_cases hc : cur = []
    · simp [wcstok_s_all, hc]
    · simp [wcstok_s_all, hc, List.map_reverse]
  | cons c cs ih =>
    by_cases hb : c = BACKSLASH
    · have hfb : f c = BACKSLASH := (hf c).mpr hb
      by_cases hc : cur = []
      · have := ih []
        simp only [List.map_nil] at this
        simp [wcstok_s_all, hb, hfb, hc, this, (hf BACKSLASH).mpr rfl]
      · have := ih []
        simp only [List.map_nil] at this
        simp [wcstok_s_all, hb, hfb, hc, this, List.map_reverse, (hf BACKSLASH).mpr rfl]
    · have hfb : ¬ f c = BACKSLASH := fun h => hb ((hf c).mp h)
      have := ih (c :: cur)
      simp only [List.map_cons] at this
      simp [wcstok_s_all, hb, hfb, this]

theorem slash_of_wcsicmp (a b : WStr) (ha : NUL ∉ a) (hb : NUL ∉ b)
    (h : _wcsicmp a b = 0) (hs : SLASH ∈ a) : SLASH ∈ b := by
  have hmap := _wcsicmp_eq_zero a b ha hb h
  have h1 : SLASH ∈ a.map Char.toLower := by
    rw [List.mem_map]
    exact ⟨SLASH, hs, by decide⟩
  rw [hmap, List.mem_map] at h1
  obtain ⟨y, hy, hyl⟩ := h1
  rw [toLower_eq_imp y SLASH (by decide) hyl] at hy
  exact hy

theorem map_toLower_eq_dots (tok2 tok : List Char) (hdots : ∀ c ∈ tok, c = DOT)
    (h : tok2.map Char.toLower = tok) : tok2 = tok := by
  induction tok2 generalizing tok with
  | nil => simpa using h
  | cons y ys ih =>
    cases tok with
    | nil => simp at h
    | cons d ds =>
      simp only [List.map_cons, List.cons.injEq] at h
      have hd : d = DOT := hdots d (by simp)
      have hy : y = d := by
        apply toLower_eq_imp y d _ h.1
        rw [hd]
        decide
      rw [hy, ih ds (fun c hc => hdots c (by simp [hc])) h.2]

theorem dot_of_wcsicmp (a b : WStr) (ha : NUL ∉ a) (hb : NUL ∉ b)
    (h : _wcsicmp a b = 0) (hd : hasDotComponent a) : hasDotComponent b := by
  have hmap := _wcsicmp_eq_zero a b ha hb h
  have hf : ∀ c : Char, c.toLower = BACKSLASH ↔ c = BACKSLASH :=
    fun c => toLower_eq_iff_of_not_letter c BACKSLASH (by decide) (by decide)
  have hta := wcstok_s_all_map Char.toLower hf a []
  have htb := wcstok_s_all_map Char.toLower hf b []
  simp only [List.map_nil] at hta htb
  rw [hmap, htb] at hta
  have key : ∀ tok : List Char, (∀ c ∈ tok, c = DOT) → tok ∈ wcstok_s_all a [] →
      tok ∈ wcstok_s_all b [] := by
    intro tok hdots hmem
    have htok : tok.map Char.toLower = tok := by
      have : ∀ c ∈ tok, c.toLower = c := by
        intro c hc
        rw [hdots c hc]
        decide
      calc tok.map Char.toLower = tok.map id := List.map_congr_left this
        _ = tok := List.map_id tok
    have h1 : tok ∈ (wcstok_s_all a []).map (List.map Char.toLower) :=
      List.mem_map.mpr ⟨tok, hmem, htok⟩
    rw [← hta, List.mem_map] at h1
    obtain ⟨tok2, hmem2, heq2⟩ := h1
    rw [map_toLower_eq_dots tok2 tok hdots heq2] at hmem2
    exact hmem2
  rcases hd with h1 | h1
  · exact Or.inl (key _ (by simp) h1)
  · exact Or.inr (key _ (by simp) h1)

/-! ## Shape of the runs of the pipeline -/

/-- The events of `ProcessSoftwareUpdateCommand`: trust checks, then either nothing more
(the checks did not end with an acceptance), or the acceptance followed by the spawn of
`argv[0]` and the supervision of the child. -/
theorem ProcessSoftwareUpdateCommand_shape (w : World) (argv : List WStr) (h : Trace) :
    (Kinds [Kind.trustCheck, Kind.trusted] (ProcessSoftwareUpdateCommand w argv h).2 ∧
      (ProcessSoftwareUpdateCommand w argv h).1 ≠ some true) ∨
    ∃ U installDir cmdLine started W,
      (ProcessSoftwareUpdateCommand w argv h).2 =
        U ++ Event.retUpdaterIsValid (argv.headD []) installDir true ::
          Event.createProcessW (argv.headD []) cmdLine started :: W ∧
      Kinds [Kind.trustCheck] U ∧ Kinds [Kind.childWait, Kind.selfUpdate] W := by
  unfold ProcessSoftwareUpdateCommand
  split
  · left
    exact ⟨Kinds_nil _, by simp⟩
  · split
    · left
      exact ⟨Kinds_nil _, by simp⟩
    · rename_i installDir hdir
      have hU := UpdaterIsValid_events w (argv.headD []) installDir h
      dsimp only []
      split
      · left
        exact ⟨Kinds_mono hU (by simp), by simp⟩
      · right
        obtain ⟨cmdLine, started, rest, hrun, hrest⟩ := StartUpdateProcess_events w argv
          (h ++ ((UpdaterIsValid w (argv.headD []) installDir h).2 ++
            [Event.retUpdaterIsValid (argv.headD []) installDir true]))
        split
        · refine ⟨_, installDir, cmdLine, started, rest ++ [Event.startServiceUpdate], ?_, hU, ?_⟩
          · rw [hrun]
            simp
          · rw [Kinds_append]
            exact ⟨Kinds_mono hrest (by simp), by simp [Kinds, Event.kind]⟩
        · refine ⟨_, installDir, cmdLine, started, rest, ?_, hU, Kinds_mono hrest (by simp)⟩
          rw [hrun]
          simp
      · left
        refine ⟨?_, by simp⟩
        rw [Kinds_append]
        exact ⟨Kinds_mono hU (by simp), by simp [Kinds, Event.kind]⟩

theorem ProcessSoftwareUpdateCommand_events (w : World) (argv : List WStr) (h : Trace) :
    Kinds [Kind.trustCheck, Kind.trusted, Kind.spawn, Kind.childWait, Kind.selfUpdate]
      (ProcessSoftwareUpdateCommand w argv h).2 := by
  rcases ProcessSoftwareUpdateCommand_shape w argv h with ⟨hk, _⟩ | ⟨U, d, c, s, W, heq, hU, hW⟩
  · exact Kinds_mono hk (by simp)
  · rw [heq, Kinds_append, Kinds_cons, Kinds_cons]
    exact ⟨Kinds_mono hU (by simp), by simp [Event.kind], by simp [Event.kind],
      Kinds_mono hW (by simp)⟩

/-- The events of the staging part of `ExecuteServiceCommand`. -/
theorem stageAndRun_shape (w : World) (argv : List WStr) (installDir : WStr) (h : Trace) :
    ∃ X, Kinds [Kind.trustCheck, Kind.trusted, Kind.stagingPrep] X ∧
      (((ExecuteServiceCommand.stageAndRun w argv installDir h).2 = X ∧
          (ExecuteServiceCommand.stageAndRun w argv installDir h).1 ≠ some true) ∨
        ∃ secureUpdaterPath,
          Event.retUpdaterIsValid (argv.getD 2 []) installDir true ∈ X ∧
          (∃ h1, (GetSecureUpdaterPath w h1).1 = some secureUpdaterPath) ∧
          (ExecuteServiceCommand.stageAndRun w argv installDir h =
              (some false, X ++ [Event.copyFileW (argv.getD 2 []) secureUpdaterPath false]) ∨
            (∃ ok same,
              VerifySameFiles
                (w.FileContent
                  (h ++ (X ++ [Event.copyFileW (argv.getD 2 []) secureUpdaterPath true]))
                  (argv.getD 2 []))
                (w.FileContent
                  (h ++ (X ++ [Event.copyFileW (argv.getD 2 []) secureUpdaterPath true]))
                  secureUpdaterPath) = (ok, same) ∧
              (ok = false ∨ same = false) ∧
              ExecuteServiceCommand.stageAndRun w argv installDir h =
                (some false, X ++ [Event.copyFileW (argv.getD 2 []) secureUpdaterPath true,
                  Event.verifySameFiles (argv.getD 2 []) secureUpdaterPath ok same])) ∨
            (VerifySameFiles
                (w.FileContent
                  (h ++ (X ++ [Event.copyFileW (argv.getD 2 []) secureUpdaterPath true]))
                  (argv.getD 2 []))
                (w.FileContent
                  (h ++ (X ++ [Event.copyFileW (argv.getD 2 []) secureUpdaterPath true]))
                  secureUpdaterPath) = (true, true) ∧
              ∃ T,
                (ExecuteServiceCommand.stageAndRun w argv installDir h).2 =
                  X ++ Event.copyFileW (argv.getD 2 []) secureUpdaterPath true ::
                    Event.verifySameFiles (argv.getD 2 []) secureUpdaterPath true true ::
                    Event.callProcessSoftwareUpdateCommand (secureUpdaterPath :: argv.drop 3) ::
                    ((ProcessSoftwareUpdateCommand w (secureUpdaterPath :: argv.drop 3)
                      (h ++ (X ++ [Event.copyFileW (argv.getD 2 []) secureUpdaterPath true,
                        Event.verifySameFiles (argv.getD 2 []) secureUpdaterPath true true,
                        Event.callProcessSoftwareUpdateCommand
                          (secureUpdaterPath :: argv.drop 3)]))).2 ++ T) ∧
                (ExecuteServiceCommand.stageAndRun w argv installDir h).1 =
                  (ProcessSoftwareUpdateCommand w (secureUpdaterPath :: argv.drop 3)
                      (h ++ (X ++ [Event.copyFileW (argv.getD 2 []) secureUpdaterPath true,
                        Event.verifySameFiles (argv.getD 2 []) secureUpdaterPath true true,
                        Event.callProcessSoftwareUpdateCommand
                          (secureUpdaterPath :: argv.drop 3)]))).1 ∧
                (T = [] ∧ (ExecuteServiceCommand.stageAndRun w argv installDir h).1 = none ∨
                  ∃ result D, T = Event.retProcessSoftwareUpdateCommand result :: D ∧
                    Kinds [Kind.stagingPrep] D ∧
                    (ExecuteServiceCommand.stageAndRun w argv installDir h).1 =
                      some result)))) := by
  have hU := UpdaterIsValid_events w (argv.getD 2 []) installDir h
  unfold ExecuteServiceCommand.stageAndRun
  dsimp only []
  generalize UpdaterIsValid w (argv.getD 2 []) installDir h = valid at hU ⊢
  obtain ⟨v1, v2⟩ := valid
  have hret : ∀ b, Kinds [Kind.trustCheck, Kind.trusted, Kind.stagingPrep]
      (v2 ++ [Event.retUpdaterIsValid (argv.getD 2 []) installDir b]) := by
    intro b
    rw [Kinds_append]
    exact ⟨Kinds_mono hU (by simp), by simp [Kinds, Event.kind]⟩
  rcases v1 with _ | _ | _
  · exact ⟨v2, Kinds_mono hU (by simp), Or.inl ⟨rfl, by simp⟩⟩
  · exact ⟨_, hret false, Or.inl ⟨rfl, by simp⟩⟩
  · dsimp only []
    have hG := GetSecureUpdaterPath_events w
      (h ++ (v2 ++ [Event.retUpdaterIsValid (argv.getD 2 []) installDir true]))
    generalize hsecure : GetSecureUpdaterPath w
      (h ++ (v2 ++ [Event.retUpdaterIsValid (argv.getD 2 []) installDir true])) = secure at hG ⊢
    obtain ⟨s1, s2⟩ := secure
    have hX1 : Kinds [Kind.trustCheck, Kind.trusted, Kind.stagingPrep]
        (v2 ++ [Event.retUpdaterIsValid (argv.getD 2 []) installDir true] ++ s2) := by
      rw [Kinds_append]
      exact ⟨hret true, Kinds_mono hG (by simp)⟩
    rcases s1 with _ | secureUpdaterPath
    · exact ⟨_, hX1, Or.inl ⟨rfl, by simp⟩⟩
    · dsimp only []
      have hD := DeleteSecureUpdater_events w secureUpdaterPath
      have hD1 := hD (h ++ (v2 ++ [Event.retUpdaterIsValid (argv.getD 2 []) installDir true] ++ s2))
      generalize DeleteSecureUpdater w secureUpdaterPath
        (h ++ (v2 ++ [Event.retUpdaterIsValid (argv.getD 2 []) installDir true] ++ s2)) = del
        at hD1 ⊢
      obtain ⟨d1, d2⟩ := del
      dsimp only [] at hD1 ⊢
      refine ⟨v2 ++ [Event.retUpdaterIsValid (argv.getD 2 []) installDir true] ++ s2 ++ d2,
        (Kinds_append _ _ _).mpr ⟨hX1, Kinds_mono hD1 (by simp)⟩,
        Or.inr ⟨secureUpdaterPath, by simp, ⟨_, by rw [hsecure]⟩, ?_⟩⟩
      generalize v2 ++ [Event.retUpdaterIsValid (argv.getD 2 []) installDir true] ++ s2 ++ d2 = X
      cases hcopy : w.CopyFileW (h ++ X) (argv.getD 2 []) secureUpdaterPath
      · left
        simp
      · right
        simp only [Bool.true_eq_false, if_false]
        generalize hsame : VerifySameFiles
          (w.FileContent (h ++ (X ++ [Event.copyFileW (argv.getD 2 []) secureUpdaterPath true]))
            (argv.getD 2 []))
          (w.FileContent (h ++ (X ++ [Event.copyFileW (argv.getD 2 []) secureUpdaterPath true]))
            secureUpdaterPath) = same
        obtain ⟨ok, sm⟩ := same
        dsimp only []
        cases ok
        · left
          exact ⟨false, sm, rfl, Or.inl rfl, by simp⟩
        · cases sm
          · left
            exact ⟨true, false, rfl, Or.inr rfl, by simp⟩
          · right
            refine ⟨rfl, ?_⟩
            simp only [Bool.true_eq_false, if_false, List.append_assoc, List.cons_append,
              List.nil_append]
            generalize ProcessSoftwareUpdateCommand w (secureUpdaterPath :: argv.drop 3)
              (h ++ (X ++ [Event.copyFileW (argv.getD 2 []) secureUpdaterPath true,
                Event.verifySameFiles (argv.getD 2 []) secureUpdaterPath true true,
                Event.callProcessSoftwareUpdateCommand (secureUpdaterPath :: argv.drop 3)])) = run
            obtain ⟨r1, r2⟩ := run
            rcases r1 with _ | result
            · exact ⟨[], by simp, rfl, Or.inl ⟨rfl, rfl⟩⟩
            · exact ⟨Event.retProcessSoftwareUpdateCommand result ::
                  (DeleteSecureUpdater w secureUpdaterPath
                    (h ++ (X ++ Event.copyFileW (argv.getD 2 []) secureUpdaterPath true ::
                      Event.verifySameFiles (argv.getD 2 []) secureUpdaterPath true true ::
                      Event.callProcessSoftwareUpdateCommand (secureUpdaterPath :: argv.drop 3) ::
                      (r2 ++ [Event.retProcessSoftwareUpdateCommand result])))).2,
                rfl, rfl, Or.inr ⟨result, _, rfl, hD _, rfl⟩⟩

/-- The events of `ExecuteServiceCommand`: either the run stops before the trust check
with FALSE, or it validated the install directory and goes on with the staging part. -/
theorem ExecuteServiceCommand_shape (w : World) (argv : List WStr) (h : Trace) :
    (Kinds [Kind.uuid, Kind.pathProbe, Kind.validated, Kind.registry]
        (ExecuteServiceCommand w argv h).2 ∧
      (ExecuteServiceCommand w argv h).1 = some false) ∨
    ∃ F installDir,
      Kinds [Kind.uuid, Kind.pathProbe, Kind.validated, Kind.registry] F ∧
      Event.retIsValidFullPath (argv.getD 3 []) true ∈ F ∧
      GetInstallationDir (argv.drop 2) = some installDir ∧
      ExecuteServiceCommand w argv h =
        ((ExecuteServiceCommand.stageAndRun w argv installDir (h ++ F)).1,
          F ++ (ExecuteServiceCommand.stageAndRun w argv installDir (h ++ F)).2) := by
  unfold ExecuteServiceCommand
  dsimp only []
  split
  · exact Or.inl ⟨Kinds_nil _, rfl⟩
  · split
    · split
      · exact Or.inl ⟨by simp [Kinds, Event.kind], rfl⟩
      · have hP := IsValidFullPath_events w (argv.getD 3 []) (h ++ [Event.getUUIDString])
        generalize IsValidFullPath w (argv.getD 3 []) (h ++ [Event.getUUIDString]) = valid
          at hP ⊢
        obtain ⟨v1, v2⟩ := valid
        have hF1 : Kinds [Kind.uuid, Kind.pathProbe, Kind.validated, Kind.registry]
            ([Event.getUUIDString] ++ v2 ++ [Event.retIsValidFullPath (argv.getD 3 []) v1]) := by
          rw [Kinds_append, Kinds_append]
          exact ⟨⟨by simp [Kinds, Event.kind], Kinds_mono hP (by simp)⟩,
            by simp [Kinds, Event.kind]⟩
        cases v1
        · exact Or.inl ⟨hF1, rfl⟩
        · simp only [Bool.true_eq_false, if_false]
          split
          · exact Or.inl ⟨hF1, rfl⟩
          · rename_i installDir hdir
            have hF2 : ∀ b, Kinds [Kind.uuid, Kind.pathProbe, Kind.validated, Kind.registry]
                ([Event.getUUIDString] ++ v2 ++ [Event.retIsValidFullPath (argv.getD 3 []) true]
                  ++ [Event.doesFallbackKeyExist b]) := by
              intro b
              rw [Kinds_append]
              exact ⟨hF1, by simp [Kinds, Event.kind]⟩
            split
            · rename_i hfb
              rw [hfb]
              split
              · rename_i updateServiceKey hkey
                split
                · left
                  refine ⟨?_, rfl⟩
                  rw [Kinds_append]
                  exact ⟨hF2 false, by simp [Kinds, Event.kind]⟩
                · rename_i hst
                  right
                  have hst1 : w.RegOpenKeyExW
                      (h ++ ([Event.getUUIDString] ++ v2 ++
                        [Event.retIsValidFullPath (argv.getD 3 []) true] ++
                        [Event.doesFallbackKeyExist false])) updateServiceKey = ERROR_SUCCESS := by
                    simpa using hst
                  refine ⟨[Event.getUUIDString] ++ v2 ++
                      [Event.retIsValidFullPath (argv.getD 3 []) true] ++
                      [Event.doesFallbackKeyExist false] ++
                      [Event.regOpenKeyExW updateServiceKey ERROR_SUCCESS] ++ [Event.regCloseKey],
                    installDir, ?_, by simp, hdir, ?_⟩
                  · rw [Kinds_append, Kinds_append]
                    exact ⟨⟨hF2 false, by simp [Kinds, Event.kind]⟩, by simp [Kinds, Event.kind]⟩
                  · rw [hst1]
              · left
                exact ⟨hF2 false, rfl⟩
            · rename_i hfb
              right
              have hfb1 : w.DoesFallbackKeyExist
                  (h ++ ([Event.getUUIDString] ++ v2 ++
                    [Event.retIsValidFullPath (argv.getD 3 []) true])) = true := by
                simpa using hfb
              refine ⟨[Event.getUUIDString] ++ v2 ++
                  [Event.retIsValidFullPath (argv.getD 3 []) true] ++
                  [Event.doesFallbackKeyExist true], installDir, hF2 true, by simp, hdir, ?_⟩
              rw [hfb1]
    · exact Or.inl ⟨by simp [Kinds, Event.kind], rfl⟩

/-! ## The claims -/

/-- C1.  In every run of `ExecuteServiceCommand`, before any `CreateProcessW` the run
has seen, in this order, `IsValidFullPath` accept the install directory `argv[3]`,
`UpdaterIsValid` accept the caller-supplied updater `argv[2]`, `CopyFileW` of `argv[2]` to
the secure path succeed and `VerifySameFiles` report the two files identical; and the
application spawned is the secure path the copy was made to. -/
theorem spawn_only_after_verified_staging (w : World) (argv : List WStr) (h pre post : Trace)
    (application cmdLine : WStr) (started : Bool)
    (hrun : (ExecuteServiceCommand w argv h).2 =
      pre ++ Event.createProcessW application cmdLine started :: post) :
    ∃ installDir secureUpdaterPath,
      List.Sublist
        [Event.retIsValidFullPath (argv.getD 3 []) true,
          Event.retUpdaterIsValid (argv.getD 2 []) installDir true,
          Event.copyFileW (argv.getD 2 []) secureUpdaterPath true,
          Event.verifySameFiles (argv.getD 2 []) secureUpdaterPath true true] pre ∧
      application = secureUpdaterPath ∧
      ∃ h1, (GetSecureUpdaterPath w h1).1 = some secureUpdaterPath := by
  have hmem : Event.createProcessW application cmdLine started ∈
      (ExecuteServiceCommand w argv h).2 := by
    rw [hrun]; simp
  rcases ExecuteServiceCommand_shape w argv h with ⟨hk, _⟩ | ⟨F, installDir, hF, hvalid, _, hE⟩
  · have := hk _ hmem
    simp [Event.kind] at this
  · rw [hE] at hrun hmem
    dsimp only [] at hrun hmem
    have hFs : ∀ e ∈ F, e.kind ≠ Kind.spawn := by
      intro e he hs
      have := hF e he
      rw [hs] at this
      simp at this
    obtain ⟨X, hX, hcase⟩ := stageAndRun_shape w argv installDir (h ++ F)
    have hXs : ∀ e ∈ X, e.kind ≠ Kind.spawn := by
      intro e he hs
      have := hX e he
      rw [hs] at this
      simp at this
    rcases hcase with ⟨hS, _⟩ |
      ⟨s, htrusted, hsecure, hS | ⟨ok, same, _, _, hS⟩ | ⟨_, T, hS, _, hT⟩⟩
    · rw [hS] at hmem
      rcases List.mem_append.mp hmem with h1 | h1
      · exact absurd rfl (hFs _ h1)
      · exact absurd rfl (hXs _ h1)
    · rw [hS] at hmem
      simp only [List.mem_append, List.mem_singleton, reduceCtorEq, or_false] at hmem
      rcases hmem with h1 | h1
      · exact absurd rfl (hFs _ h1)
      · exact absurd rfl (hXs _ h1)
    · rw [hS] at hmem
      simp only [List.mem_append, List.mem_cons, reduceCtorEq, List.mem_singleton, or_false,
        List.not_mem_nil] at hmem
      rcases hmem with h1 | h1
      · exact absurd rfl (hFs _ h1)
      · exact absurd rfl (hXs _ h1)
    · rw [hS] at hrun
      have hTs : ∀ e ∈ T, e.kind ≠ Kind.spawn := by
        intro e he hs
        rcases hT with ⟨hT0, _⟩ | ⟨result, D, hT1, hD, _⟩
        · rw [hT0] at he
          simp at he
        · rw [hT1] at he
          rcases List.mem_cons.mp he with h1 | h1
          · rw [h1] at hs
            simp [Event.kind] at hs
          · have := hD e h1
            rw [hs] at this
            simp at this
      rcases ProcessSoftwareUpdateCommand_shape w (s :: argv.drop 3)
          (h ++ F ++ (X ++ [Event.copyFileW (argv.getD 2 []) s true,
            Event.verifySameFiles (argv.getD 2 []) s true true,
            Event.callProcessSoftwareUpdateCommand (s :: argv.drop 3)]))
        with ⟨hQ, _⟩ | ⟨U, dir, cmd, st, W, hQ, hU, hW⟩
      · exfalso
        have hmem2 : Event.createProcessW application cmdLine started ∈
            F ++ (X ++ Event.copyFileW (argv.getD 2 []) s true ::
              Event.verifySameFiles (argv.getD 2 []) s true true ::
              Event.callProcessSoftwareUpdateCommand (s :: argv.drop 3) ::
              ((ProcessSoftwareUpdateCommand w (s :: argv.drop 3)
                (h ++ F ++ (X ++ [Event.copyFileW (argv.getD 2 []) s true,
                  Event.verifySameFiles (argv.getD 2 []) s true true,
                  Event.callProcessSoftwareUpdateCommand (s :: argv.drop 3)]))).2 ++ T)) := by
          rw [hrun]; simp
        simp only [List.mem_append, List.mem_cons, reduceCtorEq, false_or] at hmem2
        rcases hmem2 with h1 | h1 | h1 | h1
        · exact absurd rfl (hFs _ h1)
        · exact absurd rfl (hXs _ h1)
        · have := hQ _ h1
          simp [Event.kind] at this
        · exact absurd rfl (hTs _ h1)
      · rw [hQ] at hrun
        have hcut := unique_cut Kind.spawn
          (Event.createProcessW ((s :: argv.drop 3).headD []) cmd st)
          (Event.createProcessW application cmdLine started)
          (F ++ (X ++ Event.copyFileW (argv.getD 2 []) s true ::
              Event.verifySameFiles (argv.getD 2 []) s true true ::
              Event.callProcessSoftwareUpdateCommand (s :: argv.drop 3) ::
              (U ++ [Event.retUpdaterIsValid ((s :: argv.drop 3).headD []) dir true])))
          (W ++ T) pre post ?_ ?_ rfl ?_
        · obtain ⟨hpre, happ, _⟩ := hcut
          refine ⟨installDir, s, ?_, ?_, hsecure⟩
          · rw [hpre]
            have h1 : List.Sublist [Event.retIsValidFullPath (argv.getD 3 []) true] F :=
              List.singleton_sublist.mpr hvalid
            have h2 : List.Sublist [Event.retUpdaterIsValid (argv.getD 2 []) installDir true] X :=
              List.singleton_sublist.mpr htrusted
            have h3 : List.Sublist
                [Event.copyFileW (argv.getD 2 []) s true,
                  Event.verifySameFiles (argv.getD 2 []) s true true]
                (Event.copyFileW (argv.getD 2 []) s true ::
                  Event.verifySameFiles (argv.getD 2 []) s true true ::
                  Event.callProcessSoftwareUpdateCommand (s :: argv.drop 3) ::
                  (U ++ [Event.retUpdaterIsValid ((s :: argv.drop 3).headD []) dir true])) := by
              apply List.Sublist.cons₂
              apply List.Sublist.cons₂
              exact List.nil_sublist _
            exact List.Sublist.append h1 (List.Sublist.append h2 h3)
          · simp only [Event.createProcessW.injEq] at happ
            simpa using happ.1
        · intro e he
          simp only [List.mem_append, List.mem_cons, List.mem_singleton, List.not_mem_nil,
            or_false] at he
          rcases he with h1 | h1 | h1 | h1 | h1 | h1 | h1
          · exact hFs _ h1
          · exact hXs _ h1
          · rw [h1]; simp [Event.kind]
          · rw [h1]; simp [Event.kind]
          · rw [h1]; simp [Event.kind]
          · intro hs
            have := hU e h1
            rw [hs] at this
            simp at this
          · rw [h1]; simp [Event.kind]
        · intro e he
          rcases List.mem_append.mp he with h1 | h1
          · intro hs
            have := hW e h1
            rw [hs] at this
            simp at this
          · exact hTs _ h1
        · rw [← hrun]
          simp

/-- C1, on the nominal machine: the run spawns the staged updater after the four
steps. -/
theorem spawn_only_after_verified_staging_witness :
    (ExecuteServiceCommand nominalWorld exampleArgv []).2 =
        beforeSpawn (ExecuteServiceCommand nominalWorld exampleArgv []).2 ++
          Event.createProcessW exampleSecurePath
            (exampleSecurePath ++ " /S /D=C:\\app".toList) true ::
          afterSpawn (ExecuteServiceCommand nominalWorld exampleArgv []).2 ∧
    ∃ installDir secureUpdaterPath,
      List.Sublist
        [Event.retIsValidFullPath (exampleArgv.getD 3 []) true,
          Event.retUpdaterIsValid (exampleArgv.getD 2 []) installDir true,
          Event.copyFileW (exampleArgv.getD 2 []) secureUpdaterPath true,
          Event.verifySameFiles (exampleArgv.getD 2 []) secureUpdaterPath true true]
        (beforeSpawn (ExecuteServiceCommand nominalWorld exampleArgv []).2) ∧
      exampleSecurePath = secureUpdaterPath ∧
      ∃ h1, (GetSecureUpdaterPath nominalWorld h1).1 = some secureUpdaterPath :=
  ⟨by decide,
    spawn_only_after_verified_staging nominalWorld exampleArgv []
      (beforeSpawn (ExecuteServiceCommand nominalWorld exampleArgv []).2)
      (afterSpawn (ExecuteServiceCommand nominalWorld exampleArgv []).2)
      exampleSecurePath (exampleSecurePath ++ " /S /D=C:\\app".toList) true (by decide)⟩

/-- C2.  Take a run of `ExecuteServiceCommand` that reaches `VerifySameFiles`.  The
comparison comes right after the successful `CopyFileW` of the same two files and its
answer is that of the comparison of their contents at that moment.  If it fails or
reports a difference, the run ends there with FALSE: nothing follows the comparison
(no deletion of the staged file), and nothing before it is a call of
`ProcessSoftwareUpdateCommand`, a spawn or a self-update.  If the two files hold the
same content at that moment, the comparison reports them identical (and a difference
when the contents differ), and whenever it reports them identical the next event is
the call of `ProcessSoftwareUpdateCommand` on the staged path. -/
theorem verify_mismatch_aborts_run (w : World) (argv : List WStr) (h pre post : Trace)
    (file1 file2 : WStr) (ok same : Bool)
    (hrun : (ExecuteServiceCommand w argv h).2 =
      pre ++ Event.verifySameFiles file1 file2 ok same :: post) :
    (∃ pre1, pre = pre1 ++ [Event.copyFileW file1 file2 true]) ∧
    (ok, same) = VerifySameFiles (w.FileContent (h ++ pre) file1)
      (w.FileContent (h ++ pre) file2) ∧
    (ok = false ∨ same = false →
      (ExecuteServiceCommand w argv h).1 = some false ∧ post = [] ∧
      ∀ e ∈ pre, e.kind ≠ Kind.call ∧ e.kind ≠ Kind.spawn ∧ e.kind ≠ Kind.selfUpdate) ∧
    (∀ c, w.FileContent (h ++ pre) file1 = some c → w.FileContent (h ++ pre) file2 = some c →
      ok = true ∧ same = true) ∧
    (∀ c1 c2, w.FileContent (h ++ pre) file1 = some c1 →
      w.FileContent (h ++ pre) file2 = some c2 → c1 ≠ c2 → ok = true ∧ same = false) ∧
    (ok = true ∧ same = true →
      ∃ post1, post = Event.callProcessSoftwareUpdateCommand (file2 :: argv.drop 3) :: post1) := by
  have hmem : Event.verifySameFiles file1 file2 ok same ∈
      (ExecuteServiceCommand w argv h).2 := by
    rw [hrun]; simp
  rcases ExecuteServiceCommand_shape w argv h with ⟨hk, _⟩ | ⟨F, installDir, hF, hvalid, _, hE⟩
  · have := hk _ hmem
    simp [Event.kind] at this
  · rw [hE] at hrun hmem ⊢
    dsimp only [] at hrun hmem ⊢
    obtain ⟨X, hX, hcase⟩ := stageAndRun_shape w argv installDir (h ++ F)
    have hFX : Kinds [Kind.uuid, Kind.pathProbe, Kind.validated, Kind.registry,
        Kind.trustCheck, Kind.trusted, Kind.stagingPrep] (F ++ X) := by
      rw [Kinds_append]
      exact ⟨Kinds_mono hF (by simp), Kinds_mono hX (by simp)⟩
    have hA : ∀ s b, Kinds [Kind.uuid, Kind.pathProbe, Kind.validated, Kind.registry,
        Kind.trustCheck, Kind.trusted, Kind.stagingPrep, Kind.copy]
        (F ++ (X ++ [Event.copyFileW (argv.getD 2 []) s b])) := by
      intro s b
      rw [← List.append_assoc, Kinds_append]
      exact ⟨Kinds_mono hFX (by simp), by simp [Kinds, Event.kind]⟩
    have hfinish : ∀ s ok1 same1 B, (∀ e ∈ B, e.kind ≠ Kind.verify) →
        F ++ (X ++ Event.copyFileW (argv.getD 2 []) s true ::
          Event.verifySameFiles (argv.getD 2 []) s ok1 same1 :: B) =
        pre ++ Event.verifySameFiles file1 file2 ok same :: post →
        pre = F ++ (X ++ [Event.copyFileW (argv.getD 2 []) s true]) ∧
        file1 = argv.getD 2 [] ∧ file2 = s ∧ ok = ok1 ∧ same = same1 ∧ post = B := by
      intro s ok1 same1 B hB heq
      have hcut := unique_cut Kind.verify (Event.verifySameFiles (argv.getD 2 []) s ok1 same1)
        (Event.verifySameFiles file1 file2 ok same)
        (F ++ (X ++ [Event.copyFileW (argv.getD 2 []) s true])) B pre post
        (Kinds_ne (hA s true) (by decide)) hB rfl (by rw [← heq]; simp)
      obtain ⟨h1, h2, h3⟩ := hcut
      simp only [Event.verifySameFiles.injEq] at h2
      exact ⟨h1, h2.1, h2.2.1, h2.2.2.1, h2.2.2.2, h3⟩
    rcases hcase with ⟨hS, _⟩ |
      ⟨s, htrusted, hsecure, hS | ⟨ok1, same1, hver, hbad, hS⟩ | ⟨hver, T, hS, hres, hT⟩⟩
    · rw [hS] at hmem
      have := hFX _ hmem
      simp [Event.kind] at this
    · rw [hS] at hmem
      have := hA s false _ hmem
      simp [Event.kind] at this
    · rw [hS] at hrun ⊢
      dsimp only [] at hrun ⊢
      obtain ⟨hpre, hf1, hf2, hok, hsame, hpost⟩ := hfinish s ok1 same1 [] (by simp) hrun
      subst hf1 hf2 hok hsame hpost
      have hver1 : (ok, same) = VerifySameFiles (w.FileContent (h ++ pre) (argv.getD 2 []))
          (w.FileContent (h ++ pre) file2) := by
        rw [hpre, ← List.append_assoc, hver]
      refine ⟨⟨F ++ X, by rw [hpre, List.append_assoc]⟩, hver1, ?_, ?_, ?_, ?_⟩
      · intro _
        refine ⟨rfl, rfl, ?_⟩
        intro e he
        rw [hpre] at he
        have := hA file2 true e he
        refine ⟨?_, ?_, ?_⟩ <;> intro hs <;> rw [hs] at this <;> simp at this
      · intro c hc1 hc2
        rw [hc1, hc2, VerifySameFiles_self] at hver1
        simp only [Prod.mk.injEq] at hver1
        exact hver1
      · intro c1 c2 hc1 hc2 hne
        rw [hc1, hc2, VerifySameFiles_detects c1 c2 hne] at hver1
        simp only [Prod.mk.injEq] at hver1
        exact hver1
      · rintro ⟨h1, h2⟩
        rcases hbad with hb | hb
        · rw [h1] at hb; simp at hb
        · rw [h2] at hb; simp at hb
    · rw [hS] at hrun
      have hQ := ProcessSoftwareUpdateCommand_events w (s :: argv.drop 3)
        (h ++ F ++ (X ++ [Event.copyFileW (argv.getD 2 []) s true,
          Event.verifySameFiles (argv.getD 2 []) s true true,
          Event.callProcessSoftwareUpdateCommand (s :: argv.drop 3)]))
      have hTk : Kinds [Kind.ret, Kind.stagingPrep] T := by
        rcases hT with ⟨hT0, _⟩ | ⟨result, D, hT1, hD, _⟩
        · rw [hT0]; exact Kinds_nil _
        · rw [hT1, Kinds_cons]
          exact ⟨by simp [Event.kind], Kinds_mono hD (by simp)⟩
      have hB : ∀ e ∈ Event.callProcessSoftwareUpdateCommand (s :: argv.drop 3) ::
          ((ProcessSoftwareUpdateCommand w (s :: argv.drop 3)
            (h ++ F ++ (X ++ [Event.copyFileW (argv.getD 2 []) s true,
              Event.verifySameFiles (argv.getD 2 []) s true true,
              Event.callProcessSoftwareUpdateCommand (s :: argv.drop 3)]))).2 ++ T),
          e.kind ≠ Kind.verify := by
        intro e he
        rcases List.mem_cons.mp he with h1 | h1
        · rw [h1]; simp [Event.kind]
        · rcases List.mem_append.mp h1 with h2 | h2
          · exact Kinds_ne hQ (by decide) e h2
          · exact Kinds_ne hTk (by decide) e h2
      obtain ⟨hpre, hf1, hf2, hok, hsame, hpost⟩ := hfinish s true true _ hB hrun
      subst hf1 hf2 hok hsame
      have hver1 : (true, true) = VerifySameFiles (w.FileContent (h ++ pre) (argv.getD 2 []))
          (w.FileContent (h ++ pre) file2) := by
        rw [hpre, ← List.append_assoc, hver]
      refine ⟨⟨F ++ X, by rw [hpre, List.append_assoc]⟩, hver1, ?_, ?_, ?_, ?_⟩
      · intro hb
        simp at hb
      · intro _ _ _
        exact ⟨rfl, rfl⟩
      · intro c1 c2 hc1 hc2 hne
        rw [hc1, hc2, VerifySameFiles_detects c1 c2 hne] at hver1
        simp at hver1
      · intro _
        exact ⟨_, hpost⟩

/-- C2, on a machine where the source is modified after the copy: the comparison
reports a difference and the run ends there with FALSE. -/
theorem verify_mismatch_aborts_run_witness :
    (ExecuteServiceCommand modifiedSourceWorld exampleArgv []).2 =
        beforeVerify (ExecuteServiceCommand modifiedSourceWorld exampleArgv []).2 ++
          Event.verifySameFiles exampleUpdater exampleSecurePath true false ::
          afterVerify (ExecuteServiceCommand modifiedSourceWorld exampleArgv []).2 ∧
    (ExecuteServiceCommand modifiedSourceWorld exampleArgv []).1 = some false ∧
    afterVerify (ExecuteServiceCommand modifiedSourceWorld exampleArgv []).2 = [] :=
  ⟨by decide,
    ((verify_mismatch_aborts_run modifiedSourceWorld exampleArgv []
      (beforeVerify (ExecuteServiceCommand modifiedSourceWorld exampleArgv []).2)
      (afterVerify (ExecuteServiceCommand modifiedSourceWorld exampleArgv []).2)
      exampleUpdater exampleSecurePath true false (by decide)).2.2.1 (Or.inr rfl)).1,
    ((verify_mismatch_aborts_run modifiedSourceWorld exampleArgv []
      (beforeVerify (ExecuteServiceCommand modifiedSourceWorld exampleArgv []).2)
      (afterVerify (ExecuteServiceCommand modifiedSourceWorld exampleArgv []).2)
      exampleUpdater exampleSecurePath true false (by decide)).2.2.1 (Or.inr rfl)).2.1⟩

/-- C3, at the failing input: the identity resource is the four bytes `aveo` without
terminator.  The copy `charData` is these four bytes, it differs from the identity
string, `strcmp` reads past its end, and `UpdaterIsValid` has no defined value where the
claim says it returns false. -/
theorem UpdaterIsValid_prefix_identity_overread :
    identityCopy 4 (resourceBytes "aveo".toList) = "aveo".toList ∧
    "aveo".toList ≠ UPDATER_IDENTITY_STRING ∧
    strcmp "aveo".toList UPDATER_IDENTITY_STRING = none ∧
    UpdaterIsValid prefixIdentityWorld exampleUpdater exampleInstallDir [] =
      (none, UpdaterIsValid.checksPassed exampleUpdater 4) := by
  decide

/-- C4, at the failing input: the identity resource is the 51 characters of the
identity string without terminator.  Every check before the comparison passes, the copy
holds exactly the characters of the identity string, the allow-list check would pass,
and `UpdaterIsValid` has no defined value, because `strcmp` reads past the end of the
copy, where the claim says it returns true. -/
theorem UpdaterIsValid_unterminated_identity_overread :
    identityCopy 51 (resourceBytes UPDATER_IDENTITY_STRING) = UPDATER_IDENTITY_STRING ∧
    (∀ t, unterminatedIdentityWorld.DoesBinaryMatchAllowedCertificates t exampleInstallDir
      exampleUpdater = true) ∧
    UpdaterIsValid unterminatedIdentityWorld exampleUpdater exampleInstallDir [] =
      (none, UpdaterIsValid.checksPassed exampleUpdater 51) := by
  refine ⟨by decide, fun _ => rfl, by decide⟩

/-- C5, at the failing input: `C:\app\up` is an ancestor of `C:\app\up\bin`, it is
flagged as a reparse point, it is a symbolic link whose substitute name `..` does not
begin with the prefix, and `IsValidFullPath` returns true for `C:\app\up\bin`, where
the claim says false. -/
theorem IsValidFullPath_accepts_short_link_target :
    "C:\\app\\up".toList ∈ ancestors shortTargetWorld "C:\\app\\up\\bin".toList ∧
    shortTargetWorld.GetFileAttributesW [] "C:\\app\\up".toList &&&
      FILE_ATTRIBUTE_REPARSE_POINT ≠ 0 ∧
    (∃ buffer, shortTargetWorld.DeviceIoControl [] "C:\\app\\up".toList = some buffer ∧
      buffer.ReparseTag = IO_REPARSE_TAG_SYMLINK ∧
      buffer.SymbolicLinkReparseBuffer.substituteName = "..".toList ∧
      ¬ NT_PREFIX <+: buffer.SymbolicLinkReparseBuffer.substituteName) ∧
    (IsValidFullPath shortTargetWorld "C:\\app\\up\\bin".toList []).1 = true := by
  refine ⟨by decide, by decide, ⟨_, rfl, by decide, by decide, by decide⟩, by decide⟩

/-- C7.  `IsValidFullPath` returns true only for an input of at most MAXPATHLEN-1
characters for which `GetFullPathNameW` and `PathCanonicalizeW` succeed and give a
canonical form that `_wcsicmp` finds equal to the input; an input that differs from its
canonical form, whatever the spelling, is rejected, in particular an input with a
forward slash or with a `.` or `..` component when its canonical form has none; an
over-long input is rejected without any event. -/
theorem IsValidFullPath_true_only_canonical (w : World) (origFullPath : WStr) (h : Trace) :
    ((IsValidFullPath w origFullPath h).1 = true →
      origFullPath.length ≤ MAXPATHLEN - 1 ∧
      (w.GetFullPathNameW h origFullPath MAXPATHLEN).1 ≠ 0 ∧
      ∃ canonicalPath,
        w.PathCanonicalizeW (w.GetFullPathNameW h origFullPath MAXPATHLEN).2 =
          some canonicalPath ∧
        _wcsicmp origFullPath canonicalPath = 0) ∧
    (∀ canonicalPath,
      w.PathCanonicalizeW (w.GetFullPathNameW h origFullPath MAXPATHLEN).2 =
          some canonicalPath →
      _wcsicmp origFullPath canonicalPath ≠ 0 →
      (IsValidFullPath w origFullPath h).1 = false) ∧
    (∀ canonicalPath,
      w.PathCanonicalizeW (w.GetFullPathNameW h origFullPath MAXPATHLEN).2 =
          some canonicalPath →
      NUL ∉ origFullPath → NUL ∉ canonicalPath →
      SLASH ∉ canonicalPath → ¬ hasDotComponent canonicalPath →
      SLASH ∈ origFullPath ∨ hasDotComponent origFullPath →
      (IsValidFullPath w origFullPath h).1 = false) ∧
    (origFullPath.length > MAXPATHLEN - 1 →
      IsValidFullPath w origFullPath h = (false, [])) := by
  have hdiffer : ∀ canonicalPath,
      w.PathCanonicalizeW (w.GetFullPathNameW h origFullPath MAXPATHLEN).2 =
          some canonicalPath →
      _wcsicmp origFullPath canonicalPath ≠ 0 →
      (IsValidFullPath w origFullPath h).1 = false := by
    intro canonicalPath hcanon hcmp
    unfold IsValidFullPath
    by_cases hlen : origFullPath.length > MAXPATHLEN - 1
    · simp [hlen]
    · rw [if_neg hlen]
      by_cases hfull : (w.GetFullPathNameW h origFullPath MAXPATHLEN).1 = 0
      · simp [hfull]
      · simp [hfull, hcanon, hcmp]
  refine ⟨?_, hdiffer, ?_, ?_⟩
  · intro htrue
    unfold IsValidFullPath at htrue
    by_cases hlen : origFullPath.length > MAXPATHLEN - 1
    · simp [hlen] at htrue
    · rw [if_neg hlen] at htrue
      by_cases hfull : (w.GetFullPathNameW h origFullPath MAXPATHLEN).1 = 0
      · simp [hfull] at htrue
      · simp only [hfull, if_false] at htrue
        cases hcanon : w.PathCanonicalizeW (w.GetFullPathNameW h origFullPath MAXPATHLEN).2 with
        | none => simp [hcanon] at htrue
        | some canonicalPath =>
          simp only [hcanon] at htrue
          by_cases hcmp : _wcsicmp origFullPath canonicalPath ≠ 0
          · simp [hcmp] at htrue
          · refine ⟨by omega, hfull, canonicalPath, rfl, ?_⟩
            simpa using hcmp
  · intro canonicalPath hcanon hnul1 hnul2 hslash hdot hbad
    apply hdiffer canonicalPath hcanon
    intro hcmp
    rcases hbad with hb | hb
    · exact hslash (slash_of_wcsicmp _ _ hnul1 hnul2 hcmp hb)
    · exact hdot (dot_of_wcsicmp _ _ hnul1 hnul2 hcmp hb)
  · intro hlen
    unfold IsValidFullPath
    rw [if_pos hlen]

/-- C7, on a machine where `GetFullPathNameW` turns forward slashes into backslashes:
`C:/app` is rejected. -/
theorem IsValidFullPath_true_only_canonical_witness :
    slashWorld.PathCanonicalizeW
      (slashWorld.GetFullPathNameW [] "C:/app".toList MAXPATHLEN).2 = some exampleInstallDir ∧
    SLASH ∈ "C:/app".toList ∧
    (IsValidFullPath slashWorld "C:/app".toList []).1 = false :=
  ⟨by decide, by decide,
    (IsValidFullPath_true_only_canonical slashWorld "C:/app".toList []).2.2.1
      exampleInstallDir (by decide) (by decide) (by decide) (by decide)
      (by unfold hasDotComponent; decide) (Or.inl (by decide))⟩

/-- C8 as stated fails: on a machine where the component does not exist it is flagged
(`INVALID_FILE_ATTRIBUTES` has the reparse bit), its open fails with
`ERROR_FILE_NOT_FOUND`, so no tag and no target is read, and `PathContainsInvalidLinks`
returns false. -/
theorem missing_component_accepted_without_tag :
    wcstok_s_all ("ghost".toList.take (MAXPATHLEN - 1)) [] = ["ghost".toList] ∧
    notFoundWorld.GetFileAttributesW [] "ghost".toList &&& FILE_ATTRIBUTE_REPARSE_POINT ≠ 0 ∧
    openedLink notFoundWorld "ghost".toList [] = HandleResult.invalid ERROR_FILE_NOT_FOUND ∧
    (PathContainsInvalidLinks notFoundWorld "ghost".toList []).1 = false := by
  decide

theorem linkLoop_of_returns (w : World) (rest : List WStr) (path : WStr) (h : Trace) (b : Bool)
    (hret : (checkPartialPath w path h).1 = LinkStep.returns b) :
    (linkLoop w rest path h).1 = b := by
  cases rest with
  | nil =>
    unfold linkLoop
    rcases hc : checkPartialPath w path h with ⟨step, e⟩
    rw [hc] at hret
    cases hret
    rfl
  | cons t ts =>
    unfold linkLoop
    rcases hc : checkPartialPath w path h with ⟨step, e⟩
    rw [hc] at hret
    cases hret
    rfl

theorem linkLoop_of_next (w : World) (nextToken : WStr) (rest : List WStr) (path : WStr)
    (h : Trace) (hnext : (checkPartialPath w path h).1 = LinkStep.next) :
    linkLoop w (nextToken :: rest) path h =
      ((linkLoop w rest (w.PathAppendW path nextToken)
          (h ++ (checkPartialPath w path h).2)).1,
        (checkPartialPath w path h).2 ++
          (linkLoop w rest (w.PathAppendW path nextToken)
            (h ++ (checkPartialPath w path h).2)).2) := by
  rw [linkLoop]
  rcases hc : checkPartialPath w path h with ⟨step, e⟩
  rw [hc] at hnext
  cases hnext
  rfl

theorem prefix_substituteName (n : ReparseNames) (hlen : n.holdsPrefix) :
    NT_PREFIX <+: n.PathBuffer.drop (n.SubstituteNameOffset / 2) ↔
      NT_PREFIX <+: n.substituteName := by
  unfold ReparseNames.substituteName
  unfold ReparseNames.holdsPrefix at hlen
  rw [List.prefix_take_iff]
  constructor
  · intro hp
    exact ⟨hp, by omega⟩
  · intro hp
    exact hp.1

theorem linkOutcome_names (attrs : Nat) (buffer : REPARSE_DATA_BUFFER) (n : ReparseNames)
    (hflag : attrs &&& FILE_ATTRIBUTE_REPARSE_POINT ≠ 0)
    (htag : (buffer.ReparseTag = IO_REPARSE_TAG_MOUNT_POINT ∧
        n = buffer.MountPointReparseBuffer) ∨
      (buffer.ReparseTag = IO_REPARSE_TAG_SYMLINK ∧ n = buffer.SymbolicLinkReparseBuffer))
    (hlen : n.holdsPrefix) :
    (NT_PREFIX <+: n.substituteName →
      linkOutcome attrs HandleResult.valid (some buffer) = LinkStep.next) ∧
    (¬ NT_PREFIX <+: n.substituteName →
      linkOutcome attrs HandleResult.valid (some buffer) = LinkStep.returns true) := by
  have hlen1 : ¬ n.SubstituteNameLength < ARRAYSIZE_NT_PREFIX := by
    unfold ReparseNames.holdsPrefix at hlen
    have h4 : NT_PREFIX.length = 4 := rfl
    unfold ARRAYSIZE_NT_PREFIX
    omega
  rw [← prefix_substituteName n hlen, ← wcsncmp_NT_PREFIX]
  unfold linkOutcome
  rw [if_pos hflag]
  dsimp only []
  rcases htag with ⟨ht, hn⟩ | ⟨ht, hn⟩
  · subst hn
    rw [if_pos ht, if_neg hlen1]
    constructor
    · intro hp
      rw [if_neg (by simpa using hp)]
    · intro hp
      rw [if_pos hp]
  · subst hn
    have hmp : buffer.ReparseTag ≠ IO_REPARSE_TAG_MOUNT_POINT := by
      rw [ht]
      decide
    rw [if_neg hmp, if_pos ht, if_neg hlen1]
    constructor
    · intro hp
      rw [if_neg (by simpa using hp)]
    · intro hp
      rw [if_pos hp]

/-- C8, as amended.  Take the pass of the walk of `PathContainsInvalidLinks` that looks at
the component `path`, flagged as a reparse point, with the tokens `rest` still to come.
When the open fails with `ERROR_FILE_NOT_FOUND` the function returns false at once; it
returns true for any other failure of the open, for a failure to read the reparse data
and for a tag that is neither mount point nor symbolic link.  For a mount point or
symbolic link whose declared substitute name lies inside the buffer and is long enough
to hold the prefix, the four characters the code compares are characters of the buffer,
the walk goes on to the next component (and returns false when `path` was the last one)
exactly when the substitute name begins with the prefix, and the function returns true
otherwise.  The walk of a path starts with this pass for its
first component, and a pass that goes on is followed by this pass for the next partial
path. -/
theorem reparse_component_verdict (w : World) (rest : List WStr) (path : WStr) (h : Trace)
    (hflag : w.GetFileAttributesW h path &&& FILE_ATTRIBUTE_REPARSE_POINT ≠ 0) :
    (openedLink w path h = HandleResult.invalid ERROR_FILE_NOT_FOUND →
      (linkLoop w rest path h).1 = false) ∧
    (∀ lastError, openedLink w path h = HandleResult.invalid lastError →
      lastError ≠ ERROR_FILE_NOT_FOUND → (linkLoop w rest path h).1 = true) ∧
    (openedLink w path h = HandleResult.valid → readLink w path h = none →
      (linkLoop w rest path h).1 = true) ∧
    (∀ buffer, openedLink w path h = HandleResult.valid →
      readLink w path h = some buffer →
      (buffer.ReparseTag ≠ IO_REPARSE_TAG_MOUNT_POINT →
        buffer.ReparseTag ≠ IO_REPARSE_TAG_SYMLINK → (linkLoop w rest path h).1 = true) ∧
      (∀ n : ReparseNames,
        (buffer.ReparseTag = IO_REPARSE_TAG_MOUNT_POINT ∧
            n = buffer.MountPointReparseBuffer) ∨
          (buffer.ReparseTag = IO_REPARSE_TAG_SYMLINK ∧
            n = buffer.SymbolicLinkReparseBuffer) →
        n.holdsPrefix → n.inBuffer →
        n.SubstituteNameOffset / 2 + NT_PREFIX.length ≤ n.PathBuffer.length ∧
        ((checkPartialPath w path h).1 = LinkStep.next ↔ NT_PREFIX <+: n.substituteName) ∧
        ((linkLoop w [] path h).1 = false ↔ NT_PREFIX <+: n.substituteName) ∧
        (¬ NT_PREFIX <+: n.substituteName → (linkLoop w rest path h).1 = true))) ∧
    (∀ fullPath, wcstok_s_all (fullPath.take (MAXPATHLEN - 1)) [] = path :: rest →
      PathContainsInvalidLinks w fullPath h = linkLoop w rest path h) ∧
    (∀ nextToken, (checkPartialPath w path h).1 = LinkStep.next →
      (linkLoop w (nextToken :: rest) path h).1 =
        (linkLoop w rest (w.PathAppendW path nextToken)
          (h ++ (checkPartialPath w path h).2)).1) := by
  have hstep := checkPartialPath_fst w path h
  refine ⟨?_, ?_, ?_, ?_, ?_, ?_⟩
  · intro hopen
    apply linkLoop_of_returns
    rw [hstep, hopen]
    unfold linkOutcome
    rw [if_pos hflag]
    simp
  · intro lastError hopen hne
    apply linkLoop_of_returns
    rw [hstep, hopen]
    unfold linkOutcome
    rw [if_pos hflag]
    simp [hne]
  · intro hopen hread
    apply linkLoop_of_returns
    rw [hstep, hopen, hread]
    unfold linkOutcome
    rw [if_pos hflag]
  · intro buffer hopen hread
    rw [hopen, hread] at hstep
    refine ⟨?_, ?_⟩
    · intro hmp hsl
      apply linkLoop_of_returns
      rw [hstep]
      unfold linkOutcome
      rw [if_pos hflag]
      simp [hmp, hsl]
    · intro n htag hlen hin
      obtain ⟨hyes, hno⟩ := linkOutcome_names _ buffer n hflag htag hlen
      have hread : n.SubstituteNameOffset / 2 + NT_PREFIX.length ≤ n.PathBuffer.length := by
        unfold ReparseNames.holdsPrefix at hlen
        unfold ReparseNames.inBuffer at hin
        omega
      refine ⟨hread, ?_⟩
      by_cases hp : NT_PREFIX <+: n.substituteName
      · have hnext : (checkPartialPath w path h).1 = LinkStep.next := by
          rw [hstep]
          exact hyes hp
        refine ⟨⟨fun _ => hp, fun _ => hnext⟩, ⟨fun _ => hp, fun _ => ?_⟩,
          fun hc => absurd hp hc⟩
        unfold linkLoop
        rcases hc : checkPartialPath w path h with ⟨step, e⟩
        rw [hc] at hnext
        cases hnext
        rfl
      · have hret : (checkPartialPath w path h).1 = LinkStep.returns true := by
          rw [hstep]
          exact hno hp
        refine ⟨⟨fun hc => ?_, fun hc => absurd hc hp⟩, ⟨fun hc => ?_, fun hc => absurd hc hp⟩,
          fun _ => linkLoop_of_returns w rest path h true hret⟩
        · rw [hret] at hc
          exact LinkStep.noConfusion hc
        · rw [linkLoop_of_returns w [] path h true hret] at hc
          exact Bool.noConfusion hc
  · intro fullPath htok
    unfold PathContainsInvalidLinks
    simp only [htok]
  · intro nextToken hnext
    rw [linkLoop_of_next w nextToken rest path h hnext]

/-- C8 as amended, on a machine where `link` is a junction whose substitute name
`\??\C:\data` begins with the prefix: the walk of `link\sub` starts with the pass for
`link`, in which the component is accepted and the walk goes on; as the last component
of a path `link` gives the value false. -/
theorem reparse_component_verdict_witness :
    junctionWorld.GetFileAttributesW [] "link".toList &&& FILE_ATTRIBUTE_REPARSE_POINT ≠ 0 ∧
    PathContainsInvalidLinks junctionWorld "link\\sub".toList [] =
      linkLoop junctionWorld ["sub".toList] "link".toList [] ∧
    (checkPartialPath junctionWorld "link".toList []).1 = LinkStep.next ∧
    (linkLoop junctionWorld [] "link".toList []).1 = false :=
  ⟨by decide,
    (reparse_component_verdict junctionWorld ["sub".toList] "link".toList []
      (by decide)).2.2.2.2.1 _ (by decide),
    (((reparse_component_verdict junctionWorld ["sub".toList] "link".toList []
      (by decide)).2.2.2.1 _ (by decide) rfl).2 _ (Or.inl ⟨by decide, rfl⟩)
      (by unfold ReparseNames.holdsPrefix; decide)
      (by unfold ReparseNames.inBuffer; decide)).2.1.mpr (by decide),
    (((reparse_component_verdict junctionWorld ["sub".toList] "link".toList []
      (by decide)).2.2.2.1 _ (by decide) rfl).2 _ (Or.inl ⟨by decide, rfl⟩)
      (by unfold ReparseNames.holdsPrefix; decide)
      (by unfold ReparseNames.inBuffer; decide)).2.2.1.mpr (by decide)⟩

/-- C9 as stated fails: with the command token `SOFTWARE-UPDATE`, which is not the
string `software-update`, the run on the nominal machine returns TRUE, copies the
updater and spawns it. -/
theorem upper_case_command_runs_pipeline :
    2 ≤ upperCaseArgv.length ∧
    upperCaseArgv.getD 1 [] ≠ SOFTWARE_UPDATE ∧
    (ExecuteServiceCommand nominalWorld upperCaseArgv []).1 = some true ∧
    Event.copyFileW exampleUpdater exampleSecurePath true ∈
      (ExecuteServiceCommand nominalWorld upperCaseArgv []).2 ∧
    Event.createProcessW exampleSecurePath (exampleSecurePath ++ " /S /D=C:\\app".toList) true ∈
      (ExecuteServiceCommand nominalWorld upperCaseArgv []).2 := by
  decide

/-- C9, as amended.  When `lstrcmpi` finds the command token `argv[1]` different from
"software-update", `ExecuteServiceCommand` returns FALSE and its only event is
`GetUUIDString`. -/
theorem unrecognized_command_does_nothing (w : World) (argv : List WStr) (h : Trace)
    (hargc : 2 ≤ argv.length)
    (hcmd : w.lstrcmpi (argv.getD 1 []) SOFTWARE_UPDATE ≠ 0) :
    ExecuteServiceCommand w argv h = (some false, [Event.getUUIDString]) := by
  unfold ExecuteServiceCommand
  have h2 : ¬ argv.length < 2 := by omega
  rw [if_neg h2]
  dsimp only []
  rw [if_neg hcmd]

/-- C9 as amended, on the nominal machine with the command token `uninstall`. -/
theorem unrecognized_command_does_nothing_witness :
    2 ≤ otherCommandArgv.length ∧
    nominalWorld.lstrcmpi (otherCommandArgv.getD 1 []) SOFTWARE_UPDATE ≠ 0 ∧
    ExecuteServiceCommand nominalWorld otherCommandArgv [] =
      (some false, [Event.getUUIDString]) :=
  ⟨by decide, by decide,
    unrecognized_command_does_nothing nominalWorld otherCommandArgv [] (by decide)
      (by decide)⟩

/-- C10.  For a software-update request without install directory (argc <= 3), or whose
install directory `argv[3]` fails `IsValidFullPath`, `ExecuteServiceCommand` returns FALSE
and the events after `GetUUIDString` are only the path queries of `IsValidFullPath` and
its return: no registry lookup, trust check, file copy, file deletion or process
creation. -/
theorem invalid_install_dir_stops_early (w : World) (argv : List WStr) (h : Trace)
    (hargc : 2 ≤ argv.length)
    (hcmd : w.lstrcmpi (argv.getD 1 []) SOFTWARE_UPDATE = 0)
    (hbad : argv.length ≤ 3 ∨
      (IsValidFullPath w (argv.getD 3 []) (h ++ [Event.getUUIDString])).1 = false) :
    (ExecuteServiceCommand w argv h).1 = some false ∧
    ∃ probes, (ExecuteServiceCommand w argv h).2 = Event.getUUIDString :: probes ∧
      Kinds [Kind.pathProbe, Kind.validated] probes ∧
      (argv.length ≤ 3 → probes = []) := by
  unfold ExecuteServiceCommand
  have h2 : ¬ argv.length < 2 := by omega
  rw [if_neg h2]
  dsimp only []
  rw [if_pos hcmd]
  by_cases h3 : argv.length ≤ 3
  · rw [if_pos h3]
    exact ⟨rfl, [], rfl, Kinds_nil _, fun _ => rfl⟩
  · rw [if_neg h3]
    have hv : (IsValidFullPath w (argv.getD 3 []) (h ++ [Event.getUUIDString])).1 = false := by
      rcases hbad with hb | hb
      · exact absurd hb h3
      · exact hb
    rw [if_pos hv]
    refine ⟨rfl, (IsValidFullPath w (argv.getD 3 []) (h ++ [Event.getUUIDString])).2 ++
      [Event.retIsValidFullPath (argv.getD 3 [])
        (IsValidFullPath w (argv.getD 3 []) (h ++ [Event.getUUIDString])).1], by simp, ?_,
      fun hc => absurd hc h3⟩
    rw [Kinds_append]
    exact ⟨Kinds_mono (IsValidFullPath_events _ _ _) (by simp), by simp [Kinds, Event.kind]⟩

/-- C10, on the nominal machine with a request that has no install directory. -/
theorem invalid_install_dir_stops_early_witness :
    2 ≤ shortArgv.length ∧
    nominalWorld.lstrcmpi (shortArgv.getD 1 []) SOFTWARE_UPDATE = 0 ∧
    shortArgv.length ≤ 3 ∧
    (ExecuteServiceCommand nominalWorld shortArgv []).1 = some false :=
  ⟨by decide, by decide, by decide,
    (invalid_install_dir_stops_early nominalWorld shortArgv [] (by decide) (by decide)
      (Or.inl (by decide))).1⟩



/-! ## Lemmas for the registration check and the child run -/

theorem IsValidFullPath_length (w : World) (p : WStr) (h : Trace)
    (hv : (IsValidFullPath w p h).1 = true) : p.length ≤ MAXPATHLEN - 1 := by
  by_contra hlen
  have hgt : p.length > MAXPATHLEN - 1 := by omega
  unfold IsValidFullPath at hv
  rw [if_pos hgt] at hv
  exact Bool.noConfusion hv

theorem stageAndRun_events (w : World) (argv : List WStr) (installDir : WStr) (h : Trace) :
    Kinds [Kind.trustCheck, Kind.trusted, Kind.stagingPrep, Kind.copy, Kind.verify, Kind.call,
        Kind.ret, Kind.spawn, Kind.childWait, Kind.selfUpdate]
      (ExecuteServiceCommand.stageAndRun w argv installDir h).2 := by
  obtain ⟨X, hX, hcase⟩ := stageAndRun_shape w argv installDir h
  have hX1 : Kinds [Kind.trustCheck, Kind.trusted, Kind.stagingPrep, Kind.copy,
      Kind.verify, Kind.call, Kind.ret, Kind.spawn, Kind.childWait, Kind.selfUpdate] X :=
    Kinds_mono hX (by simp)
  rcases hcase with ⟨heq, _⟩ | ⟨s, _, _, hrest⟩
  · rw [heq]; exact hX1
  · rcases hrest with heq | ⟨ok, same, _, _, heq⟩ | ⟨_, T, heq, _, hT⟩
    · rw [heq]
      rw [Kinds_append]
      exact ⟨hX1, by simp [Kinds, Event.kind]⟩
    · rw [heq]
      rw [Kinds_append]
      exact ⟨hX1, by simp [Kinds, Event.kind]⟩
    · rw [heq, Kinds_append, Kinds_cons, Kinds_cons, Kinds_cons, Kinds_append]
      refine ⟨hX1, by simp [Event.kind], by simp [Event.kind], by simp [Event.kind],
        Kinds_mono (ProcessSoftwareUpdateCommand_events _ _ _) (by simp), ?_⟩
      rcases hT with ⟨hT, _⟩ | ⟨result, D, hT, hD, _⟩
      · rw [hT]; exact Kinds_nil _
      · rw [hT, Kinds_cons]
        exact ⟨by simp [Event.kind], Kinds_mono hD (by simp)⟩

theorem validated_events (w : World) (argv : List WStr) (h : Trace) :
    Kinds [Kind.uuid, Kind.pathProbe, Kind.validated] (ExecuteServiceCommand.validated w argv h) := by
  unfold ExecuteServiceCommand.validated
  rw [Kinds_append, Kinds_append]
  exact ⟨⟨by simp [Kinds, Event.kind], Kinds_mono (IsValidFullPath_events _ _ _) (by simp)⟩,
    by simp [Kinds, Event.kind]⟩

theorem GetInstallationDir_valid (w : World) (argv : List WStr) (h : Trace)
    (hargc : 3 < argv.length)
    (hvalid : (IsValidFullPath w (argv.getD 3 []) h).1 = true) :
    GetInstallationDir (argv.drop 2) = some (stripTrailingBackslash (argv.getD 3 [])) := by
  have hlen := IsValidFullPath_length w _ h hvalid
  have h1 : (argv.drop 2).getD 1 [] = argv.getD 3 [] := by
    simp [List.getD, List.getElem?_drop]
  have h2 : ¬ (argv.drop 2).length < 2 := by simp; omega
  have h3 : (argv.getD 3 []).take MAX_PATH = argv.getD 3 [] := by
    apply List.take_of_length_le
    unfold MAXPATHLEN at hlen
    unfold MAX_PATH at hlen ⊢
    omega
  unfold GetInstallationDir stripTrailingBackslash
  rw [if_neg h2]
  dsimp only []
  rw [h1, h3]
  split <;> rfl

/-- The end of the staging part of `ExecuteServiceCommand`: either no call of
`ProcessSoftwareUpdateCommand` returned, or the events after its return are those of
`DeleteSecureUpdater` on the staged path and the value returned is the value of the call. -/
theorem stageAndRun_cleanup (w : World) (argv : List WStr) (installDir : WStr) (h : Trace) :
    (∀ e ∈ (ExecuteServiceCommand.stageAndRun w argv installDir h).2, e.kind ≠ Kind.ret) ∨
    ∃ A secureUpdaterPath result,
      ExecuteServiceCommand.stageAndRun w argv installDir h =
        (some result, A ++ Event.retProcessSoftwareUpdateCommand result ::
          (DeleteSecureUpdater w secureUpdaterPath
            (h ++ (A ++ [Event.retProcessSoftwareUpdateCommand result]))).2) ∧
      (∀ e ∈ A, e.kind ≠ Kind.ret) ∧
      Event.copyFileW (argv.getD 2 []) secureUpdaterPath true ∈ A ∧
      ∃ B, A = B ++ Event.callProcessSoftwareUpdateCommand (secureUpdaterPath :: argv.drop 3) ::
          (ProcessSoftwareUpdateCommand w (secureUpdaterPath :: argv.drop 3)
            (h ++ (B ++ [Event.callProcessSoftwareUpdateCommand
              (secureUpdaterPath :: argv.drop 3)]))).2 ∧
        (ProcessSoftwareUpdateCommand w (secureUpdaterPath :: argv.drop 3)
            (h ++ (B ++ [Event.callProcessSoftwareUpdateCommand
              (secureUpdaterPath :: argv.drop 3)]))).1 = some result := by
  have hU := UpdaterIsValid_events w (argv.getD 2 []) installDir h
  unfold ExecuteServiceCommand.stageAndRun
  dsimp only []
  generalize UpdaterIsValid w (argv.getD 2 []) installDir h = valid at hU ⊢
  obtain ⟨v1, v2⟩ := valid
  have hret : ∀ b, ∀ e ∈ v2 ++ [Event.retUpdaterIsValid (argv.getD 2 []) installDir b],
      e.kind ≠ Kind.ret := by
    intro b
    have hk : Kinds [Kind.trustCheck, Kind.trusted, Kind.stagingPrep]
        (v2 ++ [Event.retUpdaterIsValid (argv.getD 2 []) installDir b]) := by
      rw [Kinds_append]
      exact ⟨Kinds_mono hU (by simp), by simp [Kinds, Event.kind]⟩
    exact Kinds_ne hk (by simp)
  rcases v1 with _ | _ | _
  · exact Or.inl (Kinds_ne hU (by simp))
  · exact Or.inl (hret false)
  · dsimp only []
    have hG := GetSecureUpdaterPath_events w
      (h ++ (v2 ++ [Event.retUpdaterIsValid (argv.getD 2 []) installDir true]))
    generalize hsecure : GetSecureUpdaterPath w
      (h ++ (v2 ++ [Event.retUpdaterIsValid (argv.getD 2 []) installDir true])) = secure at hG ⊢
    obtain ⟨s1, s2⟩ := secure
    have hX1 : ∀ e ∈ v2 ++ [Event.retUpdaterIsValid (argv.getD 2 []) installDir true] ++ s2,
        e.kind ≠ Kind.ret := by
      intro e he
      rcases List.mem_append.mp he with he | he
      · exact hret true e he
      · exact Kinds_ne hG (by simp) e he
    rcases s1 with _ | secureUpdaterPath
    · exact Or.inl hX1
    · dsimp only []
      have hD := DeleteSecureUpdater_events w secureUpdaterPath
      have hD1 := hD (h ++ (v2 ++ [Event.retUpdaterIsValid (argv.getD 2 []) installDir true] ++ s2))
      generalize DeleteSecureUpdater w secureUpdaterPath
        (h ++ (v2 ++ [Event.retUpdaterIsValid (argv.getD 2 []) installDir true] ++ s2)) = del
        at hD1 ⊢
      obtain ⟨d1, d2⟩ := del
      dsimp only [] at hD1 ⊢
      have hX2 : ∀ e ∈ v2 ++ [Event.retUpdaterIsValid (argv.getD 2 []) installDir true] ++ s2
          ++ d2, e.kind ≠ Kind.ret := by
        intro e he
        rcases List.mem_append.mp he with he | he
        · exact hX1 e he
        · exact Kinds_ne hD1 (by simp) e he
      generalize v2 ++ [Event.retUpdaterIsValid (argv.getD 2 []) installDir true] ++ s2 ++ d2 = X
        at hX2 ⊢
      have hX3 : ∀ b, ∀ e ∈ X ++ [Event.copyFileW (argv.getD 2 []) secureUpdaterPath b],
          e.kind ≠ Kind.ret := by
        intro b e he
        rcases List.mem_append.mp he with he | he
        · exact hX2 e he
        · simp at he; rw [he]; simp [Event.kind]
      cases hcopy : w.CopyFileW (h ++ X) (argv.getD 2 []) secureUpdaterPath
      · left
        simpa using hX3 false
      · simp only [Bool.true_eq_false, if_false]
        generalize hsame : VerifySameFiles
          (w.FileContent (h ++ (X ++ [Event.copyFileW (argv.getD 2 []) secureUpdaterPath true]))
            (argv.getD 2 []))
          (w.FileContent (h ++ (X ++ [Event.copyFileW (argv.getD 2 []) secureUpdaterPath true]))
            secureUpdaterPath) = same
        obtain ⟨ok, sm⟩ := same
        dsimp only []
        have hX4 : ∀ e ∈ X ++ [Event.copyFileW (argv.getD 2 []) secureUpdaterPath true] ++
            [Event.verifySameFiles (argv.getD 2 []) secureUpdaterPath ok sm],
            e.kind ≠ Kind.ret := by
          intro e he
          rcases List.mem_append.mp he with he | he
          · exact hX3 true e he
          · simp at he; rw [he]; simp [Event.kind]
        cases ok
        · left
          simpa using hX4
        · cases sm
          · left
            simpa using hX4
          · simp only [Bool.true_eq_false, if_false]
            have hP := ProcessSoftwareUpdateCommand_events w (secureUpdaterPath :: argv.drop 3)
              (h ++ (X ++ [Event.copyFileW (argv.getD 2 []) secureUpdaterPath true] ++
                [Event.verifySameFiles (argv.getD 2 []) secureUpdaterPath true true] ++
                [Event.callProcessSoftwareUpdateCommand (secureUpdaterPath :: argv.drop 3)]))
            generalize hrun : ProcessSoftwareUpdateCommand w (secureUpdaterPath :: argv.drop 3)
              (h ++ (X ++ [Event.copyFileW (argv.getD 2 []) secureUpdaterPath true] ++
                [Event.verifySameFiles (argv.getD 2 []) secureUpdaterPath true true] ++
                [Event.callProcessSoftwareUpdateCommand (secureUpdaterPath :: argv.drop 3)])) = run
              at hP ⊢
            obtain ⟨r1, r2⟩ := run
            have hX5 : ∀ e ∈ X ++ [Event.copyFileW (argv.getD 2 []) secureUpdaterPath true] ++
                [Event.verifySameFiles (argv.getD 2 []) secureUpdaterPath true true] ++
                [Event.callProcessSoftwareUpdateCommand (secureUpdaterPath :: argv.drop 3)] ++ r2,
                e.kind ≠ Kind.ret := by
              intro e he
              rcases List.mem_append.mp he with he | he
              · rcases List.mem_append.mp he with he | he
                · exact hX4 e he
                · simp at he; rw [he]; simp [Event.kind]
              · exact Kinds_ne hP (by simp) e he
            rcases r1 with _ | result
            · left
              exact hX5
            · right
              refine ⟨X ++ [Event.copyFileW (argv.getD 2 []) secureUpdaterPath true] ++
                [Event.verifySameFiles (argv.getD 2 []) secureUpdaterPath true true] ++
                [Event.callProcessSoftwareUpdateCommand (secureUpdaterPath :: argv.drop 3)] ++ r2,
                secureUpdaterPath, result, ?_, hX5, by simp,
                X ++ [Event.copyFileW (argv.getD 2 []) secureUpdaterPath true] ++
                  [Event.verifySameFiles (argv.getD 2 []) secureUpdaterPath true true], ?_, ?_⟩
              · simp
              · rw [hrun]
                simp
              · rw [hrun]

/-! ## Lemmas for the command line -/

theorem beforeTrailingBackslashes_append (s : List Char) (cur : List Char) (j : Nat) :
    beforeTrailingBackslashes cur j s ++ List.replicate (trailingBackslashes j s) BACKSLASH =
      cur ++ List.replicate j BACKSLASH ++ s := by
  induction s generalizing cur j with
  | nil => simp [beforeTrailingBackslashes, trailingBackslashes]
  | cons c cs ih =>
    unfold beforeTrailingBackslashes trailingBackslashes
    by_cases hc : c = BACKSLASH
    · rw [if_pos hc, if_pos hc, ih, hc]
      simp [List.replicate_succ', List.append_assoc]
    · rw [if_neg hc, if_neg hc, ih]
      simp

theorem trailingBackslashes_of_getLast (s : List Char) (j : Nat) (hne : s ≠ [])
    (hlast : s.getLast? ≠ some BACKSLASH) : trailingBackslashes j s = 0 := by
  induction s generalizing j with
  | nil => exact absurd rfl hne
  | cons c cs ih =>
    unfold trailingBackslashes
    cases cs with
    | nil =>
      have hc : c ≠ BACKSLASH := by
        intro hc
        apply hlast
        simp [hc]
      rw [if_neg hc]
      rfl
    | cons d ds =>
      have hl : (d :: ds).getLast? ≠ some BACKSLASH := by
        simpa [List.getLast?_cons_cons] using hlast
      split
      · exact ih _ (by simp) hl
      · exact ih _ (by simp) hl

theorem crtSplit_go_cons (c : Char) (cs : List Char) (inArg inQuotes : Bool) (numslash : Nat)
    (cur : List Char) :
    crtSplit.go (c :: cs) inArg inQuotes numslash cur =
      if c = BACKSLASH then crtSplit.go cs true inQuotes (numslash + 1) cur
      else if c = DQUOTE then
        if numslash % 2 = 0 then
          crtSplit.go cs true (!inQuotes) 0 (cur ++ List.replicate (numslash / 2) BACKSLASH)
        else
          crtSplit.go cs true inQuotes 0
            (cur ++ List.replicate (numslash / 2) BACKSLASH ++ [DQUOTE])
      else if (c = SPACE ∨ c = TAB) ∧ inQuotes = false then
        if inArg then
          (cur ++ List.replicate numslash BACKSLASH) :: crtSplit.go cs false false 0 []
        else crtSplit.go cs false false 0 []
      else crtSplit.go cs true inQuotes 0 (cur ++ List.replicate numslash BACKSLASH ++ [c]) := by
  rw [crtSplit.go]

/-- The parser reads `m` backslashes by counting them. -/
theorem crtSplit_go_backslashes (m : Nat) (rest : List Char) (inArg inQuotes : Bool)
    (numslash : Nat) (cur : List Char) (hm : 0 < m) :
    crtSplit.go (List.replicate m BACKSLASH ++ rest) inArg inQuotes numslash cur =
      crtSplit.go rest true inQuotes (numslash + m) cur := by
  induction m generalizing inArg numslash with
  | zero => exact absurd hm (by decide)
  | succ k ih =>
    rw [List.replicate_succ, List.cons_append, crtSplit_go_cons, if_pos rfl]
    cases k with
    | zero => rfl
    | succ k1 =>
      rw [ih true (numslash + 1) (by omega)]
      have : numslash + 1 + (k1 + 1) = numslash + (k1 + 1 + 1) := by omega
      rw [this]

/-- The parser reads what `ArgToString` writes for the characters of an argument back
as these characters, inside double quotes or when none of them is a space or a tab. -/
theorem crtSplit_go_loop (s : List Char) (j : Nat) (rest : List Char) (inArg inQuotes : Bool)
    (cur : List Char)
    (hq : inQuotes = true ∨ hasCommandLineDelimiter s = false) :
    crtSplit.go (ArgToString.loop s j ++ rest) inArg inQuotes j cur =
      crtSplit.go rest (inArg || !s.isEmpty) inQuotes (trailingBackslashes j s)
        (beforeTrailingBackslashes cur j s) := by
  induction s generalizing j inArg cur with
  | nil => simp [ArgToString.loop, trailingBackslashes, beforeTrailingBackslashes]
  | cons c cs ih =>
    have hq1 : inQuotes = true ∨ hasCommandLineDelimiter cs = false := by
      rcases hq with hq | hq
      · exact Or.inl hq
      · right
        simp only [hasCommandLineDelimiter, List.any_cons, Bool.or_eq_false_iff] at hq ⊢
        exact hq.2
    unfold ArgToString.loop trailingBackslashes beforeTrailingBackslashes
    by_cases hb : c = BACKSLASH
    · rw [if_pos hb, if_pos hb, if_pos hb, List.cons_append, crtSplit_go_cons, if_pos hb,
        ih (j + 1) true cur hq1]
      simp
    · rw [if_neg hb, if_neg hb, if_neg hb]
      by_cases hd : c = DQUOTE
      · have hnb : ¬ DQUOTE = BACKSLASH := by decide
        have hodd : ¬ (j + (j + 1)) % 2 = 0 := by omega
        have hhalf : (j + (j + 1)) / 2 = j := by omega
        rw [if_pos hd, List.append_assoc,
          crtSplit_go_backslashes (j + 1) _ inArg inQuotes j cur (by omega), List.cons_append,
          crtSplit_go_cons, hd, if_neg hnb, if_pos rfl, if_neg hodd, hhalf, ih 0 true _ hq1]
        simp
      · have hsep : ¬ ((c = SPACE ∨ c = TAB) ∧ inQuotes = false) := by
          rintro ⟨hc, hf⟩
          rcases hq with hq | hq
          · rw [hq] at hf
            exact Bool.noConfusion hf
          · simp only [hasCommandLineDelimiter, List.any_cons, Bool.or_eq_false_iff,
              decide_eq_false_iff_not] at hq
            exact hq.1 hc
        rw [if_neg hd, List.cons_append, crtSplit_go_cons, if_neg hb, if_neg hd, if_neg hsep,
          ih 0 true _ hq1]
        simp

theorem ArgToString_loop_of_no_quote (s : List Char) (j : Nat)
    (hno : s.contains DQUOTE = false) : ArgToString.loop s j = s := by
  induction s generalizing j with
  | nil => rfl
  | cons c cs ih =>
    have hc : ¬ c = DQUOTE := by
      intro hc
      simp [hc] at hno
    have hcs : cs.contains DQUOTE = false := by
      simp only [List.contains_cons, Bool.or_eq_false_iff] at hno
      exact hno.2
    unfold ArgToString.loop
    by_cases hb : c = BACKSLASH
    · rw [if_pos hb, ih _ hcs]
    · rw [if_neg hb, if_neg hc, ih _ hcs]

theorem ArgToString_eq (a : WStr) :
    ArgToString a =
      if hasCommandLineDelimiter a then DQUOTE :: ArgToString.loop a 0 ++ [DQUOTE]
      else ArgToString.loop a 0 := by
  unfold ArgToString
  cases hq : a.contains DQUOTE
  · simp only [Bool.false_eq_true, if_false]
    rw [ArgToString_loop_of_no_quote a 0 hq]
  · simp only [if_true]

/-- The parser reads what `ArgToString` writes for an argument that reads back as this
argument, up to the separator or the end that follows. -/
theorem crtSplit_go_ArgToString (a : WStr) (rest : List Char) (ha : readsBack a) :
    crtSplit.go (ArgToString a ++ rest) false false 0 [] =
      crtSplit.go rest true false (trailingBackslashes 0 a) (beforeTrailingBackslashes [] 0 a) ∧
    beforeTrailingBackslashes [] 0 a ++ List.replicate (trailingBackslashes 0 a) BACKSLASH = a := by
  obtain ⟨hne, hlast⟩ := ha
  have hinv := beforeTrailingBackslashes_append a [] 0
  simp only [List.replicate_zero, List.append_nil, List.nil_append] at hinv
  refine ⟨?_, hinv⟩
  have hemp : a.isEmpty = false := by
    cases a with
    | nil => exact absurd rfl hne
    | cons c cs => rfl
  rw [ArgToString_eq]
  cases hd : hasCommandLineDelimiter a
  · simp only [Bool.false_eq_true, if_false]
    rw [crtSplit_go_loop a 0 rest false false [] (Or.inr hd), hemp]
    rfl
  · simp only [if_true]
    have hnb : ¬ DQUOTE = BACKSLASH := by decide
    have ht := trailingBackslashes_of_getLast a 0 hne (hlast hd)
    simp only [List.cons_append, List.append_assoc, List.singleton_append]
    rw [crtSplit_go_cons, if_neg hnb, if_pos rfl, if_pos (by rfl),
      crtSplit_go_loop a 0 _ true (!false) _ (Or.inl rfl), ht,
      crtSplit_go_cons, if_neg hnb, if_pos rfl, if_pos (by rfl)]
    simp

/-- The command line of arguments that read back is read back by the parsing rules as
these arguments. -/
theorem MakeCommandLine_round_trip (args : List WStr) (hargs : ∀ a ∈ args, readsBack a) :
    crtSplit (MakeCommandLine args) = args := by
  unfold crtSplit MakeCommandLine
  induction args with
  | nil => rfl
  | cons a rest ih =>
    have ha := hargs a (by simp)
    cases rest with
    | nil =>
      have h1 := crtSplit_go_ArgToString a [] ha
      rw [List.append_nil] at h1
      unfold MakeCommandLine.fill
      rw [h1.1]
      unfold crtSplit.go
      simp [h1.2]
    | cons b rest1 =>
      have h1 := crtSplit_go_ArgToString a (SPACE :: MakeCommandLine.fill (b :: rest1)) ha
      unfold MakeCommandLine.fill
      have hsb : ¬ SPACE = BACKSLASH := by decide
      have hsq : ¬ SPACE = DQUOTE := by decide
      rw [h1.1, crtSplit_go_cons, if_neg hsb, if_neg hsq, if_pos ⟨Or.inl rfl, rfl⟩, if_pos rfl,
        h1.2, ih (fun x hx => hargs x (by simp [hx]))]

/-! ## Lemmas for serviceinstall.cpp -/

theorem SvcKinds_nil (ks : List SvcKind) : SvcKinds ks [] := by
  intro e he
  simp at he

theorem SvcKinds_cons (ks : List SvcKind) (e : SvcEvent) (evs : SvcTrace) :
    SvcKinds ks (e :: evs) ↔ e.kind ∈ ks ∧ SvcKinds ks evs := by
  simp [SvcKinds]

theorem SvcKinds_append (ks : List SvcKind) (a b : SvcTrace) :
    SvcKinds ks (a ++ b) ↔ SvcKinds ks a ∧ SvcKinds ks b := by
  simp only [SvcKinds, List.mem_append]
  constructor
  · intro h
    exact ⟨fun e he => h e (Or.inl he), fun e he => h e (Or.inr he)⟩
  · rintro ⟨h1, h2⟩ e (he | he)
    · exact h1 e he
    · exact h2 e he

theorem SvcKinds_mono {ks ks1 : List SvcKind} {evs : SvcTrace} (h : SvcKinds ks evs)
    (hsub : ∀ k ∈ ks, k ∈ ks1) : SvcKinds ks1 evs :=
  fun e he => hsub _ (h e he)

theorem SvcKinds_ne {ks : List SvcKind} {evs : SvcTrace} {k : SvcKind} (hk : SvcKinds ks evs)
    (hnot : k ∉ ks) : ∀ e ∈ evs, e.kind ≠ k :=
  fun e he hs => hnot (hs ▸ hk e he)

theorem changesFile_iff_kind (e : SvcEvent) : e.changesFile = true ↔ e.kind = SvcKind.file := by
  cases e <;> simp [SvcEvent.changesFile, SvcEvent.kind]
  all_goals (rename_i dst _ _; cases dst <;> simp [SvcEvent.changesFile, SvcEvent.kind])

theorem effect_of_kind_ne (fs : Files) (e : SvcEvent) (hk : e.kind ≠ SvcKind.file) :
    e.effect fs = fs := by
  cases e <;> simp [SvcEvent.kind] at hk <;> try rfl
  · rename_i src dst flags ok
    cases dst
    · rfl
    · simp [SvcEvent.kind] at hk

theorem filesAfter_append (fs : Files) (a b : SvcTrace) :
    filesAfter fs (a ++ b) = filesAfter (filesAfter fs a) b := by
  simp [filesAfter, List.foldl_append]

theorem filesAfter_of_no_file (fs : Files) (evs : SvcTrace)
    (hk : ∀ e ∈ evs, e.kind ≠ SvcKind.file) : filesAfter fs evs = fs := by
  induction evs generalizing fs with
  | nil => rfl
  | cons e rest ih =>
    have h1 : e.effect fs = fs := effect_of_kind_ne fs e (hk e (by simp))
    show filesAfter (e.effect fs) rest = fs
    rw [h1]
    exact ih fs (fun e1 he1 => hk e1 (by simp [he1]))

/-- A cut of `A ++ B` at an event that no event of `A` resembles lies in `B`. -/
theorem cut_after_prefix (P : SvcEvent → Prop) (A B pre post : SvcTrace) (e : SvcEvent)
    (hA : ∀ a ∈ A, ¬ P a) (he : P e) (heq : A ++ B = pre ++ e :: post) :
    ∃ mid, pre = A ++ mid ∧ B = mid ++ e :: post := by
  rcases List.append_eq_append_iff.mp heq with ⟨a1, h1, h2⟩ | ⟨c1, h1, h2⟩
  · exact ⟨a1, h1, h2⟩
  · cases c1 with
    | nil =>
      refine ⟨[], by simpa using h1.symm, ?_⟩
      simpa using h2.symm
    | cons c cs =>
      exfalso
      have hc : c = e := by
        have := h2
        simp at this
        exact this.1.symm
      apply hA e _ he
      rw [h1, ← hc]
      simp

theorem GetVersionNumberFromPath_events (w : SvcWorld) (fs : Files) (path : WStr) :
    SvcKinds [SvcKind.version] (GetVersionNumberFromPath w fs path).2 := by
  unfold GetVersionNumberFromPath
  split
  · simp [SvcKinds, SvcEvent.kind]
  · dsimp only []
    split <;> simp [SvcKinds, SvcEvent.kind]

theorem setAcl_events (w : SvcWorld) (pacl : Option ACL) (ea : List EXPLICIT_ACCESS)
    (h : SvcTrace) : SvcKinds [SvcKind.acl] (SetUserAccessServiceDACL.setAcl w pacl ea h).2 := by
  unfold SetUserAccessServiceDACL.setAcl
  repeat' (first | split | dsimp only [])
  all_goals simp [SvcKinds, SvcEvent.kind]

theorem fromDescriptor_events (w : SvcWorld) (psd : Option (Option ACL)) (h : SvcTrace) :
    SvcKinds [SvcKind.acl] (SetUserAccessServiceDACL.fromDescriptor w psd h).2 := by
  unfold SetUserAccessServiceDACL.fromDescriptor
  repeat' (first | split | dsimp only [])
  all_goals (try rw [SvcKinds_append])
  all_goals (first
    | exact ⟨by simp [SvcKinds, SvcEvent.kind], setAcl_events _ _ _ _⟩
    | simp [SvcKinds, SvcEvent.kind])

theorem status_events (w : SvcWorld) (h : SvcTrace) :
    SvcKinds [SvcKind.acl] (SetUserAccessServiceDACL.status w h).2 := by
  unfold SetUserAccessServiceDACL.status
  repeat' (first | split | dsimp only [])
  all_goals (try rw [SvcKinds_append])
  all_goals (first
    | exact ⟨by simp [SvcKinds, SvcEvent.kind], fromDescriptor_events _ _ _⟩
    | simp [SvcKinds, SvcEvent.kind])

theorem SetUserAccessServiceDACL_events (w : SvcWorld) (h : SvcTrace) :
    SvcKinds [SvcKind.acl] (SetUserAccessServiceDACL w h).2 :=
  status_events w h

theorem StopService_events (w : SvcWorld) (h : SvcTrace) :
    SvcKinds [SvcKind.manager, SvcKind.stop] (StopService w h).2 := by
  unfold StopService
  dsimp only []
  split
  · simp [SvcKinds, SvcEvent.kind]
  · split <;> simp [SvcKinds, SvcEvent.kind]

/-- When `StopService` returns TRUE the last state `WaitForServiceStop` saw is
SERVICE_STOPPED. -/
theorem StopService_true (w : SvcWorld) (h : SvcTrace) (ht : (StopService w h).1 = true) :
    SvcEvent.waitForServiceStop w.SVC_NAME 30 SERVICE_STOPPED ∈ (StopService w h).2 := by
  unfold StopService at ht ⊢
  dsimp only [] at ht ⊢
  by_cases h1 : w.OpenSCManager h = false
  · rw [if_pos h1] at ht
    exact Bool.noConfusion ht
  · rw [if_neg h1] at ht ⊢
    by_cases h2 : w.OpenServiceW (h ++ [SvcEvent.openSCManager (w.OpenSCManager h)]) w.SVC_NAME ≠
        HandleResult.valid
    · rw [if_pos h2] at ht
      exact Bool.noConfusion ht
    · rw [if_neg h2] at ht ⊢
      have hs := of_decide_eq_true (show decide _ = true from ht)
      rw [hs]
      simp

theorem readVersions_events (w : SvcWorld) (fs : Files) (new : WStr) (h : SvcTrace) :
    SvcKinds [SvcKind.acl, SvcKind.config, SvcKind.version]
      (SvcInstall.readVersions w fs new h).2 := by
  have hD : SvcKinds [SvcKind.acl, SvcKind.config, SvcKind.version]
      (SetUserAccessServiceDACL w h).2 :=
    SvcKinds_mono (SetUserAccessServiceDACL_events w h) (by simp)
  have hV : ∀ p, SvcKinds [SvcKind.acl, SvcKind.config, SvcKind.version]
      (GetVersionNumberFromPath w fs p).2 :=
    fun p => SvcKinds_mono (GetVersionNumberFromPath_events w fs p) (by simp)
  unfold SvcInstall.readVersions
  dsimp only []
  generalize SetUserAccessServiceDACL w h = dacl at hD ⊢
  have h1 : SvcKinds [SvcKind.acl, SvcKind.config, SvcKind.version]
      (dacl.2 ++ [SvcEvent.retSetUserAccessServiceDACL dacl.1]) := by
    rw [SvcKinds_append]
    exact ⟨hD, by simp [SvcKinds, SvcEvent.kind]⟩
  have h2 : ∀ n b, SvcKinds [SvcKind.acl, SvcKind.config, SvcKind.version]
      (dacl.2 ++ [SvcEvent.retSetUserAccessServiceDACL dacl.1] ++
        [SvcEvent.queryServiceConfigW n b]) := by
    intro n b
    rw [SvcKinds_append]
    exact ⟨h1, by simp [SvcKinds, SvcEvent.kind]⟩
  split
  · exact h2 _ _
  · split
    · rw [SvcKinds_append]
      exact ⟨h2 _ _, by simp [SvcKinds, SvcEvent.kind]⟩
    · try dsimp only []
      have h3 : ∀ p q n b, SvcKinds [SvcKind.acl, SvcKind.config, SvcKind.version]
          (dacl.2 ++ [SvcEvent.retSetUserAccessServiceDACL dacl.1] ++
            [SvcEvent.queryServiceConfigW 0 b] ++ [SvcEvent.queryServiceConfigW n true] ++
            (GetVersionNumberFromPath w fs p).2 ++ (GetVersionNumberFromPath w fs q).2) := by
        intro p q n b
        rw [SvcKinds_append, SvcKinds_append, SvcKinds_append]
        exact ⟨⟨⟨h2 _ _, by simp [SvcKinds, SvcEvent.kind]⟩, hV p⟩, hV q⟩
      split <;> exact h3 _ _ _ _

theorem moveAside_events (w : SvcWorld) (new lp : WStr) (h : SvcTrace) :
    SvcKinds [SvcKind.file] (SvcInstall.moveAside w new lp h).2 := by
  unfold SvcInstall.moveAside
  dsimp only []
  split
  · split <;> simp [SvcKinds, SvcEvent.kind]
  · exact SvcKinds_nil _

/-- The runs of the replacing part of `SvcInstall`, case by case: the events after
those of `StopService` and the value returned. -/
theorem replace_cases (w : SvcWorld) (new lp : WStr) (h : SvcTrace) :
    ∃ tail, SvcInstall.replace w new lp h =
        ((SvcInstall.replace w new lp h).1, (StopService w h).2 ++ tail) ∧
      SvcInstall.replaceOutcome new lp (StopService w h).1 (SvcInstall.replace w new lp h).1
        tail := by
  unfold SvcInstall.replaceOutcome
  unfold SvcInstall.replace
  dsimp only []
  generalize StopService w h = stopped
  obtain ⟨s1, s2⟩ := stopped
  cases s1
  · exact ⟨[SvcEvent.retStopService false], by simp⟩
  · simp only [Bool.true_eq_false, if_false]
    by_cases hsame : new = lp
    · rw [if_pos hsame]
      exact ⟨[SvcEvent.retStopService true], by simp [hsame]⟩
    · rw [if_neg hsame]
      cases hcopy : w.CopyFileW (h ++ (s2 ++ [SvcEvent.retStopService true])) new lp
      · simp only [if_true]
        unfold SvcInstall.moveAside
        dsimp only []
        by_cases hlen : lp.length > 3
        · simp only [hlen, if_true]
          cases hmove : w.MoveFileExW
            (h ++ (s2 ++ [SvcEvent.retStopService true] ++ [SvcEvent.copyFileW new lp false])) lp
            (some (SvcInstall.oldServiceBinaryTempPath lp))
            (MOVEFILE_REPLACE_EXISTING ||| MOVEFILE_WRITE_THROUGH)
          · simp only [Bool.false_eq_true, if_false]
            generalize w.MoveFileExW _ new none MOVEFILE_DELAY_UNTIL_REBOOT = s
            exact ⟨[SvcEvent.retStopService true, SvcEvent.copyFileW new lp false,
              SvcEvent.moveFileExW lp (some (SvcInstall.oldServiceBinaryTempPath lp))
                (MOVEFILE_REPLACE_EXISTING ||| MOVEFILE_WRITE_THROUGH) false,
              SvcEvent.moveFileExW new none MOVEFILE_DELAY_UNTIL_REBOOT s],
              by simp [hsame, hlen]⟩
          · simp only [if_true]
            generalize w.CopyFileW _ new lp = c
            generalize w.DeleteFileW _ (SvcInstall.oldServiceBinaryTempPath lp) = d
            generalize w.MoveFileExW _ new none MOVEFILE_DELAY_UNTIL_REBOOT = s
            exact ⟨[SvcEvent.retStopService true, SvcEvent.copyFileW new lp false,
              SvcEvent.moveFileExW lp (some (SvcInstall.oldServiceBinaryTempPath lp))
                (MOVEFILE_REPLACE_EXISTING ||| MOVEFILE_WRITE_THROUGH) true,
              SvcEvent.copyFileW new lp c,
              SvcEvent.deleteFileW (SvcInstall.oldServiceBinaryTempPath lp) d,
              SvcEvent.moveFileExW new none MOVEFILE_DELAY_UNTIL_REBOOT s],
              by simp [hsame, hlen]⟩
        · simp only [hlen, if_false]
          generalize w.MoveFileExW _ new none MOVEFILE_DELAY_UNTIL_REBOOT = s
          exact ⟨[SvcEvent.retStopService true, SvcEvent.copyFileW new lp false,
            SvcEvent.moveFileExW new none MOVEFILE_DELAY_UNTIL_REBOOT s],
            by simp [hsame]; omega⟩
      · simp only [Bool.true_eq_false, if_false]
        generalize w.MoveFileExW _ new none MOVEFILE_DELAY_UNTIL_REBOOT = s
        exact ⟨[SvcEvent.retStopService true, SvcEvent.copyFileW new lp true,
          SvcEvent.moveFileExW new none MOVEFILE_DELAY_UNTIL_REBOOT s],
          by simp [hsame]⟩

theorem FileVersion.lex_lt_iff (e n : FileVersion) :
    e.lex < n.lex ↔
      e.A < n.A ∨ (e.A = n.A ∧ e.B < n.B) ∨ (e.A = n.A ∧ e.B = n.B ∧ e.C < n.C) ∨
        (e.A = n.A ∧ e.B = n.B ∧ e.C = n.C ∧ e.D < n.D) := by
  unfold FileVersion.lex
  simp only [Prod.Lex.lt_iff, ofLex_toLex]
  constructor
  · rintro (h | ⟨h1, h | ⟨h2, h | ⟨h3, h⟩⟩⟩)
    · exact Or.inl h
    · exact Or.inr (Or.inl ⟨h1, h⟩)
    · exact Or.inr (Or.inr (Or.inl ⟨h1, h2, h⟩))
    · exact Or.inr (Or.inr (Or.inr ⟨h1, h2, h3, h⟩))
  · rintro (h | ⟨h1, h⟩ | ⟨h1, h2, h⟩ | ⟨h1, h2, h3, h⟩)
    · exact Or.inl h
    · exact Or.inr ⟨h1, Or.inl h⟩
    · exact Or.inr ⟨h1, Or.inr ⟨h2, Or.inl h⟩⟩
    · exact Or.inr ⟨h1, Or.inr ⟨h2, Or.inr ⟨h3, h⟩⟩⟩

theorem FileVersion.lex_le_iff (e n : FileVersion) : e.lex ≤ n.lex ↔ e.lex < n.lex ∨ e = n := by
  rw [le_iff_lt_or_eq]
  constructor
  · rintro (h | h)
    · exact Or.inl h
    · right
      unfold FileVersion.lex at h
      cases e
      cases n
      simp only [EmbeddingLike.apply_eq_iff_eq, Prod.mk.injEq] at h
      obtain ⟨h1, h2, h3, h4⟩ := h
      subst h1 h2 h3 h4
      rfl
  · rintro (h | h)
    · exact Or.inl h
    · exact Or.inr (by rw [h])

theorem mustReplace_iff (action : SvcInstallAction) (e n : FileVersion) :
    SvcInstall.mustReplace action (some e) n = true ↔
      action = SvcInstallAction.ForceInstallSvc ∨ e.lex < n.lex := by
  unfold SvcInstall.mustReplace
  rw [FileVersion.lex_lt_iff]
  simp only [decide_eq_true_eq]
  constructor
  · rintro (h | h)
    · exact Or.inl h.symm
    · exact Or.inr h
  · rintro (h | h)
    · exact Or.inl h.symm
    · exact Or.inr h

/-- The run of `SvcInstall` on a machine where the service manager opens, the module
file name is obtained and the service exists and opens. -/
theorem SvcInstall_of_opened (w : SvcWorld) (fs : Files) (action : SvcInstallAction)
    (h : SvcTrace) (new : WStr)
    (hscm : w.OpenSCManager h = true)
    (hmod : w.GetModuleFileNameW (h ++ [SvcEvent.openSCManager true]) = some new)
    (hopen : w.OpenServiceW
      (h ++ [SvcEvent.openSCManager true, SvcEvent.getModuleFileNameW (some new)]) w.SVC_NAME =
        HandleResult.valid) :
    SvcInstall w fs action h =
      ((SvcInstall.existing w fs action new (h ++ SvcInstall.opened w new)).1,
        SvcInstall.opened w new ++
          (SvcInstall.existing w fs action new (h ++ SvcInstall.opened w new)).2) := by
  unfold SvcInstall SvcInstall.opened
  dsimp only []
  rw [hscm]
  simp only [Bool.true_eq_false, if_false]
  rw [hmod]
  dsimp only []
  have hopen1 : w.OpenServiceW
      (h ++ ([SvcEvent.openSCManager true] ++ [SvcEvent.getModuleFileNameW (some new)]))
      w.SVC_NAME = HandleResult.valid := by
    simpa using hopen
  rw [hopen1]
  simp

theorem existing_of_read (w : SvcWorld) (fs : Files) (action : SvcInstallAction)
    (new : WStr) (h : SvcTrace) (lp : WStr) (existing : Option FileVersion) (n : FileVersion)
    (hread : (SvcInstall.readVersions w fs new h).1 = some (lp, existing, n)) :
    SvcInstall.existing w fs action new h =
      if SvcInstall.mustReplace action existing n = true then
        ((SvcInstall.replace w new lp (h ++ (SvcInstall.readVersions w fs new h).2)).1,
          (SvcInstall.readVersions w fs new h).2 ++
            (SvcInstall.replace w new lp (h ++ (SvcInstall.readVersions w fs new h).2)).2)
      else
        (true, (SvcInstall.readVersions w fs new h).2 ++
          [SvcEvent.moveFileExW new none MOVEFILE_DELAY_UNTIL_REBOOT
            (w.MoveFileExW (h ++ (SvcInstall.readVersions w fs new h).2) new none
              MOVEFILE_DELAY_UNTIL_REBOOT)]) := by
  unfold SvcInstall.existing
  dsimp only []
  rw [hread]

/-- What `SvcInstall.readVersions` returns are the versions of the files at the two
paths. -/
theorem readVersions_some (w : SvcWorld) (fs : Files) (new : WStr) (h : SvcTrace) (lp : WStr)
    (existing : Option FileVersion) (n : FileVersion)
    (hread : (SvcInstall.readVersions w fs new h).1 = some (lp, existing, n)) :
    (GetVersionNumberFromPath w fs lp).1 = existing ∧
    (GetVersionNumberFromPath w fs new).1 = some n := by
  unfold SvcInstall.readVersions at hread
  dsimp only [] at hread
  split at hread
  · exact Option.noConfusion hread
  · split at hread
    · exact Option.noConfusion hread
    · try dsimp only [] at hread
      split at hread
      · exact Option.noConfusion hread
      · rename_i newVersion hnew
        simp only [Option.some.injEq, Prod.mk.injEq] at hread
        obtain ⟨h1, h2, h3⟩ := hread
        subst h1 h3
        exact ⟨h2, hnew⟩

/-- The value of `GetVersionNumberFromPath` depends only on the content at the path. -/
theorem GetVersionNumberFromPath_congr (w : SvcWorld) (fs fs1 : Files) (p q : WStr)
    (hc : fs p = fs1 q) :
    (GetVersionNumberFromPath w fs p).1 = (GetVersionNumberFromPath w fs1 q).1 := by
  unfold GetVersionNumberFromPath
  rw [hc]
  split
  · rfl
  · try dsimp only []
    split <;> rfl

theorem GetVersionNumberFromPath_none (w : SvcWorld) (fs : Files) (p : WStr)
    (hc : fs p = none) : (GetVersionNumberFromPath w fs p).1 = none := by
  unfold GetVersionNumberFromPath
  rw [hc]
  rfl

theorem opened_events (w : SvcWorld) (new : WStr) :
    SvcKinds [SvcKind.manager] (SvcInstall.opened w new) := by
  simp [SvcInstall.opened, SvcKinds, SvcEvent.kind]

/-- The four parts that `GetVersionNumberFromPath` returns are 16-bit values. -/
theorem GetVersionNumberFromPath_parts (w : SvcWorld) (fs : Files) (p : WStr) (v : FileVersion)
    (hv : (GetVersionNumberFromPath w fs p).1 = some v) :
    v.A < 65536 ∧ v.B < 65536 ∧ v.C < 65536 ∧ v.D < 65536 := by
  unfold GetVersionNumberFromPath at hv
  split at hv
  · exact Option.noConfusion hv
  · try dsimp only [] at hv
    split at hv
    · exact Option.noConfusion hv
    · simp only [Option.some.injEq] at hv
      rw [← hv]
      simp only [HIWORD, LOWORD]
      refine ⟨?_, ?_, ?_, ?_⟩ <;> exact Nat.mod_lt _ (by norm_num)

/-- The run of `SvcInstall` on an existing service when the installed binary is to be
replaced: events that change no file, up to the events of `StopService`, then one of
the ends of the replacing part. -/
theorem SvcInstall_replacing (w : SvcWorld) (fs : Files) (action : SvcInstallAction)
    (h : SvcTrace) (new installed : WStr) (existing : Option FileVersion) (n : FileVersion)
    (hscm : w.OpenSCManager h = true)
    (hmod : w.GetModuleFileNameW (h ++ [SvcEvent.openSCManager true]) = some new)
    (hopen : w.OpenServiceW
      (h ++ [SvcEvent.openSCManager true, SvcEvent.getModuleFileNameW (some new)]) w.SVC_NAME =
        HandleResult.valid)
    (hread : (SvcInstall.readVersions w fs new (h ++ SvcInstall.opened w new)).1 =
      some (installed, existing, n))
    (hyes : SvcInstall.mustReplace action existing n = true) :
    ∃ before tail stopped,
      (SvcInstall w fs action h).2 = before ++ tail ∧
      SvcKinds [SvcKind.manager, SvcKind.acl, SvcKind.config, SvcKind.version, SvcKind.stop]
        before ∧
      filesAfter fs (SvcInstall w fs action h).2 = filesAfter fs tail ∧
      SvcInstall.replaceOutcome new installed stopped (SvcInstall w fs action h).1 tail := by
  have hrun := SvcInstall_of_opened w fs action h new hscm hmod hopen
  rw [existing_of_read w fs action new _ installed existing n hread, if_pos hyes] at hrun
  dsimp only [] at hrun
  have hP : SvcKinds [SvcKind.manager, SvcKind.acl, SvcKind.config, SvcKind.version]
      (SvcInstall.opened w new ++
        (SvcInstall.readVersions w fs new (h ++ SvcInstall.opened w new)).2) := by
    rw [SvcKinds_append]
    exact ⟨SvcKinds_mono (opened_events w new) (by simp),
      SvcKinds_mono (readVersions_events w fs new _) (by simp)⟩
  have hS := StopService_events w (h ++ SvcInstall.opened w new ++
    (SvcInstall.readVersions w fs new (h ++ SvcInstall.opened w new)).2)
  obtain ⟨tail, hR, hcases⟩ := replace_cases w new installed (h ++ SvcInstall.opened w new ++
    (SvcInstall.readVersions w fs new (h ++ SvcInstall.opened w new)).2)
  have hQ : SvcKinds [SvcKind.manager, SvcKind.acl, SvcKind.config, SvcKind.version, SvcKind.stop]
      (SvcInstall.opened w new ++
        (SvcInstall.readVersions w fs new (h ++ SvcInstall.opened w new)).2 ++
        (StopService w (h ++ SvcInstall.opened w new ++
          (SvcInstall.readVersions w fs new (h ++ SvcInstall.opened w new)).2)).2) := by
    rw [SvcKinds_append]
    exact ⟨SvcKinds_mono hP (by simp), SvcKinds_mono hS (by simp)⟩
  have hev : (SvcInstall w fs action h).2 =
      (SvcInstall.opened w new ++
        (SvcInstall.readVersions w fs new (h ++ SvcInstall.opened w new)).2 ++
        (StopService w (h ++ SvcInstall.opened w new ++
          (SvcInstall.readVersions w fs new (h ++ SvcInstall.opened w new)).2)).2) ++ tail := by
    rw [hrun]
    dsimp only []
    rw [hR]
    simp
  have hval : (SvcInstall w fs action h).1 =
      (SvcInstall.replace w new installed (h ++ SvcInstall.opened w new ++
        (SvcInstall.readVersions w fs new (h ++ SvcInstall.opened w new)).2)).1 := by
    rw [hrun]
  refine ⟨_, tail, (StopService w (h ++ SvcInstall.opened w new ++
    (SvcInstall.readVersions w fs new (h ++ SvcInstall.opened w new)).2)).1, hev, hQ, ?_, ?_⟩
  · rw [hev, filesAfter_append, filesAfter_of_no_file fs _ (SvcKinds_ne hQ (by simp))]
  · rw [hval]
    exact hcases

/-- A file event of a run that starts with events of other kinds lies in the rest. -/
theorem mem_tail_of_file (before tail : SvcTrace) (ev : SvcEvent)
    (hQ : SvcKinds [SvcKind.manager, SvcKind.acl, SvcKind.config, SvcKind.version, SvcKind.stop]
      before)
    (hk : ev.kind = SvcKind.file) : ev ∈ before ++ tail ↔ ev ∈ tail := by
  rw [List.mem_append]
  constructor
  · rintro (hm | hm)
    · exact absurd hk (SvcKinds_ne hQ (by simp) ev hm)
    · exact hm
  · exact Or.inr

/-- The installed path after the replacing part holds the old content, the content of
the calling binary, or nothing. -/
theorem replaceOutcome_content (fs : Files) (new lp : WStr) (stopped result : Bool)
    (tail : SvcTrace) (hout : SvcInstall.replaceOutcome new lp stopped result tail) :
    filesAfter fs tail lp = fs lp ∨ filesAfter fs tail lp = fs new ∨
      filesAfter fs tail lp = none := by
  unfold SvcInstall.replaceOutcome at hout
  rcases hout with ⟨ht, _⟩ | ⟨ht, _⟩ | ⟨_, hne, hc⟩
  · rw [ht]; left; rfl
  · rw [ht]; left; rfl
  · rcases hc with ⟨s, ht, _⟩ | ⟨s, ht, _, _⟩ | ⟨s, ht, _, _⟩ | ⟨c, d, s, ht, _, _⟩
    · rw [ht]; right; left
      simp [filesAfter, SvcEvent.effect]
    · rw [ht]; left
      simp [filesAfter, SvcEvent.effect]
    · rw [ht]; left
      simp [filesAfter, SvcEvent.effect]
    · rw [ht]
      by_cases h1 : lp = SvcInstall.oldServiceBinaryTempPath lp
      · by_cases h2 : new = SvcInstall.oldServiceBinaryTempPath lp
        · exact absurd (h2.trans h1.symm) hne
        · cases c <;> cases d <;>
            simp [filesAfter, SvcEvent.effect, ← h1, hne, Ne.symm hne]
      · by_cases h2 : new = SvcInstall.oldServiceBinaryTempPath lp
        · cases c <;> cases d <;>
            simp [filesAfter, SvcEvent.effect, h1, ← h2, hne, Ne.symm hne]
        · cases c <;> cases d <;>
            simp [filesAfter, SvcEvent.effect, h1, h2, hne, Ne.symm hne]

/-- The installed path after the replacing part, when the aside path is not the
installed path: after TRUE it holds the old content or the content of the calling
binary; after FALSE it holds the old content, or nothing when the rename aside
succeeded. -/
theorem replaceOutcome_installed (fs : Files) (new lp : WStr) (stopped result : Bool)
    (tail : SvcTrace) (hout : SvcInstall.replaceOutcome new lp stopped result tail)
    (haside : SvcInstall.oldServiceBinaryTempPath lp ≠ lp) :
    (result = true → filesAfter fs tail lp = fs lp ∨ filesAfter fs tail lp = fs new) ∧
    (result = false →
      (SvcEvent.moveFileExW lp (some (SvcInstall.oldServiceBinaryTempPath lp))
          (MOVEFILE_REPLACE_EXISTING ||| MOVEFILE_WRITE_THROUGH) true ∈ tail →
        filesAfter fs tail lp = none ∧ SvcEvent.copyFileW new lp true ∉ tail) ∧
      (SvcEvent.moveFileExW lp (some (SvcInstall.oldServiceBinaryTempPath lp))
          (MOVEFILE_REPLACE_EXISTING ||| MOVEFILE_WRITE_THROUGH) true ∉ tail →
        filesAfter fs tail lp = fs lp)) := by
  unfold SvcInstall.replaceOutcome at hout
  have h1 : ¬ lp = SvcInstall.oldServiceBinaryTempPath lp := fun hc => haside hc.symm
  rcases hout with ⟨ht, _, hr⟩ | ⟨ht, _, _, hr⟩ | ⟨_, hne, hc⟩
  · subst ht hr
    simp [filesAfter, SvcEvent.effect]
  · subst ht hr
    simp [filesAfter, SvcEvent.effect]
  · rcases hc with ⟨s, ht, hr⟩ | ⟨s, ht, _, hr⟩ | ⟨s, ht, _, hr⟩ | ⟨c, d, s, ht, _, hr⟩
    · subst ht hr
      simp [filesAfter, SvcEvent.effect]
    · subst ht hr
      simp [filesAfter, SvcEvent.effect]
    · subst ht hr
      simp [filesAfter, SvcEvent.effect]
    · subst ht hr
      by_cases h2 : new = SvcInstall.oldServiceBinaryTempPath lp
      · cases result <;> cases d <;>
          simp [filesAfter, SvcEvent.effect, h1, ← h2, hne, Ne.symm hne]
      · cases result <;> cases d <;>
          simp [filesAfter, SvcEvent.effect, h1, h2, hne, Ne.symm hne]

/-- The replacing part begins with the return of `StopService`; after FALSE nothing
follows, after TRUE only file calls and the scheduling of the deletion follow. -/
theorem replaceOutcome_head (new lp : WStr) (stopped result : Bool) (tail : SvcTrace)
    (hout : SvcInstall.replaceOutcome new lp stopped result tail) :
    ∃ rest, tail = SvcEvent.retStopService stopped :: rest ∧
      SvcKinds [SvcKind.file, SvcKind.schedule] rest ∧
      (stopped = false → rest = [] ∧ result = false) := by
  unfold SvcInstall.replaceOutcome at hout
  rcases hout with ⟨ht, hs, hr⟩ | ⟨ht, hs, _, _⟩ | ⟨hs, _, hc⟩
  · subst ht hs
    exact ⟨[], rfl, SvcKinds_nil _, fun _ => ⟨rfl, hr⟩⟩
  · subst ht hs
    exact ⟨[], rfl, SvcKinds_nil _, fun hc => Bool.noConfusion hc⟩
  · subst hs
    rcases hc with ⟨s, ht, _⟩ | ⟨s, ht, _, _⟩ | ⟨s, ht, _, _⟩ | ⟨c, d, s, ht, _, _⟩
    all_goals
      subst ht
      exact ⟨_, rfl, by simp [SvcKinds, SvcEvent.kind], fun hc => Bool.noConfusion hc⟩

theorem absent_events (w : SvcWorld) (action : SvcInstallAction) (new : WStr) (h : SvcTrace) :
    SvcKinds [SvcKind.create, SvcKind.acl] (SvcInstall.absent w action new h).2 := by
  unfold SvcInstall.absent
  split
  · exact SvcKinds_nil _
  · dsimp only []
    split
    · simp [SvcKinds, SvcEvent.kind]
    · rw [SvcKinds_append, SvcKinds_append]
      exact ⟨⟨by simp [SvcKinds, SvcEvent.kind],
        SvcKinds_mono (SetUserAccessServiceDACL_events w _) (by simp)⟩,
        by simp [SvcKinds, SvcEvent.kind]⟩

/-- The runs of the part of `SvcInstall` for an existing service: either no file is
changed and the service is not stopped, or the events of `StopService` follow the reading
of the versions and the run ends as the replacing part does. -/
theorem existing_shape (w : SvcWorld) (fs : Files) (action : SvcInstallAction) (new : WStr)
    (h : SvcTrace) :
    SvcKinds [SvcKind.acl, SvcKind.config, SvcKind.version, SvcKind.schedule]
        (SvcInstall.existing w fs action new h).2 ∨
    ∃ lp tail,
      (SvcInstall.existing w fs action new h).2 =
        (SvcInstall.readVersions w fs new h).2 ++
          (StopService w (h ++ (SvcInstall.readVersions w fs new h).2)).2 ++ tail ∧
      SvcInstall.replaceOutcome new lp
        (StopService w (h ++ (SvcInstall.readVersions w fs new h).2)).1
        (SvcInstall.existing w fs action new h).1 tail := by
  have hR : SvcKinds [SvcKind.acl, SvcKind.config, SvcKind.version, SvcKind.schedule]
      (SvcInstall.readVersions w fs new h).2 :=
    SvcKinds_mono (readVersions_events w fs new h) (by simp)
  cases hread : (SvcInstall.readVersions w fs new h).1 with
  | none =>
    left
    unfold SvcInstall.existing
    dsimp only []
    rw [hread]
    exact hR
  | some found =>
    obtain ⟨lp, existing, n⟩ := found
    rw [existing_of_read w fs action new h lp existing n hread]
    by_cases hyes : SvcInstall.mustReplace action existing n = true
    · right
      rw [if_pos hyes]
      obtain ⟨tail, hrep, hcases⟩ :=
        replace_cases w new lp (h ++ (SvcInstall.readVersions w fs new h).2)
      refine ⟨lp, tail, ?_, hcases⟩
      dsimp only []
      rw [hrep]
      simp
    · left
      rw [if_neg hyes]
      try dsimp only []
      rw [SvcKinds_append]
      exact ⟨hR, by simp [SvcKinds, SvcEvent.kind]⟩

/-- The runs of `SvcInstall`: either no file is changed and `StopService` is not called,
or the run consists of events that change no file, the last of them those of
`StopService`, followed by one of the ends of the replacing part. -/
theorem SvcInstall_shape (w : SvcWorld) (fs : Files) (action : SvcInstallAction)
    (h : SvcTrace) :
    SvcKinds [SvcKind.manager, SvcKind.acl, SvcKind.config, SvcKind.version, SvcKind.schedule,
        SvcKind.create] (SvcInstall w fs action h).2 ∨
    ∃ before tail new lp stopped,
      (SvcInstall w fs action h).2 = before ++ tail ∧
      SvcKinds [SvcKind.manager, SvcKind.acl, SvcKind.config, SvcKind.version, SvcKind.stop]
        before ∧
      (stopped = true →
        SvcEvent.waitForServiceStop w.SVC_NAME 30 SERVICE_STOPPED ∈ before) ∧
      SvcInstall.replaceOutcome new lp stopped (SvcInstall w fs action h).1 tail := by
  unfold SvcInstall
  dsimp only []
  split
  · left
    simp [SvcKinds, SvcEvent.kind]
  · split
    · left
      simp [SvcKinds, SvcEvent.kind]
    · rename_i new hmod
      try dsimp only []
      generalize w.OpenServiceW (h ++ ([SvcEvent.openSCManager (w.OpenSCManager h)] ++
        [SvcEvent.getModuleFileNameW (some new)])) w.SVC_NAME = schService
      have h3 : SvcKinds [SvcKind.manager]
          ([SvcEvent.openSCManager (w.OpenSCManager h)] ++
            [SvcEvent.getModuleFileNameW (some new)] ++
            [SvcEvent.openServiceW w.SVC_NAME schService]) := by
        simp [SvcKinds, SvcEvent.kind]
      cases schService with
      | invalid lastError =>
        left
        dsimp only []
        split
        · exact SvcKinds_mono h3 (by simp)
        · try dsimp only []
          rw [SvcKinds_append]
          exact ⟨SvcKinds_mono h3 (by simp), SvcKinds_mono (absent_events _ _ _ _) (by simp)⟩
      | valid =>
        dsimp only []
        generalize h ++ ([SvcEvent.openSCManager (w.OpenSCManager h)] ++
            [SvcEvent.getModuleFileNameW (some new)] ++
            [SvcEvent.openServiceW w.SVC_NAME HandleResult.valid]) = h1
        rcases existing_shape w fs action new h1 with hk | ⟨lp, tail, hev, hcases⟩
        · left
          rw [SvcKinds_append]
          exact ⟨SvcKinds_mono h3 (by simp), SvcKinds_mono hk (by simp)⟩
        · right
          refine ⟨[SvcEvent.openSCManager (w.OpenSCManager h)] ++
            [SvcEvent.getModuleFileNameW (some new)] ++
            [SvcEvent.openServiceW w.SVC_NAME HandleResult.valid] ++
            ((SvcInstall.readVersions w fs new h1).2 ++
              (StopService w (h1 ++ (SvcInstall.readVersions w fs new h1).2)).2), tail, new, lp,
            (StopService w (h1 ++ (SvcInstall.readVersions w fs new h1).2)).1, ?_, ?_, ?_, hcases⟩
          · rw [hev]
            simp
          · exact (SvcKinds_append _ _ _).mpr ⟨SvcKinds_mono h3 (by simp),
              (SvcKinds_append _ _ _).mpr
                ⟨SvcKinds_mono (readVersions_events _ _ _ _) (by simp),
                  SvcKinds_mono (StopService_events _ _) (by simp)⟩⟩
          · intro hs
            have := StopService_true w _ hs
            simp [this]

/-- A run of `SvcInstall` on an existing service that ends before the versions are
compared returns FALSE and changes no file. -/
theorem SvcInstall_of_unread (w : SvcWorld) (fs : Files) (action : SvcInstallAction)
    (h : SvcTrace) (new : WStr)
    (hscm : w.OpenSCManager h = true)
    (hmod : w.GetModuleFileNameW (h ++ [SvcEvent.openSCManager true]) = some new)
    (hopen : w.OpenServiceW
      (h ++ [SvcEvent.openSCManager true, SvcEvent.getModuleFileNameW (some new)]) w.SVC_NAME =
        HandleResult.valid)
    (hread : (SvcInstall.readVersions w fs new (h ++ SvcInstall.opened w new)).1 = none) :
    (SvcInstall w fs action h).1 = false ∧
    SvcKinds [SvcKind.manager, SvcKind.acl, SvcKind.config, SvcKind.version, SvcKind.schedule]
      (SvcInstall w fs action h).2 ∧
    filesAfter fs (SvcInstall w fs action h).2 = fs := by
  have hrun := SvcInstall_of_opened w fs action h new hscm hmod hopen
  have hex : SvcInstall.existing w fs action new (h ++ SvcInstall.opened w new) =
      (false, (SvcInstall.readVersions w fs new (h ++ SvcInstall.opened w new)).2) := by
    unfold SvcInstall.existing
    dsimp only []
    rw [hread]
  rw [hex] at hrun
  have hev : SvcKinds [SvcKind.manager, SvcKind.acl, SvcKind.config, SvcKind.version,
      SvcKind.schedule] (SvcInstall w fs action h).2 := by
    rw [hrun]
    exact (SvcKinds_append _ _ _).mpr ⟨SvcKinds_mono (opened_events w new) (by simp),
      SvcKinds_mono (readVersions_events w fs new _) (by simp)⟩
  exact ⟨by rw [hrun], hev, filesAfter_of_no_file fs _ (SvcKinds_ne hev (by simp))⟩

/-- A run of `SvcInstall` on an existing service that finds nothing to replace returns
TRUE and changes no file. -/
theorem SvcInstall_of_kept (w : SvcWorld) (fs : Files) (action : SvcInstallAction)
    (h : SvcTrace) (new installed : WStr) (existing : Option FileVersion) (n : FileVersion)
    (hscm : w.OpenSCManager h = true)
    (hmod : w.GetModuleFileNameW (h ++ [SvcEvent.openSCManager true]) = some new)
    (hopen : w.OpenServiceW
      (h ++ [SvcEvent.openSCManager true, SvcEvent.getModuleFileNameW (some new)]) w.SVC_NAME =
        HandleResult.valid)
    (hread : (SvcInstall.readVersions w fs new (h ++ SvcInstall.opened w new)).1 =
      some (installed, existing, n))
    (hno : ¬ SvcInstall.mustReplace action existing n = true) :
    SvcInstall w fs action h =
      (true, SvcInstall.opened w new ++
        ((SvcInstall.readVersions w fs new (h ++ SvcInstall.opened w new)).2 ++
          [SvcEvent.moveFileExW new none MOVEFILE_DELAY_UNTIL_REBOOT
            (w.MoveFileExW (h ++ SvcInstall.opened w new ++
              (SvcInstall.readVersions w fs new (h ++ SvcInstall.opened w new)).2) new none
              MOVEFILE_DELAY_UNTIL_REBOOT)])) ∧
    SvcKinds [SvcKind.manager, SvcKind.acl, SvcKind.config, SvcKind.version, SvcKind.schedule]
      (SvcInstall w fs action h).2 ∧
    filesAfter fs (SvcInstall w fs action h).2 = fs := by
  have hrun := SvcInstall_of_opened w fs action h new hscm hmod hopen
  rw [existing_of_read w fs action new _ installed existing n hread, if_neg hno] at hrun
  dsimp only [] at hrun
  have hev : SvcKinds [SvcKind.manager, SvcKind.acl, SvcKind.config, SvcKind.version,
      SvcKind.schedule] (SvcInstall w fs action h).2 := by
    rw [hrun]
    exact (SvcKinds_append _ _ _).mpr ⟨SvcKinds_mono (opened_events w new) (by simp),
      (SvcKinds_append _ _ _).mpr ⟨SvcKinds_mono (readVersions_events w fs new _) (by simp),
        by simp [SvcKinds, SvcEvent.kind]⟩⟩
  exact ⟨hrun, hev, filesAfter_of_no_file fs _ (SvcKinds_ne hev (by simp))⟩

/-! ## The claims on the registration check, the child run, the command line and the service -/

/-- C11.  For a software-update request whose install directory `argv[3]` passed
`IsValidFullPath`: the install directory used is `argv[3]` with one trailing backslash
removed; with the fallback key present the run goes on to `UpdaterIsValid` with no
registry call at all; with the fallback key absent the run returns FALSE with no
trust-check event when `CalculateRegistryPathFromFilePath(installDir)` fails or
`RegOpenKeyExW` of the computed key does not return ERROR_SUCCESS, and goes on to
`UpdaterIsValid` when the key opens.  The key opened is the one computed from the install
directory. -/
theorem registration_check_guards_trust_check (w : World) (argv : List WStr) (h : Trace)
    (hcmd : w.lstrcmpi (argv.getD 1 []) SOFTWARE_UPDATE = 0) (hargc : 3 < argv.length)
    (hvalid : (IsValidFullPath w (argv.getD 3 []) (h ++ [Event.getUUIDString])).1 = true) :
    let installDir := stripTrailingBackslash (argv.getD 3 [])
    let fallback := w.DoesFallbackKeyExist (h ++ ExecuteServiceCommand.validated w argv h)
    let F := ExecuteServiceCommand.validated w argv h ++ [Event.doesFallbackKeyExist fallback]
    GetInstallationDir (argv.drop 2) = some installDir ∧
    (fallback = true →
      ExecuteServiceCommand w argv h =
        ((ExecuteServiceCommand.stageAndRun w argv installDir (h ++ F)).1,
          F ++ (ExecuteServiceCommand.stageAndRun w argv installDir (h ++ F)).2) ∧
      ∀ e ∈ (ExecuteServiceCommand w argv h).2, e.kind = Kind.registry →
        e = Event.doesFallbackKeyExist true) ∧
    (fallback = false → w.CalculateRegistryPathFromFilePath installDir = none →
      ExecuteServiceCommand w argv h = (some false, F)) ∧
    (fallback = false → ∀ key, w.CalculateRegistryPathFromFilePath installDir = some key →
      let status := w.RegOpenKeyExW (h ++ F) key
      let G := F ++ [Event.regOpenKeyExW key status]
      (status ≠ ERROR_SUCCESS → ExecuteServiceCommand w argv h = (some false, G)) ∧
      (status = ERROR_SUCCESS →
        ExecuteServiceCommand w argv h =
          ((ExecuteServiceCommand.stageAndRun w argv installDir
              (h ++ (G ++ [Event.regCloseKey]))).1,
            G ++ [Event.regCloseKey] ++
              (ExecuteServiceCommand.stageAndRun w argv installDir
                (h ++ (G ++ [Event.regCloseKey]))).2))) ∧
    ((fallback = false ∧ ∀ key, w.CalculateRegistryPathFromFilePath installDir = some key →
        w.RegOpenKeyExW (h ++ F) key ≠ ERROR_SUCCESS) →
      (ExecuteServiceCommand w argv h).1 = some false ∧
      ∀ e ∈ (ExecuteServiceCommand w argv h).2, e.kind ≠ Kind.trustCheck) ∧
    (∀ key status, Event.regOpenKeyExW key status ∈ (ExecuteServiceCommand w argv h).2 →
      w.CalculateRegistryPathFromFilePath installDir = some key) := by
  have hdir := GetInstallationDir_valid w argv _ hargc hvalid
  have hF := validated_events w argv h
  have hESC : ExecuteServiceCommand w argv h =
      (let installDir := stripTrailingBackslash (argv.getD 3 [])
       let e1 := ExecuteServiceCommand.validated w argv h
       let fallback := w.DoesFallbackKeyExist (h ++ e1)
       let e2 := e1 ++ [Event.doesFallbackKeyExist fallback]
       if fallback = false then
         match w.CalculateRegistryPathFromFilePath installDir with
         | some updateServiceKey =>
           let status := w.RegOpenKeyExW (h ++ e2) updateServiceKey
           let e3 := e2 ++ [Event.regOpenKeyExW updateServiceKey status]
           if status ≠ ERROR_SUCCESS then (some false, e3)
           else
             let run := ExecuteServiceCommand.stageAndRun w argv installDir
               (h ++ (e3 ++ [Event.regCloseKey]))
             (run.1, e3 ++ [Event.regCloseKey] ++ run.2)
         | none => (some false, e2)
       else
         let run := ExecuteServiceCommand.stageAndRun w argv installDir (h ++ e2)
         (run.1, e2 ++ run.2)) := by
    unfold ExecuteServiceCommand ExecuteServiceCommand.validated
    have h2 : ¬ argv.length < 2 := by omega
    have h3 : ¬ argv.length ≤ 3 := by omega
    rw [if_neg h2]
    dsimp only []
    rw [if_pos hcmd, if_neg h3, hvalid, hdir]
    simp only [Bool.true_eq_false, if_false]
    try rfl
  have hrun := fun h1 =>
    stageAndRun_events w argv (stripTrailingBackslash (argv.getD 3 [])) h1
  intro installDir fallback F
  rw [hESC]
  dsimp only []
  refine ⟨hdir, ?_, ?_, ?_, ?_, ?_⟩
  · intro hfb
    have hfb1 : w.DoesFallbackKeyExist (h ++ ExecuteServiceCommand.validated w argv h) = true :=
      hfb
    rw [if_neg (by rw [hfb1]; simp)]
    refine ⟨rfl, ?_⟩
    intro e he hk
    rw [hfb1] at he
    simp only [List.mem_append, List.mem_singleton] at he
    rcases he with (he | he) | he
    · exact absurd hk (Kinds_ne hF (by simp) e he)
    · exact he
    · exact absurd hk (Kinds_ne (hrun _) (by simp) e he)
  · intro hfb hnone
    have hfb1 : w.DoesFallbackKeyExist (h ++ ExecuteServiceCommand.validated w argv h) = false :=
      hfb
    have hnone1 : w.CalculateRegistryPathFromFilePath
        (stripTrailingBackslash (argv.getD 3 [])) = none := hnone
    rw [if_pos hfb1, hnone1]
  · intro hfb key hkey
    have hfb1 : w.DoesFallbackKeyExist (h ++ ExecuteServiceCommand.validated w argv h) = false :=
      hfb
    have hkey1 : w.CalculateRegistryPathFromFilePath
        (stripTrailingBackslash (argv.getD 3 [])) = some key := hkey
    rw [if_pos hfb1, hkey1]
    dsimp only []
    constructor
    · intro hst
      rw [if_pos hst]
    · intro hst
      rw [if_neg (by rw [hst]; simp)]
  · rintro ⟨hfb, hclosed⟩
    have hfb1 : w.DoesFallbackKeyExist (h ++ ExecuteServiceCommand.validated w argv h) = false :=
      hfb
    rw [if_pos hfb1]
    cases hkey : w.CalculateRegistryPathFromFilePath (stripTrailingBackslash (argv.getD 3 []))
      with
    | none =>
      refine ⟨rfl, ?_⟩
      intro e he
      simp only [List.mem_append, List.mem_singleton] at he
      rcases he with he | he
      · exact Kinds_ne hF (by simp) e he
      · rw [he]; simp [Event.kind]
    | some key =>
      have hst := hclosed key hkey
      dsimp only []
      rw [if_pos hst]
      refine ⟨rfl, ?_⟩
      intro e he
      simp only [List.mem_append, List.mem_singleton] at he
      rcases he with (he | he) | he
      · exact Kinds_ne hF (by simp) e he
      · rw [he]; simp [Event.kind]
      · rw [he]; simp [Event.kind]
  · intro key status hmem
    by_cases hfb1 : w.DoesFallbackKeyExist (h ++ ExecuteServiceCommand.validated w argv h) = false
    · rw [if_pos hfb1] at hmem
      cases hkey : w.CalculateRegistryPathFromFilePath (stripTrailingBackslash (argv.getD 3 []))
        with
      | none =>
        rw [hkey] at hmem
        simp only [List.mem_append, List.mem_singleton] at hmem
        rcases hmem with he | he
        · exact absurd rfl (Kinds_ne hF (k := Kind.registry) (by simp) _ he)
        · exact Event.noConfusion he
      | some key1 =>
        rw [hkey] at hmem
        dsimp only [] at hmem
        have hin : Event.regOpenKeyExW key status ∈
            ExecuteServiceCommand.validated w argv h ++
              [Event.doesFallbackKeyExist
                (w.DoesFallbackKeyExist (h ++ ExecuteServiceCommand.validated w argv h))] ++
              [Event.regOpenKeyExW key1 (w.RegOpenKeyExW (h ++ F) key1)] ∨
            Event.regOpenKeyExW key status ∈
              (ExecuteServiceCommand.stageAndRun w argv
                (stripTrailingBackslash (argv.getD 3 []))
                (h ++ (F ++ [Event.regOpenKeyExW key1 (w.RegOpenKeyExW (h ++ F) key1)] ++
                  [Event.regCloseKey]))).2 := by
          split at hmem
          · exact Or.inl hmem
          · simp only [List.mem_append, List.mem_singleton] at hmem ⊢
            rcases hmem with (hm | hm) | hm
            · exact Or.inl hm
            · exact absurd hm (by simp)
            · exact Or.inr hm
        rcases hin with hin | hin
        · simp only [List.mem_append, List.mem_singleton] at hin
          rcases hin with (he | he) | he
          · exact absurd rfl (Kinds_ne hF (k := Kind.registry) (by simp) _ he)
          · exact Event.noConfusion he
          · injection he with hk _
            rw [hk]
        · exact absurd rfl (Kinds_ne (hrun _) (k := Kind.registry) (by simp) _ hin)
    · rw [if_neg hfb1] at hmem
      simp only [List.mem_append, List.mem_singleton] at hmem
      rcases hmem with (he | he) | he
      · exact absurd rfl (Kinds_ne hF (k := Kind.registry) (by simp) _ he)
      · exact Event.noConfusion he
      · exact absurd rfl (Kinds_ne (hrun _) (k := Kind.registry) (by simp) _ he)

/-- C11, on a machine without fallback key whose registry key does not open. -/
theorem registration_check_guards_trust_check_witness :
    unregisteredWorld.lstrcmpi (exampleArgv.getD 1 []) SOFTWARE_UPDATE = 0 ∧
    3 < exampleArgv.length ∧
    (IsValidFullPath unregisteredWorld (exampleArgv.getD 3 []) ([] ++ [Event.getUUIDString])).1
      = true ∧
    GetInstallationDir (exampleArgv.drop 2) = some exampleInstallDir ∧
    (ExecuteServiceCommand unregisteredWorld exampleArgv []).1 = some false ∧
    ∀ e ∈ (ExecuteServiceCommand unregisteredWorld exampleArgv []).2, e.kind ≠ Kind.trustCheck :=
  ⟨by decide, by decide, by decide,
    (registration_check_guards_trust_check unregisteredWorld exampleArgv [] (by decide)
      (by decide) (by decide)).1,
    (registration_check_guards_trust_check unregisteredWorld exampleArgv [] (by decide)
      (by decide) (by decide)).2.2.2.2.1 ⟨by decide, by decide⟩⟩

/-- C12.  `StartUpdateProcess` returns TRUE if and only if `CreateProcessW` started the
child, `WaitForSingleObject` with the timeout TIME_TO_WAIT_ON_UPDATER = 15*60*1000 ms
returned something other than WAIT_TIMEOUT, and `GetExitCodeProcess` succeeded with exit
code 0.  On WAIT_TIMEOUT the run ends with `TerminateProcess(child, 1)` and FALSE, and a
run that read a non-zero exit code returns FALSE. -/
theorem StartUpdateProcess_true_iff (w : World) (argv : List WStr) (h : Trace) :
    let cmdLine := argv.headD [] ++ SPACE :: ("/S /D=".toList ++ MakeCommandLine (argv.drop 1))
    let started := w.CreateProcessW h (argv.headD []) cmdLine
    let e1 := [Event.createProcessW (argv.headD []) cmdLine started]
    let waitRes := w.WaitForSingleObject (h ++ e1) TIME_TO_WAIT_ON_UPDATER
    let e2 := e1 ++ [Event.waitForSingleObject TIME_TO_WAIT_ON_UPDATER waitRes]
    TIME_TO_WAIT_ON_UPDATER = 15 * 60 * 1000 ∧
    ((StartUpdateProcess w argv h).1 = true ↔
      started = true ∧ waitRes ≠ WAIT_TIMEOUT ∧ w.GetExitCodeProcess (h ++ e2) = some 0) ∧
    (started = true → waitRes = WAIT_TIMEOUT →
      StartUpdateProcess w argv h = (false, e2 ++ [Event.terminateProcess 1])) ∧
    (started = true → waitRes ≠ WAIT_TIMEOUT → ∀ code, w.GetExitCodeProcess (h ++ e2) = some code →
      StartUpdateProcess w argv h =
        (decide (code = 0), e2 ++ [Event.getExitCodeProcess (some code)])) ∧
    (∀ code, code ≠ 0 →
      Event.getExitCodeProcess (some code) ∈ (StartUpdateProcess w argv h).2 →
      (StartUpdateProcess w argv h).1 = false) ∧
    (∀ e ∈ (StartUpdateProcess w argv h).2, e = Event.terminateProcess 1 →
      waitRes = WAIT_TIMEOUT) := by
  intro cmdLine started e1 waitRes e2
  refine ⟨rfl, ?_⟩
  unfold StartUpdateProcess
  dsimp only []
  by_cases hs : started = true
  · have hs1 : w.CreateProcessW h (argv.headD [])
        (argv.headD [] ++ SPACE :: ("/S /D=".toList ++ MakeCommandLine (argv.drop 1))) = true := hs
    rw [if_pos hs1]
    by_cases ht : waitRes = WAIT_TIMEOUT
    · have ht1 : w.WaitForSingleObject (h ++ e1) TIME_TO_WAIT_ON_UPDATER = WAIT_TIMEOUT := ht
      rw [if_pos ht1]
      refine ⟨?_, fun _ _ => rfl, fun _ hc => absurd ht hc, ?_, fun _ _ _ => ht⟩
      · constructor
        · intro hc; exact Bool.noConfusion hc
        · rintro ⟨_, hc, _⟩; exact absurd ht hc
      · intro code _ hmem
        simp at hmem
    · have ht1 : ¬ w.WaitForSingleObject (h ++ e1) TIME_TO_WAIT_ON_UPDATER = WAIT_TIMEOUT := ht
      rw [if_neg ht1]
      cases hcode : w.GetExitCodeProcess (h ++ e2) with
      | none =>
        dsimp only []
        refine ⟨?_, fun _ hc => absurd hc ht, fun _ _ code hc => Option.noConfusion hc, ?_, ?_⟩
        · constructor
          · intro hc; exact Bool.noConfusion hc
          · rintro ⟨_, _, hc⟩; exact Option.noConfusion hc
        · intro code _ _
          rfl
        · intro e he hte
          rw [hte] at he
          simp [e1] at he
      | some code =>
        dsimp only []
        refine ⟨?_, fun _ hc => absurd hc ht, ?_, ?_, ?_⟩
        · constructor
          · intro hc
            have : code = 0 := by simpa using hc
            exact ⟨hs, ht, by rw [this]⟩
          · rintro ⟨_, _, hc⟩
            have : code = 0 := by injection hc
            simp [this]
        · intro _ _ code1 hc
          have : code = code1 := by injection hc
          rw [this]
        · intro code1 hne hmem
          have : code1 = code := by simpa [e1] using hmem
          simp [← this, hne]
        · intro e he hte
          rw [hte] at he
          simp [e1] at he
  · have hs1 : ¬ w.CreateProcessW h (argv.headD [])
        (argv.headD [] ++ SPACE :: ("/S /D=".toList ++ MakeCommandLine (argv.drop 1))) = true := hs
    rw [if_neg hs1]
    refine ⟨?_, fun hc => absurd hc hs, fun hc => absurd hc hs, ?_, ?_⟩
    · constructor
      · intro hc; exact Bool.noConfusion hc
      · rintro ⟨hc, _⟩; exact absurd hc hs
    · intro code _ _
      rfl
    · intro e he hte
      rw [hte] at he
      simp at he

/-- C12, on the nominal machine: the child starts, ends in time with exit code 0, and
the result is TRUE. -/
theorem StartUpdateProcess_true_iff_witness :
    (StartUpdateProcess nominalWorld [exampleSecurePath, exampleInstallDir] []).1 = true :=
  (StartUpdateProcess_true_iff nominalWorld [exampleSecurePath, exampleInstallDir] []).2.1.2
    (by decide)

/-- C13.  With fewer than two arguments `ProcessSoftwareUpdateCommand` returns FALSE with
no event.  Otherwise it calls `StartServiceUpdate` if and only if
`UpdaterIsValid(argv[0], installDir)` returned true and `StartUpdateProcess` returned TRUE, and
it returns TRUE in exactly that case, `StartServiceUpdate` being the last event of the run
(its outcome is not read); when the check returns false, or the check passes and the run
returns FALSE, the result is FALSE. -/
theorem self_update_iff_updater_ran (w : World) (argv : List WStr) (h : Trace) :
    (argv.length < 2 → ProcessSoftwareUpdateCommand w argv h = (some false, [])) ∧
    (2 ≤ argv.length → ∃ installDir, GetInstallationDir argv = some installDir ∧
      let valid := UpdaterIsValid w (argv.headD []) installDir h
      let e1 := valid.2 ++ [Event.retUpdaterIsValid (argv.headD []) installDir true]
      let run := StartUpdateProcess w argv (h ++ e1)
      ((ProcessSoftwareUpdateCommand w argv h).1 = some true ↔
        valid.1 = some true ∧ run.1 = true) ∧
      (Event.startServiceUpdate ∈ (ProcessSoftwareUpdateCommand w argv h).2 ↔
        valid.1 = some true ∧ run.1 = true) ∧
      (valid.1 = some true → run.1 = true →
        ProcessSoftwareUpdateCommand w argv h =
          (some true, e1 ++ run.2 ++ [Event.startServiceUpdate])) ∧
      (valid.1 = some true → run.1 = false →
        ProcessSoftwareUpdateCommand w argv h = (some false, e1 ++ run.2)) ∧
      (valid.1 = some false →
        ProcessSoftwareUpdateCommand w argv h =
          (some false, valid.2 ++ [Event.retUpdaterIsValid (argv.headD []) installDir false]))) := by
  constructor
  · intro hlt
    unfold ProcessSoftwareUpdateCommand
    rw [if_pos hlt]
  · intro hge
    have h2 : ¬ argv.length < 2 := by omega
    cases hdir : GetInstallationDir argv with
    | none =>
      unfold GetInstallationDir at hdir
      rw [if_neg h2] at hdir
      dsimp only [] at hdir
      split at hdir <;> exact Option.noConfusion hdir
    | some installDir =>
      refine ⟨installDir, rfl, ?_⟩
      have hU := UpdaterIsValid_events w (argv.headD []) installDir h
      unfold ProcessSoftwareUpdateCommand
      rw [if_neg h2, hdir]
      dsimp only []
      generalize UpdaterIsValid w (argv.headD []) installDir h = valid at hU ⊢
      obtain ⟨v1, v2⟩ := valid
      have hv2 : Event.startServiceUpdate ∉ v2 := fun hm =>
        Kinds_ne hU (k := Kind.selfUpdate) (by simp) _ hm rfl
      obtain ⟨c, s, rest, hR, hrest⟩ := StartUpdateProcess_events w argv
        (h ++ (v2 ++ [Event.retUpdaterIsValid (argv.headD []) installDir true]))
      generalize StartUpdateProcess w argv
        (h ++ (v2 ++ [Event.retUpdaterIsValid (argv.headD []) installDir true])) = run at hR ⊢
      obtain ⟨r1, r2⟩ := run
      have hr2 : Event.startServiceUpdate ∉ r2 := by
        intro hm
        simp only at hR
        rw [hR] at hm
        rcases List.mem_cons.mp hm with hm | hm
        · exact Event.noConfusion hm
        · exact Kinds_ne hrest (k := Kind.selfUpdate) (by simp) _ hm rfl
      rcases v1 with _ | v1
      · simp [hv2]
      · cases v1
        · simp [hv2]
        · cases r1
          · simp [hv2, hr2]
          · simp

/-- C13, on the nominal machine: the staged updater is accepted and exits with code 0, the
result is TRUE and `StartServiceUpdate` is called. -/
theorem self_update_iff_updater_ran_witness :
    (ProcessSoftwareUpdateCommand nominalWorld [exampleSecurePath, exampleInstallDir] []).1 =
      some true ∧
    Event.startServiceUpdate ∈
      (ProcessSoftwareUpdateCommand nominalWorld [exampleSecurePath, exampleInstallDir] []).2 := by
  obtain ⟨installDir, hdir, hval, hev, _⟩ :=
    (self_update_iff_updater_ran nominalWorld [exampleSecurePath, exampleInstallDir] []).2
      (by decide)
  have hd : GetInstallationDir [exampleSecurePath, exampleInstallDir] = some exampleInstallDir := by
    decide
  rw [hd] at hdir
  have heq : exampleInstallDir = installDir := by injection hdir
  subst heq
  exact ⟨hval.mpr ⟨by decide, by decide⟩, hev.mpr ⟨by decide, by decide⟩⟩

/-- C14.  Take a run of `ExecuteServiceCommand` in which `ProcessSoftwareUpdateCommand`
returned `result`.  The call was made on the staged path, the one the updater was copied
to; the events after the return are exactly those of `DeleteSecureUpdater` on that path,
which for a non-empty path whose sibling `updater.ini` path can be formed are the
`DeleteFileW` of the staged path and the `DeleteFileW` of the sibling, whatever they
return; and `ExecuteServiceCommand` returns `result`. -/
theorem cleanup_follows_every_return (w : World) (argv : List WStr) (h pre post : Trace)
    (result : Bool)
    (hcut : (ExecuteServiceCommand w argv h).2 =
      pre ++ Event.retProcessSoftwareUpdateCommand result :: post) :
    (ExecuteServiceCommand w argv h).1 = some result ∧
    ∃ secureUpdaterPath,
      Event.copyFileW (argv.getD 2 []) secureUpdaterPath true ∈ pre ∧
      (∃ before, pre = before ++
          Event.callProcessSoftwareUpdateCommand (secureUpdaterPath :: argv.drop 3) ::
          (ProcessSoftwareUpdateCommand w (secureUpdaterPath :: argv.drop 3)
            (h ++ (before ++ [Event.callProcessSoftwareUpdateCommand
              (secureUpdaterPath :: argv.drop 3)]))).2 ∧
        (ProcessSoftwareUpdateCommand w (secureUpdaterPath :: argv.drop 3)
            (h ++ (before ++ [Event.callProcessSoftwareUpdateCommand
              (secureUpdaterPath :: argv.drop 3)]))).1 = some result) ∧
      post = (DeleteSecureUpdater w secureUpdaterPath
        (h ++ (pre ++ [Event.retProcessSoftwareUpdateCommand result]))).2 ∧
      (secureUpdaterPath.headD NUL ≠ NUL →
        ∀ updaterINIPath,
          w.PathGetSiblingFilePath secureUpdaterPath "updater.ini".toList = some updaterINIPath →
          ∃ r1 r2, post = [Event.deleteFileW secureUpdaterPath r1,
            Event.deleteFileW updaterINIPath r2]) := by
  have hmem : Event.retProcessSoftwareUpdateCommand result ∈ (ExecuteServiceCommand w argv h).2 := by
    rw [hcut]; simp
  rcases ExecuteServiceCommand_shape w argv h with ⟨hk, _⟩ | ⟨F, installDir, hF, _, _, heq⟩
  · exact absurd rfl (Kinds_ne hk (k := Kind.ret) (by simp) _ hmem)
  · have hF1 : ∀ e ∈ F, e.kind ≠ Kind.ret := Kinds_ne hF (by simp)
    rcases stageAndRun_cleanup w argv installDir (h ++ F) with hno | ⟨A, s, res, hrun, hA, hcopy, B, hB, hBres⟩
    · rw [heq] at hmem
      rcases List.mem_append.mp hmem with hm | hm
      · exact absurd rfl (hF1 _ hm)
      · exact absurd rfl (hno _ hm)
    · rw [hrun] at heq
      rw [heq] at hcut
      have hD := DeleteSecureUpdater_events w s
        (h ++ F ++ (A ++ [Event.retProcessSoftwareUpdateCommand res]))
      have hcut1 : (F ++ A) ++ Event.retProcessSoftwareUpdateCommand res ::
          (DeleteSecureUpdater w s
            (h ++ F ++ (A ++ [Event.retProcessSoftwareUpdateCommand res]))).2 =
          pre ++ Event.retProcessSoftwareUpdateCommand result :: post := by
        rw [← hcut]
        simp
      have hFA : ∀ e ∈ F ++ A, e.kind ≠ Kind.ret := by
        intro e he
        rcases List.mem_append.mp he with he | he
        · exact hF1 e he
        · exact hA e he
      obtain ⟨hpre, hres, hpost⟩ := unique_cut Kind.ret
        (Event.retProcessSoftwareUpdateCommand res) (Event.retProcessSoftwareUpdateCommand result)
        _ _ pre post hFA (Kinds_ne hD (by simp)) rfl hcut1
      have hres1 : result = res := by injection hres
      subst hres1
      have hhist : h ++ F ++ (A ++ [Event.retProcessSoftwareUpdateCommand result]) =
          h ++ (pre ++ [Event.retProcessSoftwareUpdateCommand result]) := by
        rw [hpre]; simp
      rw [hhist] at hpost
      refine ⟨by rw [heq], s, ?_, ⟨F ++ B, ?_, ?_⟩, hpost, ?_⟩
      · rw [hpre]; exact List.mem_append_right _ hcopy
      · rw [hpre, hB]
        simp
      · rw [← hBres]
        simp
      · intro hne ini hini
        rw [hpost]
        unfold DeleteSecureUpdater
        rw [if_pos hne, hini]
        exact ⟨_, _, rfl⟩

/-- C14, on a machine where the updater exits with code 3 and no file can be deleted:
the run returns FALSE, the value of `ProcessSoftwareUpdateCommand`, and ends with the two
attempts to delete. -/
theorem cleanup_follows_every_return_witness :
    (ExecuteServiceCommand failingChildWorld exampleArgv []).2 =
      beforeReturn (ExecuteServiceCommand failingChildWorld exampleArgv []).2 ++
        Event.retProcessSoftwareUpdateCommand false ::
        afterReturn (ExecuteServiceCommand failingChildWorld exampleArgv []).2 ∧
    afterReturn (ExecuteServiceCommand failingChildWorld exampleArgv []).2 =
      [Event.deleteFileW exampleSecurePath false,
        Event.deleteFileW "C:\\svc\\update\\updater.ini".toList false] ∧
    (ExecuteServiceCommand failingChildWorld exampleArgv []).1 = some false :=
  ⟨by decide, by decide,
    (cleanup_follows_every_return failingChildWorld exampleArgv []
      (beforeReturn (ExecuteServiceCommand failingChildWorld exampleArgv []).2)
      (afterReturn (ExecuteServiceCommand failingChildWorld exampleArgv []).2) false
      (by decide)).1⟩

/-- C15.  The command line `MakeCommandLine` writes is not always read back as the
arguments given.  An empty argument is written as nothing: the three arguments `a`, the
empty string and `b` give a command line with two spaces between `a` and `b` that reads
back as the two arguments `a` and `b`, and the single empty argument gives the empty
command line that reads back as no argument.  An argument with a space that ends in a
backslash is quoted without doubling that backslash: `a b\` is written as `"a b\"`, where
the backslash escapes the closing quote, and reads back as `a b"`.  Arguments with a
space, with a quote after backslashes, or ending in a backslash without a space are
read back unchanged. -/
theorem MakeCommandLine_round_trip_fails :
    MakeCommandLine ["a".toList, [], "b".toList] = "a  b".toList ∧
    crtSplit (MakeCommandLine ["a".toList, [], "b".toList]) = ["a".toList, "b".toList] ∧
    crtSplit (MakeCommandLine [[]]) = [] ∧
    MakeCommandLine ["a b".toList ++ [BACKSLASH]] =
      DQUOTE :: "a b".toList ++ [BACKSLASH, DQUOTE] ∧
    crtSplit (MakeCommandLine ["a b".toList ++ [BACKSLASH]]) = ["a b".toList ++ [DQUOTE]] ∧
    crtSplit (MakeCommandLine ["a b".toList, 'x' :: BACKSLASH :: BACKSLASH :: DQUOTE :: "y".toList,
        'c' :: [BACKSLASH]]) =
      ["a b".toList, 'x' :: BACKSLASH :: BACKSLASH :: DQUOTE :: "y".toList, 'c' :: [BACKSLASH]] := by
  decide

/-- C16.  On a machine where the service exists, its installed binary has the readable
version `e` and the calling binary the version `n`, with `n` not strictly greater than
`e` in the lexicographic order and an action other than ForceInstallSvc, `SvcInstall`
returns TRUE; its events after the versions were read are the single call
`MoveFileExW(calling binary, nullptr, MOVEFILE_DELAY_UNTIL_REBOOT)`; no event belongs to
a stop of the service or changes a file, and the files are unchanged.  The parts of both
versions are 16-bit values. -/
theorem not_newer_keeps_installed_binary (w : SvcWorld) (fs : Files)
    (action : SvcInstallAction) (h : SvcTrace) (new installed : WStr) (e n : FileVersion)
    (hscm : w.OpenSCManager h = true)
    (hmod : w.GetModuleFileNameW (h ++ [SvcEvent.openSCManager true]) = some new)
    (hopen : w.OpenServiceW
      (h ++ [SvcEvent.openSCManager true, SvcEvent.getModuleFileNameW (some new)]) w.SVC_NAME =
        HandleResult.valid)
    (hread : (SvcInstall.readVersions w fs new (h ++ SvcInstall.opened w new)).1 =
      some (installed, some e, n))
    (hnot : ¬ e.lex < n.lex)
    (haction : action ≠ SvcInstallAction.ForceInstallSvc) :
    (SvcInstall w fs action h).1 = true ∧
    (∃ scheduled, (SvcInstall w fs action h).2 =
      SvcInstall.opened w new ++
        (SvcInstall.readVersions w fs new (h ++ SvcInstall.opened w new)).2 ++
        [SvcEvent.moveFileExW new none MOVEFILE_DELAY_UNTIL_REBOOT scheduled]) ∧
    (∀ ev ∈ (SvcInstall w fs action h).2,
      ev.kind ≠ SvcKind.stop ∧ ev.kind ≠ SvcKind.stopReturn ∧ ev.kind ≠ SvcKind.file) ∧
    filesAfter fs (SvcInstall w fs action h).2 = fs ∧
    (e.A < 65536 ∧ e.B < 65536 ∧ e.C < 65536 ∧ e.D < 65536) ∧
    (n.A < 65536 ∧ n.B < 65536 ∧ n.C < 65536 ∧ n.D < 65536) := by
  have hno : ¬ SvcInstall.mustReplace action (some e) n = true := by
    rw [mustReplace_iff]
    rintro (hc | hc)
    · exact haction hc
    · exact hnot hc
  have hrun := SvcInstall_of_opened w fs action h new hscm hmod hopen
  rw [existing_of_read w fs action new _ installed (some e) n hread, if_neg hno] at hrun
  dsimp only [] at hrun
  have hev : SvcKinds [SvcKind.manager, SvcKind.acl, SvcKind.config, SvcKind.version,
      SvcKind.schedule] (SvcInstall w fs action h).2 := by
    rw [hrun]
    rw [SvcKinds_append, SvcKinds_append]
    exact ⟨SvcKinds_mono (opened_events w new) (by simp),
      SvcKinds_mono (readVersions_events w fs new _) (by simp),
      by simp [SvcKinds, SvcEvent.kind]⟩
  refine ⟨by rw [hrun], ⟨w.MoveFileExW (h ++ SvcInstall.opened w new ++
    (SvcInstall.readVersions w fs new (h ++ SvcInstall.opened w new)).2) new none
    MOVEFILE_DELAY_UNTIL_REBOOT, by rw [hrun]; simp⟩, ?_, ?_, ?_⟩
  · intro ev hmem
    exact ⟨SvcKinds_ne hev (by simp) ev hmem, SvcKinds_ne hev (by simp) ev hmem,
      SvcKinds_ne hev (by simp) ev hmem⟩
  · exact filesAfter_of_no_file fs _ (SvcKinds_ne hev (by simp))
  · exact ⟨GetVersionNumberFromPath_parts w fs installed e
      (readVersions_some w fs new _ installed (some e) n hread).1,
      GetVersionNumberFromPath_parts w fs new n
      (readVersions_some w fs new _ installed (some e) n hread).2⟩

/-- C16, on the nominal machine with installed version (1,0,0,5), calling version
(1,0,0,4) and the action UpgradeSvc. -/
theorem not_newer_keeps_installed_binary_witness :
    (SvcInstall nominalSvcWorld (exampleFiles [1, 0, 0, 5] [1, 0, 0, 4])
      SvcInstallAction.UpgradeSvc []).1 = true ∧
    filesAfter (exampleFiles [1, 0, 0, 5] [1, 0, 0, 4])
      (SvcInstall nominalSvcWorld (exampleFiles [1, 0, 0, 5] [1, 0, 0, 4])
        SvcInstallAction.UpgradeSvc []).2 = exampleFiles [1, 0, 0, 5] [1, 0, 0, 4] :=
  ⟨(not_newer_keeps_installed_binary nominalSvcWorld (exampleFiles [1, 0, 0, 5] [1, 0, 0, 4])
      SvcInstallAction.UpgradeSvc [] exampleCallingPath exampleInstalledPath ⟨1, 0, 0, 5⟩
      ⟨1, 0, 0, 4⟩ (by decide) (by decide) (by decide) (by decide) (by decide) (by decide)).1,
    (not_newer_keeps_installed_binary nominalSvcWorld (exampleFiles [1, 0, 0, 5] [1, 0, 0, 4])
      SvcInstallAction.UpgradeSvc [] exampleCallingPath exampleInstalledPath ⟨1, 0, 0, 5⟩
      ⟨1, 0, 0, 4⟩ (by decide) (by decide) (by decide) (by decide) (by decide)
      (by decide)).2.2.2.1⟩

/-- The replacement when the direct overwrite succeeds.  On a machine where the service
exists, its installed binary has the readable version `e` and the calling binary the
strictly greater version `n`: `SvcInstall`, with any action, calls `StopService`, and
when `StopService` returns TRUE it calls `CopyFileW(calling binary, installed path)`;
when that copy succeeds the run ends with the scheduling call, `SvcInstall` returns
TRUE, the installed path holds the content the calling binary had, and
`GetVersionNumberFromPath` on the installed path now yields `n`. -/
theorem direct_overwrite_installs_newer (w : SvcWorld) (fs : Files)
    (action : SvcInstallAction) (h : SvcTrace) (new installed : WStr) (e n : FileVersion)
    (hscm : w.OpenSCManager h = true)
    (hmod : w.GetModuleFileNameW (h ++ [SvcEvent.openSCManager true]) = some new)
    (hopen : w.OpenServiceW
      (h ++ [SvcEvent.openSCManager true, SvcEvent.getModuleFileNameW (some new)]) w.SVC_NAME =
        HandleResult.valid)
    (hread : (SvcInstall.readVersions w fs new (h ++ SvcInstall.opened w new)).1 =
      some (installed, some e, n))
    (hlt : e.lex < n.lex)
    (hstop : (StopService w (SvcInstall.atStop w fs new h)).1 = true)
    (hcopy : w.CopyFileW (SvcInstall.atCopy w fs new h) new installed = true) :
    (∃ scheduled, SvcInstall w fs action h =
      (true, SvcInstall.opened w new ++
        (SvcInstall.readVersions w fs new (h ++ SvcInstall.opened w new)).2 ++
        (StopService w (SvcInstall.atStop w fs new h)).2 ++
        [SvcEvent.retStopService true, SvcEvent.copyFileW new installed true,
          SvcEvent.moveFileExW new none MOVEFILE_DELAY_UNTIL_REBOOT scheduled])) ∧
    filesAfter fs (SvcInstall w fs action h).2 installed = fs new ∧
    (GetVersionNumberFromPath w (filesAfter fs (SvcInstall w fs action h).2) installed).1 =
      some n := by
  have hyes : SvcInstall.mustReplace action (some e) n = true := by
    rw [mustReplace_iff]
    exact Or.inr hlt
  obtain ⟨hold, hnew⟩ := readVersions_some w fs new _ installed (some e) n hread
  have hne : new ≠ installed := by
    intro hc
    rw [hc, hold] at hnew
    injection hnew with hv
    rw [hv] at hlt
    exact lt_irrefl _ hlt
  have hrun : ∃ scheduled, SvcInstall w fs action h =
      (true, SvcInstall.opened w new ++
        (SvcInstall.readVersions w fs new (h ++ SvcInstall.opened w new)).2 ++
        (StopService w (SvcInstall.atStop w fs new h)).2 ++
        [SvcEvent.retStopService true, SvcEvent.copyFileW new installed true,
          SvcEvent.moveFileExW new none MOVEFILE_DELAY_UNTIL_REBOOT scheduled]) := by
    rw [SvcInstall_of_opened w fs action h new hscm hmod hopen,
      existing_of_read w fs action new _ installed (some e) n hread, if_pos hyes]
    unfold SvcInstall.atCopy at hcopy
    unfold SvcInstall.atStop at hstop hcopy
    unfold SvcInstall.atStop
    unfold SvcInstall.replace
    dsimp only []
    rw [hstop]
    simp only [Bool.true_eq_false, if_false, if_neg hne]
    rw [hcopy]
    simp only [if_false, Bool.true_eq_false, List.append_nil]
    generalize w.MoveFileExW _ new none MOVEFILE_DELAY_UNTIL_REBOOT = scheduled
    exact ⟨scheduled, by simp⟩
  obtain ⟨scheduled, hrun1⟩ := hrun
  have hfiles : filesAfter fs (SvcInstall w fs action h).2 installed = fs new := by
    rw [hrun1]
    dsimp only []
    rw [filesAfter_append, filesAfter_of_no_file fs]
    · simp [filesAfter, SvcEvent.effect]
    · have hk : SvcKinds [SvcKind.manager, SvcKind.acl, SvcKind.config, SvcKind.version,
          SvcKind.stop] (SvcInstall.opened w new ++
          (SvcInstall.readVersions w fs new (h ++ SvcInstall.opened w new)).2 ++
          (StopService w (SvcInstall.atStop w fs new h)).2) :=
        (SvcKinds_append _ _ _).mpr ⟨(SvcKinds_append _ _ _).mpr
          ⟨SvcKinds_mono (opened_events w new) (by simp),
            SvcKinds_mono (readVersions_events w fs new _) (by simp)⟩,
          SvcKinds_mono (StopService_events w _) (by simp)⟩
      exact SvcKinds_ne hk (by simp)
  refine ⟨⟨scheduled, hrun1⟩, hfiles, ?_⟩
  rw [← hnew]
  exact GetVersionNumberFromPath_congr w _ fs installed new hfiles

/-- The replacement on the nominal machine with installed version (1,0,0,4), calling
version (1,0,0,5) and the action UpgradeSvc: every copy succeeds, the run returns TRUE
and the version read at the installed path afterwards is (1,0,0,5). -/
theorem direct_overwrite_installs_newer_example :
    (SvcInstall nominalSvcWorld (exampleFiles [1, 0, 0, 4] [1, 0, 0, 5])
      SvcInstallAction.UpgradeSvc []).1 = true ∧
    filesAfter (exampleFiles [1, 0, 0, 4] [1, 0, 0, 5])
      (SvcInstall nominalSvcWorld (exampleFiles [1, 0, 0, 4] [1, 0, 0, 5])
        SvcInstallAction.UpgradeSvc []).2 exampleInstalledPath = some [1, 0, 0, 5] ∧
    (GetVersionNumberFromPath nominalSvcWorld
      (filesAfter (exampleFiles [1, 0, 0, 4] [1, 0, 0, 5])
        (SvcInstall nominalSvcWorld (exampleFiles [1, 0, 0, 4] [1, 0, 0, 5])
          SvcInstallAction.UpgradeSvc []).2) exampleInstalledPath).1 = some ⟨1, 0, 0, 5⟩ :=
  have hw := direct_overwrite_installs_newer nominalSvcWorld
    (exampleFiles [1, 0, 0, 4] [1, 0, 0, 5]) SvcInstallAction.UpgradeSvc []
    exampleCallingPath exampleInstalledPath ⟨1, 0, 0, 4⟩ ⟨1, 0, 0, 5⟩ (by decide) (by decide)
    (by decide) (by decide) (by decide) (by decide) (by decide)
  ⟨by obtain ⟨s, hs⟩ := hw.1; rw [hs], hw.2.1, hw.2.2⟩

/-- C18, counterexample.  With the action ForceInstallSvc the installed version
regresses: on the nominal machine with installed version (1,0,0,5) and calling version
(1,0,0,4), `SvcInstall(ForceInstallSvc)` returns TRUE and the version read at the installed
path afterwards is (1,0,0,4). -/
theorem force_install_regresses_version :
    (SvcInstall nominalSvcWorld (exampleFiles [1, 0, 0, 5] [1, 0, 0, 4])
      SvcInstallAction.ForceInstallSvc []).1 = true ∧
    (GetVersionNumberFromPath nominalSvcWorld (exampleFiles [1, 0, 0, 5] [1, 0, 0, 4])
      exampleInstalledPath).1 = some ⟨1, 0, 0, 5⟩ ∧
    (GetVersionNumberFromPath nominalSvcWorld
      (filesAfter (exampleFiles [1, 0, 0, 5] [1, 0, 0, 4])
        (SvcInstall nominalSvcWorld (exampleFiles [1, 0, 0, 5] [1, 0, 0, 4])
          SvcInstallAction.ForceInstallSvc []).2) exampleInstalledPath).1 = some ⟨1, 0, 0, 4⟩ ∧
    ¬ (FileVersion.mk 1 0 0 5).lex ≤ (FileVersion.mk 1 0 0 4).lex := by
  decide

/-- C18, as amended.  On a machine where the service exists and the binary at its
installed path has the readable version `e`, after `SvcInstall` with an action other than
ForceInstallSvc every version that `GetVersionNumberFromPath` reads at the installed path
is greater than or equal to `e` in the lexicographic order.  The run either ends before
the versions are compared or has read the installed path, the version `e` and the version
of the calling binary. -/
theorem upgrade_never_regresses_version (w : SvcWorld) (fs : Files)
    (action : SvcInstallAction) (h : SvcTrace) (new installed : WStr) (e v : FileVersion)
    (hscm : w.OpenSCManager h = true)
    (hmod : w.GetModuleFileNameW (h ++ [SvcEvent.openSCManager true]) = some new)
    (hopen : w.OpenServiceW
      (h ++ [SvcEvent.openSCManager true, SvcEvent.getModuleFileNameW (some new)]) w.SVC_NAME =
        HandleResult.valid)
    (hread : (SvcInstall.readVersions w fs new (h ++ SvcInstall.opened w new)).1 = none ∨
      ∃ n, (SvcInstall.readVersions w fs new (h ++ SvcInstall.opened w new)).1 =
        some (installed, some e, n))
    (hbefore : (GetVersionNumberFromPath w fs installed).1 = some e)
    (haction : action ≠ SvcInstallAction.ForceInstallSvc)
    (hafter : (GetVersionNumberFromPath w (filesAfter fs (SvcInstall w fs action h).2)
      installed).1 = some v) :
    e.lex ≤ v.lex := by
  rcases hread with hread | ⟨n, hread⟩
  · rw [(SvcInstall_of_unread w fs action h new hscm hmod hopen hread).2.2, hbefore] at hafter
    have hv : e = v := by injection hafter
    rw [hv]
  · obtain ⟨_, hnew⟩ := readVersions_some w fs new _ installed (some e) n hread
    by_cases hyes : SvcInstall.mustReplace action (some e) n = true
    · have hlt : e.lex < n.lex := by
        rcases (mustReplace_iff action e n).mp hyes with hc | hc
        · exact absurd hc haction
        · exact hc
      obtain ⟨before, tail, stopped, _, _, hfiles, hcases⟩ :=
        SvcInstall_replacing w fs action h new installed (some e) n hscm hmod hopen hread hyes
      rw [hfiles] at hafter
      rcases replaceOutcome_content fs new installed stopped _ tail hcases with hc | hc | hc
      · rw [GetVersionNumberFromPath_congr w _ fs installed installed hc, hbefore] at hafter
        have hv : e = v := by injection hafter
        rw [hv]
      · rw [GetVersionNumberFromPath_congr w _ fs installed new hc, hnew] at hafter
        have hv : n = v := by injection hafter
        rw [← hv]
        exact le_of_lt hlt
      · rw [GetVersionNumberFromPath_none w _ installed hc] at hafter
        exact Option.noConfusion hafter
    · rw [(SvcInstall_of_kept w fs action h new installed (some e) n hscm hmod hopen hread
        hyes).2.2, hbefore] at hafter
      have hv : e = v := by injection hafter
      rw [hv]

/-- C18 as amended, on the nominal machine with installed version (1,0,0,4), calling
version (1,0,0,5) and the action UpgradeSvc: the version afterwards is (1,0,0,5). -/
theorem upgrade_never_regresses_version_witness :
    (GetVersionNumberFromPath nominalSvcWorld
      (filesAfter (exampleFiles [1, 0, 0, 4] [1, 0, 0, 5])
        (SvcInstall nominalSvcWorld (exampleFiles [1, 0, 0, 4] [1, 0, 0, 5])
          SvcInstallAction.UpgradeSvc []).2) exampleInstalledPath).1 = some ⟨1, 0, 0, 5⟩ ∧
    (FileVersion.mk 1 0 0 4).lex ≤ (FileVersion.mk 1 0 0 5).lex :=
  ⟨by decide,
    upgrade_never_regresses_version nominalSvcWorld (exampleFiles [1, 0, 0, 4] [1, 0, 0, 5])
      SvcInstallAction.UpgradeSvc [] exampleCallingPath exampleInstalledPath ⟨1, 0, 0, 4⟩
      ⟨1, 0, 0, 5⟩ (by decide) (by decide) (by decide) (Or.inr ⟨⟨1, 0, 0, 5⟩, by decide⟩)
      (by decide) (by decide) (by decide)⟩

/-- C19.  In every run of `SvcInstall`, every call that changes a file (`CopyFileW`,
`MoveFileExW` with a destination, `DeleteFileW`) comes after `WaitForServiceStop` reported
SERVICE_STOPPED and `StopService` returned TRUE in that run; and a run in which
`StopService` returned FALSE returns FALSE, contains no such call, and leaves every file
as it was. -/
theorem file_change_only_after_stop (w : SvcWorld) (fs : Files) (action : SvcInstallAction)
    (h : SvcTrace) :
    (∀ pre ev post, (SvcInstall w fs action h).2 = pre ++ ev :: post →
      ev.changesFile = true →
      List.Sublist [SvcEvent.waitForServiceStop w.SVC_NAME 30 SERVICE_STOPPED,
        SvcEvent.retStopService true] pre) ∧
    (SvcEvent.retStopService false ∈ (SvcInstall w fs action h).2 →
      (SvcInstall w fs action h).1 = false ∧
      (∀ ev ∈ (SvcInstall w fs action h).2, ev.changesFile = false) ∧
      filesAfter fs (SvcInstall w fs action h).2 = fs) := by
  rcases SvcInstall_shape w fs action h with hk | ⟨before, tail, new, lp, stopped, hev, hB, hwait,
    hout⟩
  · constructor
    · intro pre ev post hcut hfile
      have hmem : ev ∈ (SvcInstall w fs action h).2 := by rw [hcut]; simp
      exact absurd ((changesFile_iff_kind ev).mp hfile) (SvcKinds_ne hk (by simp) ev hmem)
    · intro hmem
      exact absurd rfl (SvcKinds_ne hk (k := SvcKind.stopReturn) (by simp) _ hmem)
  · obtain ⟨rest, htail, hrest, hfalse⟩ := replaceOutcome_head new lp stopped _ tail hout
    constructor
    · intro pre ev post hcut hfile
      have hkind := (changesFile_iff_kind ev).mp hfile
      rw [hev] at hcut
      obtain ⟨mid, hpre, hmid⟩ := cut_after_prefix (fun e => e.kind = SvcKind.file) before tail
        pre post ev (SvcKinds_ne hB (by simp)) hkind hcut
      rw [htail] at hmid
      cases mid with
      | nil =>
        simp only [List.nil_append, List.cons.injEq] at hmid
        rw [← hmid.1] at hkind
        simp [SvcEvent.kind] at hkind
      | cons m mid1 =>
        simp only [List.cons_append, List.cons.injEq] at hmid
        obtain ⟨hm, hrest1⟩ := hmid
        have hs : stopped = true := by
          cases stopped
          · have := (hfalse rfl).1
            rw [this] at hrest1
            simp at hrest1
          · rfl
        subst hs
        rw [hpre, ← hm]
        have h1 : List.Sublist [SvcEvent.waitForServiceStop w.SVC_NAME 30 SERVICE_STOPPED]
            before := List.singleton_sublist.mpr (hwait rfl)
        have h2 : List.Sublist [SvcEvent.retStopService true]
            (SvcEvent.retStopService true :: mid1) :=
          List.singleton_sublist.mpr (by simp)
        exact List.Sublist.append h1 h2
    · intro hmem
      rw [hev] at hmem
      have hmem1 : SvcEvent.retStopService false ∈ tail := by
        rcases List.mem_append.mp hmem with hm | hm
        · exact absurd rfl (SvcKinds_ne hB (k := SvcKind.stopReturn) (by simp) _ hm)
        · exact hm
      have hs : stopped = false := by
        rw [htail] at hmem1
        rcases List.mem_cons.mp hmem1 with hm | hm
        · injection hm with hm1
          exact hm1.symm
        · exact absurd rfl (SvcKinds_ne hrest (k := SvcKind.stopReturn) (by simp) _ hm)
      obtain ⟨hnil, hres⟩ := hfalse hs
      have hno : ∀ ev ∈ (SvcInstall w fs action h).2, ev.kind ≠ SvcKind.file := by
        intro ev hm
        rw [hev, htail, hnil] at hm
        rcases List.mem_append.mp hm with hm | hm
        · exact SvcKinds_ne hB (by simp) ev hm
        · simp at hm
          rw [hm]
          simp [SvcEvent.kind]
      refine ⟨hres, ?_, filesAfter_of_no_file fs _ hno⟩
      intro ev hm
      cases hc : ev.changesFile
      · rfl
      · exact absurd ((changesFile_iff_kind ev).mp hc) (hno ev hm)

/-- C19, on a machine where the service does not reach the state SERVICE_STOPPED: the
run returns FALSE and the installed binary is as it was. -/
theorem file_change_only_after_stop_witness :
    SvcEvent.retStopService false ∈
      (SvcInstall stuckServiceWorld (exampleFiles [1, 0, 0, 4] [1, 0, 0, 5])
        SvcInstallAction.UpgradeSvc []).2 ∧
    (SvcInstall stuckServiceWorld (exampleFiles [1, 0, 0, 4] [1, 0, 0, 5])
      SvcInstallAction.UpgradeSvc []).1 = false ∧
    filesAfter (exampleFiles [1, 0, 0, 4] [1, 0, 0, 5])
      (SvcInstall stuckServiceWorld (exampleFiles [1, 0, 0, 4] [1, 0, 0, 5])
        SvcInstallAction.UpgradeSvc []).2 = exampleFiles [1, 0, 0, 4] [1, 0, 0, 5] :=
  ⟨by decide,
    ((file_change_only_after_stop stuckServiceWorld (exampleFiles [1, 0, 0, 4] [1, 0, 0, 5])
      SvcInstallAction.UpgradeSvc []).2 (by decide)).1,
    ((file_change_only_after_stop stuckServiceWorld (exampleFiles [1, 0, 0, 4] [1, 0, 0, 5])
      SvcInstallAction.UpgradeSvc []).2 (by decide)).2.2⟩

/-- C20.  On a machine where `CopyFileW` fails, the direct overwrite fails, the rename
aside succeeds, the second copy fails and the aside file is deleted: `SvcInstall`
returns FALSE, and neither the installed path nor the aside path holds a binary
afterwards, although the installed path held one before. -/
theorem failed_second_copy_loses_installed_binary :
    (SvcInstall copyFailsWorld (exampleFiles [1, 0, 0, 4] [1, 0, 0, 5])
      SvcInstallAction.UpgradeSvc []).1 = false ∧
    exampleFiles [1, 0, 0, 4] [1, 0, 0, 5] exampleInstalledPath = some [1, 0, 0, 4] ∧
    filesAfter (exampleFiles [1, 0, 0, 4] [1, 0, 0, 5])
      (SvcInstall copyFailsWorld (exampleFiles [1, 0, 0, 4] [1, 0, 0, 5])
        SvcInstallAction.UpgradeSvc []).2 exampleInstalledPath = none ∧
    filesAfter (exampleFiles [1, 0, 0, 4] [1, 0, 0, 5])
      (SvcInstall copyFailsWorld (exampleFiles [1, 0, 0, 4] [1, 0, 0, 5])
        SvcInstallAction.UpgradeSvc []).2
      (SvcInstall.oldServiceBinaryTempPath exampleInstalledPath) = none := by
  decide

/-- What a run of `SvcInstall` on an existing service leaves at the installed path, for
an installed path that is not its own aside path: after TRUE the old binary or the
content of the calling binary; after FALSE the old binary, unless the rename aside
succeeded, in which case no copy succeeded and the path holds no binary. -/
theorem SvcInstall_installed_path_after (w : SvcWorld) (fs : Files)
    (action : SvcInstallAction) (h : SvcTrace) (new installed : WStr)
    (existing : Option FileVersion) (n : FileVersion)
    (hscm : w.OpenSCManager h = true)
    (hmod : w.GetModuleFileNameW (h ++ [SvcEvent.openSCManager true]) = some new)
    (hopen : w.OpenServiceW
      (h ++ [SvcEvent.openSCManager true, SvcEvent.getModuleFileNameW (some new)]) w.SVC_NAME =
        HandleResult.valid)
    (hread : (SvcInstall.readVersions w fs new (h ++ SvcInstall.opened w new)).1 = none ∨
      (SvcInstall.readVersions w fs new (h ++ SvcInstall.opened w new)).1 =
        some (installed, existing, n))
    (haside : SvcInstall.oldServiceBinaryTempPath installed ≠ installed) :
    ((SvcInstall w fs action h).1 = true →
      filesAfter fs (SvcInstall w fs action h).2 installed = fs installed ∨
      filesAfter fs (SvcInstall w fs action h).2 installed = fs new) ∧
    ((SvcInstall w fs action h).1 = false →
      (SvcEvent.moveFileExW installed (some (SvcInstall.oldServiceBinaryTempPath installed))
          (MOVEFILE_REPLACE_EXISTING ||| MOVEFILE_WRITE_THROUGH) true ∈
          (SvcInstall w fs action h).2 →
        filesAfter fs (SvcInstall w fs action h).2 installed = none ∧
        SvcEvent.copyFileW new installed true ∉ (SvcInstall w fs action h).2) ∧
      (SvcEvent.moveFileExW installed (some (SvcInstall.oldServiceBinaryTempPath installed))
          (MOVEFILE_REPLACE_EXISTING ||| MOVEFILE_WRITE_THROUGH) true ∉
          (SvcInstall w fs action h).2 →
        filesAfter fs (SvcInstall w fs action h).2 installed = fs installed)) := by
  have hquiet : SvcKinds [SvcKind.manager, SvcKind.acl, SvcKind.config, SvcKind.version,
        SvcKind.schedule] (SvcInstall w fs action h).2 →
      filesAfter fs (SvcInstall w fs action h).2 = fs →
      ((SvcInstall w fs action h).1 = true →
        filesAfter fs (SvcInstall w fs action h).2 installed = fs installed ∨
        filesAfter fs (SvcInstall w fs action h).2 installed = fs new) ∧
      ((SvcInstall w fs action h).1 = false →
        (SvcEvent.moveFileExW installed (some (SvcInstall.oldServiceBinaryTempPath installed))
            (MOVEFILE_REPLACE_EXISTING ||| MOVEFILE_WRITE_THROUGH) true ∈
            (SvcInstall w fs action h).2 →
          filesAfter fs (SvcInstall w fs action h).2 installed = none ∧
          SvcEvent.copyFileW new installed true ∉ (SvcInstall w fs action h).2) ∧
        (SvcEvent.moveFileExW installed (some (SvcInstall.oldServiceBinaryTempPath installed))
            (MOVEFILE_REPLACE_EXISTING ||| MOVEFILE_WRITE_THROUGH) true ∉
            (SvcInstall w fs action h).2 →
          filesAfter fs (SvcInstall w fs action h).2 installed = fs installed)) := by
    intro hev hfs
    rw [hfs]
    exact ⟨fun _ => Or.inl rfl, fun _ => ⟨fun hm =>
      absurd rfl (SvcKinds_ne hev (k := SvcKind.file) (by simp) _ hm), fun _ => rfl⟩⟩
  rcases hread with hread | hread
  · have hu := SvcInstall_of_unread w fs action h new hscm hmod hopen hread
    exact hquiet hu.2.1 hu.2.2
  · by_cases hyes : SvcInstall.mustReplace action existing n = true
    · obtain ⟨before, tail, stopped, hev, hQ, hfiles, hcases⟩ :=
        SvcInstall_replacing w fs action h new installed existing n hscm hmod hopen hread hyes
      have hin := mem_tail_of_file before tail
        (SvcEvent.moveFileExW installed (some (SvcInstall.oldServiceBinaryTempPath installed))
          (MOVEFILE_REPLACE_EXISTING ||| MOVEFILE_WRITE_THROUGH) true) hQ rfl
      have hin1 := mem_tail_of_file before tail (SvcEvent.copyFileW new installed true) hQ rfl
      rw [hfiles, hev, hin, hin1]
      exact replaceOutcome_installed fs new installed stopped _ tail hcases haside
    · have hk := SvcInstall_of_kept w fs action h new installed existing n hscm hmod hopen
        hread hyes
      exact hquiet hk.2.1 hk.2.2


/-! ## Lemmas for the copy of the identity resource -/

theorem foldl_set_range (f : Nat → Char) (n : Nat) (l : List Char) (hn : n ≤ l.length) :
    (List.range n).foldl (fun buf i => buf.set i (f i)) l =
      (List.range n).map f ++ l.drop n := by
  induction n with
  | zero => simp
  | succ k ih =>
    rw [List.range_succ, List.foldl_append, ih (by omega)]
    simp only [List.foldl_cons, List.foldl_nil, List.map_append, List.map_cons, List.map_nil]
    have hlen : ((List.range k).map f).length = k := by simp
    have hk : k < l.length := by omega
    rw [List.set_append_right _ _ (by omega), hlen, Nat.sub_self, List.drop_eq_getElem_cons hk,
      List.set_cons_zero]
    simp

/-! ## Lemmas for the scheduled deletion -/

theorem schedulesDeletion_kind (path : WStr) (e : SvcEvent)
    (he : e.schedulesDeletion path = true) : e.kind = SvcKind.schedule := by
  cases e with
  | moveFileExW src dst flags ok =>
    cases dst with
    | none => rfl
    | some d => exact Bool.noConfusion he
  | _ => exact Bool.noConfusion he

theorem replaceOutcome_schedule (new lp : WStr) (stopped result : Bool) (tail : SvcTrace)
    (hout : SvcInstall.replaceOutcome new lp stopped result tail) :
    ∃ rest, tail = SvcEvent.retStopService stopped :: rest ∧
      ((∃ e ∈ tail, e.schedulesDeletion new = true) ↔ (stopped = true ∧ new ≠ lp)) ∧
      (stopped = true → new ≠ lp →
        ∃ s, tail.getLast? =
          some (SvcEvent.moveFileExW new none MOVEFILE_DELAY_UNTIL_REBOOT s)) := by
  unfold SvcInstall.replaceOutcome at hout
  rcases hout with ⟨ht, hs, hr⟩ | ⟨ht, hs, hsame, _⟩ | ⟨hs, hne, hc⟩
  · subst ht hs
    refine ⟨[], rfl, ?_, fun hc => Bool.noConfusion hc⟩
    simp [SvcEvent.schedulesDeletion]
  · subst ht hs
    refine ⟨[], rfl, ?_, fun _ hc => absurd hsame hc⟩
    simp [SvcEvent.schedulesDeletion, hsame]
  · subst hs
    rcases hc with ⟨s, ht, _⟩ | ⟨s, ht, _, _⟩ | ⟨s, ht, _, _⟩ | ⟨c, d, s, ht, _, _⟩
    all_goals
      subst ht
      refine ⟨_, rfl, ?_, fun _ _ => ⟨s, by simp⟩⟩
      simp [SvcEvent.schedulesDeletion, hne]

/-! ## Lemmas for the two passes of `MakeCommandLine` -/

theorem writeAt_mem (l : List Char) (d : Nat) (p : Nat × Char) (hp : p ∈ writeAt d l) :
    d ≤ p.1 ∧ p.1 < d + l.length := by
  induction l generalizing d with
  | nil => simp [writeAt] at hp
  | cons c cs ih =>
    rw [writeAt] at hp
    rcases List.mem_cons.mp hp with h1 | h1
    · subst h1
      simp
    · have := ih (d + 1) h1
      simp only [List.length_cons]
      omega

theorem writeAll_length (ws : List (Nat × Char)) (buf : List Char) :
    (writeAll buf ws).length = buf.length := by
  induction ws generalizing buf with
  | nil => rfl
  | cons p ps ih =>
    unfold writeAll at ih ⊢
    rw [List.foldl_cons, ih]
    simp

theorem writeAll_append (buf : List Char) (ws1 ws2 : List (Nat × Char)) :
    writeAll buf (ws1 ++ ws2) = writeAll (writeAll buf ws1) ws2 := by
  unfold writeAll
  rw [List.foldl_append]

theorem prefix_writeAt (l : List Char) (P buf : List Char) (d : Nat) (hP : P <+: buf)
    (hd : d = P.length) (hlen : d + l.length ≤ buf.length) :
    (P ++ l) <+: writeAll buf (writeAt d l) := by
  induction l generalizing P buf d with
  | nil => simpa [writeAt, writeAll] using hP
  | cons c cs ih =>
    obtain ⟨t, ht⟩ := hP
    subst ht hd
    cases t with
    | nil =>
      simp only [List.append_nil, List.length_cons] at hlen
      omega
    | cons x t1 =>
      rw [writeAt]
      have hstep : writeAll (P ++ x :: t1) ((P.length, c) :: writeAt (P.length + 1) cs) =
          writeAll ((P ++ [c]) ++ t1) (writeAt (P.length + 1) cs) := by
        unfold writeAll
        rw [List.foldl_cons]
        simp
      rw [hstep]
      have := ih (P ++ [c]) ((P ++ [c]) ++ t1) (P.length + 1) ⟨t1, rfl⟩ (by simp)
        (by simp only [List.length_append, List.length_cons, List.length_nil] at hlen ⊢; omega)
      simpa using this

theorem prefix_of_append_prefix (P l buf : List Char) (h : (P ++ l) <+: buf) : P <+: buf :=
  (List.prefix_append P l).trans h

theorem ArgToString_loop_length (s : List Char) (b : Nat) :
    (ArgToString.loop s b).length = s.length + ArgStrLen.loop s b := by
  induction s generalizing b with
  | nil => rfl
  | cons c cs ih =>
    rw [ArgToString.loop, ArgStrLen.loop]
    by_cases h1 : c = BACKSLASH
    · rw [if_pos h1, if_pos h1]
      simp only [List.length_cons, ih]
      omega
    · rw [if_neg h1, if_neg h1]
      by_cases h2 : c = DQUOTE
      · rw [if_pos h2, if_pos h2]
        simp only [List.length_append, List.length_cons, List.length_replicate, ih]
        omega
      · rw [if_neg h2, if_neg h2]
        simp only [List.length_cons, ih]
        omega

theorem ArgStrLen_loop_of_no_quote (s : List Char) (b : Nat)
    (hno : s.contains DQUOTE = false) : ArgStrLen.loop s b = 0 := by
  have h1 := ArgToString_loop_length s b
  rw [ArgToString_loop_of_no_quote s b hno] at h1
  omega

theorem ArgStrLen_eq (s : WStr) :
    ArgStrLen s =
      (ArgToString.loop s 0).length + if hasCommandLineDelimiter s then 2 else 0 := by
  unfold ArgStrLen
  dsimp only []
  rw [ArgToString_loop_length]
  by_cases hq : s.contains DQUOTE = true
  · rw [if_pos hq]
    split <;> omega
  · rw [if_neg hq, ArgStrLen_loop_of_no_quote s 0 (by simpa using hq)]
    split <;> omega

theorem ArgToString_length (s : WStr) : (ArgToString s).length = ArgStrLen s := by
  rw [ArgToString_eq, ArgStrLen_eq]
  split <;> simp

theorem ArgToString_writes_eq (d : Nat) (s : WStr) :
    ArgToString.writes d s =
      if hasCommandLineDelimiter s then
        ([(d, DQUOTE)] ++
          writeAt (d + 1) (ArgToString.loop s 0 ++ if s.contains DQUOTE then [] else [NUL]) ++
          [(d + 1 + (ArgToString.loop s 0).length, DQUOTE)],
          d + 1 + (ArgToString.loop s 0).length + 1)
      else
        (writeAt d (ArgToString.loop s 0 ++ if s.contains DQUOTE then [] else [NUL]),
          d + (ArgToString.loop s 0).length) := by
  unfold ArgToString.writes
  dsimp only []
  by_cases hq : s.contains DQUOTE = true
  · simp only [hq, if_true, List.append_nil]
    split <;> simp
  · have hno : s.contains DQUOTE = false := by simpa using hq
    rw [ArgToString_loop_of_no_quote s 0 hno]
    simp only [hno, Bool.false_eq_true, if_false]
    split <;> simp

theorem ArgToString_writes_end (d : Nat) (s : WStr) :
    (ArgToString.writes d s).2 = d + ArgStrLen s := by
  rw [ArgToString_writes_eq, ArgStrLen_eq]
  split
  · simp only []
    omega
  · simp only []
    omega

theorem ArgToString_writes_mem (d : Nat) (s : WStr) (p : Nat × Char)
    (hp : p ∈ (ArgToString.writes d s).1) : d ≤ p.1 ∧ p.1 ≤ d + ArgStrLen s := by
  rw [ArgToString_writes_eq] at hp
  rw [ArgStrLen_eq]
  have hx : (if s.contains DQUOTE = true then ([] : List Char) else [NUL]).length ≤ 1 := by
    split <;> simp
  by_cases hq : hasCommandLineDelimiter s = true
  · rw [if_pos hq] at hp ⊢
    simp only [List.mem_append, List.mem_singleton] at hp
    rcases hp with (h1 | h1) | h1
    · subst h1
      simp
    · have := writeAt_mem _ _ _ h1
      simp only [List.length_append] at this
      omega
    · subst h1
      simp only []
      omega
  · rw [if_neg hq] at hp ⊢
    have := writeAt_mem _ _ _ hp
    simp only [List.length_append] at this
    omega

theorem ArgToString_writes_prefix (s : WStr) (P buf : List Char) (d : Nat) (hP : P <+: buf)
    (hd : d = P.length) (hlen : d + ArgStrLen s + 1 ≤ buf.length) :
    (P ++ ArgToString s) <+: writeAll buf (ArgToString.writes d s).1 := by
  rw [ArgToString_writes_eq, ArgToString_eq]
  rw [ArgStrLen_eq] at hlen
  have hx : (if s.contains DQUOTE = true then ([] : List Char) else [NUL]).length ≤ 1 := by
    split <;> simp
  by_cases hq : hasCommandLineDelimiter s = true
  · rw [if_pos hq] at hlen
    rw [if_pos hq, if_pos hq]
    dsimp only []
    rw [writeAll_append, writeAll_append]
    have h1 : (P ++ [DQUOTE]) <+: writeAll buf [(d, DQUOTE)] :=
      prefix_writeAt [DQUOTE] P buf d hP hd (by simp only [List.length_singleton]; omega)
    have h2 := prefix_writeAt
      (ArgToString.loop s 0 ++ if s.contains DQUOTE = true then [] else [NUL])
      (P ++ [DQUOTE]) _ (d + 1) h1 (by simp [hd])
      (by simp only [List.length_append, writeAll_length]; omega)
    rw [← List.append_assoc] at h2
    have h3 := prefix_of_append_prefix _ _ _ h2
    have h4 := prefix_writeAt [DQUOTE] _ _ (d + 1 + (ArgToString.loop s 0).length) h3
      (by simp only [List.length_append, List.length_singleton]; omega)
      (by simp only [List.length_singleton, writeAll_length]; omega)
    simpa using h4
  · rw [if_neg hq] at hlen
    rw [if_neg hq, if_neg hq]
    dsimp only []
    have h2 := prefix_writeAt
      (ArgToString.loop s 0 ++ if s.contains DQUOTE = true then [] else [NUL])
      P buf d hP hd (by simp only [List.length_append]; omega)
    rw [← List.append_assoc] at h2
    exact prefix_of_append_prefix _ _ _ h2

theorem fill_length (argv : List WStr) :
    (MakeCommandLine.fill argv).length + 1 =
      if argv = [] then 1 else (argv.map (fun a => ArgStrLen a + 1)).sum := by
  induction argv with
  | nil => rfl
  | cons a rest ih =>
    cases rest with
    | nil => simp [MakeCommandLine.fill, ArgToString_length]
    | cons b rest1 =>
      rw [MakeCommandLine.fill]
      simp only [List.length_append, List.length_cons, ArgToString_length, List.map_cons,
        List.sum_cons, if_false, reduceCtorEq] at ih ⊢
      omega

theorem MakeCommandLine_len_eq (argv : List WStr) :
    (MakeCommandLine argv).length + 1 = MakeCommandLine.len argv := by
  unfold MakeCommandLine MakeCommandLine.len
  dsimp only []
  rw [fill_length]
  cases argv with
  | nil => rfl
  | cons a rest =>
    simp only [List.map_cons, List.sum_cons, if_false, reduceCtorEq]
    rw [if_neg (by omega)]

theorem fillWrites_end (argv : List WStr) (c : Nat) :
    (MakeCommandLine.fillWrites argv c).2 = c + (MakeCommandLine.fill argv).length := by
  induction argv generalizing c with
  | nil => rfl
  | cons a rest ih =>
    cases rest with
    | nil =>
      simp only [MakeCommandLine.fillWrites, MakeCommandLine.fill, ArgToString_writes_end,
        ArgToString_length]
    | cons b rest1 =>
      rw [MakeCommandLine.fillWrites, MakeCommandLine.fill]
      dsimp only []
      rw [ih, ArgToString_writes_end]
      simp only [List.length_append, List.length_cons, ArgToString_length]
      omega

theorem fillWrites_mem (argv : List WStr) (c : Nat) (p : Nat × Char)
    (hp : p ∈ (MakeCommandLine.fillWrites argv c).1) :
    c ≤ p.1 ∧ p.1 ≤ c + (MakeCommandLine.fill argv).length := by
  induction argv generalizing c with
  | nil => simp [MakeCommandLine.fillWrites] at hp
  | cons a rest ih =>
    cases rest with
    | nil =>
      simp only [MakeCommandLine.fillWrites, MakeCommandLine.fill, ArgToString_length] at hp ⊢
      exact ArgToString_writes_mem c a p hp
    | cons b rest1 =>
      rw [MakeCommandLine.fillWrites] at hp
      rw [MakeCommandLine.fill]
      dsimp only [] at hp
      simp only [List.length_append, List.length_cons, ArgToString_length]
      rcases List.mem_append.mp hp with h1 | h1
      · have := ArgToString_writes_mem c a p h1
        omega
      · rcases List.mem_cons.mp h1 with h2 | h2
        · subst h2
          simp only [ArgToString_writes_end]
          omega
        · have := ih _ h2
          rw [ArgToString_writes_end] at this
          omega

theorem fillWrites_prefix (argv : List WStr) (P buf : List Char) (c : Nat) (hP : P <+: buf)
    (hc : c = P.length) (hlen : c + (MakeCommandLine.fill argv).length + 1 ≤ buf.length) :
    (P ++ MakeCommandLine.fill argv) <+:
      writeAll buf (MakeCommandLine.fillWrites argv c).1 := by
  induction argv generalizing P buf c with
  | nil => simpa [MakeCommandLine.fillWrites, MakeCommandLine.fill, writeAll] using hP
  | cons a rest ih =>
    cases rest with
    | nil =>
      simp only [MakeCommandLine.fillWrites, MakeCommandLine.fill, ArgToString_length] at hlen ⊢
      exact ArgToString_writes_prefix a P buf c hP hc hlen
    | cons b rest1 =>
      rw [MakeCommandLine.fill] at hlen ⊢
      rw [MakeCommandLine.fillWrites]
      dsimp only []
      simp only [List.length_append, List.length_cons, ArgToString_length] at hlen
      have hcons : ∀ (x : Nat × Char) (xs : List (Nat × Char)), x :: xs = [x] ++ xs :=
        fun _ _ => rfl
      rw [hcons, writeAll_append, writeAll_append]
      have h1 := ArgToString_writes_prefix a P buf c hP hc (by omega)
      have h2 := prefix_writeAt [SPACE] _ _ (c + ArgStrLen a) h1
        (by simp only [List.length_append, ArgToString_length]; omega)
        (by simp only [List.length_singleton, writeAll_length]; omega)
      rw [ArgToString_writes_end]
      have h3 := ih (P ++ ArgToString a ++ [SPACE]) _ (c + ArgStrLen a + 1) h2
        (by simp only [List.length_append, List.length_singleton, ArgToString_length]; omega)
        (by simp only [writeAll_length]; omega)
      have h4 : writeAt (c + ArgStrLen a) [SPACE] = [(c + ArgStrLen a, SPACE)] := rfl
      rw [h4] at h3
      simpa using h3

theorem buffer_eq (argv : List WStr) :
    MakeCommandLine.buffer argv = MakeCommandLine argv ++ [NUL] := by
  unfold MakeCommandLine.buffer MakeCommandLine.writes
  dsimp only []
  rw [writeAll_append, fillWrites_end, Nat.zero_add]
  have hlen := MakeCommandLine_len_eq argv
  unfold MakeCommandLine at hlen ⊢
  have h1 := fillWrites_prefix argv [] (List.replicate (MakeCommandLine.len argv) NUL) 0
    (List.nil_prefix) rfl (by simp only [List.length_replicate]; omega)
  rw [List.nil_append] at h1
  have h2 := prefix_writeAt [NUL] _ _ (MakeCommandLine.fill argv).length h1 rfl
    (by simp only [List.length_singleton, writeAll_length, List.length_replicate]; omega)
  have h3 : writeAt (MakeCommandLine.fill argv).length [NUL] =
      [((MakeCommandLine.fill argv).length, NUL)] := rfl
  rw [h3] at h2
  exact (List.IsPrefix.eq_of_length h2
    (by simp only [List.length_append, List.length_singleton, writeAll_length,
      List.length_replicate]; omega)).symm

theorem ArgStrLen_loop_le (s : List Char) (b : Nat) :
    ArgStrLen.loop s b ≤ b + s.countP (fun c => c = BACKSLASH ∨ c = DQUOTE) := by
  induction s generalizing b with
  | nil => simp [ArgStrLen.loop]
  | cons c cs ih =>
    rw [ArgStrLen.loop]
    by_cases h1 : c = BACKSLASH
    · rw [if_pos h1, List.countP_cons_of_pos _ _ (by simp [h1])]
      have := ih (b + 1)
      omega
    · rw [if_neg h1]
      by_cases h2 : c = DQUOTE
      · rw [if_pos h2, List.countP_cons_of_pos _ _ (by simp [h2])]
        have := ih 0
        omega
      · rw [if_neg h2, List.countP_cons_of_neg _ _ (by simp [h1, h2])]
        have := ih 0
        omega

theorem countP_escape_add_delimiter (s : List Char) :
    s.countP (fun c => c = BACKSLASH ∨ c = DQUOTE) +
      (if hasCommandLineDelimiter s then 1 else 0) ≤ s.length := by
  induction s with
  | nil => simp [hasCommandLineDelimiter]
  | cons c cs ih =>
    by_cases h1 : c = BACKSLASH ∨ c = DQUOTE
    · have hnd : ¬ (c = SPACE ∨ c = TAB) := by
        rcases h1 with h | h <;> subst h <;> decide
      rw [List.countP_cons_of_pos _ _ (by simpa using h1)]
      have hd : hasCommandLineDelimiter (c :: cs) = hasCommandLineDelimiter cs := by
        simp [hasCommandLineDelimiter, hnd]
      rw [hd]
      simp only [List.length_cons]
      omega
    · rw [List.countP_cons_of_neg _ _ (by simpa using h1)]
      have hle : cs.countP (fun c => c = BACKSLASH ∨ c = DQUOTE) ≤ cs.length :=
        List.countP_le_length _
      simp only [List.length_cons]
      split <;> omega

theorem ArgStrLen_bound (s : WStr) : ArgStrLen s + 1 ≤ 2 * (s.length + 1) := by
  unfold ArgStrLen
  dsimp only []
  have h1 := ArgStrLen_loop_le s 0
  have h2 := countP_escape_add_delimiter s
  have h3 : s.countP (fun c => c = BACKSLASH ∨ c = DQUOTE) ≤ s.length := List.countP_le_length _
  by_cases hd : hasCommandLineDelimiter s = true
  · rw [if_pos hd] at h2
    rw [if_pos hd]
    split <;> omega
  · rw [if_neg hd]
    split <;> omega

/-! ## Lemmas for `SvcUninstall` -/

theorem poll_step (w : UninstallWorld) (fuel : Nat) (h : UninstallTrace)
    (status : SERVICE_STATUS) (total : Nat) (hfin : status.dwWaitHint ≠ INFINITE) :
    SvcUninstall.poll w (fuel + 1) h status total =
      if status.dwCurrentState = SERVICE_STOPPED then
        some [UninstallEvent.sleep status.dwWaitHint]
      else if (total + (status.dwWaitHint + 10) % DWORD_SIZE) % DWORD_SIZE >
          SvcUninstall.maxWaitTime then
        some [UninstallEvent.sleep status.dwWaitHint]
      else
        match w.QueryServiceStatus (h ++ [UninstallEvent.sleep status.dwWaitHint]) with
        | none => some ([UninstallEvent.sleep status.dwWaitHint] ++
            [UninstallEvent.queryServiceStatus none])
        | some next =>
          (SvcUninstall.poll w fuel
            (h ++ ([UninstallEvent.sleep status.dwWaitHint] ++
              [UninstallEvent.queryServiceStatus (some next)])) next
            ((total + (status.dwWaitHint + 10) % DWORD_SIZE) % DWORD_SIZE)).map
            (fun evs => ([UninstallEvent.sleep status.dwWaitHint] ++
              [UninstallEvent.queryServiceStatus (some next)]) ++ evs) := by
  rw [SvcUninstall.poll, if_neg hfin]

theorem poll_of_infinite (w : UninstallWorld) (fuel : Nat) (h : UninstallTrace)
    (status : SERVICE_STATUS) (total : Nat) (hinf : status.dwWaitHint = INFINITE) :
    SvcUninstall.poll w fuel h status total = none := by
  cases fuel with
  | zero => rfl
  | succ k => rw [SvcUninstall.poll, if_pos hinf]

theorem poll_no_delete (w : UninstallWorld) (fuel : Nat) (h : UninstallTrace)
    (status : SERVICE_STATUS) (total : Nat) (evs : UninstallTrace)
    (hp : SvcUninstall.poll w fuel h status total = some evs) :
    ∀ e ∈ evs, e.isDelete = false := by
  induction fuel generalizing h status total evs with
  | zero => simp [SvcUninstall.poll] at hp
  | succ k ih =>
    have hfin : status.dwWaitHint ≠ INFINITE := by
      intro hinf
      rw [poll_of_infinite w _ h status total hinf] at hp
      exact Option.noConfusion hp
    rw [poll_step w k h status total hfin] at hp
    split at hp
    · cases hp
      simp [UninstallEvent.isDelete]
    · split at hp
      · cases hp
        simp [UninstallEvent.isDelete]
      · split at hp
        · cases hp
          simp [UninstallEvent.isDelete]
        · rename_i next hq
          cases hrec : SvcUninstall.poll w k
              (h ++ ([UninstallEvent.sleep status.dwWaitHint] ++
                [UninstallEvent.queryServiceStatus (some next)])) next
              ((total + (status.dwWaitHint + 10) % DWORD_SIZE) % DWORD_SIZE) with
          | none =>
            rw [hrec] at hp
            simp at hp
          | some evs1 =>
            rw [hrec] at hp
            simp only [Option.map_some', Option.some.injEq] at hp
            subst hp
            intro e he
            rcases List.mem_append.mp he with h1 | h1
            · simp only [List.mem_append, List.mem_singleton] at h1
              rcases h1 with h1 | h1 <;> subst h1 <;> rfl
            · exact ih _ _ _ _ hrec e h1

theorem stopPhase_no_delete (w : UninstallWorld) (fuel : Nat) (h : UninstallTrace)
    (evs : UninstallTrace) (hp : SvcUninstall.stopPhase w fuel h = some evs) :
    ∀ e ∈ evs, e.isDelete = false := by
  unfold SvcUninstall.stopPhase at hp
  dsimp only [] at hp
  split at hp
  · rename_i hc
    cases hp
    intro e he
    rw [List.mem_singleton] at he
    subst he
    rfl
  · rename_i st hc
    cases hrec : SvcUninstall.poll w fuel
        (h ++ [UninstallEvent.controlService SERVICE_CONTROL_STOP (w.ControlService h SERVICE_CONTROL_STOP)])
        st 0 with
    | none =>
      rw [hrec] at hp
      simp at hp
    | some evs1 =>
      rw [hrec] at hp
      simp only [Option.map_some', Option.some.injEq] at hp
      subst hp
      intro e he
      rcases List.mem_append.mp he with h1 | h1
      · rw [List.mem_singleton] at h1
        subst h1
        rfl
      · exact poll_no_delete w fuel _ st 0 evs1 hrec e h1

theorem poll_returns (w : UninstallWorld) (hq : ∀ h status,
      w.QueryServiceStatus h = some status →
        status.dwWaitHint < DWORD_SIZE - (SvcUninstall.maxWaitTime + 10))
    (fuel : Nat) (h : UninstallTrace) (status : SERVICE_STATUS) (total : Nat)
    (hs : status.dwWaitHint < DWORD_SIZE - (SvcUninstall.maxWaitTime + 10))
    (ht : total ≤ SvcUninstall.maxWaitTime)
    (hf : SvcUninstall.maxWaitTime < total + 10 * fuel) :
    (SvcUninstall.poll w fuel h status total).isSome = true := by
  induction fuel generalizing h status total with
  | zero => omega
  | succ k ih =>
    have hfin : status.dwWaitHint ≠ INFINITE := by
      have hs1 := hs
      unfold DWORD_SIZE SvcUninstall.maxWaitTime at hs1
      unfold INFINITE
      omega
    rw [poll_step w k h status total hfin]
    have hmod : (total + (status.dwWaitHint + 10) % DWORD_SIZE) % DWORD_SIZE =
        total + status.dwWaitHint + 10 := by
      unfold DWORD_SIZE SvcUninstall.maxWaitTime at *
      omega
    rw [hmod]
    split
    · rfl
    · split
      · rfl
      · rename_i hle
        split
        · rfl
        · rename_i next hn
          rw [Option.isSome_map']
          exact ih _ next (total + status.dwWaitHint + 10) (hq _ _ hn) (by omega) (by omega)

theorem stopPhase_returns (w : UninstallWorld)
    (hb : w.hintsBelow (DWORD_SIZE - (SvcUninstall.maxWaitTime + 10)))
    (fuel : Nat) (hf : 6001 ≤ fuel) (h : UninstallTrace) :
    (SvcUninstall.stopPhase w fuel h).isSome = true := by
  unfold SvcUninstall.stopPhase
  dsimp only []
  split
  · rfl
  · rename_i st hc
    rw [Option.isSome_map']
    exact poll_returns w hb.2 fuel _ st 0 (hb.1 _ _ _ hc) (Nat.zero_le _)
      (by unfold SvcUninstall.maxWaitTime; omega)

theorem SvcUninstall_of_opened (w : UninstallWorld) (fuel : Nat) (h : UninstallTrace)
    (hscm : w.OpenSCManager h = true)
    (hopen : w.OpenServiceW (h ++ [UninstallEvent.openSCManager true]) w.SVC_NAME =
      HandleResult.valid) :
    SvcUninstall w fuel h =
      match SvcUninstall.stopPhase w fuel (h ++ SvcUninstall.opened w) with
      | none => none
      | some stopped =>
        some (decide ((w.DeleteService (h ++ (SvcUninstall.opened w ++ stopped))).1 = true ∨
            (w.DeleteService (h ++ (SvcUninstall.opened w ++ stopped))).2 =
              ERROR_SERVICE_MARKED_FOR_DELETE),
          SvcUninstall.opened w ++ stopped ++
            [UninstallEvent.deleteService
              (w.DeleteService (h ++ (SvcUninstall.opened w ++ stopped))).1
              (w.DeleteService (h ++ (SvcUninstall.opened w ++ stopped))).2]) := by
  unfold SvcUninstall SvcUninstall.opened
  dsimp only []
  rw [hscm]
  simp only [Bool.true_eq_false, if_false]
  rw [hopen]
  simp only [ne_eq, not_true_eq_false, if_false, List.singleton_append]
  cases SvcUninstall.stopPhase w fuel
    (h ++ [UninstallEvent.openSCManager true,
      UninstallEvent.openServiceW w.SVC_NAME HandleResult.valid]) with
  | none => rfl
  | some stopped =>
    simp only [List.append_assoc, List.cons_append, List.nil_append]
    split
    · rename_i hd
      simp [hd]
    · rename_i hd
      simp [hd]

theorem dword_sum (total hint b : Nat)
    (hb : b ≤ DWORD_SIZE - (SvcUninstall.maxWaitTime + 10)) (hs : hint < b)
    (ht : total ≤ SvcUninstall.maxWaitTime) :
    (total + (hint + 10) % DWORD_SIZE) % DWORD_SIZE = total + hint + 10 := by
  unfold DWORD_SIZE SvcUninstall.maxWaitTime at *
  omega

theorem poll_sleep_bound (w : UninstallWorld) (b : Nat)
    (hb : b ≤ DWORD_SIZE - (SvcUninstall.maxWaitTime + 10))
    (hq : ∀ h status, w.QueryServiceStatus h = some status → status.dwWaitHint < b)
    (fuel : Nat) (h : UninstallTrace) (status : SERVICE_STATUS) (total : Nat)
    (evs : UninstallTrace) (hs : status.dwWaitHint < b)
    (ht : total ≤ SvcUninstall.maxWaitTime)
    (hp : SvcUninstall.poll w fuel h status total = some evs) :
    sleepTotal evs + total < SvcUninstall.maxWaitTime + b := by
  induction fuel generalizing h status total evs with
  | zero => simp [SvcUninstall.poll] at hp
  | succ k ih =>
    have hfin : status.dwWaitHint ≠ INFINITE := by
      have hb1 := hb
      unfold DWORD_SIZE SvcUninstall.maxWaitTime at hb1
      unfold INFINITE
      omega
    rw [poll_step w k h status total hfin] at hp
    rw [dword_sum total status.dwWaitHint b hb hs ht] at hp
    split at hp
    · cases hp
      simp only [sleepTotal]
      omega
    · split at hp
      · cases hp
        simp only [sleepTotal]
        omega
      · split at hp
        · cases hp
          simp only [List.singleton_append, sleepTotal]
          omega
        · rename_i next hn
          cases hrec : SvcUninstall.poll w k
              (h ++ ([UninstallEvent.sleep status.dwWaitHint] ++
                [UninstallEvent.queryServiceStatus (some next)])) next
              (total + status.dwWaitHint + 10) with
          | none =>
            rw [hrec] at hp
            simp at hp
          | some evs1 =>
            rw [hrec] at hp
            simp only [Option.map_some', Option.some.injEq] at hp
            subst hp
            have := ih _ next _ evs1 (hq _ _ hn) (by omega) hrec
            have hsum : sleepTotal ([UninstallEvent.sleep status.dwWaitHint] ++
                [UninstallEvent.queryServiceStatus (some next)] ++ evs1) =
                status.dwWaitHint + sleepTotal evs1 := rfl
            rw [hsum]
            omega

theorem stopPhase_sleep_bound (w : UninstallWorld) (b : Nat)
    (hb : b ≤ DWORD_SIZE - (SvcUninstall.maxWaitTime + 10)) (hw : w.hintsBelow b)
    (fuel : Nat) (h : UninstallTrace) (evs : UninstallTrace)
    (hp : SvcUninstall.stopPhase w fuel h = some evs) :
    sleepTotal evs < SvcUninstall.maxWaitTime + b ∨ sleepTotal evs = 0 := by
  unfold SvcUninstall.stopPhase at hp
  dsimp only [] at hp
  split at hp
  · cases hp
    exact Or.inr rfl
  · rename_i st hc
    cases hrec : SvcUninstall.poll w fuel
        (h ++ [UninstallEvent.controlService SERVICE_CONTROL_STOP
          (w.ControlService h SERVICE_CONTROL_STOP)]) st 0 with
    | none =>
      rw [hrec] at hp
      simp at hp
    | some evs1 =>
      rw [hrec] at hp
      simp only [Option.map_some', Option.some.injEq] at hp
      subst hp
      have := poll_sleep_bound w b hb hw.2 fuel _ st 0 evs1 (hw.1 _ _ _ hc) (Nat.zero_le _) hrec
      left
      have hsum : sleepTotal ([UninstallEvent.controlService SERVICE_CONTROL_STOP
          (w.ControlService h SERVICE_CONTROL_STOP)] ++ evs1) = sleepTotal evs1 := rfl
      rw [hsum]
      omega

theorem poll_wraps_forever (fuel : Nat) (h : UninstallTrace) :
    SvcUninstall.poll (pendingServiceWorld 4294967286) fuel h
      ⟨SERVICE_STOP_PENDING, 4294967286⟩ 0 = none := by
  induction fuel generalizing h with
  | zero => rfl
  | succ k ih =>
    rw [poll_step _ k h _ 0 (by decide)]
    rw [if_neg (by decide), if_neg (by decide)]
    simp only [pendingServiceWorld]
    have := ih (h ++ ([UninstallEvent.sleep 4294967286] ++
      [UninstallEvent.queryServiceStatus (some ⟨SERVICE_STOP_PENDING, 4294967286⟩)]))
    simp only [pendingServiceWorld] at this
    have h0 : (0 + (4294967286 + 10) % DWORD_SIZE) % DWORD_SIZE = 0 := by decide
    rw [h0, this]
    rfl

/-- When the service manager and the service are opened, a run of `SvcUninstall`
whose stop phase has ended with the events `stopped` calls `DeleteService` next, whatever
the stop control and the polls reported, and returns TRUE if and only if `DeleteService`
succeeded or failed with ERROR_SERVICE_MARKED_FOR_DELETE; no event before that call is a
call of `DeleteService`.  The stop phase ends at once when the stop control fails, and
it ends within 6001 polls when every wait hint is below `2^32 - 60010`; in both cases
`SvcUninstall` returns. -/
theorem SvcUninstall_of_stopPhase (w : UninstallWorld) (fuel : Nat)
    (h : UninstallTrace)
    (hscm : w.OpenSCManager h = true)
    (hopen : w.OpenServiceW (h ++ [UninstallEvent.openSCManager true]) w.SVC_NAME =
      HandleResult.valid) :
    (∀ stopped, SvcUninstall.stopPhase w fuel (h ++ SvcUninstall.opened w) = some stopped →
      ∃ ok err,
        (ok, err) = w.DeleteService (h ++ (SvcUninstall.opened w ++ stopped)) ∧
        SvcUninstall w fuel h =
          some (decide (ok = true ∨ err = ERROR_SERVICE_MARKED_FOR_DELETE),
            SvcUninstall.opened w ++ stopped ++ [UninstallEvent.deleteService ok err]) ∧
        ∀ e ∈ SvcUninstall.opened w ++ stopped, e.isDelete = false) ∧
    (w.ControlService (h ++ SvcUninstall.opened w) SERVICE_CONTROL_STOP = none →
      SvcUninstall.stopPhase w fuel (h ++ SvcUninstall.opened w) =
        some [UninstallEvent.controlService SERVICE_CONTROL_STOP none]) ∧
    (w.hintsBelow (DWORD_SIZE - (SvcUninstall.maxWaitTime + 10)) → 6001 ≤ fuel →
      (SvcUninstall.stopPhase w fuel (h ++ SvcUninstall.opened w)).isSome = true ∧
      (SvcUninstall w fuel h).isSome = true) := by
  have hrun := SvcUninstall_of_opened w fuel h hscm hopen
  refine ⟨?_, ?_, ?_⟩
  · intro stopped hs
    rw [hs] at hrun
    refine ⟨_, _, rfl, hrun, ?_⟩
    intro e he
    rcases List.mem_append.mp he with h1 | h1
    · simp only [SvcUninstall.opened, List.mem_cons, List.mem_singleton, List.not_mem_nil,
        or_false] at h1
      rcases h1 with h1 | h1 <;> subst h1 <;> rfl
    · exact stopPhase_no_delete w fuel _ stopped hs e h1
  · intro hc
    unfold SvcUninstall.stopPhase
    dsimp only []
    rw [hc]
  · intro hb hf
    have hs := stopPhase_returns w hb fuel hf (h ++ SvcUninstall.opened w)
    refine ⟨hs, ?_⟩
    rw [hrun]
    cases hst : SvcUninstall.stopPhase w fuel (h ++ SvcUninstall.opened w) with
    | none =>
      rw [hst] at hs
      exact Bool.noConfusion hs
    | some stopped => rfl


/-! ## Lemmas for the trigger -/

theorem path_not_serviceControl (evs : Trace) :
    ∀ e ∈ evs.map TriggerEvent.path, e.isServiceControl = false := by
  intro e he
  obtain ⟨p, _, hp⟩ := List.mem_map.mp he
  subst hp
  rfl

/-! ## Lemmas for the access control list of the service -/

theorem setAcl_success (w : SvcWorld) (pacl : Option ACL) (ea : List EXPLICIT_ACCESS)
    (h : SvcTrace) (hfail : w.failuresReported)
    (hok : (SetUserAccessServiceDACL.setAcl w pacl ea h).1 = ERROR_SUCCESS) :
    (w.SetEntriesInAclW h ea pacl).1 = ERROR_SUCCESS ∧
    (SetUserAccessServiceDACL.setAcl w pacl ea h).2 =
      SetUserAccessServiceDACL.applied ea pacl (w.SetEntriesInAclW h ea pacl).2 := by
  obtain ⟨_, _, _, _, _, hinit, hsd, hset⟩ := hfail
  unfold SetUserAccessServiceDACL.setAcl at hok ⊢
  unfold SetUserAccessServiceDACL.applied
  dsimp only [] at hok ⊢
  by_cases hs : (w.SetEntriesInAclW h ea pacl).1 ≠ ERROR_SUCCESS
  · rw [if_pos hs] at hok
    exact absurd hok hs
  · rw [if_neg hs] at hok ⊢
    have hs1 : (w.SetEntriesInAclW h ea pacl).1 = ERROR_SUCCESS := not_not.mp hs
    refine ⟨hs1, ?_⟩
    rw [hs1] at hok ⊢
    cases hi : w.InitializeSecurityDescriptor
        (h ++ [SvcEvent.setEntriesInAclW ea pacl ERROR_SUCCESS]) with
    | failed e =>
      rw [hi] at hok
      exact absurd hok (hinit _ _ hi)
    | ok u =>
      rw [hi] at hok
      dsimp only [] at hok ⊢
      cases hd : w.SetSecurityDescriptorDacl
          (h ++ ([SvcEvent.setEntriesInAclW ea pacl ERROR_SUCCESS] ++
            [SvcEvent.initializeSecurityDescriptor true]))
          (w.SetEntriesInAclW h ea pacl).2 with
      | failed e =>
        rw [hd] at hok
        exact absurd hok (hsd _ _ _ hd)
      | ok u1 =>
        rw [hd] at hok
        dsimp only [] at hok ⊢
        cases ho : w.SetServiceObjectSecurity
            (h ++ ([SvcEvent.setEntriesInAclW ea pacl ERROR_SUCCESS] ++
              [SvcEvent.initializeSecurityDescriptor true] ++
              [SvcEvent.setSecurityDescriptorDacl true]))
            (w.SetEntriesInAclW h ea pacl).2 with
        | failed e =>
          rw [ho] at hok
          exact absurd hok (hset _ _ _ ho)
        | ok u2 =>
          rfl

theorem fromDescriptor_success (w : SvcWorld) (psd : Option (Option ACL)) (h : SvcTrace)
    (hfail : w.failuresReported)
    (hok : (SetUserAccessServiceDACL.fromDescriptor w psd h).1 = ERROR_SUCCESS) :
    ∃ before sidU sidI sidL pacl,
      (SetUserAccessServiceDACL.fromDescriptor w psd h).2 =
        before ++ SetUserAccessServiceDACL.applied (SetUserAccessServiceDACL.ea sidU sidI sidL)
          pacl (w.SetEntriesInAclW (h ++ before)
            (SetUserAccessServiceDACL.ea sidU sidI sidL) pacl).2 ∧
      (w.SetEntriesInAclW (h ++ before)
        (SetUserAccessServiceDACL.ea sidU sidI sidL) pacl).1 = ERROR_SUCCESS ∧
      SvcEvent.createWellKnownSid WinBuiltinUsersSid (some sidU) ∈ before ∧
      SvcEvent.createWellKnownSid WinInteractiveSid (some sidI) ∈ before ∧
      SvcEvent.createWellKnownSid WinLocalServiceSid (some sidL) ∈ before := by
  have hfail1 := hfail
  obtain ⟨_, _, hget, halloc, hsid, _, _, _⟩ := hfail1
  have hdef := SetUserAccessServiceDACL.fromDescriptor.eq_1 w psd h
  unfold SetUserAccessServiceDACL.fromDescriptor at hok
  split at hok
  · rename_i e heq
    exact absurd hok (hget _ _ _ heq)
  · rename_i pacl heq
    try dsimp only [] at hok
    split at hok
    · rename_i e heq1
      exact absurd hok (halloc _ _ _ heq1)
    · rename_i u1 heq1
      try dsimp only [] at hok
      split at hok
      · rename_i e heq2
        exact absurd hok (hsid _ _ _ heq2)
      · rename_i sidU heq2
        try dsimp only [] at hok
        split at hok
        · rename_i e heq3
          exact absurd hok (halloc _ _ _ heq3)
        · rename_i u2 heq3
          try dsimp only [] at hok
          split at hok
          · rename_i e heq4
            exact absurd hok (hsid _ _ _ heq4)
          · rename_i sidI heq4
            try dsimp only [] at hok
            split at hok
            · rename_i e heq5
              exact absurd hok (halloc _ _ _ heq5)
            · rename_i u3 heq5
              try dsimp only [] at hok
              split at hok
              · rename_i e heq6
                exact absurd hok (hsid _ _ _ heq6)
              · rename_i sidL heq6
                try dsimp only [] at hok
                obtain ⟨hs1, hs2⟩ := setAcl_success w pacl _ _ hfail hok
                rw [hdef]
                simp only [heq, heq1, heq2, heq3, heq4, heq5, heq6]
                refine ⟨_, sidU, sidI, sidL, pacl, ?_, hs1, ?_, ?_, ?_⟩
                · rw [hs2]
                · simp
                · simp
                · simp

theorem status_success (w : SvcWorld) (h : SvcTrace) (hfail : w.failuresReported)
    (hok : (SetUserAccessServiceDACL.status w h).1 = ERROR_SUCCESS) :
    ∃ before sidU sidI sidL pacl,
      (SetUserAccessServiceDACL.status w h).2 =
        before ++ SetUserAccessServiceDACL.applied (SetUserAccessServiceDACL.ea sidU sidI sidL)
          pacl (w.SetEntriesInAclW (h ++ before)
            (SetUserAccessServiceDACL.ea sidU sidI sidL) pacl).2 ∧
      (w.SetEntriesInAclW (h ++ before)
        (SetUserAccessServiceDACL.ea sidU sidI sidL) pacl).1 = ERROR_SUCCESS ∧
      SvcEvent.createWellKnownSid WinBuiltinUsersSid (some sidU) ∈ before ∧
      SvcEvent.createWellKnownSid WinInteractiveSid (some sidI) ∈ before ∧
      SvcEvent.createWellKnownSid WinLocalServiceSid (some sidL) ∈ before := by
  have hfail1 := hfail
  obtain ⟨hsize, hquery, _, _, _, _, _, _⟩ := hfail1
  have hdef := SetUserAccessServiceDACL.status.eq_1 w h
  have hnz : ERROR_INSUFFICIENT_BUFFER ≠ ERROR_SUCCESS := by decide
  unfold SetUserAccessServiceDACL.status at hok
  dsimp only [] at hok hdef
  by_cases h1 : (w.QueryServiceObjectSecuritySize h).1 = true
  · rw [if_pos h1] at hok hdef
    obtain ⟨before, sidU, sidI, sidL, pacl, hev, hs, hU, hI, hL⟩ :=
      fromDescriptor_success w none _ hfail hok
    refine ⟨[SvcEvent.queryServiceObjectSecurity 0 (w.QueryServiceObjectSecuritySize h).1] ++
      before, sidU, sidI, sidL, pacl, ?_, ?_, ?_, ?_, ?_⟩
    · rw [hdef, hev]
      simp only [List.append_assoc]
    · simpa only [List.append_assoc] using hs
    · exact List.mem_append.mpr (Or.inr hU)
    · exact List.mem_append.mpr (Or.inr hI)
    · exact List.mem_append.mpr (Or.inr hL)
  · rw [if_neg h1] at hok hdef
    have h1f : (w.QueryServiceObjectSecuritySize h).1 = false := by simpa using h1
    by_cases h2 : (w.QueryServiceObjectSecuritySize h).2.1 ≠ ERROR_INSUFFICIENT_BUFFER
    · rw [if_pos h2] at hok
      exact absurd hok (hsize h h1f)
    · rw [if_neg h2] at hok hdef
      split at hok
      · exact absurd hok hnz
      · rename_i u heq
        try dsimp only [] at hok
        split at hok
        · rename_i e heq1
          exact absurd hok (hquery _ _ _ heq1)
        · rename_i dacl heq1
          try dsimp only [] at hok
          obtain ⟨before, sidU, sidI, sidL, pacl, hev, hs, hU, hI, hL⟩ :=
            fromDescriptor_success w (some dacl) _ hfail hok
          refine ⟨[SvcEvent.queryServiceObjectSecurity 0 (w.QueryServiceObjectSecuritySize h).1] ++
            [SvcEvent.localAlloc (w.QueryServiceObjectSecuritySize h).2.2 true] ++
            [SvcEvent.queryServiceObjectSecurity (w.QueryServiceObjectSecuritySize h).2.2 true] ++
            before, sidU, sidI, sidL, pacl, ?_, ?_, ?_, ?_, ?_⟩
          · rw [hdef]
            simp only [heq, heq1]
            rw [hev]
            simp only [List.append_assoc]
          · simpa only [List.append_assoc] using hs
          · exact List.mem_append.mpr (Or.inr hU)
          · exact List.mem_append.mpr (Or.inr hI)
          · exact List.mem_append.mpr (Or.inr hL)

theorem mem_mergeEntries_ea (sidU sidI sidL : Nat) (oldAcl : ACL) (a : ACE) :
    a ∈ mergeEntries (SetUserAccessServiceDACL.ea sidU sidI sidL) oldAcl ↔
      a = ⟨true, sidL, USER_ACCESS⟩ ∨
      (a.sid ≠ sidL ∧ (a = ⟨true, sidI, USER_ACCESS⟩ ∨
        (a.sid ≠ sidI ∧ a ∈ oldAcl ∧ ¬ (a.allowed = true ∧ a.sid = sidU)))) := by
  have hform : mergeEntries (SetUserAccessServiceDACL.ea sidU sidI sidL) oldAcl =
      ⟨true, sidL, USER_ACCESS⟩ ::
        ((⟨true, sidI, USER_ACCESS⟩ ::
          (oldAcl.filter (fun a => ! (a.allowed && decide (a.sid = sidU)))).filter
            (fun a => ! decide (a.sid = sidI))).filter (fun a => ! decide (a.sid = sidL))) := rfl
  rw [hform]
  simp only [List.mem_cons, List.mem_filter, Bool.not_eq_true', decide_eq_false_iff_not,
    Bool.and_eq_false_imp, decide_eq_true_eq, Bool.not_eq_eq_eq_not, Bool.not_true]
  constructor
  · rintro (h1 | ⟨h1 | ⟨⟨h2, h3⟩, h4⟩, h5⟩)
    · exact Or.inl h1
    · exact Or.inr ⟨h5, Or.inl h1⟩
    · refine Or.inr ⟨h5, Or.inr ⟨h4, h2, ?_⟩⟩
      rintro ⟨ha, hs⟩
      exact h3 ha hs
  · rintro (h1 | ⟨h5, h1 | ⟨h4, h2, h3⟩⟩)
    · exact Or.inl h1
    · exact Or.inr ⟨Or.inl h1, h5⟩
    · exact Or.inr ⟨Or.inr ⟨⟨h2, fun ha hs => h3 ⟨ha, hs⟩⟩, h4⟩, h5⟩

theorem mergeEntries_ea_spec (sidU sidI sidL : Nat) (oldAcl : ACL)
    (hUI : sidU ≠ sidI) (hUL : sidU ≠ sidL) (hIL : sidI ≠ sidL) :
    (∀ a ∈ mergeEntries (SetUserAccessServiceDACL.ea sidU sidI sidL) oldAcl,
      a.sid = sidU → a.allowed = false) ∧
    (∀ a ∈ mergeEntries (SetUserAccessServiceDACL.ea sidU sidI sidL) oldAcl,
      a.sid = sidI ∨ a.sid = sidL → a.allowed = true ∧ a.mask = USER_ACCESS) ∧
    (⟨true, sidI, USER_ACCESS⟩ ∈ mergeEntries (SetUserAccessServiceDACL.ea sidU sidI sidL) oldAcl ∧
      ⟨true, sidL, USER_ACCESS⟩ ∈
        mergeEntries (SetUserAccessServiceDACL.ea sidU sidI sidL) oldAcl) ∧
    (∀ a : ACE, a.sid ≠ sidI → a.sid ≠ sidL → (a.sid = sidU → a.allowed = false) →
      (a ∈ mergeEntries (SetUserAccessServiceDACL.ea sidU sidI sidL) oldAcl ↔ a ∈ oldAcl)) := by
  refine ⟨?_, ?_, ⟨?_, ?_⟩, ?_⟩
  · intro a ha hs
    rw [mem_mergeEntries_ea] at ha
    rcases ha with h1 | ⟨_, h1 | ⟨_, _, h3⟩⟩
    · subst h1
      exact absurd hs.symm hUL
    · subst h1
      exact absurd hs.symm hUI
    · cases hal : a.allowed with
      | false => rfl
      | true => exact absurd ⟨hal, hs⟩ h3
  · intro a ha hs
    rw [mem_mergeEntries_ea] at ha
    rcases ha with h1 | ⟨h5, h1 | ⟨h4, _, _⟩⟩
    · subst h1
      exact ⟨rfl, rfl⟩
    · subst h1
      exact ⟨rfl, rfl⟩
    · rcases hs with hs | hs
      · exact absurd hs h4
      · exact absurd hs h5
  · rw [mem_mergeEntries_ea]
    exact Or.inr ⟨hIL, Or.inl rfl⟩
  · rw [mem_mergeEntries_ea]
    exact Or.inl rfl
  · intro a hI hL hU
    rw [mem_mergeEntries_ea]
    constructor
    · rintro (h1 | ⟨_, h1 | ⟨_, h2, _⟩⟩)
      · subst h1
        exact absurd rfl hL
      · subst h1
        exact absurd rfl hI
      · exact h2
    · intro h2
      refine Or.inr ⟨hL, Or.inr ⟨hI, h2, ?_⟩⟩
      rintro ⟨ha, hs⟩
      rw [hU hs] at ha
      exact Bool.noConfusion ha

theorem mergingSvcWorld_failuresReported : mergingSvcWorld.failuresReported := by
  refine ⟨?_, ?_, ?_, ?_, ?_, ?_, ?_, ?_⟩
  · intro h _
    show ERROR_INSUFFICIENT_BUFFER ≠ ERROR_SUCCESS
    decide
  · intro h n e he
    exact Outcome.noConfusion he
  · intro h p e he
    exact Outcome.noConfusion he
  · intro h n e he
    exact Outcome.noConfusion he
  · intro h t e he
    exact Outcome.noConfusion he
  · intro h e he
    exact Outcome.noConfusion he
  · intro h a e he
    exact Outcome.noConfusion he
  · intro h a e he
    exact Outcome.noConfusion he

theorem mergingSvcWorld_mergesEntries : mergingSvcWorld.mergesEntries :=
  fun _ _ _ _ => rfl

/-- A failed call whose last error reads ERROR_SUCCESS makes `SetUserAccessServiceDACL`
return TRUE although no descriptor was set on the service: the run ends with the failed
`InitializeSecurityDescriptor`. -/
theorem SetUserAccessServiceDACL_true_without_set :
    (SetUserAccessServiceDACL silentFailureSvcWorld []).1 = true ∧
    (SetUserAccessServiceDACL silentFailureSvcWorld []).2.getLast? =
      some (SvcEvent.initializeSecurityDescriptor false) ∧
    (SetUserAccessServiceDACL silentFailureSvcWorld []).2.filter
      (fun e => match e with
        | SvcEvent.setServiceObjectSecurity _ _ => true
        | _ => false) = [] := by
  decide

/-! ## The claims on the service record, the trigger and the two buffers -/

/-- C21, counterexample.  The installed binary is older, so the replacement branch is taken,
but the service does not stop; `SvcInstall` returns FALSE and no call of its run schedules
the calling binary for deletion. -/
theorem stuck_service_schedules_nothing :
    SvcInstall.mustReplace SvcInstallAction.UpgradeSvc (some ⟨1, 0, 0, 0⟩) ⟨2, 0, 0, 0⟩ = true ∧
    (SvcInstall stuckServiceWorld (exampleFiles [1, 0, 0, 0] [2, 0, 0, 0])
      SvcInstallAction.UpgradeSvc []).1 = false ∧
    SvcEvent.retStopService false ∈
      (SvcInstall stuckServiceWorld (exampleFiles [1, 0, 0, 0] [2, 0, 0, 0])
        SvcInstallAction.UpgradeSvc []).2 ∧
    ∀ e ∈ (SvcInstall stuckServiceWorld (exampleFiles [1, 0, 0, 0] [2, 0, 0, 0])
        SvcInstallAction.UpgradeSvc []).2,
      e.schedulesDeletion exampleCallingPath = false := by
  decide

/-- C21, as amended.  In a run of `SvcInstall` on an existing service that takes the
replacement branch (`ForceInstallSvc`, installed version unreadable, or calling binary
strictly newer), `StopService` is called and returns `stopped`; the run holds a call
`MoveFileExW(calling binary, nullptr, MOVEFILE_DELAY_UNTIL_REBOOT)` if and only if
`stopped` is TRUE and the calling binary is not the installed binary, and then that call
is the last event of the run, whatever the overwrite, the rename and the copy gave. -/
theorem replacement_schedules_iff_stopped (w : SvcWorld) (fs : Files)
    (action : SvcInstallAction) (h : SvcTrace) (new installed : WStr)
    (existing : Option FileVersion) (n : FileVersion)
    (hscm : w.OpenSCManager h = true)
    (hmod : w.GetModuleFileNameW (h ++ [SvcEvent.openSCManager true]) = some new)
    (hopen : w.OpenServiceW
      (h ++ [SvcEvent.openSCManager true, SvcEvent.getModuleFileNameW (some new)]) w.SVC_NAME =
        HandleResult.valid)
    (hread : (SvcInstall.readVersions w fs new (h ++ SvcInstall.opened w new)).1 =
      some (installed, existing, n))
    (hbranch : action = SvcInstallAction.ForceInstallSvc ∨ existing = none ∨
      ∃ e, existing = some e ∧ e.lex < n.lex) :
    ∃ before stopped rest,
      (SvcInstall w fs action h).2 = before ++ SvcEvent.retStopService stopped :: rest ∧
      SvcKinds [SvcKind.manager, SvcKind.acl, SvcKind.config, SvcKind.version, SvcKind.stop]
        before ∧
      ((∃ e ∈ (SvcInstall w fs action h).2, e.schedulesDeletion new = true) ↔
        (stopped = true ∧ new ≠ installed)) ∧
      (stopped = true → new ≠ installed →
        ∃ s, (SvcInstall w fs action h).2.getLast? =
          some (SvcEvent.moveFileExW new none MOVEFILE_DELAY_UNTIL_REBOOT s)) := by
  have hyes : SvcInstall.mustReplace action existing n = true := by
    cases existing with
    | none => rfl
    | some e =>
      rw [mustReplace_iff]
      rcases hbranch with hf | hn | ⟨e1, he1, hlt⟩
      · exact Or.inl hf
      · exact Option.noConfusion hn
      · cases he1
        exact Or.inr hlt
  obtain ⟨before, tail, stopped, hev, hbefore, _, hout⟩ :=
    SvcInstall_replacing w fs action h new installed existing n hscm hmod hopen hread hyes
  obtain ⟨rest, htail, hiff, hlast⟩ := replaceOutcome_schedule new installed stopped _ tail hout
  refine ⟨before, stopped, rest, by rw [hev, htail], hbefore, ?_, ?_⟩
  · rw [hev, ← hiff]
    constructor
    · rintro ⟨e, he, hs⟩
      rcases List.mem_append.mp he with hb | ht
      · have hk := hbefore e hb
        rw [schedulesDeletion_kind new e hs] at hk
        simp at hk
      · exact ⟨e, ht, hs⟩
    · rintro ⟨e, he, hs⟩
      exact ⟨e, List.mem_append.mpr (Or.inr he), hs⟩
  · intro hs hne
    obtain ⟨s, hl⟩ := hlast hs hne
    refine ⟨s, ?_⟩
    rw [hev, List.getLast?_append, hl]
    rfl

/-- C21 as amended, on the nominal machine with a calling binary newer than the installed
one. -/
theorem replacement_schedules_iff_stopped_witness :
    ∃ before stopped rest,
      (SvcInstall nominalSvcWorld (exampleFiles [1, 0, 0, 0] [2, 0, 0, 0])
        SvcInstallAction.UpgradeSvc []).2 = before ++ SvcEvent.retStopService stopped :: rest ∧
      SvcKinds [SvcKind.manager, SvcKind.acl, SvcKind.config, SvcKind.version, SvcKind.stop]
        before ∧
      ((∃ e ∈ (SvcInstall nominalSvcWorld (exampleFiles [1, 0, 0, 0] [2, 0, 0, 0])
          SvcInstallAction.UpgradeSvc []).2, e.schedulesDeletion exampleCallingPath = true) ↔
        (stopped = true ∧ exampleCallingPath ≠ exampleInstalledPath)) ∧
      (stopped = true → exampleCallingPath ≠ exampleInstalledPath →
        ∃ s, (SvcInstall nominalSvcWorld (exampleFiles [1, 0, 0, 0] [2, 0, 0, 0])
          SvcInstallAction.UpgradeSvc []).2.getLast? =
          some (SvcEvent.moveFileExW exampleCallingPath none MOVEFILE_DELAY_UNTIL_REBOOT s)) :=
  replacement_schedules_iff_stopped nominalSvcWorld (exampleFiles [1, 0, 0, 0] [2, 0, 0, 0])
    SvcInstallAction.UpgradeSvc [] exampleCallingPath exampleInstalledPath
    (some ⟨1, 0, 0, 0⟩) ⟨2, 0, 0, 0⟩ (by decide) (by decide) (by decide) (by decide)
    (Or.inr (Or.inr ⟨⟨1, 0, 0, 0⟩, rfl, by decide⟩))

/-- C22.  When the service manager is opened and the path of the calling binary is
obtained: if `OpenServiceW` fails with ERROR_SERVICE_DOES_NOT_EXIST and the action is
`UpgradeSvc`, `SvcInstall` returns TRUE and its events are the three opening calls, so no
service is created, no ACL is changed and no file is touched; if `OpenServiceW` fails
with another error, `SvcInstall` returns FALSE after the same three calls. -/
theorem SvcInstall_absent_service (w : SvcWorld) (fs : Files) (action : SvcInstallAction)
    (h : SvcTrace) (new : WStr) (lastError : Nat)
    (hscm : w.OpenSCManager h = true)
    (hmod : w.GetModuleFileNameW (h ++ [SvcEvent.openSCManager true]) = some new)
    (hopen : w.OpenServiceW
      (h ++ [SvcEvent.openSCManager true, SvcEvent.getModuleFileNameW (some new)]) w.SVC_NAME =
        HandleResult.invalid lastError) :
    (lastError = ERROR_SERVICE_DOES_NOT_EXIST → action = SvcInstallAction.UpgradeSvc →
      SvcInstall w fs action h =
        (true, [SvcEvent.openSCManager true, SvcEvent.getModuleFileNameW (some new),
          SvcEvent.openServiceW w.SVC_NAME (HandleResult.invalid ERROR_SERVICE_DOES_NOT_EXIST)])) ∧
    (lastError ≠ ERROR_SERVICE_DOES_NOT_EXIST →
      SvcInstall w fs action h =
        (false, [SvcEvent.openSCManager true, SvcEvent.getModuleFileNameW (some new),
          SvcEvent.openServiceW w.SVC_NAME (HandleResult.invalid lastError)])) := by
  have hopen1 : w.OpenServiceW
      (h ++ ([SvcEvent.openSCManager true] ++ [SvcEvent.getModuleFileNameW (some new)]))
      w.SVC_NAME = HandleResult.invalid lastError := by
    simpa using hopen
  constructor
  · intro herr hact
    subst herr hact
    unfold SvcInstall
    dsimp only []
    rw [hscm]
    simp only [Bool.true_eq_false, if_false]
    rw [hmod]
    dsimp only []
    rw [hopen1]
    simp [SvcInstall.absent]
  · intro herr
    unfold SvcInstall
    dsimp only []
    rw [hscm]
    simp only [Bool.true_eq_false, if_false]
    rw [hmod]
    dsimp only []
    rw [hopen1]
    simp [Ne.symm herr]

/-- C22, on a machine where the service is absent and on one where access is denied. -/
theorem SvcInstall_absent_service_witness :
    SvcInstall absentServiceWorld (exampleFiles [1, 0, 0, 0] [2, 0, 0, 0])
        SvcInstallAction.UpgradeSvc [] =
      (true, [SvcEvent.openSCManager true, SvcEvent.getModuleFileNameW (some exampleCallingPath),
        SvcEvent.openServiceW absentServiceWorld.SVC_NAME
          (HandleResult.invalid ERROR_SERVICE_DOES_NOT_EXIST)]) ∧
    SvcInstall deniedServiceWorld (exampleFiles [1, 0, 0, 0] [2, 0, 0, 0])
        SvcInstallAction.InstallSvc [] =
      (false, [SvcEvent.openSCManager true, SvcEvent.getModuleFileNameW (some exampleCallingPath),
        SvcEvent.openServiceW deniedServiceWorld.SVC_NAME
          (HandleResult.invalid ERROR_ACCESS_DENIED)]) :=
  ⟨(SvcInstall_absent_service absentServiceWorld (exampleFiles [1, 0, 0, 0] [2, 0, 0, 0])
      SvcInstallAction.UpgradeSvc [] exampleCallingPath ERROR_SERVICE_DOES_NOT_EXIST
      (by decide) (by decide) (by decide)).1 rfl rfl,
    (SvcInstall_absent_service deniedServiceWorld (exampleFiles [1, 0, 0, 0] [2, 0, 0, 0])
      SvcInstallAction.InstallSvc [] exampleCallingPath ERROR_ACCESS_DENIED
      (by decide) (by decide) (by decide)).2 (by decide)⟩

/-- C23, counterexample.  The service has a DACL with a full-access entry for the
built-in Administrators and a read entry for the built-in Users, and `SetEntriesInAclW`
merges as documented.  `SetUserAccessServiceDACL` returns TRUE and the DACL it sets on
the service still holds the entry of the Administrators, a principal that is neither
the interactive-logon nor the local-service principal. -/
theorem SetUserAccessServiceDACL_keeps_other_grants :
    SetUserAccessServiceDACL mergingSvcWorld [] =
      (true, [SvcEvent.queryServiceObjectSecurity 0 false, SvcEvent.localAlloc 64 true,
        SvcEvent.queryServiceObjectSecurity 64 true, SvcEvent.getSecurityDescriptorDacl true,
        SvcEvent.localAlloc SECURITY_MAX_SID_SIZE true,
        SvcEvent.createWellKnownSid WinBuiltinUsersSid (some WinBuiltinUsersSid),
        SvcEvent.localAlloc SECURITY_MAX_SID_SIZE true,
        SvcEvent.createWellKnownSid WinInteractiveSid (some WinInteractiveSid),
        SvcEvent.localAlloc SECURITY_MAX_SID_SIZE true,
        SvcEvent.createWellKnownSid WinLocalServiceSid (some WinLocalServiceSid)] ++
        SetUserAccessServiceDACL.applied
          (SetUserAccessServiceDACL.ea WinBuiltinUsersSid WinInteractiveSid WinLocalServiceSid)
          (some exampleDacl)
          (some [⟨true, WinLocalServiceSid, USER_ACCESS⟩, ⟨true, WinInteractiveSid, USER_ACCESS⟩,
            ⟨true, WinBuiltinAdministratorsSid, SERVICE_ALL_ACCESS⟩])) ∧
    WinBuiltinAdministratorsSid ≠ WinInteractiveSid ∧
    WinBuiltinAdministratorsSid ≠ WinLocalServiceSid := by
  decide

/-- C23, as amended.  When `SetUserAccessServiceDACL` returns TRUE on a machine where failed
calls leave a last error other than ERROR_SUCCESS and `SetEntriesInAclW` merges as
documented, its run ends with the three entries applied to the DACL `pacl` of the
service and the merged DACL set on the service; the entries are, in order, a revoke for
the built-in Users and a set-access with SERVICE_START, SERVICE_STOP and GENERIC_READ
for the interactive-logon and for the local-service principal.  The three SIDs being
distinct, the DACL set holds no access-allowed entry for the built-in Users, holds for
each of the two principals the access-allowed entry with exactly those rights and no
other entry, and holds every other entry of `pacl` unchanged and nothing else. -/
theorem SetUserAccessServiceDACL_merges_entries (w : SvcWorld) (h : SvcTrace)
    (hfail : w.failuresReported) (hmerge : w.mergesEntries)
    (hok : (SetUserAccessServiceDACL w h).1 = true) :
    ∃ before sidU sidI sidL pacl,
      (SetUserAccessServiceDACL w h).2 =
        before ++ SetUserAccessServiceDACL.applied (SetUserAccessServiceDACL.ea sidU sidI sidL)
          pacl (some (mergeEntries (SetUserAccessServiceDACL.ea sidU sidI sidL)
            (pacl.getD []))) ∧
      SvcEvent.createWellKnownSid WinBuiltinUsersSid (some sidU) ∈ before ∧
      SvcEvent.createWellKnownSid WinInteractiveSid (some sidI) ∈ before ∧
      SvcEvent.createWellKnownSid WinLocalServiceSid (some sidL) ∈ before ∧
      (SetUserAccessServiceDACL.ea sidU sidI sidL).map
          (fun e => (e.grfAccessMode, e.ptstrName, e.grfAccessPermissions)) =
        [(REVOKE_ACCESS, sidU, 0), (SET_ACCESS, sidI, USER_ACCESS),
          (SET_ACCESS, sidL, USER_ACCESS)] ∧
      (sidU ≠ sidI → sidU ≠ sidL → sidI ≠ sidL →
        (∀ a ∈ mergeEntries (SetUserAccessServiceDACL.ea sidU sidI sidL) (pacl.getD []),
          a.sid = sidU → a.allowed = false) ∧
        (∀ a ∈ mergeEntries (SetUserAccessServiceDACL.ea sidU sidI sidL) (pacl.getD []),
          a.sid = sidI ∨ a.sid = sidL → a.allowed = true ∧ a.mask = USER_ACCESS) ∧
        (⟨true, sidI, USER_ACCESS⟩ ∈
            mergeEntries (SetUserAccessServiceDACL.ea sidU sidI sidL) (pacl.getD []) ∧
          ⟨true, sidL, USER_ACCESS⟩ ∈
            mergeEntries (SetUserAccessServiceDACL.ea sidU sidI sidL) (pacl.getD [])) ∧
        (∀ a : ACE, a.sid ≠ sidI → a.sid ≠ sidL → (a.sid = sidU → a.allowed = false) →
          (a ∈ mergeEntries (SetUserAccessServiceDACL.ea sidU sidI sidL) (pacl.getD []) ↔
            a ∈ pacl.getD []))) := by
  have hstatus : (SetUserAccessServiceDACL.status w h).1 = ERROR_SUCCESS := by
    unfold SetUserAccessServiceDACL at hok
    exact (of_decide_eq_true (show decide _ = true from hok)).symm
  obtain ⟨before, sidU, sidI, sidL, pacl, hev, hs, hU, hI, hL⟩ :=
    status_success w h hfail hstatus
  refine ⟨before, sidU, sidI, sidL, pacl, ?_, hU, hI, hL, rfl, ?_⟩
  · rw [← hmerge _ _ _ hs]
    exact hev
  · intro hUI hUL hIL
    exact mergeEntries_ea_spec sidU sidI sidL (pacl.getD []) hUI hUL hIL

/-- C23 as amended, on the machine of the counterexample. -/
theorem SetUserAccessServiceDACL_merges_entries_witness :
    ∃ before sidU sidI sidL pacl,
      (SetUserAccessServiceDACL mergingSvcWorld []).2 =
        before ++ SetUserAccessServiceDACL.applied (SetUserAccessServiceDACL.ea sidU sidI sidL)
          pacl (some (mergeEntries (SetUserAccessServiceDACL.ea sidU sidI sidL)
            (pacl.getD []))) ∧
      SvcEvent.createWellKnownSid WinBuiltinUsersSid (some sidU) ∈ before ∧
      SvcEvent.createWellKnownSid WinInteractiveSid (some sidI) ∈ before ∧
      SvcEvent.createWellKnownSid WinLocalServiceSid (some sidL) ∈ before ∧
      (SetUserAccessServiceDACL.ea sidU sidI sidL).map
          (fun e => (e.grfAccessMode, e.ptstrName, e.grfAccessPermissions)) =
        [(REVOKE_ACCESS, sidU, 0), (SET_ACCESS, sidI, USER_ACCESS),
          (SET_ACCESS, sidL, USER_ACCESS)] ∧
      (sidU ≠ sidI → sidU ≠ sidL → sidI ≠ sidL →
        (∀ a ∈ mergeEntries (SetUserAccessServiceDACL.ea sidU sidI sidL) (pacl.getD []),
          a.sid = sidU → a.allowed = false) ∧
        (∀ a ∈ mergeEntries (SetUserAccessServiceDACL.ea sidU sidI sidL) (pacl.getD []),
          a.sid = sidI ∨ a.sid = sidL → a.allowed = true ∧ a.mask = USER_ACCESS) ∧
        (⟨true, sidI, USER_ACCESS⟩ ∈
            mergeEntries (SetUserAccessServiceDACL.ea sidU sidI sidL) (pacl.getD []) ∧
          ⟨true, sidL, USER_ACCESS⟩ ∈
            mergeEntries (SetUserAccessServiceDACL.ea sidU sidI sidL) (pacl.getD [])) ∧
        (∀ a : ACE, a.sid ≠ sidI → a.sid ≠ sidL → (a.sid = sidU → a.allowed = false) →
          (a ∈ mergeEntries (SetUserAccessServiceDACL.ea sidU sidI sidL) (pacl.getD []) ↔
            a ∈ pacl.getD []))) :=
  SetUserAccessServiceDACL_merges_entries mergingSvcWorld []
    mergingSvcWorld_failuresReported mergingSvcWorld_mergesEntries (by decide)

/-- C24.  When the service manager and the service are opened, `StopService` sends the
stop control, polls for 30 seconds, waits 30 seconds for the process, and returns TRUE
if and only if the state the poll observed last is SERVICE_STOPPED: the outcome `stop`
of the control, a failure with ERROR_SERVICE_NOT_ACTIVE included, occurs in the events
only, and the wait for the process reports nothing. -/
theorem StopService_true_iff_stopped (w : SvcWorld) (h : SvcTrace)
    (hscm : w.OpenSCManager h = true)
    (hopen : w.OpenServiceW (h ++ [SvcEvent.openSCManager true]) w.SVC_NAME =
      HandleResult.valid) :
    ∃ stop lastState,
      stop = w.ControlService (h ++ StopService.opened w) SERVICE_CONTROL_STOP ∧
      lastState = w.WaitForServiceStop
        (h ++ (StopService.opened w ++
          [SvcEvent.controlService SERVICE_CONTROL_STOP stop.1 stop.2])) w.SVC_NAME 30 ∧
      (StopService w h).2 = StopService.opened w ++
        [SvcEvent.controlService SERVICE_CONTROL_STOP stop.1 stop.2,
          SvcEvent.waitForServiceStop w.SVC_NAME 30 lastState,
          SvcEvent.waitForProcessExit "updateservice.exe".toList 30] ∧
      ((StopService w h).1 = true ↔ lastState = SERVICE_STOPPED) := by
  refine ⟨_, _, rfl, rfl, ?_, ?_⟩
  · unfold StopService StopService.opened
    dsimp only []
    rw [hscm]
    simp only [Bool.true_eq_false, if_false]
    rw [hopen]
    simp
  · unfold StopService StopService.opened
    dsimp only []
    rw [hscm]
    simp only [Bool.true_eq_false, if_false]
    rw [hopen]
    simp

/-- C24, on a machine where the stop control fails with ERROR_SERVICE_NOT_ACTIVE and the
poll observes SERVICE_STOPPED. -/
theorem StopService_true_iff_stopped_witness :
    ∃ stop lastState,
      stop = notActiveServiceWorld.ControlService ([] ++ StopService.opened notActiveServiceWorld)
        SERVICE_CONTROL_STOP ∧
      lastState = notActiveServiceWorld.WaitForServiceStop
        ([] ++ (StopService.opened notActiveServiceWorld ++
          [SvcEvent.controlService SERVICE_CONTROL_STOP stop.1 stop.2]))
        notActiveServiceWorld.SVC_NAME 30 ∧
      (StopService notActiveServiceWorld []).2 = StopService.opened notActiveServiceWorld ++
        [SvcEvent.controlService SERVICE_CONTROL_STOP stop.1 stop.2,
          SvcEvent.waitForServiceStop notActiveServiceWorld.SVC_NAME 30 lastState,
          SvcEvent.waitForProcessExit "updateservice.exe".toList 30] ∧
      ((StopService notActiveServiceWorld []).1 = true ↔ lastState = SERVICE_STOPPED) :=
  StopService_true_iff_stopped notActiveServiceWorld [] (by decide) (by decide)

/-- C25.  With the service manager and the service opened, `SvcUninstall` does not always
come to `DeleteService`.  On a machine whose service accepts the stop control and
reports the wait hint INFINITE, the first pass of the loop calls `Sleep(INFINITE)`, which
does not return.  On a machine whose service stays in SERVICE_STOP_PENDING with the wait
hint `2^32 - 10`, the DWORD sum `totalWaitTime` stays 0 and the loop never ends.  On both
the stop phase has not ended, and `SvcUninstall` has not returned, after any number of
passes, so `DeleteService` is not called. -/
theorem SvcUninstall_stop_phase_never_ends :
    ((pendingServiceWorld INFINITE).OpenSCManager [] = true ∧
      (pendingServiceWorld INFINITE).OpenServiceW [UninstallEvent.openSCManager true]
        (pendingServiceWorld INFINITE).SVC_NAME = HandleResult.valid ∧
      (pendingServiceWorld INFINITE).ControlService
        (SvcUninstall.opened (pendingServiceWorld INFINITE)) SERVICE_CONTROL_STOP =
          some ⟨SERVICE_STOP_PENDING, INFINITE⟩ ∧
      ∀ fuel,
        SvcUninstall.stopPhase (pendingServiceWorld INFINITE) fuel
          (SvcUninstall.opened (pendingServiceWorld INFINITE)) = none ∧
        SvcUninstall (pendingServiceWorld INFINITE) fuel [] = none) ∧
    ((pendingServiceWorld 4294967286).OpenSCManager [] = true ∧
      (pendingServiceWorld 4294967286).OpenServiceW [UninstallEvent.openSCManager true]
        (pendingServiceWorld 4294967286).SVC_NAME = HandleResult.valid ∧
      (pendingServiceWorld 4294967286).ControlService
        (SvcUninstall.opened (pendingServiceWorld 4294967286)) SERVICE_CONTROL_STOP =
          some ⟨SERVICE_STOP_PENDING, 4294967286⟩ ∧
      ∀ fuel,
        SvcUninstall.stopPhase (pendingServiceWorld 4294967286) fuel
          (SvcUninstall.opened (pendingServiceWorld 4294967286)) = none) := by
  refine ⟨⟨rfl, rfl, rfl, ?_⟩, rfl, rfl, rfl, ?_⟩
  · intro fuel
    have hstop : SvcUninstall.stopPhase (pendingServiceWorld INFINITE) fuel
        ([] ++ SvcUninstall.opened (pendingServiceWorld INFINITE)) = none := by
      unfold SvcUninstall.stopPhase
      dsimp only []
      have hc : (pendingServiceWorld INFINITE).ControlService
          ([] ++ SvcUninstall.opened (pendingServiceWorld INFINITE)) SERVICE_CONTROL_STOP =
          some ⟨SERVICE_STOP_PENDING, INFINITE⟩ := rfl
      rw [hc]
      dsimp only []
      rw [poll_of_infinite _ fuel _ _ 0 rfl]
      rfl
    refine ⟨hstop, ?_⟩
    rw [SvcUninstall_of_opened _ fuel [] rfl rfl, hstop]
  · intro fuel
    unfold SvcUninstall.stopPhase
    dsimp only []
    have hc : (pendingServiceWorld 4294967286).ControlService
        (SvcUninstall.opened (pendingServiceWorld 4294967286)) SERVICE_CONTROL_STOP =
        some ⟨SERVICE_STOP_PENDING, 4294967286⟩ := rfl
    rw [hc]
    dsimp only []
    rw [poll_wraps_forever]
    rfl

/-- C26.  The stop-polling loop of `SvcUninstall` sleeps before it tests the time and
adds `dwWaitHint + 10` in DWORD arithmetic.  On a machine whose service stays in
SERVICE_STOP_PENDING with a wait hint of 59000 ms the run sleeps twice, 118000 ms in
all, which is more than `maxWaitTime`; with a wait hint of `2^32 - 10` the sum stays 0
and the loop is still running after any number of iterations. -/
theorem SvcUninstall_sleeps_beyond_a_minute :
    (∃ evs, SvcUninstall (pendingServiceWorld 59000) 2 [] = some (true, evs) ∧
      evs = [UninstallEvent.openSCManager true,
        UninstallEvent.openServiceW "UpdateService".toList HandleResult.valid,
        UninstallEvent.controlService SERVICE_CONTROL_STOP (some ⟨SERVICE_STOP_PENDING, 59000⟩),
        UninstallEvent.sleep 59000,
        UninstallEvent.queryServiceStatus (some ⟨SERVICE_STOP_PENDING, 59000⟩),
        UninstallEvent.sleep 59000,
        UninstallEvent.deleteService true 0] ∧
      sleepTotal evs = 118000 ∧ SvcUninstall.maxWaitTime < sleepTotal evs) ∧
    (4294967286 < DWORD_SIZE ∧
      ∀ fuel, SvcUninstall (pendingServiceWorld 4294967286) fuel [] = none) := by
  refine ⟨⟨_, by decide, rfl, by decide, by decide⟩, by decide, ?_⟩
  intro fuel
  rw [SvcUninstall_of_opened _ fuel [] (by decide) (by decide)]
  have hstop : SvcUninstall.stopPhase (pendingServiceWorld 4294967286) fuel
      ([] ++ SvcUninstall.opened (pendingServiceWorld 4294967286)) = none := by
    unfold SvcUninstall.stopPhase
    dsimp only []
    have hc : (pendingServiceWorld 4294967286).ControlService
        ([] ++ SvcUninstall.opened (pendingServiceWorld 4294967286)) SERVICE_CONTROL_STOP =
        some ⟨SERVICE_STOP_PENDING, 4294967286⟩ := rfl
    rw [hc]
    dsimp only []
    rw [poll_wraps_forever]
    rfl
  rw [hstop]

/-- C27.  The exit code of `wmain` is that of the first check that fails, in the order of
the code: -1 with fewer than three entries in `argv`; -2 when `IsValidFullPath(argv[1])`
fails; -3 when `RegOpenKeyExW` does not return ERROR_SUCCESS, and -3 when `RegGetValueW`
does not; -4 when `IsValidFullPath(installPath)` fails; and, when the service manager and
the service are opened and the status is obtained, -5 when the state is neither
SERVICE_STOPPED nor SERVICE_STOP_PENDING.  A run that ends with one of the codes -1 to
-4 holds no call to the service-control subsystem.  The five codes are negative and
pairwise distinct. -/
theorem wmain_first_failing_check (w : TriggerWorld) (argv : List WStr) (h : TriggerTrace) :
    (argv.length < 3 → wmain w argv h = (ERROR_NOT_ENOUGH_ARGS, [])) ∧
    (3 ≤ argv.length →
      ((IsValidFullPath w.paths (argv.getD 1 []) (pathEvents h)).1 = false →
        (wmain w argv h).1 = ERROR_UPDATER_PATH_INVALID ∧
        ∀ e ∈ (wmain w argv h).2, e.isServiceControl = false) ∧
      ((IsValidFullPath w.paths (argv.getD 1 []) (pathEvents h)).1 = true →
        (w.RegOpenKeyExW (h ++ wmain.updaterChecked w argv h) (argv.getD 2 []) ≠ ERROR_SUCCESS →
          (wmain w argv h).1 = ERROR_REGISTRY_KEY_INVALID ∧
          ∀ e ∈ (wmain w argv h).2, e.isServiceControl = false) ∧
        (w.RegOpenKeyExW (h ++ wmain.updaterChecked w argv h) (argv.getD 2 []) = ERROR_SUCCESS →
          ((w.RegGetValueW (h ++ wmain.keyOpened w argv h)).1 ≠ ERROR_SUCCESS →
            (wmain w argv h).1 = ERROR_REGISTRY_KEY_INVALID ∧
            ∀ e ∈ (wmain w argv h).2, e.isServiceControl = false) ∧
          ((w.RegGetValueW (h ++ wmain.keyOpened w argv h)).1 = ERROR_SUCCESS →
            ((IsValidFullPath w.paths (wmain.installPath w argv h)
                (pathEvents (h ++ wmain.valueRead w argv h))).1 = false →
              (wmain w argv h).1 = ERROR_REGISTRY_PATH_INVALID ∧
              ∀ e ∈ (wmain w argv h).2, e.isServiceControl = false) ∧
            ((IsValidFullPath w.paths (wmain.installPath w argv h)
                (pathEvents (h ++ wmain.valueRead w argv h))).1 = true →
              ∀ state,
                w.OpenSCManager (h ++ wmain.configured w argv h) = true →
                w.OpenService (h ++ (wmain.configured w argv h ++ (wmain.queried state).take 1))
                  TRIGGER_SERVICE_NAME (SERVICE_START ||| SERVICE_STOP ||| GENERIC_READ) = true →
                w.QueryServiceStatusEx
                  (h ++ (wmain.configured w argv h ++ (wmain.queried state).take 2)) =
                    some state →
                state ≠ SERVICE_STOPPED → state ≠ SERVICE_STOP_PENDING →
                wmain w argv h = (ERROR_SERVICE_ALREADY_STARTED,
                  wmain.configured w argv h ++ wmain.queried state)))))) ∧
    ([ERROR_NOT_ENOUGH_ARGS, ERROR_UPDATER_PATH_INVALID, ERROR_REGISTRY_KEY_INVALID,
        ERROR_REGISTRY_PATH_INVALID, ERROR_SERVICE_ALREADY_STARTED] = [-1, -2, -3, -4, -5] ∧
      (∀ c ∈ [ERROR_NOT_ENOUGH_ARGS, ERROR_UPDATER_PATH_INVALID, ERROR_REGISTRY_KEY_INVALID,
        ERROR_REGISTRY_PATH_INVALID, ERROR_SERVICE_ALREADY_STARTED], c < 0) ∧
      [ERROR_NOT_ENOUGH_ARGS, ERROR_UPDATER_PATH_INVALID, ERROR_REGISTRY_KEY_INVALID,
        ERROR_REGISTRY_PATH_INVALID, ERROR_SERVICE_ALREADY_STARTED].Nodup) := by
  refine ⟨?_, ?_, by decide, by decide, by decide⟩
  · intro hlen
    unfold wmain
    rw [if_pos hlen]
  · intro hlen
    have hnot : ¬ argv.length < 3 := by omega
    refine ⟨?_, ?_⟩
    · intro hv
      unfold wmain
      rw [if_neg hnot]
      dsimp only []
      rw [if_pos hv]
      exact ⟨rfl, path_not_serviceControl _⟩
    · intro hv
      have hv1 : ¬ (IsValidFullPath w.paths (argv.getD 1 []) (pathEvents h)).1 = false := by
        rw [hv]
        decide
      refine ⟨?_, ?_⟩
      · intro hk
        unfold wmain
        rw [if_neg hnot]
        dsimp only []
        rw [if_neg hv1]
        unfold wmain.updaterChecked at hk
        rw [if_pos hk]
        refine ⟨rfl, ?_⟩
        intro e he
        rcases List.mem_append.mp he with h1 | h1
        · exact path_not_serviceControl _ e h1
        · rw [List.mem_singleton] at h1
          subst h1
          rfl
      · intro hk
        have hk1 : ¬ w.RegOpenKeyExW
            (h ++ (IsValidFullPath w.paths (argv.getD 1 []) (pathEvents h)).2.map
              TriggerEvent.path) (argv.getD 2 []) ≠ ERROR_SUCCESS := by
          unfold wmain.updaterChecked at hk
          rw [hk]
          exact fun hc => hc rfl
        have hk2 : w.RegOpenKeyExW
            (h ++ (IsValidFullPath w.paths (argv.getD 1 []) (pathEvents h)).2.map
              TriggerEvent.path) (argv.getD 2 []) = ERROR_SUCCESS := hk
        refine ⟨?_, ?_⟩
        · intro hg
          unfold wmain
          rw [if_neg hnot]
          dsimp only []
          rw [if_neg hv1, if_neg hk1, hk2]
          unfold wmain.keyOpened wmain.updaterChecked at hg
          rw [if_pos hg]
          refine ⟨rfl, ?_⟩
          intro e he
          simp only [List.mem_append, List.mem_singleton] at he
          rcases he with ((h1 | h1) | h1) | h1
          · exact path_not_serviceControl _ e h1
          · subst h1
            rfl
          · subst h1
            rfl
          · subst h1
            rfl
        · intro hg
          have hg1 : ¬ (w.RegGetValueW (h ++
              ((IsValidFullPath w.paths (argv.getD 1 []) (pathEvents h)).2.map
                TriggerEvent.path ++
                [TriggerEvent.regOpenKeyExW (argv.getD 2 []) ERROR_SUCCESS]))).1 ≠
              ERROR_SUCCESS := by
            unfold wmain.keyOpened wmain.updaterChecked at hg
            rw [hg]
            exact fun hc => hc rfl
          have hg2 : (w.RegGetValueW (h ++
              ((IsValidFullPath w.paths (argv.getD 1 []) (pathEvents h)).2.map
                TriggerEvent.path ++
                [TriggerEvent.regOpenKeyExW (argv.getD 2 []) ERROR_SUCCESS]))).1 =
              ERROR_SUCCESS := hg
          refine ⟨?_, ?_⟩
          · intro hp
            unfold wmain
            rw [if_neg hnot]
            dsimp only []
            rw [if_neg hv1, if_neg hk1, hk2, if_neg hg1, hg2]
            unfold wmain.installPath wmain.valueRead wmain.installPath wmain.keyOpened
              wmain.updaterChecked at hp
            rw [if_pos hp]
            refine ⟨rfl, ?_⟩
            intro e he
            simp only [List.mem_append, List.mem_singleton] at he
            rcases he with ((((h1 | h1) | h1) | h1) | h1)
            · exact path_not_serviceControl _ e h1
            · subst h1
              rfl
            · subst h1
              rfl
            · exact path_not_serviceControl _ e h1
            · subst h1
              rfl
          · intro hp state hscm hopen hquery hs1 hs2
            have hp1 : ¬ (IsValidFullPath w.paths (wmain.installPath w argv h)
                (pathEvents (h ++ wmain.valueRead w argv h))).1 = false := by
              rw [hp]
              decide
            unfold wmain
            rw [if_neg hnot]
            dsimp only []
            rw [if_neg hv1, if_neg hk1, hk2, if_neg hg1, hg2]
            unfold wmain.installPath wmain.valueRead wmain.installPath wmain.keyOpened
              wmain.updaterChecked at hp1
            rw [if_neg hp1]
            unfold wmain.startService
            dsimp only []
            unfold wmain.configured wmain.installPath wmain.valueRead wmain.installPath
              wmain.keyOpened wmain.updaterChecked at hscm hopen hquery ⊢
            unfold wmain.queried at hopen hquery ⊢
            simp only [List.take, List.append_assoc] at hscm hopen hquery ⊢
            rw [hscm]
            simp only [Bool.true_eq_false, if_false]
            simp only [List.append_assoc, List.singleton_append, List.cons_append,
              List.nil_append] at hopen hquery ⊢
            rw [hopen]
            simp only [Bool.true_eq_false, if_false]
            rw [hquery]
            dsimp only []
            rw [if_pos ⟨hs1, hs2⟩]

/-- C27, on example machines: with a running service the trigger returns -5 after the query of the
status; with a configuration key that does not exist it returns -3 and its run holds no
call to the service-control subsystem. -/
theorem wmain_first_failing_check_witness :
    wmain runningTriggerWorld exampleTriggerArgv [] =
      (ERROR_SERVICE_ALREADY_STARTED,
        wmain.configured runningTriggerWorld exampleTriggerArgv [] ++
          wmain.queried SERVICE_RUNNING) ∧
    ((wmain missingKeyTriggerWorld exampleTriggerArgv []).1 = ERROR_REGISTRY_KEY_INVALID ∧
      ∀ e ∈ (wmain missingKeyTriggerWorld exampleTriggerArgv []).2,
        e.isServiceControl = false) :=
  ⟨(((((wmain_first_failing_check runningTriggerWorld exampleTriggerArgv []).2.1
      (by decide)).2 (by decide)).2 (by decide)).2 (by decide)).2 (by decide)
      SERVICE_RUNNING (by decide) (by decide) (by decide) (by decide) (by decide),
    (((wmain_first_failing_check missingKeyTriggerWorld exampleTriggerArgv []).2.1
      (by decide)).2 (by decide)).1 (by decide)⟩

/-- C28.  For an installed path `lp` of more than three characters the aside path
`oldServiceBinaryTempPath` has the length of `lp`, agrees with `lp` at every index
below `length - 3`, ends in `old`, and is the destination of the rename the fallback
starts with.  For a path of three characters or fewer the fallback does nothing and
reports failure: when the service stopped and the direct copy failed, `SvcInstall`
goes from the failed copy straight to the scheduling call and the result is FALSE. -/
theorem aside_path_shape (w : SvcWorld) (new lp : WStr) (h : SvcTrace) :
    (3 < lp.length →
      (SvcInstall.oldServiceBinaryTempPath lp).length = lp.length ∧
      (∀ i, i < lp.length - 3 → (SvcInstall.oldServiceBinaryTempPath lp)[i]? = lp[i]?) ∧
      (SvcInstall.oldServiceBinaryTempPath lp).drop (lp.length - 3) = "old".toList ∧
      ∃ moved rest, (SvcInstall.moveAside w new lp h).2 =
        SvcEvent.moveFileExW lp (some (SvcInstall.oldServiceBinaryTempPath lp))
          (MOVEFILE_REPLACE_EXISTING ||| MOVEFILE_WRITE_THROUGH) moved :: rest) ∧
    (lp.length ≤ 3 →
      SvcInstall.moveAside w new lp h = (false, []) ∧
      ((StopService w h).1 = true → new ≠ lp →
        w.CopyFileW (h ++ ((StopService w h).2 ++ [SvcEvent.retStopService true])) new lp = false →
        ∃ s, SvcInstall.replace w new lp h =
          (false, (StopService w h).2 ++ [SvcEvent.retStopService true,
            SvcEvent.copyFileW new lp false,
            SvcEvent.moveFileExW new none MOVEFILE_DELAY_UNTIL_REBOOT s]))) := by
  constructor
  · intro hlen
    refine ⟨?_, ?_, ?_, ?_⟩
    · unfold SvcInstall.oldServiceBinaryTempPath
      simp only [List.length_append, List.length_take]
      have : "old".toList.length = 3 := by decide
      omega
    · intro i hi
      unfold SvcInstall.oldServiceBinaryTempPath
      rw [List.getElem?_append_left (by simp only [List.length_take]; omega),
        List.getElem?_take_of_lt hi]
    · unfold SvcInstall.oldServiceBinaryTempPath
      rw [List.drop_append_of_le_length (by simp only [List.length_take]; omega),
        List.drop_take]
      simp
    · unfold SvcInstall.moveAside
      dsimp only []
      rw [if_pos hlen]
      generalize w.MoveFileExW h lp _ _ = moved
      cases moved with
      | true => exact ⟨true, _, rfl⟩
      | false => exact ⟨false, [], rfl⟩
  · intro hlen
    have haside : ∀ h1, SvcInstall.moveAside w new lp h1 = (false, []) := by
      intro h1
      unfold SvcInstall.moveAside
      dsimp only []
      rw [if_neg (by omega)]
    refine ⟨haside h, ?_⟩
    intro hstop hne hcopy
    unfold SvcInstall.replace
    dsimp only []
    rw [hstop]
    simp only [Bool.true_eq_false, if_false, if_neg hne]
    rw [hcopy]
    simp only [if_true, haside]
    generalize w.MoveFileExW _ new none MOVEFILE_DELAY_UNTIL_REBOOT = s
    exact ⟨s, by simp⟩

/-- C28, for the installed path of the examples and for the path `a.b`. -/
theorem aside_path_shape_witness :
    ((SvcInstall.oldServiceBinaryTempPath exampleInstalledPath).length =
        exampleInstalledPath.length ∧
      (∀ i, i < exampleInstalledPath.length - 3 →
        (SvcInstall.oldServiceBinaryTempPath exampleInstalledPath)[i]? =
          exampleInstalledPath[i]?) ∧
      (SvcInstall.oldServiceBinaryTempPath exampleInstalledPath).drop
        (exampleInstalledPath.length - 3) = "old".toList ∧
      ∃ moved rest,
        (SvcInstall.moveAside copyFailsWorld exampleCallingPath exampleInstalledPath []).2 =
          SvcEvent.moveFileExW exampleInstalledPath
            (some (SvcInstall.oldServiceBinaryTempPath exampleInstalledPath))
            (MOVEFILE_REPLACE_EXISTING ||| MOVEFILE_WRITE_THROUGH) moved :: rest) ∧
    (SvcInstall.moveAside copyFailsWorld exampleCallingPath "a.b".toList [] = (false, []) ∧
      ∃ s, SvcInstall.replace copyFailsWorld exampleCallingPath "a.b".toList [] =
        (false, (StopService copyFailsWorld []).2 ++ [SvcEvent.retStopService true,
          SvcEvent.copyFileW exampleCallingPath "a.b".toList false,
          SvcEvent.moveFileExW exampleCallingPath none MOVEFILE_DELAY_UNTIL_REBOOT s])) :=
  ⟨(aside_path_shape copyFailsWorld exampleCallingPath exampleInstalledPath []).1 (by decide),
    ((aside_path_shape copyFailsWorld exampleCallingPath "a.b".toList []).2 (by decide)).1,
    ((aside_path_shape copyFailsWorld exampleCallingPath "a.b".toList []).2 (by decide)).2
      (by decide) (by decide) (by decide)⟩

/-- C29.  For every string `s` and pointer `d`, `ArgToString(d, s)` leaves `ArgStrLen(s)`
characters between `d` and the pointer it returns, which is `d + ArgStrLen(s)`; each of
its stores, the terminator of `wcscpy_s` included, lies between `d` and
`d + ArgStrLen(s)`, the slot `MakeCommandLine` reserves for the space or the
terminator; and `ArgStrLen(s) + 1` is at most twice the number of characters of `s`
with its terminator, so no `size_t` sum of lengths of strings in memory wraps.  For
every argument list the command line with its terminator has exactly the allocated
length, every store of `MakeCommandLine` is at an index below that length, and the
buffer returned is the command line followed by NUL. -/
theorem length_pass_agrees_with_fill_pass :
    (∀ (d : Nat) (s : WStr),
      (ArgToString s).length = ArgStrLen s ∧
      (ArgToString.writes d s).2 = d + ArgStrLen s ∧
      (∀ p ∈ (ArgToString.writes d s).1, d ≤ p.1 ∧ p.1 ≤ d + ArgStrLen s) ∧
      ArgStrLen s + 1 ≤ 2 * (s.length + 1)) ∧
    (∀ argv : List WStr,
      (MakeCommandLine argv).length + 1 = MakeCommandLine.len argv ∧
      (∀ p ∈ MakeCommandLine.writes argv, p.1 < MakeCommandLine.len argv) ∧
      MakeCommandLine.buffer argv = MakeCommandLine argv ++ [NUL]) := by
  refine ⟨fun d s => ⟨ArgToString_length s, ArgToString_writes_end d s,
    ArgToString_writes_mem d s, ArgStrLen_bound s⟩,
    fun argv => ⟨MakeCommandLine_len_eq argv, ?_, buffer_eq argv⟩⟩
  intro p hp
  have hlen := MakeCommandLine_len_eq argv
  unfold MakeCommandLine at hlen
  unfold MakeCommandLine.writes at hp
  dsimp only [] at hp
  rcases List.mem_append.mp hp with h1 | h1
  · have := fillWrites_mem argv 0 p h1
    omega
  · rw [List.mem_singleton] at h1
    subst h1
    simp only [fillWrites_end]
    omega

/-- C30.  The copy `charData` that `UpdaterIsValid` compares is exactly the `size` bytes of
the resource: the terminator written at `charData[size - 1]` before the loop is
overwritten by the loop, which copies byte `size - 1` as well.  At the failing input, a
resource that is the single byte `a`, the copy holds no NUL, `strcmp` reads past its end
and `UpdaterIsValid` has no defined value. -/
theorem identityCopy_terminator_overwritten :
    (∀ (size : Nat) (hResData : Nat → Char),
      identityCopy size hResData = (List.range size).map hResData) ∧
    identityCopy 1 (resourceBytes "a".toList) = "a".toList ∧
    NUL ∉ identityCopy 1 (resourceBytes "a".toList) ∧
    strcmp (identityCopy 1 (resourceBytes "a".toList)) UPDATER_IDENTITY_STRING = none ∧
    UpdaterIsValid oneByteIdentityWorld exampleUpdater exampleInstallDir [] =
      (none, UpdaterIsValid.checksPassed exampleUpdater 1) := by
  refine ⟨?_, by decide, by decide, by decide, by decide⟩
  intro size hResData
  unfold identityCopy
  dsimp only []
  rw [foldl_set_range hResData size _ (by simp)]
  simp

end UpdateService
